import Mathlib

/-!
Crazyflie client: packing codec and log engine.

A shallow embedding of `PackUtils.h`, `lttype.h`, `logtoc.h` and `cflog.h`.

Conventions of the embedding.

* Machine integers are natural numbers (or integers for the signed kinds); a store into a
  `uint8_t` reduces modulo 256 and a load yields a value below 256.
* A `uint8_t*` is a `Buffer`: the function giving the byte at every offset from the pointer.
* The unions used for type punning are read on a little-endian host (the client targets x86):
  `bytes[k]` of a value `v` is `v / 256 ^ k % 256`.
* A `float` is carried as its 32-bit pattern.
-/

namespace PackUtils

/-- A byte buffer seen from its base pointer: `buffer i` is the byte at offset `i`. -/
abbrev Buffer := Nat → Nat

/-- The load `buffer[i]` of one `uint8_t`. -/
def peek (buffer : Buffer) (i : Nat) : Nat := buffer i % 256

/-- The store `buffer[i] = b` of one `uint8_t`. -/
def poke (buffer : Buffer) (i b : Nat) : Buffer :=
  fun j => if j = i then b % 256 else buffer j

/-- The member `bytes[k]` of a converter union holding the unsigned value `v`. -/
def byteOf (v k : Nat) : Nat := v / 256 ^ k % 256

/-- The object representation of an `int16_t` as an unsigned 16-bit value. -/
def int16Bits (v : Int) : Nat := (v % 65536).toNat

/-- The `int16_t` whose object representation is the unsigned 16-bit value `raw`. -/
def int16OfBits (raw : Nat) : Int :=
  if raw % 65536 < 32768 then (raw % 65536 : Nat) else ((raw % 65536 : Nat) : Int) - 65536

/-- The `int32_t` whose object representation is the unsigned 32-bit value `raw`. -/
def int32OfBits (raw : Nat) : Int :=
  if raw % 4294967296 < 2147483648 then (raw % 4294967296 : Nat)
  else ((raw % 4294967296 : Nat) : Int) - 4294967296

/-- `unpack(uint8_t*, uint8_t, float&)`: the value is the 32-bit pattern of the float. -/
def unpack_float (buffer : Buffer) (index : Nat) : Nat × Nat :=
  (peek buffer (index + 0) + 256 * peek buffer (index + 1)
    + 65536 * peek buffer (index + 2) + 16777216 * peek buffer (index + 3), 4)

/-- `unpack(uint8_t*, uint8_t, uint32_t&)`. -/
def unpack_uint32 (buffer : Buffer) (index : Nat) : Nat × Nat :=
  (peek buffer (index + 0) + 256 * peek buffer (index + 1)
    + 65536 * peek buffer (index + 2) + 16777216 * peek buffer (index + 3), 4)

/-- `unpack(uint8_t*, uint8_t, uint16_t&)`. -/
def unpack_uint16 (buffer : Buffer) (index : Nat) : Nat × Nat :=
  (peek buffer (index + 0) + 256 * peek buffer (index + 1), 2)

/-- `unpack(uint8_t*, uint8_t, int16_t&)`. -/
def unpack_int16 (buffer : Buffer) (index : Nat) : Int × Nat :=
  (int16OfBits (peek buffer (index + 0) + 256 * peek buffer (index + 1)), 2)

/-- `unpack(uint8_t*, uint8_t, int32_t&)`. -/
def unpack_int32 (buffer : Buffer) (index : Nat) : Int × Nat :=
  (int32OfBits (peek buffer (index + 0) + 256 * peek buffer (index + 1)
    + 65536 * peek buffer (index + 2) + 16777216 * peek buffer (index + 3)), 4)

/-- `unpack(uint8_t*, uint8_t, uint8_t&)`. -/
def unpack_uint8 (buffer : Buffer) (index : Nat) : Nat × Nat :=
  (peek buffer (index + 0), 1)

/-- `unpack(uint8_t*, uint8_t, bool&)`. -/
def unpack_bool (buffer : Buffer) (index : Nat) : Bool × Nat :=
  (peek buffer index != 0, 1)

/-- `pack(uint8_t*, uint8_t, float)`: the value is the 32-bit pattern of the float. -/
def pack_float (buffer : Buffer) (index value : Nat) : Buffer × Nat :=
  let b0 := poke buffer (index + 0) (byteOf value 0)
  let b1 := poke b0 (index + 1) (byteOf value 1)
  let b2 := poke b1 (index + 2) (byteOf value 2)
  let b3 := poke b2 (index + 3) (byteOf value 3)
  (b3, 4)

/-- `pack(uint8_t*, uint8_t, uint32_t)`. -/
def pack_uint32 (buffer : Buffer) (index value : Nat) : Buffer × Nat :=
  let b0 := poke buffer (index + 0) (byteOf value 0)
  let b1 := poke b0 (index + 1) (byteOf value 1)
  let b2 := poke b1 (index + 2) (byteOf value 2)
  let b3 := poke b2 (index + 3) (byteOf value 3)
  (b3, 4)

/-- `pack(uint8_t*, uint8_t, uint16_t)`. -/
def pack_uint16 (buffer : Buffer) (index value : Nat) : Buffer × Nat :=
  let b0 := poke buffer (index + 0) (byteOf value 0)
  let b1 := poke b0 (index + 1) (byteOf value 1)
  (b1, 2)

/-- `pack(uint8_t*, uint8_t, int16_t)`. -/
def pack_int16 (buffer : Buffer) (index : Nat) (value : Int) : Buffer × Nat :=
  let b0 := poke buffer (index + 0) (byteOf (int16Bits value) 0)
  let b1 := poke b0 (index + 1) (byteOf (int16Bits value) 1)
  (b1, 2)

/-- `pack(uint8_t*, uint8_t, uint8_t)`. -/
def pack_uint8 (buffer : Buffer) (index value : Nat) : Buffer × Nat :=
  (poke buffer index value, 1)

/-- `pack(uint8_t*, uint8_t, bool)`. -/
def pack_bool (buffer : Buffer) (index : Nat) (value : Bool) : Buffer × Nat :=
  let byteVal := if value then 1 else 0
  (poke buffer index byteVal, 1)

end PackUtils

/-! ## `PackUtils.h`: conversion to and from float16

A `float` is given by its 32-bit pattern, a half by its 16-bit pattern. -/

namespace PackUtils

/-- The loop `do { mant <<= 1; exp -= 0x400; } while ((mant & 0x400) == 0)` of
`unPackFloat16`, bounded by `fuel` passes: the values of `mant` and `exp` behind the loop,
`none` when the bound is reached. -/
def normalizeLoop : Nat → Nat → Int → Option (Nat × Int)
  | 0, _, _ => none
  | fuel + 1, mant, exp =>
    let mant1 := mant <<< 1
    let exp1 := exp - 0x400
    if mant1 &&& 0x400 = 0 then normalizeLoop fuel mant1 exp1 else some (mant1, exp1)

/-- `unPackFloat16(uint32_t)`: the pattern of the `float` returned. The loop of the
subnormal branch ends within 10 passes, since `mant` is not 0 and below `0x400`. -/
def unPackFloat16 (hbits : Nat) : Nat :=
  let mant := hbits &&& 0x03ff
  let exp := hbits &&& 0x7c00
  if exp = 0x7c00 then
    ((hbits &&& 0x8000) <<< 16) ||| ((0x3fc00 ||| mant) <<< 13)
  else if exp ≠ 0 then
    let exp1 := exp + 0x1c000
    if mant = 0 ∧ exp1 > 0x1c400 then
      ((hbits &&& 0x8000) <<< 16) ||| (exp1 <<< 13) ||| 0x3ff
    else
      ((hbits &&& 0x8000) <<< 16) ||| ((exp1 ||| mant) <<< 13)
  else if mant ≠ 0 then
    match normalizeLoop 10 mant 0x1c400 with
    | some r => ((hbits &&& 0x8000) <<< 16) ||| ((r.2.toNat ||| (r.1 &&& 0x3ff)) <<< 13)
    | none => 0
  else
    ((hbits &&& 0x8000) <<< 16) ||| ((exp ||| mant) <<< 13)

/-- `unPackFloat16(uint8_t*)`. -/
def unPackFloat16_buffer (buffer : Buffer) : Nat :=
  unPackFloat16 (unpack_uint16 buffer 0).1

/-- `packFloat16(float)`: the `int` returned, for the `float` of pattern `fbits`. `val` is an
`int`, so the sum it is set to is read as a signed 32-bit value. The result is `none` where
the source shifts by a negative count (`val - 102` with `val = 101`), which has no defined
result. -/
def packFloat16 (fbits : Nat) : Option Nat :=
  let sign := (fbits >>> 16) &&& 0x8000
  let val : Int := int32OfBits ((fbits &&& 0x7fffffff) + 0x1000)
  if val ≥ 0x47800000 then
    if (fbits &&& 0x7fffffff) ≥ 0x47800000 then
      if val < 0x7f800000 then some (sign ||| 0x7c00)
      else some (sign ||| 0x7c00 ||| ((fbits &&& 0x007fffff) >>> 13))
    else some (sign ||| 0x7bff)
  else if val ≥ 0x38800000 then some (sign ||| ((val - 0x38000000).toNat >>> 13))
  else if val < 0x33000000 then some sign
  else
    let exp := (fbits &&& 0x7fffffff) >>> 23
    let n := (fbits &&& 0x7fffff) ||| 0x800000
    if exp < 102 then none
    else
      let n1 := n + (0x800000 >>> (exp - 102))
      let n2 := n1 >>> (126 - exp)
      some (n2 ||| sign)

/-- `packFloat16(uint8_t*, uint8_t, float)`: the two low bytes of the `int` are stored. -/
def packFloat16_buffer (buffer : Buffer) (index value : Nat) : Option (Buffer × Nat) :=
  match packFloat16 value with
  | some packedInt =>
    let b0 := poke buffer index (byteOf packedInt 0)
    some (poke b0 (index + 1) (byteOf packedInt 1), 2)
  | none => none

end PackUtils

/-! ## The `float` arithmetic of `quatcompress` and `quatdecompress`

A `float` is its 32-bit pattern. Every operation is carried out in `float` precision and
rounds to nearest, ties to even. -/

/-- Whether the pattern is a NaN. -/
def f32IsNaN (a : Nat) : Bool := decide (a % 2 ^ 31 > 0x7F800000)

/-- Whether the pattern is an infinity. -/
def f32IsInf (a : Nat) : Bool := a % 2 ^ 31 == 0x7F800000

/-- The sign bit of the pattern. -/
def f32Sign (a : Nat) : Nat := a / 2 ^ 31 % 2

/-- The quiet NaN that an invalid operation produces. -/
def f32NaN : Nat := 0x7FC00000

/-- `fabsf`. -/
def fabsf (a : Nat) : Nat := a % 2 ^ 31

/-- The negation `-a`. -/
def f32Neg (a : Nat) : Nat := (a + 2 ^ 31) % 2 ^ 32

/-- The magnitude of a finite `float`, in units of `2^-149`. -/
def f32Units (a : Nat) : Nat :=
  if a / 2 ^ 23 % 256 = 0 then a % 2 ^ 23
  else (2 ^ 23 + a % 2 ^ 23) * 2 ^ (a / 2 ^ 23 % 256 - 1)

/-- The signed value of a finite `float`, in units of `2^-149`. -/
def f32Signed (a : Nat) : Int :=
  if f32Sign a = 1 then -(f32Units a : Int) else (f32Units a : Int)

/-- The comparison `a < b` of two `float`s: false when one of them is a NaN. -/
def f32Lt (a b : Nat) : Bool :=
  !f32IsNaN a && !f32IsNaN b
    && decide ((if f32Sign a = 1 then -((a % 2 ^ 31 : Nat) : Int) else ((a % 2 ^ 31 : Nat) : Int))
        < (if f32Sign b = 1 then -((b % 2 ^ 31 : Nat) : Int) else ((b % 2 ^ 31 : Nat) : Int)))

/-- The number of binary digits of `n`, counted with at most `fuel` halvings. -/
def bitLength : Nat → Nat → Nat
  | 0, _ => 0
  | fuel + 1, n => if n = 0 then 0 else bitLength fuel (n / 2) + 1

/-- The exponent of `n`: the largest `k` with `2^k ≤ n`, and 0 for `n = 0`. -/
def log2Floor (n : Nat) : Nat := bitLength n n - 1

/-- The pattern, without sign, of the `float` nearest to the rational `num / den`, ties to
even; the infinity when the rounded value is outside the range. The rational is cut at the
unit `2^(qb - 149)`, where `qb + 46` is the exponent of `num * 2^172 / den`, or `qb = 0` when
that exponent is below 46, and the pattern is `qb * 2^23` plus the rounded quotient. -/
def f32RoundMag (num den : Nat) : Nat :=
  let qb := log2Floor (num * 2 ^ 172 / den) - 46
  let n1 := num * 2 ^ 149
  let d1 := den * 2 ^ qb
  let m := n1 / d1
  let r := n1 % d1
  let m1 := if 2 * r > d1 ∨ (2 * r = d1 ∧ m % 2 = 1) then m + 1 else m
  min (qb * 2 ^ 23 + m1) 0x7F800000

/-- The quotient `a / b`. -/
def f32Div (a b : Nat) : Nat :=
  let sign := (f32Sign a + f32Sign b) % 2
  if f32IsNaN a || f32IsNaN b then f32NaN
  else if f32IsInf a then (if f32IsInf b then f32NaN else 2 ^ 31 * sign + 0x7F800000)
  else if f32IsInf b then 2 ^ 31 * sign
  else if f32Units b = 0 then (if f32Units a = 0 then f32NaN else 2 ^ 31 * sign + 0x7F800000)
  else 2 ^ 31 * sign + f32RoundMag (f32Units a) (f32Units b)

/-- The product `a * b`. -/
def f32Mul (a b : Nat) : Nat :=
  let sign := (f32Sign a + f32Sign b) % 2
  if f32IsNaN a || f32IsNaN b then f32NaN
  else if f32IsInf a then (if !f32IsInf b && f32Units b = 0 then f32NaN
    else 2 ^ 31 * sign + 0x7F800000)
  else if f32IsInf b then (if f32Units a = 0 then f32NaN else 2 ^ 31 * sign + 0x7F800000)
  else 2 ^ 31 * sign + f32RoundMag (f32Units a * f32Units b) (2 ^ 298)

/-- The sum `a + b`. -/
def f32Add (a b : Nat) : Nat :=
  if f32IsNaN a || f32IsNaN b then f32NaN
  else if f32IsInf a then (if f32IsInf b && f32Sign a != f32Sign b then f32NaN else a)
  else if f32IsInf b then b
  else
    let v : Int := f32Signed a + f32Signed b
    if v = 0 then (if f32Sign a = 1 ∧ f32Sign b = 1 then 2 ^ 31 else 0)
    else if v < 0 then 2 ^ 31 + f32RoundMag v.natAbs (2 ^ 149)
    else f32RoundMag v.natAbs (2 ^ 149)

/-- The difference `a - b`. -/
def f32Sub (a b : Nat) : Nat := f32Add a (f32Neg b)

/-- The conversion `(float)n` of an `unsigned`. -/
def f32OfUnsigned (n : Nat) : Nat := f32RoundMag n 1

/-- The conversion `(unsigned)a`: the value is cut towards zero; the conversion is undefined
when the result is not a value of `unsigned`. -/
def f32ToUnsigned (a : Nat) : Option Nat :=
  if f32IsNaN a || f32IsInf a then none
  else
    let t := f32Units a / 2 ^ 149
    if t = 0 then some 0
    else if f32Sign a = 1 then none
    else if t < 2 ^ 32 then some t
    else none

/-- The largest `r` with `r * r ≤ n`, found bit by bit from the bit `k - 1` down. -/
def isqrtBits (n : Nat) : Nat → Nat → Nat
  | 0, r => r
  | k + 1, r => if (r + 2 ^ k) * (r + 2 ^ k) ≤ n then isqrtBits n k (r + 2 ^ k) else isqrtBits n k r

/-- `sqrtf`: the `float` nearest to the square root. With `a` the exponent of the argument in
units of `2^-149` and `h = ⌊(a + 1) / 2⌋`, the square root is cut at the unit `2^(h - 98)`. -/
def sqrtf (a : Nat) : Nat :=
  if f32IsNaN a then f32NaN
  else if f32Units a = 0 then a
  else if f32Sign a = 1 then f32NaN
  else if f32IsInf a then a
  else
    let h := (log2Floor (f32Units a) + 1) / 2
    let n1 := f32Units a * 2 ^ 47
    let d1 := 4 ^ h
    let m := isqrtBits (n1 / d1) 24 0
    let m1 := if 4 * n1 > (4 * m * m + 4 * m + 1) * d1 then m + 1 else m
    (h + 51) * 2 ^ 23 + m1

namespace PackUtils

/-- The constant `SMALL_MAX = (float)(1.0 / sqrt(2))`, the `float` nearest to `1/√2`. -/
def SMALL_MAX : Nat := 0x3F3504F3

/-- The loop of `quatcompress` that finds `i_largest`, from the index `i` on, `n` turns. -/
def largestLoop (q : Nat → Nat) : Nat → Nat → Nat → Nat
  | 0, _, i_largest => i_largest
  | n + 1, i, i_largest =>
    largestLoop q n (i + 1) (if f32Lt (fabsf (q i_largest)) (fabsf (q i)) then i else i_largest)

/-- The value `(unsigned)(((1 << 9) - 1) * (fabsf(x) / SMALL_MAX) + 0.5f)`; the conversion to
`unsigned` is undefined for a NaN and for a value outside the type. -/
def quatMag (x : Nat) : Option Nat :=
  f32ToUnsigned (f32Add (f32Mul (f32OfUnsigned 511) (f32Div (fabsf x) SMALL_MAX)) 0x3F000000)

/-- The second loop of `quatcompress`, from the index `i` on, `n` turns. -/
def compressLoop (q : Nat → Nat) (i_largest negate : Nat) : Nat → Nat → Nat → Option Nat
  | 0, _, comp => some comp
  | n + 1, i, comp =>
    if i ≠ i_largest then
      let negbit := (if f32Lt (q i) 0 then 1 else 0) ^^^ negate
      (quatMag (q i)).bind (fun mag =>
        compressLoop q i_largest negate n (i + 1)
          ((((comp <<< 10) % 4294967296) ||| (negbit <<< 9)) ||| mag))
    else compressLoop q i_largest negate n (i + 1) comp

/-- `quatcompress`. -/
def quatcompress (q : Nat → Nat) : Option Nat :=
  let i_largest := largestLoop q 3 1 0
  let negate := if f32Lt (q i_largest) 0 then 1 else 0
  compressLoop q i_largest negate 4 0 i_largest

/-- The state of the loop of `quatdecompress`. -/
structure QuatState where
  comp : Nat
  q : Nat → Nat
  sum_squares : Nat

/-- The loop of `quatdecompress`: the turns for `i = n - 1` down to `0`. -/
def decompressLoop (i_largest : Nat) : Nat → QuatState → QuatState
  | 0, st => st
  | n + 1, st =>
    if n ≠ i_largest then
      let mag := st.comp &&& 511
      let negbit := (st.comp >>> 9) &&& 0x1
      let v := f32Div (f32Mul SMALL_MAX (f32OfUnsigned mag)) (f32OfUnsigned 511)
      let qi := if negbit = 1 then f32Neg v else v
      decompressLoop i_largest n
        { comp := st.comp >>> 10
          q := fun j => if j = n then qi else st.q j
          sum_squares := f32Add st.sum_squares (f32Mul qi qi) }
    else decompressLoop i_largest n st

/-- `quatdecompress`: the array `q` after the call, for a 32-bit `comp`. -/
def quatdecompress (comp : Nat) (q : Nat → Nat) : Nat → Nat :=
  let i_largest := comp >>> 30
  let st := decompressLoop i_largest 4 { comp := comp, q := q, sum_squares := 0 }
  fun j => if j = i_largest then sqrtf (f32Sub 0x3F800000 st.sum_squares) else st.q j

end PackUtils

/-! ## `ctrp.h`: protocol constants -/

def NO_IDENT : Nat := 0xffff
def LOGGING : Nat := 0x05
def TOC_CHANNEL : Nat := 0
def gMaxBufferSize : Nat := 32
def NO_PROTOCOL : Nat := 0xff

/-- The ways a call can fail to return a result: the source dereferences a null pointer,
indexes outside an array, or loops without end. -/
inductive Fault where
  | nullDeref
  | outOfBounds
  | diverges
  deriving DecidableEq, Repr

/-- Results of fallible calls are compared by comparing the faults or the values. -/
instance Except.decEq {ε α : Type} [DecidableEq ε] [DecidableEq α] : DecidableEq (Except ε α)
  | .ok a, .ok b =>
    if h : a = b then isTrue (by rw [h]) else isFalse (by intro h2; cases h2; exact h rfl)
  | .error a, .error b =>
    if h : a = b then isTrue (by rw [h]) else isFalse (by intro h2; cases h2; exact h rfl)
  | .ok _, .error _ => isFalse (by intro h; cases h)
  | .error _, .ok _ => isFalse (by intro h; cases h)

/-! ## `lttype.h`: the log TOC types -/

/-- A C++ string: its sequence of characters. -/
abbrev Str := List Char

/-- The conversion `s.c_str()` read back as a C string: the characters before the first NUL. -/
def c_str (s : Str) : Str := s.takeWhile (fun c => c != Char.ofNat 0)

structure ltType where
  name : Str
  pytype : Str
  size : Nat
  deriving DecidableEq, Repr

def tdUint8 : Nat := 0
def tdUint16 : Nat := 1
def tdUint32 : Nat := 2
def tdInt8 : Nat := 3
def tdInt16 : Nat := 4
def tdInt32 : Nat := 5
def tdFloat16 : Nat := 6
def tdFloat32 : Nat := 7
def tdNone : Nat := 0xff

def types : List ltType :=
  [ ⟨"uint8_t".toList, "<B".toList, 1⟩,
    ⟨"uint16_t".toList, "<H".toList, 2⟩,
    ⟨"uint32_t".toList, "<L".toList, 4⟩,
    ⟨"int8_t".toList, "<b".toList, 1⟩,
    ⟨"int16_t".toList, "<h".toList, 2⟩,
    ⟨"int32_t".toList, "<i".toList, 4⟩,
    ⟨"float16_t ".toList, "<e".toList, 2⟩,
    ⟨"float32_t".toList, "<f".toList, 4⟩ ]

def gTypesSize : Nat := types.length
def gMaxType : Nat := gTypesSize - 1
def gTypeNotFound : Nat := 0xff

/-! ## `logtoc.h`: the log table of contents -/

structure LogTocElement where
  name : Str
  group : Str
  ctype : Str
  pytype : Str
  ident : Nat
  access : Nat
  deriving DecidableEq, Repr

namespace LogTocElement

/-- The default constructor `LogTocElement()`. -/
def default : LogTocElement :=
  { name := [], group := [], ctype := [], pytype := [], ident := gTypeNotFound, access := 0 }

/-- `get_id_from_cstring`: the index of the first entry of `types` with that name. -/
def get_id_from_cstring (name : Str) : Nat :=
  match types.findIdx? (fun t => name == t.name) with
  | some i => i
  | none => gTypeNotFound

/-- `get_cstring_from_id`: the name of the type, when the id is one of the table. -/
def get_cstring_from_id (id : Nat) : Option Str :=
  if id < gTypesSize then (types.get? id).map (fun t => t.name) else none

/-- `get_unpack_string_from_id`. -/
def get_unpack_string_from_id (id : Nat) : Option Str :=
  if id < gTypesSize then (types.get? id).map (fun t => t.pytype) else none

/-- `get_size_from_id`: the size in bytes of the type, 0 when the id is not one of the table. -/
def get_size_from_id (id : Nat) : Nat :=
  if id < gTypesSize then
    match types.get? id with
    | some t => t.size
    | none => 0
  else 0

end LogTocElement

def CMD_TOC_ELEMENT : Nat := 0
def CMD_TOC_INFO : Nat := 1
def CMD_TOC_ITEM_V2 : Nat := 2
def CMD_TOC_INFO_V2 : Nat := 3

structure LogTocGroup where
  name : Str
  elements : List LogTocElement
  deriving DecidableEq, Repr

structure LogToc where
  crc : Nat
  groups : List LogTocGroup
  complete : Bool
  deriving DecidableEq, Repr

namespace LogToc

/-- The constructor `LogToc()`. -/
def empty : LogToc := { crc := 0, groups := [], complete := false }

/-- `groupIndex`: the index of the first group with that name (`-1` in the source when there
is none). The argument is a `const char*`. -/
def groupIndex (toc : LogToc) (groupName : Str) : Option Nat :=
  toc.groups.findIdx? (fun g => g.name == groupName)

/-- `nameIndex`: the index, in the group at `groupDex`, of the first element with that name. -/
def nameIndex (toc : LogToc) (groupDex : Nat) (elementName : Str) : Option Nat :=
  match toc.groups.get? groupDex with
  | some g => g.elements.findIdx? (fun e => e.name == elementName)
  | none => none

/-- `add_element`. -/
def add_element (toc : LogToc) (element : LogTocElement) : LogToc :=
  match toc.groupIndex (c_str element.group) with
  | some groupDex =>
    match toc.nameIndex groupDex (c_str element.name) with
    | none =>
      let push := fun (g : LogTocGroup) => { g with elements := g.elements ++ [element] }
      { toc with groups := toc.groups.modify push groupDex }
    | some _ => toc
  | none =>
    { toc with groups := toc.groups ++ [{ name := element.group, elements := [element] }] }

/-- `get_element_by_name`: the element found for `<groupName>.<elementName>`; `none` stands
for the result `false`. The name is split at its first dot. -/
def get_element_by_name (toc : LogToc) (completeName : Str) : Option LogTocElement :=
  match completeName.indexOf? '.' with
  | some nameStart =>
    let groupName := completeName.take nameStart
    let elemName := completeName.drop (nameStart + 1)
    match toc.groupIndex (c_str groupName) with
    | some groupDex =>
      match toc.nameIndex groupDex (c_str elemName) with
      | some elemDex =>
        match toc.groups.get? groupDex with
        | some g => g.elements.get? elemDex
        | none => none
      | none => none
    | none => none
  | none => none

/-- `get_element_id`. -/
def get_element_id (toc : LogToc) (completeName : Str) : Nat :=
  match toc.get_element_by_name completeName with
  | some element => element.ident
  | none => NO_IDENT

/-- `get_element_by_complete_name`. -/
def get_element_by_complete_name (toc : LogToc) (completeName : Str) : Option LogTocElement :=
  toc.get_element_by_name completeName

/-- `get_element_by_id`: every group is scanned up to its first element with the identifier
(the `break` leaves the inner loop only), so the element of the last such group is returned;
`none` stands for the result `false`. -/
def get_element_by_id (toc : LogToc) (ident : Nat) : Option LogTocElement :=
  toc.groups.foldl
    (fun acc g =>
      match g.elements.find? (fun e => e.ident == ident) with
      | some e => some e
      | none => acc)
    none

end LogToc

/-! ## The packet of the link library and `portconnect.h` -/

/-- Modelled from the spec: the `Packet` of the link library, which is not part of this
repository. A packet has a header `(port:4, reserved:2, channel:2)` and a payload buffer;
`size` counts the header byte, so an empty packet has size 0 and the payload of a non-empty
one has `size - 1` bytes. -/
structure Packet where
  size : Nat
  port : Nat
  channel : Nat
  payload : PackUtils.Buffer

namespace Packet

/-- The default constructor `Packet()`. -/
def empty : Packet := { size := 0, port := 0, channel := 0, payload := fun _ => 0 }

/-- The constructor `Packet(data, size)`: `data[0]` is the header byte. -/
def ofBuffer (data : PackUtils.Buffer) (size : Nat) : Packet :=
  { size := size
    port := PackUtils.peek data 0 / 16
    channel := PackUtils.peek data 0 % 4
    payload := fun i => if i + 1 < size then data (i + 1) else 0 }

def setPort (pk : Packet) (port : Nat) : Packet :=
  { pk with size := max pk.size 1, port := port % 16 }

def setChannel (pk : Packet) (channel : Nat) : Packet :=
  { pk with size := max pk.size 1, channel := channel % 4 }

def payloadSize (pk : Packet) : Nat := pk.size - 1

def setPayloadSize (pk : Packet) (n : Nat) : Packet := { pk with size := n + 1 }

/-- The payload bytes of the packet, in order. -/
def bytes (pk : Packet) : List Nat := (List.range pk.payloadSize).map (PackUtils.peek pk.payload)

end Packet

/-- The part of `PortConnect` the engines use. `cfConnection` tells whether the link
pointer is non-null, `platform` is the protocol version the platform client reports (`none`
when there is no platform client), `wire` lists the packets handed to `cfConnection->send`,
oldest first, `logResets` counts the calls of `owner->logResetComplete()` and `paramResets`
those of `owner->paramResetComplete()`. -/
structure PortConnect where
  cfConnection : Bool
  platform : Option Nat
  wire : List Packet
  logResets : Nat
  paramResets : Nat

namespace PortConnect

/-- `send_packet`. -/
def send_packet (pc : PortConnect) (packet : Packet) : PortConnect :=
  if pc.cfConnection then
    if packet.size > 0 then { pc with wire := pc.wire ++ [packet] } else pc
  else pc

/-- `logResetComplete`. -/
def logResetComplete (pc : PortConnect) : PortConnect :=
  { pc with logResets := pc.logResets + 1 }

/-- `paramResetComplete`. -/
def paramResetComplete (pc : PortConnect) : PortConnect :=
  { pc with paramResets := pc.paramResets + 1 }

end PortConnect

/-! ## `cflog.h`: the log engine

The engine borrows the blocks and the blocks borrow their variables through pointers. A
borrowed object is represented by its value in the slot that points to it; the two pointers
to a block that is being added (the caller's and the slot of `blockList`) are kept equal by
storing the block back into its slot. -/

def MAX_BLOCKS : Nat := 16
def MAX_VARIABLES : Nat := 128
def CHAN_TOC : Nat := 0
def CHAN_SETTINGS : Nat := 1
def CHAN_LOGDATA : Nat := 2
def CMD_CREATE_BLOCK : Nat := 0
def CMD_APPEND_BLOCK : Nat := 1
def CMD_DELETE_BLOCK : Nat := 2
def CMD_START_LOGGING : Nat := 3
def CMD_STOP_LOGGING : Nat := 4
def CMD_RESET_LOGGING : Nat := 5
def CMD_CREATE_BLOCK_V2 : Nat := 6
def CMD_APPEND_BLOCK_V2 : Nat := 7

/-- The value of `EEXIST` in `errno.h`. -/
def EEXIST : Nat := 17
/-- The value of `ENOENT` in `errno.h`. -/
def ENOENT : Nat := 2

structure LogVariable where
  name : Str
  address : Nat
  fetch_as : Nat
  _type : Nat
  ctype : Nat
  _value : Nat
  deriving DecidableEq, Repr

namespace LogVariable

def TOC_TYPE : Nat := 0
def MEM_TYPE : Nat := 1

/-- The default constructor `LogVariable()`. -/
def default : LogVariable :=
  { name := [], address := 0, fetch_as := tdNone, _type := TOC_TYPE, ctype := 0, _value := 0 }

def is_toc_variable (var : LogVariable) : Bool := var._type == TOC_TYPE

/-- `get_storage_and_fetch_byte`: `fetch_as | (fetch_as << 4)` converted to `uint8_t`. -/
def get_storage_and_fetch_byte (var : LogVariable) : Nat :=
  (var.fetch_as ||| (var.fetch_as <<< 4)) % 256

/-- The loop `for (i = 0; i < count; i++) vbuffer[i] = buffer[i]` of `set`. -/
def copyBytes (buffer : PackUtils.Buffer) : Nat → PackUtils.Buffer → PackUtils.Buffer
  | 0, vbuffer => vbuffer
  | count + 1, vbuffer =>
    PackUtils.poke (copyBytes buffer count vbuffer) count (PackUtils.peek buffer count)

/-- The 64-bit member `value` of the union of `set`, read from its eight bytes. -/
def value64 (vbuffer : PackUtils.Buffer) : Nat :=
  ((List.range 8).map (fun i => PackUtils.peek vbuffer i * 256 ^ i)).sum

/-- `set`: publishes the packed value and the time in the 64-bit cell and returns the number
of bytes consumed. The lookup `types[fetch_as]` is outside the table when `fetch_as` is not
one of the eight kinds. -/
def set (var : LogVariable) (buffer : PackUtils.Buffer) (time : Nat) :
    Except Fault (LogVariable × Nat) :=
  match types.get? var.fetch_as with
  | none => .error .outOfBounds
  | some t =>
    let vbuffer0 : PackUtils.Buffer :=
      fun i => if 4 ≤ i then PackUtils.byteOf (time % 4294967296) (i - 4) else 0
    let vbuffer := copyBytes buffer t.size vbuffer0
    .ok ({ var with _value := value64 vbuffer }, t.size)

end LogVariable

/-- A log block. The member `variables` of the source is the field `vars` (`variables` is a
reserved word here); `log` tells whether the back pointer is non-null. -/
structure LogConfig where
  name : Str
  vars : List LogVariable
  default_fetch_as : List LogVariable
  log : Bool
  useV2 : Bool
  added : Bool
  started : Bool
  pending : Int
  valid : Bool
  connected : Bool
  period : Nat
  period_in_ms : Nat
  err_no : Nat
  id : Nat
  deriving DecidableEq, Repr

/-- The fetcher of the log TOC: the scalar members of `TocFetcher`. -/
structure TocFetcher where
  _useV2 : Bool
  _crc : Nat
  requested_index : Nat
  state : Nat
  protocolVersion : Nat
  expectedReply : Nat
  nbr_of_items : Nat
  port : Nat
  deriving DecidableEq, Repr

/-- The state of a `cfLog`. `portConnect` is `none` for the null pointer; `blockList i` is the
block the slot `i` points to, `none` for a null slot; `tocCache` lists the files of the TOC
cache directory by CRC, each with its text, and is `none` when the directory cannot be
made. -/
structure cfLog where
  portConnect : Option PortConnect
  connected : Bool
  resetComplete : Bool
  toc : LogToc
  tocCache : Option (List (Nat × Str))
  blockList : Nat → Option LogConfig
  blockListSize : Nat
  tocfetcherCallbacks : List TocFetcher
  protocolVersion : Nat
  useV2 : Bool

namespace LogConfig

def NoID : Nat := 0xff
def MAX_LEN : Nat := 26

/-- The default constructor `LogConfig()`. -/
def default : LogConfig :=
  { name := [], vars := [], default_fetch_as := [], log := false, useV2 := false,
    added := false, started := false, pending := 0, valid := false, connected := false,
    period := 1, period_in_ms := 10, err_no := 0, id := NoID }

/-- The constructor `LogConfig(_name, _period_in_ms)`. -/
def init (_name : Str) (_period_in_ms : Nat) : LogConfig :=
  { default with name := _name, period := _period_in_ms / 10 % 65536,
                 period_in_ms := _period_in_ms }

/-- `add_variable`. -/
def add_variable (cfg : LogConfig) (var : LogVariable) : LogConfig :=
  if var.fetch_as != tdNone then
    { cfg with vars := cfg.vars ++ [var] }
  else
    { cfg with default_fetch_as := cfg.default_fetch_as ++ [var] }

/-- `add_memory`. -/
def add_memory (cfg : LogConfig) (memVar : LogVariable) : LogConfig :=
  { cfg with vars := cfg.vars ++ [{ memVar with _type := LogVariable.MEM_TYPE }] }

def _cmd_create_block (cfg : LogConfig) : Nat :=
  if cfg.useV2 then CMD_CREATE_BLOCK_V2 else CMD_CREATE_BLOCK

def _cmd_append_block (cfg : LogConfig) : Nat :=
  if cfg.useV2 then CMD_APPEND_BLOCK_V2 else CMD_APPEND_BLOCK

end LogConfig

namespace LogConfig

/-- The body of the loop of `_setup_log_elements` for the variable `var` at index `i`; the
state is `(result, pk, next_to_add)`. -/
def setupElement (useV2 : Bool) (toc : LogToc) (var : LogVariable) (i : Nat)
    (st : Bool × Packet × Nat) : Bool × Packet × Nat :=
  let result := st.1
  let pk := st.2.1
  let next_to_add := st.2.2
  if !var.is_toc_variable then
    let index := pk.payloadSize % 256
    if index + 5 < MAX_LEN then
      let storage_fetch := var.get_storage_and_fetch_byte
      let p1 := PackUtils.pack_uint8 pk.payload index storage_fetch
      let index1 := (index + p1.2) % 256
      let p2 := PackUtils.pack_uint32 p1.1 index1 var.address
      let index2 := (index1 + p2.2) % 256
      (result, ({ pk with payload := p2.1 } : Packet).setPayloadSize index2, i)
    else
      (false, pk, next_to_add)
  else
    let element_id := toc.get_element_id var.name
    let index := pk.payloadSize % 256
    if useV2 then
      if index + 3 < MAX_LEN then
        let storage_fetch := var.get_storage_and_fetch_byte
        let p1 := PackUtils.pack_uint8 pk.payload index storage_fetch
        let index1 := (index + p1.2) % 256
        let p2 := PackUtils.pack_uint16 p1.1 index1 element_id
        let index2 := (index1 + p2.2) % 256
        (result, ({ pk with payload := p2.1 } : Packet).setPayloadSize index2, i)
      else
        (false, pk, next_to_add)
    else
      if index + 2 < MAX_LEN then
        let storage_fetch := var.get_storage_and_fetch_byte
        let p1 := PackUtils.pack_uint8 pk.payload index storage_fetch
        let index1 := (index + p1.2) % 256
        let p2 := PackUtils.pack_uint8 p1.1 index1 (element_id % 256)
        let index2 := (index1 + p2.2) % 256
        (result, ({ pk with payload := p2.1 } : Packet).setPayloadSize index2, i)
      else
        (false, pk, next_to_add)

/-- The loop `for (; i < variables.size(); i++)` of `_setup_log_elements`, over the variables
from index `i` on. -/
def setupLoop (useV2 : Bool) (toc : LogToc) :
    List LogVariable → Nat → Bool × Packet × Nat → Bool × Packet × Nat
  | [], _, st => st
  | var :: rest, i, st => setupLoop useV2 toc rest (i + 1) (setupElement useV2 toc var i st)

/-- `_setup_log_elements`: returns `(result, pk, next_to_add)`. -/
def _setup_log_elements (cfg : LogConfig) (toc : LogToc) (pk : Packet) (next_to_add : Nat) :
    Bool × Packet × Nat :=
  setupLoop cfg.useV2 toc (cfg.vars.drop next_to_add) next_to_add (true, pk, next_to_add)

/-- The first loop of `create`: the number of blocks of `blockList` that are pending, added
or started, and the number of their variables. -/
def countLive (s : cfLog) : Nat × Nat :=
  (List.range s.blockListSize).foldl
    (fun acc i =>
      match s.blockList i with
      | some config =>
        if config.pending != 0 || config.added || config.started then
          (acc.1 + 1, acc.2 + config.vars.length)
        else acc
      | none => acc)
    (0, 0)

/-- The frame that `create` starts with: port, channel, command and block id. -/
def frameHeader (cfg : LogConfig) (command : Nat) : Packet :=
  let pk := (Packet.empty.setPort LOGGING).setChannel CHAN_SETTINGS
  let p1 := PackUtils.pack_uint8 pk.payload 0 command
  let p2 := PackUtils.pack_uint8 p1.1 (0 + p1.2) cfg.id
  ({ pk with payload := p2.1 } : Packet).setPayloadSize (0 + p1.2 + p2.2)

/-- The loop `while (!is_done)` of `create`: the frames sent, in order. The first argument
bounds the number of frames. -/
def createFrames (cfg : LogConfig) (toc : LogToc) : Nat → Nat → Nat → Except Fault (List Packet)
  | 0, _, _ => .error .diverges
  | fuel + 1, command, next_to_add =>
    let r := _setup_log_elements cfg toc (frameHeader cfg command) next_to_add
    if r.1 then .ok [r.2.1]
    else
      match createFrames cfg toc fuel cfg._cmd_append_block r.2.2 with
      | .ok frames => .ok (r.2.1 :: frames)
      | .error e => .error e

/-- `create`: returns the result, the block and the engine it points to. -/
def create (s : cfLog) (cfg : LogConfig) : Except Fault (Bool × LogConfig × cfLog) :=
  if cfg.log then
    let counts := countLive s
    if counts.1 + 1 < MAX_BLOCKS then
      if counts.2 + cfg.vars.length < MAX_VARIABLES then
        let cfg1 := { cfg with pending := cfg.pending + 1 }
        match createFrames cfg1 s.toc (cfg1.vars.length + 1) cfg1._cmd_create_block 0 with
        | .error e => .error e
        | .ok frames =>
          match s.portConnect with
          | none => .error .nullDeref
          | some pc =>
            .ok (true, cfg1,
              { s with portConnect := some (frames.foldl PortConnect.send_packet pc) })
      else .ok (false, cfg, s)
    else .ok (false, cfg, s)
  else .ok (false, cfg, s)

/-- The packet `[command, id]` of `stop` and `cfDelete`. -/
def commandPacket (cfg : LogConfig) (command : Nat) : Packet :=
  let pk := (Packet.empty.setPort LOGGING).setChannel CHAN_SETTINGS
  let p1 := PackUtils.pack_uint8 pk.payload 0 command
  let p2 := PackUtils.pack_uint8 p1.1 (0 + p1.2) cfg.id
  ({ pk with payload := p2.1 } : Packet).setPayloadSize (0 + p1.2 + p2.2)

/-- The packet `[CMD_START_LOGGING, id, period]` of `start`; the period is a `uint16_t`. -/
def startPacket (id period : Nat) : Packet :=
  let pk := (Packet.empty.setPort LOGGING).setChannel CHAN_SETTINGS
  let p1 := PackUtils.pack_uint8 pk.payload 0 CMD_START_LOGGING
  let p2 := PackUtils.pack_uint8 p1.1 (0 + p1.2) id
  let p3 := PackUtils.pack_uint16 p2.1 (0 + p1.2 + p2.2) period
  ({ pk with payload := p3.1 } : Packet).setPayloadSize (0 + p1.2 + p2.2 + p3.2)

/-- `start`. -/
def start (s : cfLog) (cfg : LogConfig) : Except Fault (Bool × LogConfig × cfLog) :=
  if cfg.log then
    match s.portConnect with
    | some pc =>
      if !cfg.added then
        match create s cfg with
        | .ok r => .ok (true, r.2.1, r.2.2)
        | .error e => .error e
      else
        .ok (true, cfg,
          { s with portConnect := some (pc.send_packet (startPacket cfg.id cfg.period)) })
    | none => .ok (false, cfg, s)
  else .ok (false, cfg, s)

/-- `stop`. -/
def stop (s : cfLog) (cfg : LogConfig) : Bool × cfLog :=
  if cfg.log then
    match s.portConnect with
    | some pc =>
      if cfg.id == NoID then (false, s)
      else
        (true, { s with portConnect := some (pc.send_packet (commandPacket cfg CMD_STOP_LOGGING)) })
    | none => (false, s)
  else (false, s)

/-- `cfDelete`. -/
def cfDelete (s : cfLog) (cfg : LogConfig) : Bool × cfLog :=
  if cfg.log then
    match s.portConnect with
    | some pc =>
      if cfg.id == NoID then (false, s)
      else
        (true,
          { s with portConnect := some (pc.send_packet (commandPacket cfg CMD_DELETE_BLOCK)) })
    | none => (false, s)
  else (false, s)

/-- The loop of `unpack_log_data` from the byte offset `dataIndex` on. -/
def unpackLoop (logData : PackUtils.Buffer) (timestamp : Nat) :
    List LogVariable → Nat → Except Fault (List LogVariable)
  | [], _ => .ok []
  | var :: rest, dataIndex =>
    match var.set (fun i => logData (dataIndex + i)) timestamp with
    | .error e => .error e
    | .ok r =>
      match unpackLoop logData timestamp rest (dataIndex + r.2) with
      | .error e => .error e
      | .ok rest1 => .ok (r.1 :: rest1)

/-- `unpack_log_data`. -/
def unpack_log_data (cfg : LogConfig) (logData : PackUtils.Buffer) (timestamp : Nat) :
    Except Fault LogConfig :=
  match unpackLoop logData timestamp cfg.vars 0 with
  | .ok vs => .ok { cfg with vars := vs }
  | .error e => .error e

end LogConfig

namespace LogTocElement

/-- The C string that starts at offset `start` of `data`; the scan is bounded by `fuel`
characters. -/
def cstrAt (data : PackUtils.Buffer) : Nat → Nat → Str
  | _, 0 => []
  | start, fuel + 1 =>
    if PackUtils.peek data start = 0 then []
    else Char.ofNat (PackUtils.peek data start) :: cstrAt data (start + 1) fuel

/-- The constructor `LogTocElement(id, data)` for a non-null `data`; the strings are read
inside a packet buffer of `gMaxBufferSize` bytes. -/
def ofData (id : Nat) (data : PackUtils.Buffer) : LogTocElement :=
  let typeDex := PackUtils.peek data 0
  let group := cstrAt data 1 gMaxBufferSize
  let name := cstrAt data (1 + (group.length + 1)) gMaxBufferSize
  { name := name
    group := group
    ctype := (get_cstring_from_id typeDex).getD []
    pytype := (get_unpack_string_from_id typeDex).getD []
    ident := id
    access := typeDex &&& 0x10 }

end LogTocElement

namespace TocFetcher

def IDLE : Nat := 0
def GET_TOC_INFO : Nat := 1
def GET_TOC_ELEMENT : Nat := 2

/-- The constructor `TocFetcher(aLog, _port, toc_holder)`. -/
def init (log : cfLog) (_port : Nat) : TocFetcher :=
  { _useV2 := false, _crc := 0, requested_index := 0, state := 0,
    protocolVersion := log.protocolVersion, expectedReply := 0, nbr_of_items := 0,
    port := _port }

/-- The request packet `[command]` or `[command, id]` built in a raw buffer whose first byte
is `0xFF`. -/
def requestPacket (port : Nat) (buffer : PackUtils.Buffer) (index : Nat) : Packet :=
  ((Packet.ofBuffer buffer index).setPort port).setChannel TOC_CHANNEL

/-- `start`: registers the fetcher with the engine and sends the TOC info request. -/
def start (f : TocFetcher) (s : cfLog) : Except Fault cfLog :=
  let _useV2 := decide (f.protocolVersion ≥ 4)
  let buffer0 := PackUtils.poke (fun _ => 0) 0 0xFF
  let command := if _useV2 then CMD_TOC_INFO_V2 else CMD_TOC_INFO
  let p1 := PackUtils.pack_uint8 buffer0 1 command
  let f1 := { f with _useV2 := _useV2, state := GET_TOC_INFO, expectedReply := command }
  match s.portConnect with
  | none => .error .nullDeref
  | some pc =>
    .ok { s with
      tocfetcherCallbacks := s.tocfetcherCallbacks ++ [f1]
      portConnect := some (pc.send_packet (requestPacket f.port p1.1 (1 + p1.2))) }

/-- `request_toc_element`. -/
def request_toc_element (f : TocFetcher) (pc : PortConnect) (elemDex : Nat) :
    TocFetcher × PortConnect :=
  let buffer0 := PackUtils.poke (fun _ => 0) 0 0xFF
  if f._useV2 then
    let p1 := PackUtils.pack_uint8 buffer0 1 CMD_TOC_ITEM_V2
    let p2 := PackUtils.pack_uint16 p1.1 (1 + p1.2) (elemDex % 65536)
    ({ f with expectedReply := CMD_TOC_ITEM_V2 },
      pc.send_packet (requestPacket f.port p2.1 (1 + p1.2 + p2.2)))
  else
    let p1 := PackUtils.pack_uint8 buffer0 1 CMD_TOC_ELEMENT
    let p2 := PackUtils.pack_uint8 p1.1 (1 + p1.2) (elemDex % 65536 % 256)
    ({ f with expectedReply := CMD_TOC_INFO },
      pc.send_packet (requestPacket f.port p2.1 (1 + p1.2 + p2.2)))

end TocFetcher

/-! ## `reflectio.h`, `reflect.h`, `stringr.h`, `reflectjson.h`: the text of a cache file

A stream is the list of the characters that remain to be read, a character standing for one
byte. `isspace` is the one of the C locale. The reflection tables are those of `LogToc`,
`LogTocGroup` and `LogTocElement`, and the generic reader and writer are written out for
these three. -/

namespace reflectIO

def quote : Char := Char.ofNat 34
def comma : Char := ','
def colon : Char := ':'
def dot : Char := '.'
def openBrace : Char := Char.ofNat 123
def closeBrace : Char := Char.ofNat 125
def openBracket : Char := '['
def closeBracket : Char := ']'
def openParen : Char := '('
def closeParen : Char := ')'

/-- `isspace` in the C locale. -/
def isspace (c : Char) : Bool :=
  c == ' ' || c == '\t' || c == '\n' || c == Char.ofNat 11 || c == Char.ofNat 12 || c == '\r'

/-- The value `EOF` of `char n = input.peek()`: the stream is at its end, or the next byte is
`0xFF`, which is -1 as a `char`. -/
def peekIsEOF (input : Str) : Bool :=
  match input with
  | [] => true
  | c :: _ => c.toNat == 255

/-- `writeSeparator`. -/
def writeSeparator : Str := [comma]

/-- `lineIndent`. -/
def lineIndent (indent : Nat) : Str := '\n' :: List.replicate indent '\t'

/-- `readSeparator`: the stream after the call. -/
def readSeparator (input : Str) : Str :=
  match input with
  | [] => []
  | c :: rest => if isspace c || c == comma then rest else input

/-- `readEndOfLine`: the stream after the call. -/
def readEndOfLine (input : Str) : Str := input.dropWhile isspace

/-- `readSpace`: the stream after the call; the result of the call is that `peekIsEOF` does
not hold of it. -/
def readSpace (input : Str) : Str := input.dropWhile isspace

/-- `eof`. -/
def eof (input : Str) : Bool := input.isEmpty

/-- `std::getline(input, value, delim)`: the characters before the first `delim`, and the
stream after it. -/
def getline (input : Str) (delim : Char) : Str × Str :=
  (input.takeWhile (fun c => c != delim), (input.dropWhile (fun c => c != delim)).tail)

end reflectIO

/-- The digits of `output << n` for an unsigned `n`. -/
def writeDecimal (n : Nat) : Str := Nat.toDigits 10 n

/-- The number that the leading decimal digits of `value` denote. -/
def readDigits (value : Str) : Nat :=
  (value.takeWhile Char.isDigit).foldl (fun n c => 10 * n + (c.toNat - 48)) 0

/-- The extraction `input >> n` of an `int32`: an optional sign and the leading digits; 0
when there is no digit, and the nearest bound when the number is outside the type. -/
def readInt32 (value : Str) : Int :=
  let digits := match value with
    | c :: rest => if c == '+' || c == '-' then rest else value
    | [] => []
  let negative := match value with
    | c :: _ => c == '-'
    | [] => false
  if (digits.takeWhile Char.isDigit).isEmpty then 0
  else if negative then max (-(readDigits digits : Int)) (-2147483648)
  else min (readDigits digits : Int) 2147483647

/-- The extraction `input >> n` of a `uint16`: an optional sign and the leading digits; 0
when there is no digit, 65535 when the magnitude is outside the type, and the negation in the
type after a minus sign. -/
def readUInt16 (value : Str) : Nat :=
  let digits := match value with
    | c :: rest => if c == '+' || c == '-' then rest else value
    | [] => []
  let negative := match value with
    | c :: _ => c == '-'
    | [] => false
  if (digits.takeWhile Char.isDigit).isEmpty then 0
  else if readDigits digits > 65535 then 65535
  else if negative then (65536 - readDigits digits) % 65536
  else readDigits digits

namespace stringr

/-- `stringr::write`. -/
def write (s : Str) : Str := [ reflectIO.quote] ++ s ++ [ reflectIO.quote]

/-- `stringr::read` on the stream of the text `value`: the string after the call, `old` being
the one before. -/
def read (value : Str) (old : Str) : Str :=
  match value with
  | [] => []
  | c :: _ =>
    if c == reflectIO.quote then
      if value.length ≥ 2 then (value.drop 1).take (value.length - 2) else old
    else value

end stringr

namespace uint16r

/-- `uint16r::write`. -/
def write (n : Nat) : Str := writeDecimal n

/-- `uint16r::read` on the stream of the text `value`. -/
def read (value : Str) (old : Nat) : Nat :=
  match value with
  | [] => old
  | c :: _ => if c.isDigit || c == '-' || c == '+' then readUInt16 value else old

end uint16r

namespace uint8r

/-- `uint8r::write`: the value is written as an `int32`. -/
def write (n : Nat) : Str := writeDecimal n

/-- `uint8r::read` on the stream of the text `value`: an `int32` is read and stored in the
`uint8`. -/
def read (value : Str) (old : Nat) : Nat :=
  match value with
  | [] => old
  | c :: _ =>
    if c.isDigit || c == '-' || c == '+' then (readInt32 value % 256).toNat else old

end uint8r

namespace reflectJson

open reflectIO

/-- The loop of `readStructBody`, `readArrayBody` and `readListBody` after the opening
character, at nesting depth `nest`: the body, and the stream after the closing character. -/
def bodyLoop (opening closing : Char) : Str → Nat → Str × Str
  | [], _ => ([], [])
  | c :: rest, nest =>
    let nest1 := if c == opening then nest + 1 else if c == closing then nest - 1 else nest
    if nest1 = 0 then ([], rest)
    else
      let r := bodyLoop opening closing rest nest1
      (c :: r.1, r.2)

/-- The body between `opening` and its matching `closing`, when the stream starts with
`opening` after white space; the stream after it. -/
def readBody (opening closing : Char) (input : Str) : Str × Str :=
  let s1 := readSpace input
  if peekIsEOF s1 then ([], s1)
  else
    match s1 with
    | c :: rest => if c == opening then bodyLoop opening closing rest 1 else ([], s1)
    | [] => ([], s1)

/-- `readStructBody`: the body and the stream after the call. -/
def readStructBody (input : Str) : Str × Str :=
  let r := readBody openBrace closeBrace input
  (r.1, readEndOfLine (readSeparator r.2))

/-- `readArrayBody`: the body and the stream after the call. -/
def readArrayBody (input : Str) : Str × Str :=
  let r := readBody openBracket closeBracket input
  (r.1, readEndOfLine (readSeparator r.2))

/-- `readListBody`: the body and the stream after the call. -/
def readListBody (input : Str) : Str × Str :=
  let r := readBody openParen closeParen input
  (r.1, readSeparator r.2)

/-- `readValueBody`: the value and the stream after the call; the result of the call is that
the value is not empty. -/
def readValueBody (input : Str) : Str × Str :=
  let s1 := readSpace input
  if peekIsEOF s1 then ([], s1)
  else
    match s1 with
    | c :: rest =>
      if c == quote then
        let r := getline rest quote
        (r.1, readSeparator r.2)
      else getline s1 comma
    | [] => ([], s1)

/-- `readAnyBody`: the stream after the call. -/
def readAnyBody (input : Str) : Str :=
  let s1 := readSpace input
  if peekIsEOF s1 then s1
  else
    match s1 with
    | c :: _ =>
      if c == openBracket then (readArrayBody s1).2
      else if c == openBrace then (readStructBody s1).2
      else if c == openParen then (readListBody s1).2
      else (readValueBody s1).2
    | [] => s1

/-- The first loop of `readTag`: characters are dropped up to a quote or `EOF`. -/
def skipToQuote : Str → Str
  | [] => []
  | c :: rest => if c.toNat == 255 || c == quote then c :: rest else skipToQuote rest

/-- The second loop of `readTag`: the characters of the name up to white space, a dot or
`EOF`, without quotes. -/
def tagNameLoop : Str → Str
  | [] => []
  | c :: rest =>
    if isspace c || c == dot || c.toNat == 255 then []
    else if c != quote then c :: tagNameLoop rest
    else tagNameLoop rest

/-- `readTag`: the result, the tag name and the stream after the call. -/
def readTag (input : Str) : Bool × Str × Str :=
  match skipToQuote input with
  | [] => (false, [], [])
  | c :: rest =>
    if c == quote then
      let r := getline rest quote
      if !r.1.isEmpty && !eof r.2 then
        let tagName := tagNameLoop (readSpace r.1)
        if !tagName.isEmpty then (true, tagName, (readSpace r.2).tail)
        else (false, tagName, r.2)
      else (false, [], r.2)
    else (false, [], c :: rest)

end reflectJson

namespace LogTocElement

open reflectIO reflectJson

/-- `writeKeyValue` of a property whose value is written as `valueText`. -/
def writeKeyValue (propName valueText : Str) (indent : Nat) (noSep : Bool) : Str :=
  (if noSep then [] else writeSeparator) ++ lineIndent indent
    ++ [quote] ++ propName ++ [quote, colon, ' '] ++ valueText

/-- `writeProperties(output, NULL, elemBase, elemProp, indent, noSep)` for an element: its
six key values between braces. -/
def writeProperties (e : LogTocElement) (indent : Nat) (noSep : Bool) : Str :=
  (if noSep then [] else writeSeparator) ++ lineIndent indent ++ [openBrace]
    ++ writeKeyValue "name".toList (stringr.write e.name) (indent + 1) true
    ++ writeKeyValue "group".toList (stringr.write e.group) (indent + 1) false
    ++ writeKeyValue "ctype".toList (stringr.write e.ctype) (indent + 1) false
    ++ writeKeyValue "pytype".toList (stringr.write e.pytype) (indent + 1) false
    ++ writeKeyValue "ident".toList (uint16r.write e.ident) (indent + 1) false
    ++ writeKeyValue "access".toList (uint8r.write e.access) (indent + 1) false
    ++ lineIndent indent ++ [closeBrace]

/-- `readContentTag` with the table of `LogTocElement`: the stream and the element after the
call. The tag of an unknown name is skipped with `readAnyBody`. -/
def readContentTag (input : Str) (e : LogTocElement) : Str × LogTocElement :=
  let t := readTag input
  if t.1 then
    let v := readValueBody t.2.2
    if t.2.1 = "name".toList then
      (v.2, if v.1.isEmpty then e else { e with name := stringr.read v.1 e.name })
    else if t.2.1 = "group".toList then
      (v.2, if v.1.isEmpty then e else { e with group := stringr.read v.1 e.group })
    else if t.2.1 = "ctype".toList then
      (v.2, if v.1.isEmpty then e else { e with ctype := stringr.read v.1 e.ctype })
    else if t.2.1 = "pytype".toList then
      (v.2, if v.1.isEmpty then e else { e with pytype := stringr.read v.1 e.pytype })
    else if t.2.1 = "ident".toList then
      (v.2, if v.1.isEmpty then e else { e with ident := uint16r.read v.1 e.ident })
    else if t.2.1 = "access".toList then
      (v.2, if v.1.isEmpty then e else { e with access := uint8r.read v.1 e.access })
    else (readAnyBody t.2.2, e)
  else (t.2.2, e)

/-- `readContentTags` with the table of `LogTocElement`. A call of `readContentTag` that
reads nothing changes nothing, and the loop repeats it without end. -/
def readContentTags : Nat → Str → LogTocElement → Except Fault LogTocElement
  | 0, _, _ => .error .diverges
  | fuel + 1, input, e =>
    if eof input then .ok e
    else
      let r := readContentTag input e
      if r.1.length < input.length then readContentTags fuel r.1 r.2
      else .error .diverges

/-- `readPropertyVector` for a vector of elements: each turn of the loop reads a struct body,
fills a new element from it and pushes it. A turn that reads nothing pushes an element and
the loop repeats it without end. -/
def readPropertyVector :
    Nat → Str → List LogTocElement → Except Fault (List LogTocElement)
  | 0, _, _ => .error .diverges
  | fuel + 1, input, vect =>
    if eof input then .ok vect
    else
      let b := readStructBody input
      match readContentTags (b.1.length + 1) b.1 LogTocElement.default with
      | .error f => .error f
      | .ok elem =>
        if b.2.length < input.length then readPropertyVector fuel b.2 (vect ++ [elem])
        else .error .diverges

end LogTocElement

namespace LogTocGroup

open reflectIO reflectJson

/-- The constructor `LogTocGroup()`. -/
def default : LogTocGroup := { name := [], elements := [] }

/-- The elements of `writePropertyVector`, one after the other. -/
def writeElements (indent : Nat) : List LogTocElement → Bool → Str
  | [], _ => []
  | e :: es, aSep => e.writeProperties indent aSep ++ writeElements indent es false

/-- `writeProperties(output, NULL, elemBase, elemProp, indent, noSep)` for a group: its name
and, when it has an element, the vector of its elements. -/
def writeProperties (g : LogTocGroup) (indent : Nat) (noSep : Bool) : Str :=
  (if noSep then [] else writeSeparator) ++ lineIndent indent ++ [openBrace]
    ++ LogTocElement.writeKeyValue "name".toList (stringr.write g.name) (indent + 1) true
    ++ (if g.elements.length > 0 then
          writeSeparator ++ lineIndent (indent + 1)
            ++ [quote] ++ "elements".toList ++ [quote, colon, ' ', openBracket]
            ++ writeElements (indent + 2) g.elements true
            ++ lineIndent (indent + 1) ++ [closeBracket]
        else [])
    ++ lineIndent indent ++ [closeBrace]

/-- `readContentTag` with the table of `LogTocGroup`. -/
def readContentTag (input : Str) (g : LogTocGroup) : Except Fault (Str × LogTocGroup) :=
  let t := readTag input
  if t.1 then
    if t.2.1 = "name".toList then
      let v := readValueBody t.2.2
      .ok (v.2, if v.1.isEmpty then g else { g with name := stringr.read v.1 g.name })
    else if t.2.1 = "elements".toList then
      let b := readArrayBody t.2.2
      match LogTocElement.readPropertyVector (b.1.length + 1) b.1 g.elements with
      | .error f => .error f
      | .ok elements => .ok (b.2, { g with elements := elements })
    else .ok (readAnyBody t.2.2, g)
  else .ok (t.2.2, g)

/-- `readContentTags` with the table of `LogTocGroup`. -/
def readContentTags : Nat → Str → LogTocGroup → Except Fault LogTocGroup
  | 0, _, _ => .error .diverges
  | fuel + 1, input, g =>
    if eof input then .ok g
    else
      match readContentTag input g with
      | .error f => .error f
      | .ok r =>
        if r.1.length < input.length then readContentTags fuel r.1 r.2
        else .error .diverges

/-- `readPropertyVector` for a vector of groups. -/
def readPropertyVector : Nat → Str → List LogTocGroup → Except Fault (List LogTocGroup)
  | 0, _, _ => .error .diverges
  | fuel + 1, input, vect =>
    if eof input then .ok vect
    else
      let b := readStructBody input
      match readContentTags (b.1.length + 1) b.1 LogTocGroup.default with
      | .error f => .error f
      | .ok elem =>
        if b.2.length < input.length then readPropertyVector fuel b.2 (vect ++ [elem])
        else .error .diverges

end LogTocGroup

namespace LogToc

open reflectIO reflectJson

/-- The groups of `writePropertyVector`, one after the other. -/
def writeGroups (indent : Nat) : List LogTocGroup → Bool → Str
  | [], _ => []
  | g :: gs, aSep => g.writeProperties indent aSep ++ writeGroups indent gs false

/-- `write(path)`, that is `reflectJson::writeProperties(path, this, getReflect())`: the text
of the file. -/
def writeText (toc : LogToc) : Str :=
  [openBrace]
    ++ (if toc.groups.length > 0 then
          lineIndent 1 ++ [quote] ++ "groups".toList ++ [quote, colon, ' ', openBracket]
            ++ writeGroups 2 toc.groups true
            ++ lineIndent 1 ++ [closeBracket]
        else [])
    ++ lineIndent 0 ++ [closeBrace]

/-- `readContentTag` with the table of `LogToc`. -/
def readContentTag (input : Str) (toc : LogToc) : Except Fault (Str × LogToc) :=
  let t := readTag input
  if t.1 then
    if t.2.1 = "groups".toList then
      let b := readArrayBody t.2.2
      match LogTocGroup.readPropertyVector (b.1.length + 1) b.1 toc.groups with
      | .error f => .error f
      | .ok groups => .ok (b.2, { toc with groups := groups })
    else .ok (readAnyBody t.2.2, toc)
  else .ok (t.2.2, toc)

/-- `readContentTags` with the table of `LogToc`. -/
def readContentTags : Nat → Str → LogToc → Except Fault LogToc
  | 0, _, _ => .error .diverges
  | fuel + 1, input, toc =>
    if eof input then .ok toc
    else
      match readContentTag input toc with
      | .error f => .error f
      | .ok r =>
        if r.1.length < input.length then readContentTags fuel r.1 r.2
        else .error .diverges

/-- `read(path)`, that is `reflectJson::readProperties(path, getReflect(), this)`, on a file
with the text `text`. -/
def readText (toc : LogToc) (text : Str) : Except Fault LogToc :=
  let b := readStructBody text
  readContentTags (b.1.length + 1) b.1 toc

end LogToc

namespace LogToc

/-- `tocExists`: whether the cache directory holds a file for the CRC. -/
def tocExists (cache : Option (List (Nat × Str))) (_crc : Nat) : Bool :=
  match cache with
  | some files => (files.lookup _crc).isSome
  | none => false

/-- `read(crc)`: the cache file of the CRC is read into the TOC; the result tells whether the
TOC then has a group. -/
def read (toc : LogToc) (cache : Option (List (Nat × Str))) (crc : Nat) :
    Except Fault (Bool × LogToc) :=
  match cache with
  | some files =>
    match files.lookup crc with
    | some text =>
      match toc.readText text with
      | .error f => .error f
      | .ok toc1 => .ok (decide (toc1.groups.length > 0), toc1)
    | none => .ok (false, toc)
  | none => .ok (false, toc)

/-- `write(crc)`: the text of the TOC becomes the cache file of the CRC. -/
def write (toc : LogToc) (cache : Option (List (Nat × Str))) (crc : Nat) :
    Bool × Option (List (Nat × Str)) :=
  match cache with
  | some files => (true, some ((crc, toc.writeText) :: files))
  | none => (false, none)

end LogToc

/-- A call through `portConnect`: a null pointer is dereferenced when there is no connection. -/
def cfLog.withPort (s : cfLog) (g : PortConnect → PortConnect) : Except Fault cfLog :=
  match s.portConnect with
  | none => .error .nullDeref
  | some pc => .ok { s with portConnect := some (g pc) }

namespace TocFetcher

/-- The fields `nbr_of_items` and `_crc` read from a TOC info reply. -/
def readInfo (f : TocFetcher) (pk : Packet) : TocFetcher :=
  let buffer : PackUtils.Buffer := fun i => pk.payload (i + 1)
  if f._useV2 then
    let u1 := PackUtils.unpack_uint16 buffer 0
    let u2 := PackUtils.unpack_uint32 buffer (0 + u1.2)
    { f with nbr_of_items := u1.1, _crc := u2.1 }
  else
    let u1 := PackUtils.unpack_uint8 buffer 0
    let u2 := PackUtils.unpack_uint32 buffer (0 + u1.2)
    { f with nbr_of_items := u1.1, _crc := u2.1 }

/-- The lookup of the reported CRC in memory and in the cache: `wasFound` and the engine. -/
def lookupToc (f : TocFetcher) (s : cfLog) : Except Fault (Bool × cfLog) :=
  if s.toc.crc == f._crc then
    match ({ s with resetComplete := true } : cfLog).withPort PortConnect.logResetComplete with
    | .ok s1 => .ok (true, s1)
    | .error e => .error e
  else if LogToc.tocExists s.tocCache f._crc then
    match s.toc.read s.tocCache f._crc with
    | .error e => .error e
    | .ok r =>
      let s1 : cfLog := { s with toc := r.2, resetComplete := r.1 }
      if r.1 then
        match s1.withPort PortConnect.logResetComplete with
        | .ok s2 => .ok (true, s2)
        | .error e => .error e
      else .ok (false, s1)
  else .ok (false, s)

/-- The branch `state == GET_TOC_INFO` of `_new_packet_cb`. -/
def onTocInfo (f : TocFetcher) (s : cfLog) (pk : Packet) : Except Fault (TocFetcher × cfLog) :=
  let f1 := f.readInfo pk
  match f1.lookupToc s with
  | .error e => .error e
  | .ok r =>
    if r.1 then .ok (f1, r.2)
    else
      let f2 := { f1 with state := GET_TOC_ELEMENT, requested_index := 0 }
      if f2.nbr_of_items > 0 then
        match r.2.portConnect with
        | none => .error .nullDeref
        | some pc =>
          let q := f2.request_toc_element pc f2.requested_index
          .ok (q.1, { r.2 with portConnect := some q.2 })
      else .ok (f2, r.2)

/-- The branch `state == GET_TOC_ELEMENT` of `_new_packet_cb`. -/
def onTocElement (f : TocFetcher) (s : cfLog) (pk : Packet) :
    Except Fault (TocFetcher × cfLog) :=
  let buffer : PackUtils.Buffer := fun i => pk.payload (i + 1)
  let ident := if f._useV2 then (PackUtils.unpack_uint16 buffer 0).1 else PackUtils.peek buffer 0
  let data : PackUtils.Buffer :=
    if f._useV2 then fun i => buffer (i + 2) else fun i => buffer (i + 1)
  if ident == f.requested_index then
    let toc1 := s.toc.add_element (LogTocElement.ofData ident data)
    let s1 : cfLog := { s with toc := toc1 }
    let finished : Except Fault cfLog :=
      if (ident : Int) == (f.nbr_of_items : Int) - 1 then
        ({ s1 with tocCache := (toc1.write s1.tocCache f._crc).2, resetComplete := true }
          : cfLog).withPort PortConnect.logResetComplete
      else .ok s1
    match finished with
    | .error e => .error e
    | .ok s2 =>
      if f.requested_index < (f.nbr_of_items + 4294967295) % 4294967296 then
        let f1 := { f with requested_index := (f.requested_index + 1) % 4294967296 }
        match s2.portConnect with
        | none => .error .nullDeref
        | some pc =>
          let q := f1.request_toc_element pc f1.requested_index
          .ok (q.1, { s2 with portConnect := some q.2 })
      else .ok (f, s2)
  else .ok (f, s)

/-- `_new_packet_cb` of the fetcher at position `k` of `tocfetcherCallbacks`. -/
def _new_packet_cb (s : cfLog) (k : Nat) (pk : Packet) : Except Fault cfLog :=
  match s.tocfetcherCallbacks.get? k with
  | none => .error .outOfBounds
  | some f =>
    if pk.channel == 0 then
      if f.state == GET_TOC_INFO then
        match f.onTocInfo s pk with
        | .ok r => .ok { r.2 with tocfetcherCallbacks := r.2.tocfetcherCallbacks.set k r.1 }
        | .error e => .error e
      else if f.state == GET_TOC_ELEMENT then
        match f.onTocElement s pk with
        | .ok r => .ok { r.2 with tocfetcherCallbacks := r.2.tocfetcherCallbacks.set k r.1 }
        | .error e => .error e
      else .ok s
    else .ok s

end TocFetcher

namespace cfLog

/-- The constructor `cfLog()`, for an engine whose TOC cache directory is `cache`. -/
def init (cache : Option (List (Nat × Str))) : cfLog :=
  { portConnect := none, connected := false, resetComplete := false, toc := LogToc.empty,
    tocCache := cache, blockList := fun _ => none, blockListSize := 0,
    tocfetcherCallbacks := [], protocolVersion := 0xff, useV2 := false }

/-- `setConnection`. -/
def setConnection (s : cfLog) (_portConnect : Option PortConnect) : cfLog :=
  let s1 := { s with portConnect := _portConnect }
  match _portConnect with
  | some pc =>
    match pc.platform with
    | some version =>
      { s1 with resetComplete := false, protocolVersion := version % 256,
                useV2 := decide (version % 256 ≥ 4) }
    | none => s1
  | none => s1

/-- The store `blockList[id] = block`. -/
def setBlock (s : cfLog) (id : Nat) (block : LogConfig) : cfLog :=
  { s with blockList := fun i => if i = id then some block else s.blockList i }

/-- `clearBlockList`: the slots below `blockListSize` are set to null and the size to 0. -/
def clearBlockList (s : cfLog) : cfLog :=
  { s with blockListSize := 0,
           blockList := fun i => if i < s.blockListSize then none else s.blockList i }

/-- The first loop of `add_config`, at index `i`: each variable of `default_fetch_as` found
in the TOC gets `fetch_as = (typeDex)element.ident.n` and is added with `add_variable`. The
first argument bounds the number of passes. -/
def resolveLoop (toc : LogToc) : Nat → Nat → LogConfig → Except Fault LogConfig
  | 0, _, _ => .error .diverges
  | fuel + 1, i, config =>
    match config.default_fetch_as.get? i with
    | none => .ok config
    | some var =>
      match toc.get_element_by_complete_name var.name with
      | some element =>
        let var1 := { var with fetch_as := element.ident % 256 }
        let config1 := { config with default_fetch_as := config.default_fetch_as.set i var1 }
        resolveLoop toc fuel (i + 1) (config1.add_variable var1)
      | none => resolveLoop toc fuel (i + 1) { config with valid := false }

/-- The second loop of `add_config`: `(configSize, valid)` after the variables. -/
def checkVariables (toc : LogToc) (vars : List LogVariable) (valid : Bool) : Nat × Bool :=
  vars.foldl
    (fun acc var =>
      let configSize := acc.1 + LogTocElement.get_size_from_id var.fetch_as
      if var.is_toc_variable then
        match toc.get_element_by_complete_name (c_str var.name) with
        | some _ => (configSize, acc.2)
        | none => (configSize, false)
      else (configSize, acc.2))
    (0, valid)

/-- `add_config`: returns the result, the block and the engine. The store into `blockList`
is outside the array when `blockListSize` has reached `MAX_BLOCKS`. -/
def add_config (s : cfLog) (config : LogConfig) : Except Fault (Bool × LogConfig × cfLog) :=
  match s.portConnect with
  | none => .ok (false, config, s)
  | some _ =>
    match resolveLoop s.toc (config.default_fetch_as.length + 1) 0
        { config with valid := true } with
    | .error e => .error e
    | .ok config1 =>
      let r := checkVariables s.toc config1.vars config1.valid
      let config2 := { config1 with valid := r.2 }
      if config2.valid && decide (r.1 < LogConfig.MAX_LEN)
          && decide (config2.period > 0) && decide (config2.period < 0xff) then
        let id := s.blockListSize
        if id < MAX_BLOCKS then
          let config3 :=
            { config2 with log := true, id := id % 256,
                           useV2 := decide (s.protocolVersion ≥ 4) }
          let s1 := { s.setBlock id config3 with blockListSize := (s.blockListSize + 1) % 256 }
          match config3.start s1 with
          | .error e => .error e
          | .ok q =>
            let config4 := { q.2.1 with connected := true }
            .ok (true, config4, q.2.2.setBlock id config4)
        else .error .outOfBounds
      else .ok (false, config2, s)

/-- The packet `[command]` of `_send_reset_packet` and `_send_stop`. -/
def bytePacket (command : Nat) : Packet :=
  let pk := (Packet.empty.setPort LOGGING).setChannel CHAN_SETTINGS
  ({ pk with payload := PackUtils.poke pk.payload 0 command } : Packet).setPayloadSize 1

/-- `_send_reset_packet`. -/
def _send_reset_packet (s : cfLog) : cfLog :=
  match s.portConnect with
  | some pc =>
    { s with useV2 := decide (s.protocolVersion ≥ 4),
             portConnect := some (pc.send_packet (bytePacket CMD_RESET_LOGGING)) }
  | none => s

/-- `reset`. -/
def reset (s : cfLog) : cfLog :=
  _send_reset_packet
    { s with toc := { s.toc with groups := [] }, useV2 := decide (s.protocolVersion ≥ 4) }

/-- `_send_stop`. -/
def _send_stop (s : cfLog) : cfLog :=
  match s.portConnect with
  | some pc =>
    { s with useV2 := decide (s.protocolVersion ≥ 4),
             portConnect := some (pc.send_packet (bytePacket CMD_STOP_LOGGING)) }
  | none => s

/-- `stop`. -/
def stop (s : cfLog) : cfLog :=
  let s1 := s.clearBlockList
  let s2 := if s1.portConnect.isSome then { s1 with toc := { s1.toc with groups := [] } } else s1
  s2._send_stop

/-- A store through the pointer `block` of the settings handler: null when the slot is. -/
def modifyBlock (s : cfLog) (id : Nat) (g : LogConfig → LogConfig) : Except Fault cfLog :=
  match s.blockList id with
  | none => .error .nullDeref
  | some block => .ok (s.setBlock id (g block))

/-- The reply to `CMD_CREATE_BLOCK` or `CMD_CREATE_BLOCK_V2` in the settings handler. -/
def onCreateReply (s : cfLog) (id errorStatus : Nat) : Except Fault cfLog :=
  if errorStatus == 0 || errorStatus == EEXIST then
    match s.blockList id with
    | none => .error .nullDeref
    | some block =>
      if !block.added then
        match s.withPort (fun pc => pc.send_packet (LogConfig.startPacket id block.period)) with
        | .error e => .error e
        | .ok s1 => .ok (s1.setBlock id { block with added := true, pending := 0 })
      else
        .ok (s.setBlock id { block with err_no := errorStatus, added := false, pending := 0 })
  else .ok s

/-- The branch `channel == CHAN_SETTINGS` of `_new_packet_cb`. -/
def onSettings (s : cfLog) (pk : Packet) : Except Fault cfLog :=
  let command := PackUtils.peek pk.payload 0
  if pk.size > 1 then
    let id := PackUtils.peek pk.payload 1
    let errorStatus := PackUtils.peek pk.payload 2
    let blockExists := decide (s.blockListSize > id)
    let afterCreate : Except Fault cfLog :=
      if blockExists && (command == CMD_CREATE_BLOCK || command == CMD_CREATE_BLOCK_V2) then
        s.onCreateReply id errorStatus
      else .ok s
    match afterCreate with
    | .error e => .error e
    | .ok s1 =>
      if command == CMD_START_LOGGING then
        if blockExists then
          if errorStatus == 0 then
            s1.modifyBlock id (fun block => { block with started := true })
          else
            s1.modifyBlock id (fun block => { block with err_no := errorStatus, started := false })
        else .ok s1
      else if command == CMD_STOP_LOGGING then
        if errorStatus == 0 then .ok s1.clearBlockList else .ok s1
      else if command == CMD_DELETE_BLOCK then
        if (errorStatus == 0 || errorStatus == ENOENT) && blockExists then
          s1.modifyBlock id
            (fun block => { block with added := false, started := false, pending := 0 })
        else .ok s1
      else if command == CMD_RESET_LOGGING then
        if s1.toc.groups.length == 0 then
          let s2 := s1.clearBlockList
          (TocFetcher.init s2 LOGGING).start s2
        else .ok s1
      else .ok s1
  else .ok s

/-- The branch `channel == CHAN_LOGDATA` of `_new_packet_cb`. -/
def onLogData (s : cfLog) (pk : Packet) : Except Fault cfLog :=
  let id := PackUtils.peek pk.payload 0
  if s.blockListSize > id then
    match s.blockList id with
    | none => .error .nullDeref
    | some block =>
      let block1 := { block with started := true }
      let buffer : PackUtils.Buffer := fun i => pk.payload (i + 1)
      let t0 := PackUtils.unpack_uint8 buffer 0
      let t1 := PackUtils.unpack_uint8 buffer (0 + t0.2)
      let t2 := PackUtils.unpack_uint8 buffer (0 + t0.2 + t1.2)
      let index := 0 + t0.2 + t1.2 + t2.2
      let timestamp := t0.1 ||| (t1.1 <<< 8) ||| (t2.1 <<< 16)
      match block1.unpack_log_data (fun i => buffer (i + index)) timestamp with
      | .error e => .error e
      | .ok block2 => .ok (s.setBlock id block2)
  else .ok s

/-- The branch `channel == TOC_CHANNEL` of `_new_packet_cb`: the fetchers from position `k`
on, `n` of them. -/
def onToc (pk : Packet) (command : Nat) : Nat → Nat → cfLog → Except Fault cfLog
  | 0, _, s => .ok s
  | n + 1, k, s =>
    match s.tocfetcherCallbacks.get? k with
    | none => .ok s
    | some tfetch =>
      if tfetch.expectedReply == command then
        match TocFetcher._new_packet_cb s k pk with
        | .error e => .error e
        | .ok s1 => onToc pk command n (k + 1) s1
      else onToc pk command n (k + 1) s

/-- `_new_packet_cb`. -/
def _new_packet_cb (s : cfLog) (pk : Packet) : Except Fault cfLog :=
  if pk.size > 0 then
    if pk.port == LOGGING then
      let command := PackUtils.peek pk.payload 0
      if pk.channel == CHAN_SETTINGS then s.onSettings pk
      else if pk.channel == CHAN_LOGDATA then s.onLogData pk
      else if pk.channel == TOC_CHANNEL then
        onToc pk command s.tocfetcherCallbacks.length 0 s
      else .ok s
    else .ok s
  else .ok s

end cfLog

/-! ## `pttype.h`: the parameter TOC types -/

structure ptType where
  name : Str
  pytype : Str
  size : Nat
  deriving DecidableEq, Repr

def ptInt8 : Nat := 0
def ptInt16 : Nat := 1
def ptInt32 : Nat := 2
def ptInt64 : Nat := 3
def ptFP8 : Nat := 4
def ptFP16 : Nat := 5
def ptFloat32 : Nat := 6
def ptFloat64 : Nat := 7
def ptUint8 : Nat := 8
def ptUint16 : Nat := 9
def ptUint32 : Nat := 10
def ptUint64 : Nat := 11
def ptNone : Nat := 0xff

def ptTypes : List ptType :=
  [ ⟨"int8_t".toList, "<b".toList, 1⟩,
    ⟨"int16_t".toList, "<h".toList, 2⟩,
    ⟨"int32_t".toList, "<i".toList, 4⟩,
    ⟨"int64_t".toList, "<q".toList, 8⟩,
    ⟨"FP8".toList, "".toList, 1⟩,
    ⟨"FP16".toList, "".toList, 2⟩,
    ⟨"float32_t".toList, "<f".toList, 4⟩,
    ⟨"float64_t".toList, "<d".toList, 8⟩,
    ⟨"uint8_t".toList, "<B".toList, 1⟩,
    ⟨"uint16_t".toList, "<H".toList, 2⟩,
    ⟨"uint32_t".toList, "<L".toList, 4⟩,
    ⟨"uint64_t".toList, "<Q".toList, 8⟩ ]

def gPtTypesSize : Nat := 12
def gPtMaxType : Nat := gPtTypesSize - 1
def RW_ACCESS : Nat := 0
def RO_ACCESS : Nat := 1
def EXTENDED_PERSISTENT : Nat := 1
def ptTypeNotFound : Nat := 0xff

/-! ## The parameter table of contents

The header `paramtoc.h` that `param.h` includes is not among the sources. The engine uses its
element type, its static type helpers and three of its lookups; they are modelled here on the
log table of contents, which the text describes together with it. -/

/-- Modelled from the spec: a TOC element is the tuple `(id, group, name, ctype, flags)`; for
parameters the flags carry the read-only bit and the deferred "is-extended" bit. -/
structure ParamTocElement where
  name : Str
  group : Str
  ctype : Str
  pytype : Str
  ident : Nat
  access : Nat
  extended : Bool
  persistent : Bool
  deriving DecidableEq, Repr

namespace ParamTocElement

/-- Modelled from the spec: the element a failed lookup refers to; its identifier is
`NO_IDENT`. -/
def notFound : ParamTocElement :=
  { name := [], group := [], ctype := [], pytype := [], ident := NO_IDENT, access := 0,
    extended := false, persistent := false }

/-- Modelled from the spec: each kind has a textual name; `get_id_from_cstring` is the index
of the first entry of `ptTypes` with that name. -/
def get_id_from_cstring (name : Str) : Nat :=
  match ptTypes.findIdx? (fun t => name == t.name) with
  | some i => i
  | none => ptTypeNotFound

/-- Modelled from the spec: each kind has a fixed on-wire size; `get_size_from_id` is the
size of the entry of `ptTypes`, 0 when the id is not one of the table. -/
def get_size_from_id (id : Nat) : Nat :=
  if id < gPtTypesSize then
    match ptTypes.get? id with
    | some t => t.size
    | none => 0
  else 0

/-- Modelled from the spec: the integer kinds are i8, i16, i32, i64, u8, u16, u32, u64. -/
def is_integer (ctype : Nat) : Bool :=
  ctype == ptInt8 || ctype == ptInt16 || ctype == ptInt32 || ctype == ptInt64
    || ctype == ptUint8 || ctype == ptUint16 || ctype == ptUint32 || ctype == ptUint64

/-- Modelled from the spec: the signed kinds are i8, i16, i32, i64. -/
def is_signed (ctype : Nat) : Bool :=
  ctype == ptInt8 || ctype == ptInt16 || ctype == ptInt32 || ctype == ptInt64

/-- Modelled from the spec: the deferred "is-extended" bit of the flags. -/
def is_extended (e : ParamTocElement) : Bool := e.extended

end ParamTocElement

/-- Modelled from the spec: a group of the parameter TOC, an ordered list of elements. -/
structure ParamTocGroup where
  name : Str
  elements : List ParamTocElement
  deriving DecidableEq, Repr

/-- Modelled from the spec: the parameter TOC, a CRC plus a sequence of groups. -/
structure ParamToc where
  crc : Nat
  groups : List ParamTocGroup
  deriving DecidableEq, Repr

namespace ParamToc

/-- Modelled from the spec: the empty TOC. -/
def empty : ParamToc := { crc := 0, groups := [] }

/-- Modelled from the spec: `get_id_count`, the number of elements of the TOC (identifiers
are dense from 0). -/
def get_id_count (toc : ParamToc) : Nat :=
  (toc.groups.map (fun g => g.elements.length)).sum

/-- Modelled from the spec: lookup by "group.name", as `LogToc::get_element_by_name` does it;
the result is the element `notFound` when there is none. -/
def get_element_by_complete_name (toc : ParamToc) (completeName : Str) : ParamTocElement :=
  match completeName.indexOf? '.' with
  | some nameStart =>
    let groupName := completeName.take nameStart
    let elemName := completeName.drop (nameStart + 1)
    match toc.groups.find? (fun g => g.name == c_str groupName) with
    | some g =>
      match g.elements.find? (fun e => e.name == c_str elemName) with
      | some e => e
      | none => ParamTocElement.notFound
    | none => ParamTocElement.notFound
  | none => ParamTocElement.notFound

end ParamToc

/-! ## `param.h`: the parameter engine

The value cells are held by value in the slots of `values`; a null slot is `none`. The TOC
fetcher of the engine builds its elements with a constructor of `paramtoc.h` and is left
out. -/

def PARAM : Nat := 0x02

/-- A `double` argument, given by what the conversions of the source make of it: the casts to
`int64_t` and to `uint64_t`, the object representation of its cast to `float` and its own
object representation. -/
structure DoubleArg where
  toInt64 : Int
  toUint64 : Nat
  float32Bits : Nat
  float64Bits : Nat
  deriving DecidableEq, Repr

/-- `Param::ParamValue`. -/
structure ParamValue where
  _value : Nat
  _ident : Nat
  _ctype : Nat
  _csize : Nat
  _state : Nat
  deriving DecidableEq, Repr

namespace ParamValue

def REQUEST_NONE : Nat := 0 <<< 8
def REQUEST_READ : Nat := 1 <<< 8
def REQUEST_WRITE : Nat := 2 <<< 8
def PENDING : Nat := 0
def REQUESTED : Nat := 1
def SET : Nat := 2

/-- The constructor `ParamValue()`. -/
def default : ParamValue :=
  { _value := 0, _ident := 0, _ctype := 0, _csize := 0, _state := PENDING ||| REQUEST_NONE }

/-- The `int8_t` whose object representation is the byte `raw`. -/
def int8OfBits (raw : Nat) : Int :=
  if raw % 256 < 128 then (raw % 256 : Nat) else ((raw % 256 : Nat) : Int) - 256

/-- The `int64_t` whose object representation is the unsigned 64-bit value `raw`. -/
def int64OfBits (raw : Nat) : Int :=
  if raw % 2 ^ 64 < 2 ^ 63 then (raw % 2 ^ 64 : Nat) else ((raw % 2 ^ 64 : Nat) : Int) - 2 ^ 64

/-- `getIntValue`: the member of the union chosen by the switch on `_ctype`. -/
def getIntValue (c : ParamValue) : Int :=
  if c._ctype = ptInt8 then int8OfBits (c._value % 256)
  else if c._ctype = ptInt16 then PackUtils.int16OfBits (c._value % 65536)
  else if c._ctype = ptInt32 then PackUtils.int32OfBits (c._value % 4294967296)
  else if c._ctype = ptInt64 then int64OfBits c._value
  else 0

/-- `getUintValue`: the case labels of the switch are `ptUint8`, `ptInt16`, `ptInt32` and
`ptInt64`. -/
def getUintValue (c : ParamValue) : Nat :=
  if c._ctype = ptUint8 then c._value % 256
  else if c._ctype = ptInt16 then c._value % 65536
  else if c._ctype = ptInt32 then c._value % 4294967296
  else if c._ctype = ptInt64 then c._value % 2 ^ 64
  else 0

/-- `setValue(int64_t)`. -/
def setValue_int64 (c : ParamValue) (value64 : Int) : ParamValue :=
  let value : Nat :=
    if c._ctype = ptInt8 then (value64 % 256).toNat
    else if c._ctype = ptInt16 then (value64 % 65536).toNat
    else if c._ctype = ptInt32 then (value64 % 4294967296).toNat
    else if c._ctype = ptInt64 then (value64 % 2 ^ 64).toNat
    else 0
  { c with _value := value }

/-- `setValue(uint64_t)`: the case labels of the switch are `ptUint8`, `ptInt16`, `ptInt32`
and `ptInt64`. -/
def setValue_uint64 (c : ParamValue) (value64 : Nat) : ParamValue :=
  let value : Nat :=
    if c._ctype = ptUint8 then value64 % 256
    else if c._ctype = ptInt16 then value64 % 65536
    else if c._ctype = ptInt32 then value64 % 4294967296
    else if c._ctype = ptInt64 then value64 % 2 ^ 64
    else 0
  { c with _value := value }

/-- `setValue(double)`. -/
def setValue (c : ParamValue) (valued : DoubleArg) : ParamValue :=
  if ParamTocElement.is_integer c._ctype then
    if ParamTocElement.is_signed c._ctype then c.setValue_int64 valued.toInt64
    else c.setValue_uint64 (valued.toUint64 % 2 ^ 64)
  else
    let value : Nat :=
      if c._ctype = ptFloat32 then valued.float32Bits % 4294967296
      else if c._ctype = ptFloat64 then valued.float64Bits % 2 ^ 64
      else 0
    { c with _value := value }

/-- The loop `for (i = 0; i < _csize; i++) buffer[i] = data[i]` of `set`. -/
def copyBytes (data : PackUtils.Buffer) : Nat → PackUtils.Buffer → PackUtils.Buffer
  | 0, buffer => buffer
  | count + 1, buffer =>
    PackUtils.poke (copyBytes data count buffer) count (PackUtils.peek data count)

/-- The 64-bit member `value` of the union of `set`, read from its eight bytes. -/
def unionValue (buffer : PackUtils.Buffer) : Nat :=
  ((List.range 8).map (fun i => PackUtils.peek buffer i * 256 ^ i)).sum

/-- `set`: the union has eight bytes, so a `_csize` above 8 writes outside it. -/
def set (c : ParamValue) (data : PackUtils.Buffer) : Except Fault ParamValue :=
  if c._csize ≤ 8 then
    .ok { c with _value := unionValue (copyBytes data c._csize (fun _ => 0)),
                 _state := SET ||| REQUEST_NONE }
  else .error .outOfBounds

end ParamValue

/-- The state of `Param`. `idCount` is an `int32_t`; the queues hold their items oldest
first. -/
structure Param where
  portConnect : Option PortConnect
  resetComplete : Bool
  toc : ParamToc
  values : List (Option ParamValue)
  updateQueue : List Nat
  extendedTypeQueue : List Nat
  idCount : Int
  running : Bool
  extendedRequestIdent : Nat
  extendedState : Nat
  updateState : Nat
  protocolVersion : Nat
  useV2 : Bool

namespace Param

def READ_CHANNEL : Nat := 1
def WRITE_CHANNEL : Nat := 2
def MISC_CHANNEL : Nat := 3
def MISC_GET_EXTENDED_TYPE : Nat := 2

def EXTENDED_PENDING : Nat := 0
def EXTENDED_REQUEST : Nat := 1
def EXTENDED_SET : Nat := 2

def ALL_PARAMS_PENDING : Nat := 0
def ALL_PARAMS_REQUESTED : Nat := 1
def ALL_PARAMS_DONE : Nat := 2

/-- The constructor `Param()`, with the initial values of the members. -/
def init : Param :=
  { portConnect := none, resetComplete := false, toc := ParamToc.empty, values := [],
    updateQueue := [], extendedTypeQueue := [], idCount := 0, running := false,
    extendedRequestIdent := NO_IDENT, extendedState := EXTENDED_PENDING,
    updateState := ALL_PARAMS_PENDING, protocolVersion := 0xff, useV2 := false }

/-- The slot `values[i]`: `none` when the pointer is null (or `i` is outside the vector). -/
def cell (p : Param) (i : Nat) : Option ParamValue := (p.values.get? i).join

/-- The store `*values[i] = c` into the cell a slot points to, or `values[i] = c`. -/
def setCell (p : Param) (i : Nat) (c : ParamValue) : Param :=
  { p with values := p.values.set i (some c) }

/-- `clear`; the worker thread is joined when it runs. -/
def clear (p : Param) : Param :=
  { p with running := false, values := [], toc := ParamToc.empty, resetComplete := false,
           protocolVersion := 0xff, useV2 := false, updateQueue := [],
           extendedTypeQueue := [], updateState := ALL_PARAMS_PENDING }

/-- `setConnection`. -/
def setConnection (p : Param) (_portConnect : Option PortConnect) : Param :=
  let p1 := { p with portConnect := _portConnect }
  match _portConnect with
  | some pc =>
    match pc.platform with
    | some version =>
      let p2 := p1.clear
      { p2 with protocolVersion := version % 256, useV2 := decide (version % 256 ≥ 4),
                running := true }
    | none => p1
  | none => p1

/-- The vector after `values.resize(n, NULL)`. -/
def resize (values : List (Option ParamValue)) (n : Nat) : List (Option ParamValue) :=
  values.take n ++ List.replicate (n - values.length) none

/-- `toc_complete`. -/
def toc_complete (p : Param) : Param :=
  let idCount := p.toc.get_id_count
  let values := resize p.values idCount
  let queued :=
    (p.toc.groups.flatMap (fun g => g.elements)).filter
      (fun e => e.is_extended && decide (e.ident < values.length))
  { p with idCount := idCount, values := values,
           extendedTypeQueue := p.extendedTypeQueue ++ queued.map (fun e => e.ident),
           resetComplete := queued.isEmpty }

/-- `request_param_update`. -/
def request_param_update (p : Param) (completeName : Str) : Param :=
  let element := p.toc.get_element_by_complete_name completeName
  if element.ident != NO_IDENT then
    let ident := element.ident
    if ident < p.values.length then
      let p1 :=
        match p.cell ident with
        | none =>
          let ctype := ParamTocElement.get_id_from_cstring element.ctype
          p.setCell ident
            { ParamValue.default with
              _ctype := ctype, _csize := ParamTocElement.get_size_from_id ctype,
              _state := ParamValue.PENDING ||| ParamValue.REQUEST_READ }
        | some c =>
          p.setCell ident { c with _state := ParamValue.PENDING ||| ParamValue.REQUEST_READ }
      { p1 with updateQueue := p1.updateQueue ++ [ident] }
    else p
  else p

/-- `request_update_of_all_params`. -/
def request_update_of_all_params (p : Param) : Param :=
  let p1 :=
    if p.resetComplete then
      (p.toc.groups.flatMap (fun g => g.elements)).foldl
        (fun q e => q.request_param_update (e.group ++ '.' :: e.name)) p
    else p
  { p1 with updateState := ALL_PARAMS_REQUESTED }

/-- The call `values[ident]->setValue(value)` through the slot of the vector. -/
def slotSetValue (slot : Option ParamValue) (value : DoubleArg) : Except Fault ParamValue :=
  match slot with
  | some c => .ok (c.setValue value)
  | none => .error .nullDeref

/-- `set_value(uint16_t, uint8_t, double)`: the result and the state after the call. In the
branch of a null slot the call `values[ident]->setValue(value)` comes before the assignment
`values[ident] = paramValue`. -/
def set_value (p : Param) (ident _cType : Nat) (value : DoubleArg) :
    Except Fault (Bool × Param) :=
  if ident != NO_IDENT then
    if ident < p.values.length then
      match p.cell ident with
      | none =>
        let paramValue : ParamValue :=
          { ParamValue.default with
            _ctype := _cType, _csize := ParamTocElement.get_size_from_id _cType,
            _state := ParamValue.PENDING ||| ParamValue.REQUEST_WRITE }
        match slotSetValue (p.cell ident) value with
        | .error f => .error f
        | .ok _ =>
          let p1 := p.setCell ident paramValue
          .ok (true, { p1 with updateQueue := p1.updateQueue ++ [ident] })
      | some _ =>
        match slotSetValue (p.cell ident) value with
        | .error f => .error f
        | .ok c =>
          let p1 :=
            p.setCell ident { c with _state := ParamValue.PENDING ||| ParamValue.REQUEST_WRITE }
          .ok (true, { p1 with updateQueue := p1.updateQueue ++ [ident] })
    else .ok (false, p)
  else .ok (false, p)

/-- The identifier `var_id` and the index behind it that `_param_updated` reads from the
payload, from the index `id_index` on. -/
def readId (useV2 : Bool) (data : PackUtils.Buffer) (id_index : Nat) : Nat × Nat :=
  if useV2 then
    let u := PackUtils.unpack_uint16 data id_index
    (u.1, id_index + u.2)
  else (PackUtils.peek data id_index, id_index + 1)

/-- `_param_updated`. The element that `toc.get_element_by_id` returns in the branch of the
extended request is a copy, so `mark_persistent` leaves the TOC as it is. -/
def _param_updated (p : Param) (pk : Packet) : Except Fault Param :=
  let channel := pk.channel
  let id_index0 := if channel = MISC_CHANNEL then 1 else 0
  let data := pk.payload
  let var_id := (readId p.useV2 data id_index0).1
  let id_index := (readId p.useV2 data id_index0).2
  if channel = MISC_CHANNEL ∧ var_id = p.extendedRequestIdent then
    if p.extendedState = EXTENDED_REQUEST then .ok { p with extendedState := EXTENDED_SET }
    else .ok p
  else if var_id < p.values.length then
    match p.cell var_id with
    | some c =>
      if channel = MISC_CHANNEL then
        match c.set (fun i => data (id_index + i)) with
        | .error f => .error f
        | .ok c1 => .ok (p.setCell var_id c1)
      else if channel = READ_CHANNEL then
        match c.set (fun i => data (id_index + 1 + i)) with
        | .error f => .error f
        | .ok c1 =>
          let p1 := p.setCell var_id c1
          if p1.updateState = ALL_PARAMS_REQUESTED then
            if (var_id : Int) = p1.idCount - 1 then
              match p1.portConnect with
              | some pc =>
                .ok { p1 with updateState := ALL_PARAMS_DONE,
                              portConnect := some pc.paramResetComplete }
              | none => .error .nullDeref
            else .ok p1
          else .ok p1
      else
        .ok (p.setCell var_id { c with _state := ParamValue.SET ||| ParamValue.REQUEST_NONE })
    | none => .ok p
  else .ok p

/-- The bytes that `pack(buffer, index, var_id)` or `pack(buffer, index, (uint8_t)var_id)`
writes at the start of a request, and the index behind them. -/
def packId (useV2 : Bool) (buffer : PackUtils.Buffer) (var_id : Nat) : PackUtils.Buffer × Nat :=
  if useV2 then PackUtils.pack_uint16 buffer 0 var_id
  else PackUtils.pack_uint8 buffer 0 (var_id % 256)

/-- The request for the extended type of `var_id` on the MISC channel. -/
def extendedPacket (var_id : Nat) : Packet :=
  let pk := (Packet.empty.setPort PARAM).setChannel MISC_CHANNEL
  let p1 := PackUtils.pack_uint8 pk.payload 0 MISC_GET_EXTENDED_TYPE
  let p2 := PackUtils.pack_uint16 p1.1 (0 + p1.2) var_id
  ({ pk with payload := p2.1 } : Packet).setPayloadSize (0 + p1.2 + p2.2)

/-- The read request for `var_id`. -/
def readPacket (useV2 : Bool) (var_id : Nat) : Packet :=
  let pk := (Packet.empty.setPort PARAM).setChannel READ_CHANNEL
  let p1 := packId useV2 pk.payload var_id
  ({ pk with payload := p1.1 } : Packet).setPayloadSize (0 + p1.2)

/-- The loop `for (i = 0; i < csize; i++) { buffer[index] = data[i]; index++; }` of the
write request, where `data` points to the bytes of `dataClump`. -/
def writeLoop (dataClump index : Nat) : Nat → PackUtils.Buffer → PackUtils.Buffer
  | 0, buffer => buffer
  | i + 1, buffer =>
    PackUtils.poke (writeLoop dataClump index i buffer) (index + i) (PackUtils.byteOf dataClump i)

/-- The write request for `var_id` with the first `csize` bytes of the packed value. -/
def writePacket (useV2 : Bool) (var_id csize dataClump : Nat) : Packet :=
  let pk := (Packet.empty.setPort PARAM).setChannel WRITE_CHANNEL
  let p1 := packId useV2 pk.payload var_id
  let buffer := writeLoop dataClump (0 + p1.2) csize p1.1
  ({ pk with payload := buffer } : Packet).setPayloadSize (0 + p1.2 + csize)

/-- The call `param->portConnect->send_packet(pk, ...)`. -/
def send (p : Param) (pk : Packet) : Except Fault Param :=
  match p.portConnect with
  | some pc => .ok { p with portConnect := some (pc.send_packet pk) }
  | none => .error .nullDeref

/-- The block of the extended queue in one iteration of `queueThreadFunc`, entered with a
queue whose head is `front` and whose other items are `rest`. -/
def extendedStep (p : Param) (front : Nat) (rest : List Nat) : Except Fault Param :=
  let var_id := front % 65536
  if var_id = p.extendedRequestIdent then
    if p.extendedState = EXTENDED_SET then
      let p1 :=
        { p with extendedTypeQueue := rest, extendedState := EXTENDED_PENDING,
                 extendedRequestIdent := NO_IDENT }
      if rest.length = 0 then .ok { p1 with resetComplete := true } else .ok p1
    else .ok p
  else
    if p.extendedRequestIdent = NO_IDENT then
      match p.send (extendedPacket var_id) with
      | .error f => .error f
      | .ok p1 => .ok { p1 with extendedRequestIdent := var_id, extendedState := EXTENDED_REQUEST }
    else .ok p

/-- The block of the update queue in one iteration of `queueThreadFunc`, entered with a
queue whose head is `front` and whose other items are `rest`. The bytes of `dataClump` are
eight, so a `_csize` above 8 reads outside it. -/
def updateStep (useV2 : Bool) (p : Param) (front : Nat) (rest : List Nat) :
    Except Fault Param :=
  let var_id := front % 65536
  if var_id < p.values.length then
    match p.cell var_id with
    | some c =>
      if c._state = (ParamValue.PENDING ||| ParamValue.REQUEST_READ) then
        match p.send (readPacket useV2 var_id) with
        | .error f => .error f
        | .ok p1 =>
          .ok (p1.setCell var_id
            { c with _state := ParamValue.REQUESTED ||| ParamValue.REQUEST_READ })
      else if c._state = (ParamValue.PENDING ||| ParamValue.REQUEST_WRITE) then
        let csize := c._csize % 256
        if csize ≤ 8 then
          match p.send (writePacket useV2 var_id csize c._value) with
          | .error f => .error f
          | .ok p1 =>
            .ok (p1.setCell var_id
              { c with _state := ParamValue.REQUESTED ||| ParamValue.REQUEST_WRITE })
        else .error .outOfBounds
      else if c._state = (ParamValue.SET ||| ParamValue.REQUEST_NONE) then
        .ok { p with updateQueue := rest }
      else .ok p
    | none => .ok { p with updateQueue := rest }
  else .ok { p with updateQueue := rest }

/-- One iteration of the loop of `queueThreadFunc`; `useV2` is the local of the thread, read
from `param->useV2` when the thread starts. -/
def queueIteration (useV2 : Bool) (p : Param) : Except Fault Param :=
  match p.extendedTypeQueue with
  | front :: rest => extendedStep p front rest
  | [] =>
    match p.updateQueue with
    | front :: rest => updateStep useV2 p front rest
    | [] => .ok p

end Param

/-! ## `commander.h`: the setpoint commander -/

def crtpPortCommander : Nat := 3
def crtpPortCommanderGeneric : Nat := 7
def crtpChannelSetpoint : Nat := 0
def crtpChannelMetaCommand : Nat := 1

/-- `Commander`: `connection` is the borrowed `PortConnect`, `none` when the pointer is
null. A `float` argument is given by its 32-bit pattern. -/
structure Commander where
  connection : Option PortConnect

namespace Commander

def SET_SETPOINT_CHANNEL : Nat := 0
def META_COMMAND_CHANNEL : Nat := 1

def crtpTypeStop : Nat := 0
def crtpTypeVelocityWorld : Nat := 1
def crtpTypeZDistance : Nat := 2
def crtpTypeHover : Nat := 5
def crtpTypeFullState : Nat := 6
def crtpTypePosition : Nat := 7
def crtpTypeLand : Nat := 8

/-- The constructor `Commander(portConnect)`. -/
def init (portConnect : Option PortConnect) : Commander := { connection := portConnect }

/-- `send_velocity_world_setpoint`. -/
def send_velocity_world_setpoint (cmd : Commander) (vx vy vz yawrate : Nat) : Commander :=
  match cmd.connection with
  | some pc =>
    let buffer := PackUtils.poke (fun _ => 0) 0 0xFF
    let index := 1
    let p1 := PackUtils.pack_uint8 buffer index crtpTypeVelocityWorld
    let p2 := PackUtils.pack_float p1.1 (index + p1.2) vx
    let p3 := PackUtils.pack_float p2.1 (index + p1.2 + p2.2) vy
    let p4 := PackUtils.pack_float p3.1 (index + p1.2 + p2.2 + p3.2) vz
    let p5 := PackUtils.pack_float p4.1 (index + p1.2 + p2.2 + p3.2 + p4.2) yawrate
    let packet :=
      ((Packet.ofBuffer p5.1 (index + p1.2 + p2.2 + p3.2 + p4.2 + p5.2)).setPort
        crtpPortCommanderGeneric).setChannel SET_SETPOINT_CHANNEL
    { cmd with connection := some (pc.send_packet packet) }
  | none => cmd

/-- `send_zdistance_setpoint`. -/
def send_zdistance_setpoint (cmd : Commander) (roll pitch yawrate zdistance : Nat) :
    Commander :=
  match cmd.connection with
  | some pc =>
    let buffer := PackUtils.poke (fun _ => 0) 0 0xFF
    let index := 1
    let p1 := PackUtils.pack_uint8 buffer index crtpTypeZDistance
    let p2 := PackUtils.pack_float p1.1 (index + p1.2) roll
    let p3 := PackUtils.pack_float p2.1 (index + p1.2 + p2.2) pitch
    let p4 := PackUtils.pack_float p3.1 (index + p1.2 + p2.2 + p3.2) yawrate
    let p5 := PackUtils.pack_float p4.1 (index + p1.2 + p2.2 + p3.2 + p4.2) zdistance
    let packet :=
      ((Packet.ofBuffer p5.1 (index + p1.2 + p2.2 + p3.2 + p4.2 + p5.2)).setPort
        crtpPortCommanderGeneric).setChannel SET_SETPOINT_CHANNEL
    { cmd with connection := some (pc.send_packet packet) }
  | none => cmd

/-- `send_hover_setpoint`. -/
def send_hover_setpoint (cmd : Commander) (vx vy yawrate zdistance : Nat) : Commander :=
  match cmd.connection with
  | some pc =>
    let buffer := PackUtils.poke (fun _ => 0) 0 0xFF
    let index := 1
    let p1 := PackUtils.pack_uint8 buffer index crtpTypeHover
    let p2 := PackUtils.pack_float p1.1 (index + p1.2) vx
    let p3 := PackUtils.pack_float p2.1 (index + p1.2 + p2.2) vy
    let p4 := PackUtils.pack_float p3.1 (index + p1.2 + p2.2 + p3.2) yawrate
    let p5 := PackUtils.pack_float p4.1 (index + p1.2 + p2.2 + p3.2 + p4.2) zdistance
    let packet :=
      ((Packet.ofBuffer p5.1 (index + p1.2 + p2.2 + p3.2 + p4.2 + p5.2)).setPort
        crtpPortCommanderGeneric).setChannel SET_SETPOINT_CHANNEL
    { cmd with connection := some (pc.send_packet packet) }
  | none => cmd

/-- `send_position_setpoint`. -/
def send_position_setpoint (cmd : Commander) (x y z yaw : Nat) : Commander :=
  match cmd.connection with
  | some pc =>
    let buffer := PackUtils.poke (fun _ => 0) 0 0xFF
    let index := 1
    let p1 := PackUtils.pack_uint8 buffer index crtpTypePosition
    let p2 := PackUtils.pack_float p1.1 (index + p1.2) x
    let p3 := PackUtils.pack_float p2.1 (index + p1.2 + p2.2) y
    let p4 := PackUtils.pack_float p3.1 (index + p1.2 + p2.2 + p3.2) z
    let p5 := PackUtils.pack_float p4.1 (index + p1.2 + p2.2 + p3.2 + p4.2) yaw
    let packet :=
      ((Packet.ofBuffer p5.1 (index + p1.2 + p2.2 + p3.2 + p4.2 + p5.2)).setChannel
        SET_SETPOINT_CHANNEL).setPort crtpPortCommanderGeneric
    { cmd with connection := some (pc.send_packet packet) }
  | none => cmd

end Commander

/-! ## `PackUtils.h`: the bit fields of a compressed quaternion -/

namespace PackUtils

/-- The second loop of `quatcompress`, from the index `i` on, `n` turns, with the values of
`negbit` and `mag` of each turn given: the shifting of the fields into `comp`. -/
def assembleLoop (negbit mag : Nat → Nat) (i_largest : Nat) : Nat → Nat → Nat → Nat
  | 0, _, comp => comp
  | n + 1, i, comp =>
    if i ≠ i_largest then
      assembleLoop negbit mag i_largest n (i + 1)
        ((((comp <<< 10) % 4294967296) ||| (negbit i <<< 9)) ||| mag i)
    else assembleLoop negbit mag i_largest n (i + 1) comp

/-- The word that `quatcompress` assembles for the largest index `i_largest` and the given
values of `negbit` and `mag`: `comp` starts as `i_largest`. -/
def assemble (negbit mag : Nat → Nat) (i_largest : Nat) : Nat :=
  assembleLoop negbit mag i_largest 4 0 i_largest

/-- The values of `negbit` and `mag` in the turns of the loop of `quatdecompress`, for
`i = n - 1` down to `0`: the pair read in the turn of each index, `f` for the others. -/
def fieldsLoop (i_largest : Nat) : Nat → Nat → (Nat → Nat × Nat) → Nat → Nat × Nat
  | 0, _, f => f
  | n + 1, comp, f =>
    if n ≠ i_largest then
      let mag := comp &&& 511
      let negbit := (comp >>> 9) &&& 0x1
      fieldsLoop i_largest n (comp >>> 10) (fun j => if j = n then (negbit, mag) else f j)
    else fieldsLoop i_largest n comp f

/-- The pairs of `negbit` and `mag` that `quatdecompress` reads from `comp`. -/
def fields (comp : Nat) : Nat → Nat × Nat :=
  fieldsLoop (comp >>> 30) 4 comp (fun _ => (0, 0))

/-- The value that `quatdecompress` stores for a field: `SMALL_MAX * ((float)mag) / mask`,
negated when `negbit` is 1. -/
def fieldValue (field : Nat × Nat) : Nat :=
  let v := f32Div (f32Mul SMALL_MAX (f32OfUnsigned field.2)) (f32OfUnsigned 511)
  if field.1 = 1 then f32Neg v else v

end PackUtils

/-! ## `cflog.h`: `LogVariable::fetchInt` -/

/-- The conversion of `round(floatValue)` to `int64_t`, for the `float` of pattern `a`: the
nearest integer, a half rounded away from zero. The conversion is undefined for a NaN, for an
infinity and for a value outside the type. -/
def f32RoundToInt64 (a : Nat) : Option Int :=
  if f32IsNaN a || f32IsInf a then none
  else
    let mag : Nat := (2 * f32Units a + 2 ^ 149) / 2 ^ 150
    if f32Sign a = 1 then
      if mag ≤ 2 ^ 63 then some (-(mag : Int)) else none
    else if mag < 2 ^ 63 then some (mag : Int)
    else none

namespace LogVariable

/-- `fetchInt`: the value and the time stamp returned. The bytes of the union are those of the
64-bit cell; the `switch` is on the member `_type`. -/
def fetchInt (var : LogVariable) : Option (Int × Nat) :=
  let buffer : PackUtils.Buffer := fun i => if i < 8 then PackUtils.byteOf var._value i else 0
  let timestamp := var._value / 2 ^ 32 % 2 ^ 32
  let intValue : Option Int :=
    if var._type = tdUint8 then some ((PackUtils.peek buffer 0 : Nat) : Int)
    else if var._type = tdUint16 then some (((PackUtils.unpack_uint16 buffer 0).1 : Nat) : Int)
    else if var._type = tdUint32 then some (((PackUtils.unpack_uint32 buffer 0).1 : Nat) : Int)
    else if var._type = tdInt8 then some (ParamValue.int8OfBits (PackUtils.peek buffer 0))
    else if var._type = tdInt16 then some (PackUtils.unpack_int16 buffer 0).1
    else if var._type = tdInt32 then some (PackUtils.unpack_int32 buffer 0).1
    else if var._type = tdFloat16 then f32RoundToInt64 (PackUtils.unPackFloat16_buffer buffer)
    else if var._type = tdFloat32 then f32RoundToInt64 (PackUtils.unpack_float buffer 0).1
    else some 0
  intValue.map (fun v => (v, timestamp))

end LogVariable

/-! ## `portconnect.h`: the packet accounting of `portThreadFunc` -/

namespace PortConnect

def packetTimoutSec : Nat := 3

/-- The variables of the accounting of `portThreadFunc`: the locals `packetCount` and
`noPacketCount`, both `int32_t`, and the member `timedOut`. -/
structure Accounting where
  packetCount : Nat
  noPacketCount : Nat
  timedOut : Bool
  deriving DecidableEq, Repr

namespace Accounting

/-- The variables when the loop is entered. -/
def start : Accounting := { packetCount := 0, noPacketCount := 0, timedOut := false }

/-- One pass of the loop `while (portConnect->running)`, as far as the accounting goes:
`received` tells whether `pk.size() > 0` and `elapsed` whether `elapsedTime >= 1.0`. The
increment of an `int32_t` beyond its largest value is undefined: `none`. -/
def pass (a : Accounting) (received elapsed : Bool) : Option Accounting :=
  let counted : Option Accounting :=
    if received then
      if a.packetCount + 1 < 2 ^ 31 then some { a with packetCount := a.packetCount + 1 }
      else none
    else some a
  counted.bind (fun a1 =>
    if elapsed then
      let counter : Option Nat :=
        if a1.packetCount < 2 then
          if a1.noPacketCount + 1 < 2 ^ 31 then some (a1.noPacketCount + 1) else none
        else some 0
      counter.map (fun noPacketCount =>
        { packetCount := 0, noPacketCount := noPacketCount,
          timedOut := decide (noPacketCount ≥ packetTimoutSec) })
    else some a1)

end Accounting

end PortConnect

/-! ## `highlevelcommander.h`: the high level commander -/

def crtpPortCommanderHL : Nat := 8

/-- The state of a `HighLevelCommander`: `connection` is `none` for the null pointer. -/
structure HighLevelCommander where
  connection : Option PortConnect

namespace HighLevelCommander

def hlcGroupMask : Nat := 0
def hlcStop : Nat := 3
def hlcGoTo : Nat := 4
def hlcStartTrajectory : Nat := 5
def hlcDefineTrajectory : Nat := 6
def hlcTakeOff_2 : Nat := 7
def hlcLand2 : Nat := 8

def tTypePoly4d : Nat := 0
def tTypePoly4dCompressed : Nat := 1

def gAllGroups : Nat := 0
def gTrajectoryLocationMem : Nat := 1

/-- The constructor `HighLevelCommander(portConnect)`. -/
def init (portConnect : Option PortConnect) : HighLevelCommander :=
  { connection := portConnect }

/-- `_send_packet`: the port is set to `crtpPortCommanderHL`; the channel stays the one of
the header byte `0xFF` of the raw buffer. -/
def _send_packet (hlc : HighLevelCommander) (packet : Packet) : HighLevelCommander :=
  match hlc.connection with
  | some pc =>
    { hlc with connection := some (pc.send_packet (packet.setPort crtpPortCommanderHL)) }
  | none => hlc

/-- `takeoff`; the `float` arguments are given by their patterns. -/
def takeoff (hlc : HighLevelCommander) (absolute_height_m duration_s group_mask : Nat) :
    HighLevelCommander :=
  let useCurentYaw := true
  let targetYaw := 0
  let buffer := PackUtils.poke (fun _ => 0) 0 0xFF
  let index := 1
  let p1 := PackUtils.pack_uint8 buffer index hlcTakeOff_2
  let p2 := PackUtils.pack_uint8 p1.1 (index + p1.2) group_mask
  let p3 := PackUtils.pack_float p2.1 (index + p1.2 + p2.2) absolute_height_m
  let p4 := PackUtils.pack_float p3.1 (index + p1.2 + p2.2 + p3.2) targetYaw
  let p5 := PackUtils.pack_bool p4.1 (index + p1.2 + p2.2 + p3.2 + p4.2) useCurentYaw
  let p6 := PackUtils.pack_float p5.1 (index + p1.2 + p2.2 + p3.2 + p4.2 + p5.2) duration_s
  hlc._send_packet (Packet.ofBuffer p6.1 (index + p1.2 + p2.2 + p3.2 + p4.2 + p5.2 + p6.2))

/-- `land`. -/
def land (hlc : HighLevelCommander) (absolute_height_m duration_s group_mask : Nat) :
    HighLevelCommander :=
  let yaw := 0
  let useCurentYaw := true
  let buffer := PackUtils.poke (fun _ => 0) 0 0xFF
  let index := 1
  let p1 := PackUtils.pack_uint8 buffer index hlcLand2
  let p2 := PackUtils.pack_uint8 p1.1 (index + p1.2) group_mask
  let p3 := PackUtils.pack_float p2.1 (index + p1.2 + p2.2) absolute_height_m
  let p4 := PackUtils.pack_float p3.1 (index + p1.2 + p2.2 + p3.2) yaw
  let p5 := PackUtils.pack_bool p4.1 (index + p1.2 + p2.2 + p3.2 + p4.2) useCurentYaw
  let p6 := PackUtils.pack_float p5.1 (index + p1.2 + p2.2 + p3.2 + p4.2 + p5.2) duration_s
  hlc._send_packet (Packet.ofBuffer p6.1 (index + p1.2 + p2.2 + p3.2 + p4.2 + p5.2 + p6.2))

/-- `stop`. -/
def stop (hlc : HighLevelCommander) (group_mask : Nat) : HighLevelCommander :=
  let buffer := PackUtils.poke (fun _ => 0) 0 0xFF
  let index := 1
  let p1 := PackUtils.pack_uint8 buffer index hlcStop
  let p2 := PackUtils.pack_uint8 p1.1 (index + p1.2) group_mask
  hlc._send_packet (Packet.ofBuffer p2.1 (index + p1.2 + p2.2))

/-- `go_to`. -/
def go_to (hlc : HighLevelCommander) (x y z yaw duration_s : Nat) (relative : Bool)
    (group_mask : Nat) : HighLevelCommander :=
  let buffer := PackUtils.poke (fun _ => 0) 0 0xFF
  let index := 1
  let p1 := PackUtils.pack_uint8 buffer index hlcGoTo
  let p2 := PackUtils.pack_uint8 p1.1 (index + p1.2) group_mask
  let p3 := PackUtils.pack_bool p2.1 (index + p1.2 + p2.2) relative
  let p4 := PackUtils.pack_float p3.1 (index + p1.2 + p2.2 + p3.2) x
  let p5 := PackUtils.pack_float p4.1 (index + p1.2 + p2.2 + p3.2 + p4.2) y
  let p6 := PackUtils.pack_float p5.1 (index + p1.2 + p2.2 + p3.2 + p4.2 + p5.2) z
  let p7 := PackUtils.pack_float p6.1 (index + p1.2 + p2.2 + p3.2 + p4.2 + p5.2 + p6.2) yaw
  let p8 := PackUtils.pack_float p7.1
    (index + p1.2 + p2.2 + p3.2 + p4.2 + p5.2 + p6.2 + p7.2) duration_s
  hlc._send_packet
    (Packet.ofBuffer p8.1 (index + p1.2 + p2.2 + p3.2 + p4.2 + p5.2 + p6.2 + p7.2 + p8.2))

/-- `start_trajectory`. -/
def start_trajectory (hlc : HighLevelCommander) (trajectory_id time_scale : Nat)
    (relative reversed : Bool) (group_mask : Nat) : HighLevelCommander :=
  let buffer := PackUtils.poke (fun _ => 0) 0 0xFF
  let index := 1
  let p1 := PackUtils.pack_uint8 buffer index hlcStartTrajectory
  let p2 := PackUtils.pack_uint8 p1.1 (index + p1.2) group_mask
  let p3 := PackUtils.pack_bool p2.1 (index + p1.2 + p2.2) relative
  let p4 := PackUtils.pack_bool p3.1 (index + p1.2 + p2.2 + p3.2) reversed
  let p5 := PackUtils.pack_uint8 p4.1 (index + p1.2 + p2.2 + p3.2 + p4.2) trajectory_id
  let p6 := PackUtils.pack_float p5.1 (index + p1.2 + p2.2 + p3.2 + p4.2 + p5.2) time_scale
  hlc._send_packet (Packet.ofBuffer p6.1 (index + p1.2 + p2.2 + p3.2 + p4.2 + p5.2 + p6.2))

/-- `define_trajectory`: every argument is converted to `uint8_t` before it is packed, the
32-bit `offset` as well. -/
def define_trajectory (hlc : HighLevelCommander) (trajectory_id offset n_pieces type : Nat) :
    HighLevelCommander :=
  let buffer := PackUtils.poke (fun _ => 0) 0 0xFF
  let index := 1
  let p1 := PackUtils.pack_uint8 buffer index hlcDefineTrajectory
  let p2 := PackUtils.pack_uint8 p1.1 (index + p1.2) (trajectory_id % 256)
  let p3 := PackUtils.pack_uint8 p2.1 (index + p1.2 + p2.2) gTrajectoryLocationMem
  let p4 := PackUtils.pack_uint8 p3.1 (index + p1.2 + p2.2 + p3.2) (type % 256)
  let p5 := PackUtils.pack_uint8 p4.1 (index + p1.2 + p2.2 + p3.2 + p4.2)
    (offset % 4294967296 % 256)
  let p6 := PackUtils.pack_uint8 p5.1 (index + p1.2 + p2.2 + p3.2 + p4.2 + p5.2)
    (n_pieces % 256)
  hlc._send_packet (Packet.ofBuffer p6.1 (index + p1.2 + p2.2 + p3.2 + p4.2 + p5.2 + p6.2))

end HighLevelCommander

/-! ## `commander.h`: the other setpoints -/

/-- The conversion `(int16_t)a` of a `float`: the value is truncated toward zero. It is
undefined for a NaN, for an infinity and when the truncated value is outside the type. -/
def f32ToInt16 (a : Nat) : Option Int :=
  if f32IsNaN a || f32IsInf a then none
  else
    let t : Nat := f32Units a / 2 ^ 149
    if f32Sign a = 1 then
      if t ≤ 32768 then some (-(t : Int)) else none
    else if t < 32768 then some (t : Int)
    else none

namespace Commander

/-- `send_setpoint`: the connection is used without a test for null. -/
def send_setpoint (cmd : Commander) (roll pitch yawrate thrust : Nat) :
    Except Fault Commander :=
  let buffer := PackUtils.poke (fun _ => 0) 0 0xFF
  let index := 1
  let p1 := PackUtils.pack_float buffer index roll
  let p2 := PackUtils.pack_float p1.1 (index + p1.2) pitch
  let p3 := PackUtils.pack_float p2.1 (index + p1.2 + p2.2) yawrate
  let p4 := PackUtils.pack_uint16 p3.1 (index + p1.2 + p2.2 + p3.2) thrust
  let packet :=
    ((Packet.ofBuffer p4.1 (index + p1.2 + p2.2 + p3.2 + p4.2)).setChannel
      SET_SETPOINT_CHANNEL).setPort crtpPortCommander
  match cmd.connection with
  | some pc => .ok { cmd with connection := some (pc.send_packet packet) }
  | none => .error .nullDeref

/-- `send_notify_setpoint_stop`. -/
def send_notify_setpoint_stop (cmd : Commander) (remain_valid_milliseconds : Nat) : Commander :=
  match cmd.connection with
  | some pc =>
    let buffer := PackUtils.poke (fun _ => 0) 0 0xFF
    let index := 1
    let p1 := PackUtils.pack_uint8 buffer index crtpTypeStop
    let p2 := PackUtils.pack_uint32 p1.1 (index + p1.2) remain_valid_milliseconds
    let packet :=
      ((Packet.ofBuffer p2.1 (index + p1.2 + p2.2)).setPort
        crtpPortCommanderGeneric).setChannel crtpChannelMetaCommand
    { cmd with connection := some (pc.send_packet packet) }
  | none => cmd

/-- `send_stop_setpoint`. -/
def send_stop_setpoint (cmd : Commander) : Commander :=
  match cmd.connection with
  | some pc =>
    let buffer := PackUtils.poke (fun _ => 0) 0 0xFF
    let index := 1
    let p1 := PackUtils.pack_uint8 buffer index crtpTypeStop
    let packet :=
      ((Packet.ofBuffer p1.1 (index + p1.2)).setPort
        crtpPortCommanderGeneric).setChannel SET_SETPOINT_CHANNEL
    { cmd with connection := some (pc.send_packet packet) }
  | none => cmd

/-- The packet that `send_full_state_setpoint` builds from the converted values. -/
def fullStatePacket (x y z vx vy vz ax ay az : Int) (quat : Nat) (rr pr yr : Int) : Packet :=
  let buffer := PackUtils.poke (fun _ => 0) 0 0xFF
  let index := 1
  let p1 := PackUtils.pack_uint8 buffer index crtpTypeFullState
  let p2 := PackUtils.pack_int16 p1.1 (index + p1.2) x
  let p3 := PackUtils.pack_int16 p2.1 (index + p1.2 + p2.2) y
  let p4 := PackUtils.pack_int16 p3.1 (index + p1.2 + p2.2 + p3.2) z
  let i4 := index + p1.2 + p2.2 + p3.2 + p4.2
  let p5 := PackUtils.pack_int16 p4.1 i4 vx
  let p6 := PackUtils.pack_int16 p5.1 (i4 + p5.2) vy
  let p7 := PackUtils.pack_int16 p6.1 (i4 + p5.2 + p6.2) vz
  let i7 := i4 + p5.2 + p6.2 + p7.2
  let p8 := PackUtils.pack_int16 p7.1 i7 ax
  let p9 := PackUtils.pack_int16 p8.1 (i7 + p8.2) ay
  let p10 := PackUtils.pack_int16 p9.1 (i7 + p8.2 + p9.2) az
  let i10 := i7 + p8.2 + p9.2 + p10.2
  let p11 := PackUtils.pack_uint32 p10.1 i10 quat
  let p12 := PackUtils.pack_int16 p11.1 (i10 + p11.2) rr
  let p13 := PackUtils.pack_int16 p12.1 (i10 + p11.2 + p12.2) pr
  let p14 := PackUtils.pack_int16 p13.1 (i10 + p11.2 + p12.2 + p13.2) yr
  (((Packet.ofBuffer p14.1 (i10 + p11.2 + p12.2 + p13.2 + p14.2)).setChannel 0).setPort
    crtpPortCommanderGeneric).setChannel SET_SETPOINT_CHANNEL

/-- `send_full_state_setpoint`; `1000.0f` has the pattern `0x447A0000`. The result is `none`
when a conversion to `int16_t` or `quatcompress` is undefined. -/
def send_full_state_setpoint (cmd : Commander) (pos vel acc orientation : Nat → Nat)
    (rollrate pitchrate yawrate : Nat) : Option Commander :=
  match cmd.connection with
  | some pc =>
    (f32ToInt16 (f32Mul (pos 0) 0x447A0000)).bind (fun x =>
    (f32ToInt16 (f32Mul (pos 1) 0x447A0000)).bind (fun y =>
    (f32ToInt16 (f32Mul (pos 2) 0x447A0000)).bind (fun z =>
    (f32ToInt16 (f32Mul (vel 0) 0x447A0000)).bind (fun vx =>
    (f32ToInt16 (f32Mul (vel 1) 0x447A0000)).bind (fun vy =>
    (f32ToInt16 (f32Mul (vel 2) 0x447A0000)).bind (fun vz =>
    (f32ToInt16 (f32Mul (acc 0) 0x447A0000)).bind (fun ax =>
    (f32ToInt16 (f32Mul (acc 1) 0x447A0000)).bind (fun ay =>
    (f32ToInt16 (f32Mul (acc 2) 0x447A0000)).bind (fun az =>
    (f32ToInt16 (f32Mul rollrate 0x447A0000)).bind (fun rr =>
    (f32ToInt16 (f32Mul pitchrate 0x447A0000)).bind (fun pr =>
    (f32ToInt16 (f32Mul yawrate 0x447A0000)).bind (fun yr =>
    (PackUtils.quatcompress orientation).bind (fun quat =>
      some { cmd with
        connection :=
          some (pc.send_packet
            (fullStatePacket x y z vx vy vz ax ay az quat rr pr yr)) })))))))))))))
  | none => some cmd

end Commander

/-! ## `platformservice.h`: the platform service -/

def LINKCTRL : Nat := 0x0F
def PLATFORM : Nat := 0x0D

/-- The state of a `PlatformService`: `portConnect` is `none` for the null pointer. -/
structure PlatformService where
  portConnect : Option PortConnect
  linkSource : Str
  protocolVersion : Nat

namespace PlatformService

def LINKSERVICE_SOURCE : Nat := 1
def MISC_CHANNEL : Nat := 3
def VERSION_GET_PROTOCOL : Nat := 0
def VERSION_GET_FIRMWARE : Nat := 1
def VERSION_COMMAND : Nat := 1
def PLATFORM_SET_CONT_WAVE : Nat := 0
def PLATFORM_REQUEST_ARMING : Nat := 1
def PLATFORM_REQUEST_CRASH_RECOVERY : Nat := 2
def PLATFORM_COMMAND : Nat := 0

/-- The constructor `PlatformService()`. -/
def init : PlatformService :=
  { portConnect := none, linkSource := [], protocolVersion := NO_PROTOCOL }

def get_version (ps : PlatformService) : Nat := ps.protocolVersion

/-- `_request_version`. -/
def _request_version (ps : PlatformService) : PlatformService :=
  match ps.portConnect with
  | some pc =>
    let buffer := PackUtils.poke (fun _ => 0) 0 0xFF
    let index := 1
    let p1 := PackUtils.pack_uint8 buffer index 0
    let packet :=
      ((Packet.ofBuffer p1.1 (index + p1.2)).setPort LINKCTRL).setChannel LINKSERVICE_SOURCE
    { ps with portConnect := some (pc.send_packet packet) }
  | none => ps

/-- `send_arming_request`. -/
def send_arming_request (ps : PlatformService) (doArm : Bool) : PlatformService :=
  match ps.portConnect with
  | some pc =>
    let buffer := PackUtils.poke (fun _ => 0) 0 0xFF
    let index := 1
    let p1 := PackUtils.pack_uint8 buffer index PLATFORM_REQUEST_ARMING
    let p2 := PackUtils.pack_bool p1.1 (index + p1.2) doArm
    let packet :=
      ((Packet.ofBuffer p2.1 (index + p1.2 + p2.2)).setPort PLATFORM).setChannel
        PLATFORM_COMMAND
    { ps with portConnect := some (pc.send_packet packet) }
  | none => ps

/-- The local `packet` that `recoveryCommand` builds; the function returns a reference to
it. -/
def recoveryCommand : Packet :=
  let buffer := PackUtils.poke (fun _ => 0) 0 0xFF
  let index := 1
  let p1 := PackUtils.pack_uint8 buffer index PLATFORM_REQUEST_CRASH_RECOVERY
  ((Packet.ofBuffer p1.1 (index + p1.2)).setPort PLATFORM).setChannel PLATFORM_COMMAND

/-- `send_crash_recovery_request`: with a connection, `send_packet` is handed the reference
that `recoveryCommand` returns, to a local that is destroyed on return; the call has no
defined result, `none`. -/
def send_crash_recovery_request (ps : PlatformService) : Option PlatformService :=
  match ps.portConnect with
  | some _ => none
  | none => some ps

/-- The array `platformName`, with its terminating zero. -/
def platformName : List Nat := "Bitcraze Crazyflie".toList.map Char.toNat ++ [0]

/-- `strncmp(dataString, platformName, sizeof(platformName)) == 0`. -/
def isPlatformName (data : PackUtils.Buffer) : Bool :=
  (List.range platformName.length).all
    (fun i => PackUtils.peek data i == platformName.getD i 0)

/-- `_new_packet_cb`. -/
def _new_packet_cb (ps : PlatformService) (pk : Packet) : Except Fault PlatformService :=
  if pk.size > 0 then
    if pk.port == LINKCTRL then
      if pk.channel == MISC_CHANNEL || pk.channel == LINKSERVICE_SOURCE then
        if isPlatformName pk.payload then
          if ps.linkSource ≠ "Bitcraze Crazyflie".toList then
            let buffer := PackUtils.poke (fun _ => 0) 0 0xFF
            let index := 1
            let p1 := PackUtils.pack_uint8 buffer index VERSION_GET_PROTOCOL
            let packet :=
              ((Packet.ofBuffer p1.1 (index + p1.2)).setPort PLATFORM).setChannel
                VERSION_COMMAND
            match ps.portConnect with
            | some pc =>
              .ok { ps with linkSource := "Bitcraze Crazyflie".toList,
                            portConnect := some (pc.send_packet packet) }
            | none => .error .nullDeref
          else .ok ps
        else .ok ps
      else .ok ps
    else if pk.port == PLATFORM then
      if pk.channel == VERSION_COMMAND then
        if PackUtils.peek pk.payload 0 == VERSION_GET_PROTOCOL then
          .ok { ps with protocolVersion := PackUtils.peek pk.payload 1 }
        else .ok ps
      else .ok ps
    else .ok ps
  else .ok ps

end PlatformService

/-! ## `param.h`: the requests of the fetcher of the parameter TOC -/

namespace ParamTocFetcher

/-- The packet that `TocFetcher::start` of `param.h` sends. -/
def infoRequest (protocolVersion port : Nat) : Packet :=
  let _useV2 := decide (protocolVersion ≥ 4)
  let buffer0 := PackUtils.poke (fun _ => 0) 0 0xFF
  let command := if _useV2 then CMD_TOC_INFO_V2 else CMD_TOC_INFO
  let p1 := PackUtils.pack_uint8 buffer0 1 command
  ((Packet.ofBuffer p1.1 (1 + p1.2)).setPort port).setChannel TOC_CHANNEL

/-- The packet that `TocFetcher::request_toc_element` of `param.h` sends. -/
def elementRequest (_useV2 : Bool) (port elemDex : Nat) : Packet :=
  let buffer0 := PackUtils.poke (fun _ => 0) 0 0xFF
  if _useV2 then
    let p1 := PackUtils.pack_uint8 buffer0 1 CMD_TOC_ITEM_V2
    let p2 := PackUtils.pack_uint16 p1.1 (1 + p1.2) (elemDex % 65536)
    ((Packet.ofBuffer p2.1 (1 + p1.2 + p2.2)).setPort port).setChannel TOC_CHANNEL
  else
    let p1 := PackUtils.pack_uint8 buffer0 1 CMD_TOC_ELEMENT
    let p2 := PackUtils.pack_uint8 p1.1 (1 + p1.2) (elemDex % 65536 % 256)
    ((Packet.ofBuffer p2.1 (1 + p1.2 + p2.2)).setPort port).setChannel TOC_CHANNEL

end ParamTocFetcher

/-! ## Quantities the statements speak of -/

/-- The value read least significant byte first from the `n` bytes of `d` that start at
offset `o`. -/
def leValue (d : Nat → Nat) (o : Nat) : Nat → Nat
  | 0 => 0
  | n + 1 => leValue d o n + d (o + n) * 256 ^ n

/-- The number of bytes a variable takes in a data packet: the size of its fetch kind. -/
def LogVariable.wireSize (v : LogVariable) : Nat := LogTocElement.get_size_from_id v.fetch_as

/-- The variable `v` with the 64-bit cell `cell`. -/
def LogVariable.withCell (v : LogVariable) (cell : Nat) : LogVariable := { v with _value := cell }

/-- The byte offset, in the data of a packet, of the variable at position `k`: the sum of the
sizes of the variables before it. -/
def LogConfig.offsetOf (vars : List LogVariable) (k : Nat) : Nat :=
  ((vars.take k).map LogVariable.wireSize).sum

/-- Whether the name of a variable is found in the TOC. -/
def cfLog.isKnown (toc : LogToc) (v : LogVariable) : Bool :=
  (toc.get_element_by_complete_name v.name).isSome

/-- The variable as the first loop of `add_config` leaves it: with the fetch kind taken from
the TOC element of its name, when there is one. -/
def cfLog.resolveVar (toc : LogToc) (v : LogVariable) : LogVariable :=
  match toc.get_element_by_complete_name v.name with
  | some e => { v with fetch_as := e.ident % 256 }
  | none => v

/-- The variable with the fetch kind the statements give a variable added without one: the
native type of the TOC element of its name, that is, the index in `types` of the ctype of
the element. -/
def cfLog.nativeVar (toc : LogToc) (v : LogVariable) : LogVariable :=
  match toc.get_element_by_complete_name v.name with
  | some e => { v with fetch_as := LogTocElement.get_id_from_cstring e.ctype }
  | none => v

/-- Whether the second loop of `add_config` accepts a variable: it is a memory variable or
its name, read as a C string, is found in the TOC. -/
def cfLog.isChecked (toc : LogToc) (v : LogVariable) : Bool :=
  !v.is_toc_variable || (toc.get_element_by_complete_name (c_str v.name)).isSome

/-- The variables of a block after the first loop of `add_config`: the variables added with a
fetch kind, then the variables added without one whose name is in the TOC. -/
def cfLog.resolvedVars (toc : LogToc) (config : LogConfig) : List LogVariable :=
  config.vars ++ (config.default_fetch_as.filter (cfLog.isKnown toc)).map (cfLog.resolveVar toc)

/-- The flag `valid` of a block after the two loops of `add_config`. -/
def cfLog.validAfter (toc : LogToc) (config : LogConfig) : Bool :=
  config.default_fetch_as.all (cfLog.isKnown toc)
    && (cfLog.resolvedVars toc config).all (cfLog.isChecked toc)

/-- The data payload of a block: the sum of the sizes of the fetch kinds of its variables. -/
def LogConfig.payloadOf (vars : List LogVariable) : Nat := (vars.map LogVariable.wireSize).sum

/-! ### The table of contents as a keyed collection -/

namespace LogToc

/-- The TOC after `add_element` for the elements of `es`, in order, from the empty TOC. -/
def addAll (es : List LogTocElement) : LogToc := es.foldl LogToc.add_element LogToc.empty

/-- The stored elements of a TOC, group after group. -/
def allElements (toc : LogToc) : List LogTocElement := toc.groups.flatMap (fun g => g.elements)

/-- What `add_element` does to the list of groups, by recursion on the list. -/
def insertElement (e : LogTocElement) : List LogTocGroup → List LogTocGroup
  | [] => [{ name := e.group, elements := [e] }]
  | g :: gs =>
    if g.name == c_str e.group then
      (if g.elements.any (fun x => x.name == c_str e.name) then g
        else { g with elements := g.elements ++ [e] }) :: gs
    else g :: insertElement e gs

end LogToc

/-- Whether a C++ string is a C string: it holds no NUL character. -/
def isCString (s : Str) : Bool := s.all (fun c => c != Char.ofNat 0)

/-- The groups of a TOC are well keyed: the names of the groups are pairwise distinct, the
names of the elements of a group are pairwise distinct, and every element is stored in the
group that has its group name. -/
def LogToc.WellKeyed (gs : List LogTocGroup) : Prop :=
  (gs.map (fun g => g.name)).Nodup
    ∧ (∀ g ∈ gs, (g.elements.map (fun x => x.name)).Nodup)
    ∧ (∀ g ∈ gs, ∀ x ∈ g.elements, x.group = g.name)

/-- The key `(group, name)` of `e` is present in the groups. -/
def LogToc.KeyPresent (e : LogTocElement) (gs : List LogTocGroup) : Prop :=
  ∃ g ∈ gs, g.name = e.group ∧ ∃ x ∈ g.elements, x.name = e.name

/-- Every name stored in the groups is a C string. -/
def LogToc.AllCStrings (gs : List LogTocGroup) : Prop :=
  ∀ g ∈ gs, isCString g.name = true ∧ ∀ x ∈ g.elements, isCString x.name = true

/-- What `get_element_by_name` finds for a group name and an element name given as C strings:
the first element with the name in the first group with the group name. -/
def LogToc.lookup (gs : List LogTocGroup) (groupName elemName : Str) : Option LogTocElement :=
  match gs.find? (fun g => g.name == groupName) with
  | some g => g.elements.find? (fun x => x.name == elemName)
  | none => none

/-! ### The parameter engine -/

/-- The identifier that a reply on the READ or the WRITE channel carries. -/
def Param.replyId (p : Param) (pk : Packet) : Nat := (Param.readId p.useV2 pk.payload 0).1

/-- The bytes of an identifier in a request: two, least significant first, under V2, and one
under V1. -/
def Param.idBytes (useV2 : Bool) (var_id : Nat) : List Nat :=
  if useV2 then [var_id % 256, var_id / 256 % 256] else [var_id % 256]

/-! ### The commander -/

/-- The four bytes of a 32-bit value, least significant first. -/
def le32 (v : Nat) : List Nat :=
  [PackUtils.byteOf v 0, PackUtils.byteOf v 1, PackUtils.byteOf v 2, PackUtils.byteOf v 3]

/-- The packets a commander has sent, oldest first: port, channel and payload. -/
def Commander.sent (cmd : Commander) : List (Nat × Nat × List Nat) :=
  match cmd.connection with
  | some pc => pc.wire.map (fun pk => (pk.port, pk.channel, pk.bytes))
  | none => []

/-- The raw buffer of a setpoint with four `float` arguments: the byte `0xFF`, the type and
the arguments. -/
def Commander.setpointBuffer (t a b c d : Nat) : PackUtils.Buffer :=
  (PackUtils.pack_float
    (PackUtils.pack_float
      (PackUtils.pack_float
        (PackUtils.pack_float
          (PackUtils.pack_uint8 (PackUtils.poke (fun _ => 0) 0 0xFF) 1 t).1 2 a).1 6 b).1 10
      c).1 14 d).1

/-! ### Exhaustive checks -/

/-- Whether `p` holds for `0, 1, ..., n - 1`. -/
def allBelow (p : Nat → Bool) : Nat → Bool
  | 0 => true
  | n + 1 => p n && allBelow p n

/-! ### The values of float patterns -/

/-- The magnitude of the finite `float` of pattern `bits`, in units of `2^-149`: the 23-bit
mantissa for a subnormal and, for a normal, the mantissa with its implicit bit, scaled by the
exponent. -/
def f32Scaled (bits : Nat) : Nat :=
  if bits / 2 ^ 23 % 256 = 0 then bits % 2 ^ 23
  else (2 ^ 23 + bits % 2 ^ 23) * 2 ^ (bits / 2 ^ 23 % 256 - 1)

/-- The rational that the finite `float` of pattern `bits` denotes. -/
def f32Value (bits : Nat) : ℚ :=
  (if bits / 2 ^ 31 % 2 = 1 then -1 else 1) * ((f32Scaled bits : ℚ) / 2 ^ 149)

/-- Whether the pattern is the one of a finite `float`: its exponent field is not 255. -/
def f32Finite (bits : Nat) : Bool := bits / 2 ^ 23 % 256 != 255

/-! ### The download of the table of contents -/

/-- The packets sent on the link of an engine, oldest first: port, channel and payload. -/
def cfLog.sent (s : cfLog) : List (Nat × Nat × List Nat) :=
  match s.portConnect with
  | some pc => pc.wire.map (fun pk => (pk.port, pk.channel, pk.bytes))
  | none => []

/-- The number of times the owner of the connection was told that the log reset is
complete. -/
def cfLog.notified (s : cfLog) : Nat :=
  match s.portConnect with
  | some pc => pc.logResets
  | none => 0

/-- The identifier an element reply carries: 16 bits under V2, one byte under V1. -/
def TocFetcher.replyIdent (useV2 : Bool) (pk : Packet) : Nat :=
  if useV2 then PackUtils.peek pk.payload 1 + 256 * PackUtils.peek pk.payload 2
  else PackUtils.peek pk.payload 1

/-- The element an element reply describes. -/
def TocFetcher.replyElement (useV2 : Bool) (pk : Packet) : LogTocElement :=
  LogTocElement.ofData (TocFetcher.replyIdent useV2 pk)
    (fun i => pk.payload (i + (if useV2 then 3 else 2)))

/-- The payload of the request for the element `id`: `[TOC_ITEM_V2, id:u16le]` under V2 and
`[TOC_ELEMENT, id:u8]` under V1. -/
def TocFetcher.requestBytes (useV2 : Bool) (id : Nat) : List Nat :=
  if useV2 then [2, id % 256, id / 256 % 256] else [0, id % 256]

/-- The fetcher at position `k` of an engine with an open link is downloading a TOC of `n`
items, a 16-bit count, reported with the CRC `crc`, and the outstanding request is the one
for the element `j`. -/
def TocFetcher.Downloading (s : cfLog) (k : Nat) (useV2 : Bool) (port n crc j : Nat) : Prop :=
  ∃ f pc, s.tocfetcherCallbacks.get? k = some f ∧ f.state = TocFetcher.GET_TOC_ELEMENT
    ∧ f._useV2 = useV2 ∧ f.port = port ∧ f.nbr_of_items = n ∧ f._crc = crc
    ∧ f.requested_index = j ∧ s.portConnect = some pc ∧ pc.cfConnection = true ∧ n < 65536

/-- The packets `pks` handed one after the other to `_new_packet_cb` of the fetcher at
position `k`. -/
def TocFetcher.deliver (k : Nat) : cfLog → List Packet → Except Fault cfLog
  | s, [] => .ok s
  | s, pk :: pks =>
    match TocFetcher._new_packet_cb s k pk with
    | .error e => .error e
    | .ok s1 => TocFetcher.deliver k s1 pks

/-! ### The fields of a compressed quaternion -/

/-- The array `q` of four `float`s given by the list of their patterns. -/
def quatOf (l : List Nat) : Nat → Nat := fun i => l.getD i 0

/-- The bit `q[i] < 0` of `quatcompress`. -/
def PackUtils.quatNegative (x : Nat) : Nat := if f32Lt x 0 then 1 else 0

/-- The 10-bit field that the statements give to the component `i` of `q` when the component
`L` is dropped: the sign of the component, flipped when the dropped component is negative,
above the magnitude. -/
def PackUtils.quatField (q : Nat → Nat) (L i : Nat) : Nat :=
  512 * (PackUtils.quatNegative (q i) ^^^ PackUtils.quatNegative (q L))
    + (PackUtils.quatMag (q i)).getD 0

/-! ### The values of half patterns -/

/-- The magnitude of the half of pattern `h` (neither infinity nor NaN), in units of `2^-24`:
the 10-bit mantissa for a subnormal and, for a normal, the mantissa with its implicit bit,
scaled by the exponent. -/
def halfScaled (h : Nat) : Nat :=
  if h / 2 ^ 10 % 32 = 0 then h % 2 ^ 10
  else (2 ^ 10 + h % 2 ^ 10) * 2 ^ (h / 2 ^ 10 % 32 - 1)

/-! ### The ticks of the dispatcher -/

/-- The passes of the loop between two ticks: for each pass in which less than a second has
elapsed, and then for the pass of the tick, whether a packet was received. -/
abbrev PortConnect.Tick := List Bool × Bool

/-- The number of packets a tick saw. -/
def PortConnect.seen (p : PortConnect.Tick) : Nat := (p.1 ++ [p.2]).count true

/-- The passes `before`, in each of which less than a second has elapsed. -/
def PortConnect.Accounting.passes (a : PortConnect.Accounting) :
    List Bool → Option PortConnect.Accounting
  | [] => some a
  | received :: rest => (a.pass received false).bind (fun a1 => a1.passes rest)

/-- The passes of one tick. -/
def PortConnect.Accounting.tick (a : PortConnect.Accounting) (p : PortConnect.Tick) :
    Option PortConnect.Accounting :=
  (a.passes p.1).bind (fun a1 => a1.pass p.2 true)

/-- The passes of the ticks `ps`, one tick after the other. -/
def PortConnect.Accounting.run (a : PortConnect.Accounting) :
    List PortConnect.Tick → Option PortConnect.Accounting
  | [] => some a
  | p :: ps => (a.tick p).bind (fun a1 => a1.run ps)

/-- The number of ticks at the end of `ps` that saw fewer than 2 packets each, counted on
from `n`. -/
def PortConnect.lowTicks (n : Nat) (ps : List PortConnect.Tick) : Nat :=
  ps.foldl (fun k p => if PortConnect.seen p < 2 then k + 1 else 0) n

/-! ### The high level commander -/

/-- The packets a high level commander has sent, oldest first: port, channel and payload. -/
def HighLevelCommander.sent (hlc : HighLevelCommander) : List (Nat × Nat × List Nat) :=
  match hlc.connection with
  | some pc => pc.wire.map (fun pk => (pk.port, pk.channel, pk.bytes))
  | none => []

/-! ### The slots of the block list -/

/-- The block list of the engine is within its array and each of its first `blockListSize`
slots points to a block whose id is the index of the slot. -/
def cfLog.BlocksOk (s : cfLog) : Prop :=
  s.blockListSize ≤ MAX_BLOCKS
    ∧ ∀ i, i < s.blockListSize → ∃ block, s.blockList i = some block ∧ block.id = i

/-- The engines `s1` whose block list is the one of `s`. -/
def cfLog.SameBlocks (s s1 : cfLog) : Prop :=
  s1.blockList = s.blockList ∧ s1.blockListSize = s.blockListSize

/-- The calls on an engine that the statements consider. -/
inductive cfLog.Call where
  | setConnection (portConnect : Option PortConnect)
  | add_config (config : LogConfig)
  | stop
  | clearBlockList
  | packet (pk : Packet)

/-- The engine after a call; a fault of the call is kept. -/
def cfLog.call (s : cfLog) : cfLog.Call → Except Fault cfLog
  | .setConnection portConnect => .ok (s.setConnection portConnect)
  | .add_config config =>
    match s.add_config config with
    | .ok r => .ok r.2.2
    | .error e => .error e
  | .stop => .ok s.stop
  | .clearBlockList => .ok s.clearBlockList
  | .packet pk => s._new_packet_cb pk

/-- The engine after the calls `calls`, one after the other. -/
def cfLog.callAll : cfLog → List cfLog.Call → Except Fault cfLog
  | s, [] => .ok s
  | s, c :: calls =>
    match s.call c with
    | .ok s1 => cfLog.callAll s1 calls
    | .error e => .error e

/-! ### The sizes of the packets sent -/

/-- The payload sizes of the packets sent on a link, oldest first. -/
def PortConnect.payloadSizes (pc : Option PortConnect) : List Nat :=
  match pc with
  | some pc => pc.wire.map Packet.payloadSize
  | none => []

/-! ## Sample inputs -/

namespace Sample

/-- An open link whose platform client reports protocol version 5. -/
def link : PortConnect :=
  { cfConnection := true, platform := some 5, wire := [], logResets := 0, paramResets := 0 }

/-- The TOC element `g.v<i>` with identifier `i` and the type of index `ty`. -/
def element (i ty : Nat) : LogTocElement :=
  { name := 'v' :: Nat.toDigits 10 i, group := ['g'],
    ctype := (LogTocElement.get_cstring_from_id ty).getD [],
    pytype := (LogTocElement.get_unpack_string_from_id ty).getD [],
    ident := i, access := 0 }

/-- The TOC built by `add_element` from the elements `g.v0 .. g.v<n-1>` of type `ty`. -/
def toc (n ty : Nat) : LogToc :=
  (List.range n).foldl (fun t i => t.add_element (element i ty)) LogToc.empty

/-- A fresh engine after `setConnection` on the open link, holding the TOC `t`. -/
def engine (t : LogToc) : cfLog :=
  { (cfLog.init (some [])).setConnection (some link) with toc := t }

/-- The TOC variable named `g.v<i>` with fetch kind `kind`. -/
def tocVariable (i kind : Nat) : LogVariable :=
  { LogVariable.default with name := 'g' :: '.' :: 'v' :: Nat.toDigits 10 i, fetch_as := kind }

/-- A memory variable with fetch kind `kind`. -/
def memVariable (kind : Nat) : LogVariable :=
  { LogVariable.default with fetch_as := kind }

/-- The block of period 100 ms with the TOC variables `g.v0 .. g.v<n-1>` of kind `kind`. -/
def tocBlock (n kind : Nat) : LogConfig :=
  (List.range n).foldl (fun c i => c.add_variable (tocVariable i kind))
    (LogConfig.init ['b'] 100)

/-- The block of period `ms` milliseconds with the TOC variables `g.v0 .. g.v<n-1>` of kind
`kind`. -/
def tocBlockEvery (ms n kind : Nat) : LogConfig :=
  (List.range n).foldl (fun c i => c.add_variable (tocVariable i kind))
    (LogConfig.init ['b'] ms)

/-- The block of period 100 ms with `n` memory variables of kind `kind`. -/
def memBlock (n kind : Nat) : LogConfig :=
  (List.range n).foldl (fun c _ => c.add_memory (memVariable kind)) (LogConfig.init ['b'] 100)

/-- The block of period 100 ms with the TOC variables `g.v0`, `g.v1`, `g.v2`, three one-byte
memory variables at the addresses 17, 34 and 51, and the TOC variable `g.v6`. -/
def mixedBlock : LogConfig :=
  (((tocBlock 3 tdUint8).add_memory { memVariable tdUint8 with address := 17 }
    |>.add_memory { memVariable tdUint8 with address := 34 }
    |>.add_memory { memVariable tdUint8 with address := 51 }).add_variable
      (tocVariable 6 tdUint8))

/-- The payloads of the packets sent on the link of an engine, oldest first. -/
def wire (s : cfLog) : List (Nat × Nat × List Nat) :=
  match s.portConnect with
  | some pc => pc.wire.map (fun pk => (pk.port, pk.channel, pk.bytes))
  | none => []

/-- The packet of port `port` and channel `channel` with the payload `bytes`. -/
def packet (port channel : Nat) (bytes : List Nat) : Packet :=
  { size := bytes.length + 1, port := port, channel := channel, payload := fun i => bytes.getD i 0 }

/-- The engine after `n` calls of `add_config`, each with the block `block`. -/
def addBlocks (block : LogConfig) : Nat → cfLog → Except Fault cfLog
  | 0, s => .ok s
  | n + 1, s =>
    match s.add_config block with
    | .ok r => addBlocks block n r.2.2
    | .error e => .error e

/-- An engine whose only block has a `uint16_t` and a `float32_t` variable. -/
def twoVariableEngine : cfLog :=
  { engine LogToc.empty with
    blockList := fun i =>
      if i = 0 then some ((LogConfig.init ['b'] 100).add_memory (memVariable tdUint16)
        |>.add_memory (memVariable tdFloat32)) else none
    blockListSize := 1 }

/-- The TOC element with the given key and identifier, of type `uint8_t`. -/
def namedElement (groupName elemName : Str) (ident : Nat) : LogTocElement :=
  { name := elemName, group := groupName, ctype := "uint8_t".toList, pytype := "<B".toList,
    ident := ident, access := 0 }

/-- Four elements with names without NUL; the last repeats the key of the first. -/
def keyedElements : List LogTocElement :=
  [namedElement ['g'] ['a'] 0, namedElement ['g'] ['b'] 1, namedElement ['h'] ['a'] 2,
    namedElement ['g'] ['a'] 3]

/-- Three elements with pairwise distinct keys and the identifiers 0, 1, 2. -/
def numberedElements : List LogTocElement :=
  [namedElement ['g'] ['a'] 0, namedElement ['h'] ['a'] 1, namedElement ['g'] ['b'] 2]

/-- An element whose group name holds a NUL character. -/
def nulGroupElement : LogTocElement := namedElement ['g', Char.ofNat 0] ['n'] 0

/-- A value cell of kind `ctype` with the packed value `value`. -/
def cellOf (ctype value : Nat) : ParamValue :=
  { _value := value, _ident := 0, _ctype := ctype,
    _csize := ParamTocElement.get_size_from_id ctype,
    _state := ParamValue.PENDING ||| ParamValue.REQUEST_NONE }

/-- The cell `cellOf ctype value` in the state `state`. -/
def cellIn (ctype value state : Nat) : ParamValue :=
  { cellOf ctype value with _state := state }

/-- The parameter element with the given key and identifier, of type `uint8_t`. -/
def paramElement (groupName elemName : Str) (ident : Nat) : ParamTocElement :=
  { name := elemName, group := groupName, ctype := "uint8_t".toList, pytype := "<B".toList,
    ident := ident, access := 0, extended := false, persistent := false }

/-- The TOC whose groups interleave identifiers: group `A` holds 0 and 2, group `B` holds 1. -/
def interleavedToc : ParamToc :=
  { crc := 0,
    groups :=
      [ { name := ['A'], elements := [paramElement ['A'] ['x'] 0, paramElement ['A'] ['y'] 2] },
        { name := ['B'], elements := [paramElement ['B'] ['z'] 1] } ] }

/-- The parameter engine after `setConnection` on the open link and `toc_complete` with the
TOC `t`. -/
def paramEngine (t : ParamToc) : Param :=
  Param.toc_complete { Param.init.setConnection (some link) with toc := t }

/-- The parameter engine on the open link with the slots `values` and the queues `updates`
and `extended`. -/
def paramEngineWith (values : List (Option ParamValue)) (updates extended : List Nat) : Param :=
  { Param.init.setConnection (some link) with
    values := values, updateQueue := updates, extendedTypeQueue := extended,
    idCount := values.length }

/-- An engine with a `uint8_t` cell waiting for its read and a `uint16_t` cell waiting for
its write, the write first in the update queue. -/
def waiting : Param :=
  paramEngineWith [some (cellIn ptUint8 7 256), some (cellIn ptUint16 0x1234 512)] [1, 0] []

/-- The engine `waiting` with the identifier 1 in the extended-type queue. -/
def waitingExtended : Param :=
  paramEngineWith [some (cellIn ptUint8 7 256), some (cellIn ptUint16 0x1234 512)] [1, 0] [1]

/-- The engine `waiting` after both requests were sent. -/
def inFlight : Param :=
  paramEngineWith [some (cellIn ptUint8 7 257), some (cellIn ptUint16 0x1234 513)] [1, 0] []

/-- What happens to a parameter engine: an iteration of its worker or a packet for it. -/
inductive ParamEvent where
  | tick
  | reply (pk : Packet)

/-- The engine after the events, oldest first. -/
def run : List ParamEvent → Param → Except Fault Param
  | [], p => .ok p
  | ParamEvent.tick :: es, p =>
    match p.queueIteration p.useV2 with
    | .ok p1 => run es p1
    | .error f => .error f
  | ParamEvent.reply pk :: es, p =>
    match p._param_updated pk with
    | .ok p1 => run es p1
    | .error f => .error f

/-- What is seen of the state of a parameter engine: the number of `paramResetComplete`
signals, the states of the cells and the update queue. -/
def paramView (r : Except Fault Param) : Option (Option Nat × List (Option Nat) × List Nat) :=
  match r with
  | .ok p =>
    some (p.portConnect.map (fun pc => pc.paramResets),
      p.values.map (fun slot => slot.map (fun c => c._state)), p.updateQueue)
  | .error _ => none

/-- The packets a parameter engine has sent, oldest first: port, channel and payload. -/
def paramWire (r : Except Fault Param) : List (Nat × Nat × List Nat) :=
  match r with
  | .ok p =>
    match p.portConnect with
    | some pc => pc.wire.map (fun pk => (pk.port, pk.channel, pk.bytes))
    | none => []
  | .error _ => []

/-- A commander on the open sample link. -/
def commander : Commander := Commander.init (some link)

/-- The engine on the open link with a cache directory holding `files`, after its fetcher was
started: the fetcher waits for the TOC info reply. -/
def awaitingInfo (files : List (Nat × Str)) : cfLog :=
  let e : cfLog := { engine LogToc.empty with tocCache := some files }
  match (TocFetcher.init e LOGGING).start e with
  | .ok s => s
  | .error _ => e

/-- The link of the engine `awaitingInfo files`. -/
def awaitingLink (files : List (Nat × Str)) : PortConnect :=
  (awaitingInfo files).portConnect.getD link

/-- The fetcher of the engine `awaitingInfo files`. -/
def awaitingFetcher : TocFetcher :=
  { _useV2 := true, _crc := 0, requested_index := 0, state := TocFetcher.GET_TOC_INFO,
    protocolVersion := 5, expectedReply := CMD_TOC_INFO_V2, nbr_of_items := 0, port := LOGGING }

/-- The V2 info reply reporting `n` items and the CRC `crc`. -/
def infoReply (n crc : Nat) : Packet :=
  packet LOGGING 0
    [CMD_TOC_INFO_V2, PackUtils.byteOf n 0, PackUtils.byteOf n 1, PackUtils.byteOf crc 0,
      PackUtils.byteOf crc 1, PackUtils.byteOf crc 2, PackUtils.byteOf crc 3]

/-- The V2 reply for the element `id`: the `float` variable `g.v<id>`. -/
def elementReply (id : Nat) : Packet :=
  packet LOGGING 0
    ([CMD_TOC_ITEM_V2, PackUtils.byteOf id 0, PackUtils.byteOf id 1, 7, 103, 0, 118]
      ++ (Nat.toDigits 10 id).map Char.toNat ++ [0])

/-- What the statements observe of an engine after a run: the packets sent, `resetComplete`,
the number of notifications of the owner, the elements of the TOC and the CRCs of the cache
files. -/
def fetchView (r : Except Fault cfLog) :
    Option (List (Nat × Nat × List Nat) × Bool × Nat × List (Str × Str × Nat) × List Nat) :=
  match r with
  | .ok s =>
    some (s.sent, s.resetComplete, s.notified,
      s.toc.allElements.map (fun e => (e.group, e.name, e.ident)),
      (s.tocCache.getD []).map (fun file => file.1))
  | .error _ => none

/-- The TOC of one element of the group `g`, whose name is `a`, a quotation mark and `b`. -/
def quoteToc : LogToc := LogToc.addAll [namedElement ['g'] ['a', reflectIO.quote, 'b'] 0]

/-- The TOC of one element of the group `g`, whose name is `a`, a closing brace and `b`. -/
def braceToc : LogToc := LogToc.addAll [namedElement ['g'] ['a', reflectIO.closeBrace, 'b'] 0]

/-- The TOC of the elements `g.a`, `g.b` and `h.c d`, in two groups. -/
def twoGroupToc : LogToc :=
  LogToc.addAll
    [namedElement ['g'] ['a'] 0, namedElement ['g'] ['b'] 1, namedElement ['h'] ['c', ' ', 'd'] 2]

/-- The quaternion `(0.5, -0.5, 0.5, -0.50000006)`: its last component is the largest. -/
def halves : Nat → Nat := quatOf [0x3F000000, 0xBF000000, 0x3F000000, 0xBF000001]

/-- An open link whose platform client reports protocol version 3, below 4. -/
def linkV1 : PortConnect :=
  { cfConnection := true, platform := some 3, wire := [], logResets := 0, paramResets := 0 }

/-- A fresh engine after `setConnection` on the link of protocol version 3, with an empty
cache directory, after its fetcher was started. -/
def awaitingInfoV1 : cfLog :=
  let e : cfLog := (cfLog.init (some [])).setConnection (some linkV1)
  match (TocFetcher.init e LOGGING).start e with
  | .ok s => s
  | .error _ => e

/-- The V1 info reply reporting `n` items and the CRC `crc`. -/
def infoReplyV1 (n crc : Nat) : Packet :=
  packet LOGGING 0
    [CMD_TOC_INFO, n % 256, PackUtils.byteOf crc 0, PackUtils.byteOf crc 1,
      PackUtils.byteOf crc 2, PackUtils.byteOf crc 3]

/-- The V1 reply for the element `id`: the `float` variable `g.v<id>`. -/
def elementReplyV1 (id : Nat) : Packet :=
  packet LOGGING 0
    ([CMD_TOC_ELEMENT, id % 256, 7, 103, 0, 118] ++ (Nat.toDigits 10 id).map Char.toNat ++ [0])

/-- The engine `awaitingInfoV1` after the info reply `n = 3, crc = 0xDEADBEEF` was handed to
`cfLog::_new_packet_cb`: the request for the element 0 is outstanding. -/
def awaitingElementV1 : cfLog :=
  match awaitingInfoV1._new_packet_cb (infoReplyV1 3 0xDEADBEEF) with
  | .ok s => s
  | .error _ => awaitingInfoV1

/-- The engine `awaitingInfo []` after the info reply `n = 1, crc = 0xDEADBEEF` and the reply
for the element 0: the download is complete and the cache file of the CRC is written. -/
def downloaded : cfLog :=
  match TocFetcher.deliver 0 (awaitingInfo []) [infoReply 1 0xDEADBEEF, elementReply 0] with
  | .ok s => s
  | .error _ => awaitingInfo []

/-- The engine `s` after a new fetcher was made and started on it. -/
def restarted (s : cfLog) : cfLog :=
  match (TocFetcher.init s LOGGING).start s with
  | .ok s1 => s1
  | .error _ => s

/-- What the statements observe of an `add_config` call followed by the data packet
`[0, 1, 0, 0, 42]` for the block 0: the result of the call, the fetch kind and the type of
each variable of the block, and the fault of the data handler, `none` when it returns. -/
def kindsAndData (r : Except Fault (Bool × LogConfig × cfLog)) :
    Option (Bool × List (Nat × Nat) × Option Fault) :=
  match r with
  | .ok r =>
    some (r.1, r.2.1.vars.map (fun (v : LogVariable) => (v.fetch_as, v._type)),
      match r.2.2._new_packet_cb (packet LOGGING CHAN_LOGDATA [0, 1, 0, 0, 42]) with
      | .ok _ => none
      | .error e => some e)
  | .error _ => none

/-- The variable `v` after `set` on the bytes `bytes` with the time `time`. -/
def cellFrom (v : LogVariable) (bytes : List Nat) (time : Nat) : LogVariable :=
  match v.set (fun i => bytes.getD i 0) time with
  | .ok r => r.1
  | .error _ => v

/-- A high level commander on the open link. -/
def highLevel : HighLevelCommander := HighLevelCommander.init (some link)

/-- The block of period 100 ms with the TOC variables `g.v<a> .. g.v<a+n-1>`, all of them
added without a fetch kind. -/
def unkindedBlock (a n : Nat) : LogConfig :=
  (List.range n).foldl (fun c i => c.add_variable (tocVariable (a + i) tdNone))
    (LogConfig.init ['b'] 100)

/-- The block of period 100 ms with a `uint16_t` memory variable, then a default-constructed
variable added with `add_memory`: the fetch kind of the second is `tdNone`. -/
def defaultMemoryBlock : LogConfig :=
  ((LogConfig.init ['b'] 100).add_memory (memVariable tdUint16)).add_memory LogVariable.default

/-- The engine after `add_config` of `block` on a fresh connected engine with an empty TOC. -/
def afterAdd (block : LogConfig) : cfLog :=
  match (engine LogToc.empty).add_config block with
  | .ok r => r.2.2
  | .error _ => engine LogToc.empty

end Sample

/-! ## Theorems -/

namespace PackUtils

theorem poke_same (buffer : Buffer) (i b : Nat) : poke buffer i b i = b % 256 := by
  simp [poke]

theorem poke_other (buffer : Buffer) (i b j : Nat) (h : j ≠ i) : poke buffer i b j = buffer j := by
  simp [poke, h]

theorem byteOf_lt (v k : Nat) : byteOf v k < 256 := by
  unfold byteOf; omega

/-- C1: every `pack` overload writes the value least significant byte first at
`buffer[index .. index+n-1]`, leaves every other byte unchanged and returns `n`
(4 for f32/u32, 2 for u16/i16, 1 for u8/bool); `pack(bool)` writes exactly 1 or 0;
every `unpack` overload returns the same `n` as the matching `pack`. -/
theorem C1_pack_little_endian (buffer : Buffer) (index : Nat) :
    (∀ v : Nat, (pack_float buffer index v).2 = 4
        ∧ (∀ k, k < 4 → (pack_float buffer index v).1 (index + k) = v / 256 ^ k % 256)
        ∧ (∀ j, (j < index ∨ index + 4 ≤ j) → (pack_float buffer index v).1 j = buffer j))
    ∧ (∀ v : Nat, (pack_uint32 buffer index v).2 = 4
        ∧ (∀ k, k < 4 → (pack_uint32 buffer index v).1 (index + k) = v / 256 ^ k % 256)
        ∧ (∀ j, (j < index ∨ index + 4 ≤ j) → (pack_uint32 buffer index v).1 j = buffer j))
    ∧ (∀ v : Nat, (pack_uint16 buffer index v).2 = 2
        ∧ (∀ k, k < 2 → (pack_uint16 buffer index v).1 (index + k) = v / 256 ^ k % 256)
        ∧ (∀ j, (j < index ∨ index + 2 ≤ j) → (pack_uint16 buffer index v).1 j = buffer j))
    ∧ (∀ v : Int, (pack_int16 buffer index v).2 = 2
        ∧ (∀ k, k < 2 →
            ((pack_int16 buffer index v).1 (index + k) : Int) = v / 256 ^ k % 256)
        ∧ (∀ j, (j < index ∨ index + 2 ≤ j) → (pack_int16 buffer index v).1 j = buffer j))
    ∧ (∀ v : Nat, (pack_uint8 buffer index v).2 = 1
        ∧ (pack_uint8 buffer index v).1 index = v % 256
        ∧ (∀ j, j ≠ index → (pack_uint8 buffer index v).1 j = buffer j))
    ∧ (∀ v : Bool, (pack_bool buffer index v).2 = 1
        ∧ (pack_bool buffer index v).1 index = (if v then 1 else 0)
        ∧ (∀ j, j ≠ index → (pack_bool buffer index v).1 j = buffer j))
    ∧ (unpack_float buffer index).2 = 4 ∧ (unpack_uint32 buffer index).2 = 4
    ∧ (unpack_uint16 buffer index).2 = 2 ∧ (unpack_int16 buffer index).2 = 2
    ∧ (unpack_uint8 buffer index).2 = 1 ∧ (unpack_bool buffer index).2 = 1 := by
  refine ⟨?_, ?_, ?_, ?_, ?_, ?_, rfl, rfl, rfl, rfl, rfl, rfl⟩
  · intro v
    refine ⟨rfl, ?_, ?_⟩
    · intro k hk
      interval_cases k <;> simp [pack_float, poke, byteOf, Nat.mod_mod]
    · intro j hj
      have h0 : j ≠ index := by omega
      have h1 : j ≠ index + 1 := by omega
      have h2 : j ≠ index + 2 := by omega
      have h3 : j ≠ index + 3 := by omega
      simp [pack_float, poke, h0, h1, h2, h3]
  · intro v
    refine ⟨rfl, ?_, ?_⟩
    · intro k hk
      interval_cases k <;> simp [pack_uint32, poke, byteOf, Nat.mod_mod]
    · intro j hj
      have h0 : j ≠ index := by omega
      have h1 : j ≠ index + 1 := by omega
      have h2 : j ≠ index + 2 := by omega
      have h3 : j ≠ index + 3 := by omega
      simp [pack_uint32, poke, h0, h1, h2, h3]
  · intro v
    refine ⟨rfl, ?_, ?_⟩
    · intro k hk
      interval_cases k <;> simp [pack_uint16, poke, byteOf, Nat.mod_mod]
    · intro j hj
      have h0 : j ≠ index := by omega
      have h1 : j ≠ index + 1 := by omega
      simp [pack_uint16, poke, h0, h1]
  · intro v
    refine ⟨rfl, ?_, ?_⟩
    · intro k hk
      interval_cases k <;> simp [pack_int16, poke, byteOf, int16Bits, Nat.mod_mod] <;> omega
    · intro j hj
      have h0 : j ≠ index := by omega
      have h1 : j ≠ index + 1 := by omega
      simp [pack_int16, poke, h0, h1]
  · intro v
    refine ⟨rfl, ?_, ?_⟩
    · simp [pack_uint8, poke]
    · intro j hj
      simp [pack_uint8, poke, hj]
  · intro v
    refine ⟨rfl, ?_, ?_⟩
    · cases v <;> simp [pack_bool, poke]
    · intro j hj
      simp [pack_bool, poke, hj]

/-- C2: for every scalar kind with both overloads (u8, u16, i16, u32, f32 as its 32-bit
pattern, bool), unpacking at the index where a value of that kind was just packed returns
the value. -/
theorem C2_unpack_pack (buffer : Buffer) (index : Nat) (x8 x16 x32 f : Nat) (i16 : Int)
    (b : Bool) (h8 : x8 < 2 ^ 8) (h16 : x16 < 2 ^ 16) (h32 : x32 < 2 ^ 32) (hf : f < 2 ^ 32)
    (hi : -32768 ≤ i16 ∧ i16 < 32768) :
    (unpack_uint8 (pack_uint8 buffer index x8).1 index).1 = x8
    ∧ (unpack_uint16 (pack_uint16 buffer index x16).1 index).1 = x16
    ∧ (unpack_int16 (pack_int16 buffer index i16).1 index).1 = i16
    ∧ (unpack_uint32 (pack_uint32 buffer index x32).1 index).1 = x32
    ∧ (unpack_float (pack_float buffer index f).1 index).1 = f
    ∧ (unpack_bool (pack_bool buffer index b).1 index).1 = b := by
  refine ⟨?_, ?_, ?_, ?_, ?_, ?_⟩
  · simp only [unpack_uint8, pack_uint8, peek, poke, byteOf]
    simp
    omega
  · simp only [unpack_uint16, pack_uint16, peek, poke, byteOf]
    simp
    omega
  · simp only [unpack_int16, pack_int16, peek, poke, byteOf, int16Bits, int16OfBits]
    simp
    omega
  · simp only [unpack_uint32, pack_uint32, peek, poke, byteOf]
    simp
    omega
  · simp only [unpack_float, pack_float, peek, poke, byteOf]
    simp
    omega
  · cases b <;> simp [unpack_bool, pack_bool, peek, poke]

/-- Witness of C2: the round trip at index 3 of the all-zero buffer. -/
theorem C2_unpack_pack_witness :
    (unpack_uint8 (pack_uint8 (fun _ => 0) 3 200).1 3).1 = 200
    ∧ (unpack_uint16 (pack_uint16 (fun _ => 0) 3 51966).1 3).1 = 51966
    ∧ (unpack_int16 (pack_int16 (fun _ => 0) 3 (-2)).1 3).1 = -2
    ∧ (unpack_uint32 (pack_uint32 (fun _ => 0) 3 3735928559).1 3).1 = 3735928559
    ∧ (unpack_float (pack_float (fun _ => 0) 3 1065353216).1 3).1 = 1065353216
    ∧ (unpack_bool (pack_bool (fun _ => 0) 3 true).1 3).1 = true :=
  C2_unpack_pack (fun _ => 0) 3 200 51966 3735928559 1065353216 (-2) true
    (by decide) (by decide) (by decide) (by decide) (by decide)

end PackUtils

/-! ### The data packet handler -/

theorem timestamp_or_eq_add (a b c : Nat) (ha : a < 256) (hb : b < 256) :
    a ||| (b <<< 8) ||| (c <<< 16) = a + 256 * b + 65536 * c := by
  have h1 : a ||| (b <<< 8) = 256 * b + a := by
    rw [Nat.or_comm, Nat.shiftLeft_eq, Nat.mul_comm]
    exact (Nat.mul_add_lt_is_or (i := 8) (by simpa using ha) b).symm
  have h2 : 256 * b + a < 2 ^ 16 := by norm_num; omega
  rw [h1, Nat.or_comm, Nat.shiftLeft_eq, Nat.mul_comm]
  rw [← Nat.mul_add_lt_is_or (i := 16) h2 c]
  norm_num
  omega

theorem LogVariable.set_ok (v : LogVariable) (buffer : PackUtils.Buffer) (time : Nat)
    (h : v.fetch_as < 8) :
    v.set buffer time = .ok
      ({ v with _value := leValue (PackUtils.peek buffer) 0 v.wireSize
                            + 4294967296 * (time % 4294967296) }, v.wireSize) := by
  obtain ⟨name, address, fetch_as, ty, ctype, value⟩ := v
  simp only at h
  interval_cases fetch_as <;>
    simp [LogVariable.set, LogVariable.wireSize, LogTocElement.get_size_from_id, types,
      gTypesSize, LogVariable.value64, LogVariable.copyBytes, PackUtils.poke, PackUtils.peek,
      PackUtils.byteOf, leValue, List.range_succ] <;> omega

theorem LogConfig.offsetOf_zero (vars : List LogVariable) : LogConfig.offsetOf vars 0 = 0 := by
  simp [LogConfig.offsetOf]

theorem LogConfig.offsetOf_cons_succ (v : LogVariable) (vars : List LogVariable) (k : Nat) :
    LogConfig.offsetOf (v :: vars) (k + 1) = v.wireSize + LogConfig.offsetOf vars k := by
  simp [LogConfig.offsetOf]

theorem leValue_shift (d : Nat → Nat) (o : Nat) :
    ∀ n, leValue (fun i => d (o + i)) 0 n = leValue d o n := by
  intro n
  induction n with
  | zero => rfl
  | succ n ih => simp [leValue, ih]

theorem LogVariable.set_at (v : LogVariable) (logData : PackUtils.Buffer) (o time : Nat)
    (h : v.fetch_as < 8) :
    v.set (fun i => logData (o + i)) time = .ok
      ({ v with _value := leValue (PackUtils.peek logData) o v.wireSize
                            + 4294967296 * (time % 4294967296) }, v.wireSize) := by
  rw [LogVariable.set_ok _ _ _ h]
  have hfun : (PackUtils.peek fun i => logData (o + i))
      = fun i => PackUtils.peek logData (o + i) := rfl
  rw [hfun, leValue_shift]

theorem LogConfig.unpackLoop_ok (logData : PackUtils.Buffer) (timestamp : Nat) :
    ∀ (vars : List LogVariable) (o : Nat), (∀ v ∈ vars, v.fetch_as < 8) →
      ∃ vs, LogConfig.unpackLoop logData timestamp vars o = .ok vs
        ∧ vs.length = vars.length
        ∧ ∀ k v, vars.get? k = some v →
            vs.get? k = some
              { v with _value :=
                  leValue (PackUtils.peek logData) (o + LogConfig.offsetOf vars k) v.wireSize
                    + 4294967296 * (timestamp % 4294967296) } := by
  intro vars
  induction vars with
  | nil =>
    intro o _
    exact ⟨[], rfl, rfl, by simp⟩
  | cons v rest ih =>
    intro o h
    have hv : v.fetch_as < 8 := h v (List.mem_cons_self _ _)
    obtain ⟨vs, hvs, hlen, hget⟩ :=
      ih (o + v.wireSize) (fun w hw => h w (List.mem_cons_of_mem _ hw))
    refine ⟨{ v with _value := leValue (PackUtils.peek logData) o v.wireSize
                + 4294967296 * (timestamp % 4294967296) } :: vs, ?_, ?_, ?_⟩
    · simp only [LogConfig.unpackLoop, LogVariable.set_at _ _ _ _ hv, hvs]
    · simp [hlen]
    · intro k w hk
      cases k with
      | zero =>
        simp only [List.get?_cons_zero, Option.some.injEq] at hk
        subst hk
        simp only [List.get?_cons_zero, LogConfig.offsetOf_zero, Nat.add_zero]
      | succ k =>
        simp only [List.get?_cons_succ] at hk
        simp only [List.get?_cons_succ, LogConfig.offsetOf_cons_succ]
        rw [hget k w hk, Nat.add_assoc]

theorem cfLog.setBlock_same (s : cfLog) (id : Nat) (block : LogConfig) :
    (s.setBlock id block).blockList id = some block := by
  simp [cfLog.setBlock]

theorem cfLog.setBlock_other (s : cfLog) (id j : Nat) (block : LogConfig) (h : j ≠ id) :
    (s.setBlock id block).blockList j = s.blockList j := by
  simp [cfLog.setBlock, h]

theorem LogVariable.set_fault (v : LogVariable) (buffer : PackUtils.Buffer) (time : Nat)
    (h : 8 ≤ v.fetch_as) : v.set buffer time = .error .outOfBounds := by
  have : types.get? v.fetch_as = none := by
    apply List.get?_eq_none.mpr
    simpa [types] using h
  simp only [LogVariable.set, this]

theorem LogConfig.unpackLoop_fault (logData : PackUtils.Buffer) (timestamp : Nat) :
    ∀ (vars : List LogVariable) (o : Nat), (∃ v ∈ vars, 8 ≤ v.fetch_as) →
      LogConfig.unpackLoop logData timestamp vars o = .error .outOfBounds := by
  intro vars
  induction vars with
  | nil =>
    intro o h
    obtain ⟨v, hv, -⟩ := h
    cases hv
  | cons v rest ih =>
    intro o h
    by_cases hv : v.fetch_as < 8
    · have hrest : ∃ w ∈ rest, 8 ≤ w.fetch_as := by
        obtain ⟨w, hw, hw8⟩ := h
        rcases List.mem_cons.mp hw with rfl | hw
        · omega
        · exact ⟨w, hw, hw8⟩
      simp only [LogConfig.unpackLoop, LogVariable.set_at _ _ _ _ hv, ih _ hrest]
    · simp only [LogConfig.unpackLoop, LogVariable.set_fault _ _ _ (by omega : 8 ≤ v.fetch_as)]

/-- C3 (failing input): a LOGDATA packet `[id, t0, t1, t2, d0, d1, ...]` with
`id < blockListSize` leaves in the cell of the k-th variable of block `id` the bytes
`d[o_k .. o_k+s_k-1]` as its value (`s_j` the size of the fetch kind of variable `j`,
`o_k = s_0 + ... + s_(k-1)`) together with the timestamp `t0 + 256*t1 + 65536*t2`, which is
below `2^24`, and leaves the other blocks unchanged, when every variable of the block has one
of the eight fetch kinds. When a variable of the block has a `fetch_as` that is none of them,
as `add_config` lets it have, the handler reads `types[fetch_as]` outside the table and no
cell is set. A packet with `id >= blockListSize` changes nothing. -/
theorem C3_logdata_unpack (s : cfLog) (pk : Packet) (hsize : pk.size > 0)
    (hport : pk.port = LOGGING) (hchan : pk.channel = CHAN_LOGDATA) :
    PackUtils.peek pk.payload 1 + 256 * PackUtils.peek pk.payload 2
        + 65536 * PackUtils.peek pk.payload 3 < 2 ^ 24
    ∧ (∀ block, PackUtils.peek pk.payload 0 < s.blockListSize →
        s.blockList (PackUtils.peek pk.payload 0) = some block →
        (∀ v ∈ block.vars, v.fetch_as < 8) →
        ∃ s1 block1, s._new_packet_cb pk = .ok s1
          ∧ s1.blockList (PackUtils.peek pk.payload 0) = some block1
          ∧ block1.vars.length = block.vars.length
          ∧ (∀ k v, block.vars.get? k = some v →
              block1.vars.get? k = some (v.withCell
                (leValue (fun i => PackUtils.peek pk.payload (4 + i))
                    (LogConfig.offsetOf block.vars k) v.wireSize
                  + 2 ^ 32 * (PackUtils.peek pk.payload 1 + 256 * PackUtils.peek pk.payload 2
                      + 65536 * PackUtils.peek pk.payload 3))))
          ∧ (∀ j, j ≠ PackUtils.peek pk.payload 0 → s1.blockList j = s.blockList j))
    ∧ (∀ block, PackUtils.peek pk.payload 0 < s.blockListSize →
        s.blockList (PackUtils.peek pk.payload 0) = some block →
        (∃ v ∈ block.vars, 8 ≤ v.fetch_as) →
        s._new_packet_cb pk = .error .outOfBounds)
    ∧ (s.blockListSize ≤ PackUtils.peek pk.payload 0 → s._new_packet_cb pk = .ok s) := by
  have h0 : PackUtils.peek pk.payload 1 < 256 := Nat.mod_lt _ (by norm_num)
  have h1 : PackUtils.peek pk.payload 2 < 256 := Nat.mod_lt _ (by norm_num)
  have h2 : PackUtils.peek pk.payload 3 < 256 := Nat.mod_lt _ (by norm_num)
  have hcb : s._new_packet_cb pk = s.onLogData pk := by
    simp [cfLog._new_packet_cb, hsize, hport, hchan, CHAN_LOGDATA, CHAN_SETTINGS]
  refine ⟨by norm_num; omega, ?_, ?_, ?_⟩
  · intro block hid hblock hkinds
    have hts : (PackUtils.unpack_uint8 (fun i => pk.payload (i + 1)) 0).1
          ||| ((PackUtils.unpack_uint8 (fun i => pk.payload (i + 1)) (0 + 1)).1 <<< 8)
          ||| ((PackUtils.unpack_uint8 (fun i => pk.payload (i + 1)) (0 + 1 + 1)).1 <<< 16)
        = PackUtils.peek pk.payload 1 + 256 * PackUtils.peek pk.payload 2
          + 65536 * PackUtils.peek pk.payload 3 := by
      simp only [PackUtils.unpack_uint8, PackUtils.peek]
      exact timestamp_or_eq_add _ _ _ h0 h1
    obtain ⟨vs, hvs, hlen, hget⟩ :=
      LogConfig.unpackLoop_ok (fun i => pk.payload (i + 1 + 3))
        (PackUtils.peek pk.payload 1 + 256 * PackUtils.peek pk.payload 2
          + 65536 * PackUtils.peek pk.payload 3) block.vars 0 hkinds
    have hrun : s.onLogData pk
        = .ok (s.setBlock (PackUtils.peek pk.payload 0)
            { block with started := true, vars := vs }) := by
      simp only [cfLog.onLogData, hid, if_true, hblock, LogConfig.unpack_log_data]
      simp only [PackUtils.unpack_uint8] at hts ⊢
      simp only [hts]
      simp only [Nat.zero_add] at hvs ⊢
      rw [hvs]
    refine ⟨_, _, hcb.trans hrun, cfLog.setBlock_same _ _ _, hlen, ?_, ?_⟩
    · intro k v hk
      have hmod : (PackUtils.peek pk.payload 1 + 256 * PackUtils.peek pk.payload 2
          + 65536 * PackUtils.peek pk.payload 3) % 4294967296
          = PackUtils.peek pk.payload 1 + 256 * PackUtils.peek pk.payload 2
          + 65536 * PackUtils.peek pk.payload 3 := by omega
      have hd : PackUtils.peek (fun i => pk.payload (i + 1 + 3))
          = fun i => PackUtils.peek pk.payload (4 + i) := by
        funext i
        simp only [PackUtils.peek]
        congr 2
        omega
      have := hget k v hk
      simp only [hmod, hd, Nat.zero_add] at this
      simpa [LogVariable.withCell] using this
    · intro j hj
      exact cfLog.setBlock_other _ _ _ _ hj
  · intro block hid hblock hbad
    rw [hcb]
    simp only [cfLog.onLogData, hid, if_true, hblock, LogConfig.unpack_log_data,
      LogConfig.unpackLoop_fault _ _ _ _ hbad]
  · intro hid
    rw [hcb]
    have : ¬ s.blockListSize > PackUtils.peek pk.payload 0 := by omega
    simp [cfLog.onLogData, this]

set_option maxRecDepth 100000 in
/-- Witness of C3: a data packet for block 0 of an engine whose block has a `uint16_t` and a
`float32_t` variable sets the two cells. The block of a `uint16_t` memory variable and a
default-constructed variable added with `add_memory` is accepted by `add_config` on a fresh
connected engine and is block 0; the data packet for it sets no cell: the handler reads
`types[255]`. -/
theorem C3_logdata_unpack_witness :
    (((Sample.packet 5 2 [0, 16, 32, 48, 170, 187, 1, 2, 3, 4]).size > 0
      ∧ (Sample.packet 5 2 [0, 16, 32, 48, 170, 187, 1, 2, 3, 4]).port = LOGGING
      ∧ (Sample.packet 5 2 [0, 16, 32, 48, 170, 187, 1, 2, 3, 4]).channel = CHAN_LOGDATA)
    ∧ ∃ s1 block1,
        Sample.twoVariableEngine._new_packet_cb
            (Sample.packet 5 2 [0, 16, 32, 48, 170, 187, 1, 2, 3, 4]) = .ok s1
        ∧ s1.blockList 0 = some block1
        ∧ block1.vars.map (fun v => v._value) = [13546051973725098, 13546052040983041])
    ∧ ((match (Sample.engine LogToc.empty).add_config Sample.defaultMemoryBlock with
          | .ok r => some (r.1, r.2.2.blockListSize,
              (r.2.2.blockList 0).map (fun b => b.vars.map (fun v => v.fetch_as)))
          | .error _ => none) = some (true, 1, some [1, 255])
      ∧ (Sample.afterAdd Sample.defaultMemoryBlock)._new_packet_cb
            (Sample.packet 5 2 [0, 16, 32, 48, 170, 187, 1]) = .error .outOfBounds) := by
  constructor
  · refine ⟨⟨by decide, by decide, by decide⟩, ?_⟩
    obtain ⟨s1, block1, h1, h2, h3, h4, -⟩ :=
      (C3_logdata_unpack Sample.twoVariableEngine
        (Sample.packet 5 2 [0, 16, 32, 48, 170, 187, 1, 2, 3, 4])
        (by decide) (by decide) (by decide)).2.1
        ((LogConfig.init ['b'] 100).add_memory (Sample.memVariable tdUint16)
          |>.add_memory (Sample.memVariable tdFloat32))
        (by decide) rfl (by decide)
    refine ⟨s1, block1, h1, h2, ?_⟩
    have e0 := h4 0 _ rfl
    have e1 := h4 1 _ rfl
    rcases hv : block1.vars with _ | ⟨a, _ | ⟨b, _ | ⟨c, r⟩⟩⟩
    · simp [hv] at e0
    · simp [hv] at e1
    · simp only [hv, List.get?_cons_zero, List.get?_cons_succ, Option.some.injEq] at e0 e1
      subst e0 e1
      decide
    · rw [hv] at h3
      simp [LogConfig.add_memory, LogConfig.init, LogConfig.default] at h3
  · refine ⟨by decide, ?_⟩
    have hkinds : ((Sample.afterAdd Sample.defaultMemoryBlock).blockList 0).map
        (fun b => b.vars.map (fun v => v.fetch_as)) = some [1, 255] := by decide
    cases hb : (Sample.afterAdd Sample.defaultMemoryBlock).blockList 0 with
    | none => rw [hb] at hkinds; cases hkinds
    | some block =>
      rw [hb] at hkinds
      simp only [Option.map_some', Option.some.injEq] at hkinds
      have hmem : (255 : Nat) ∈ block.vars.map (fun v => v.fetch_as) := by
        rw [hkinds]; simp
      obtain ⟨v, hv, hv255⟩ := List.mem_map.mp hmem
      exact (C3_logdata_unpack (Sample.afterAdd Sample.defaultMemoryBlock)
        (Sample.packet 5 2 [0, 16, 32, 48, 170, 187, 1])
        (by decide) (by decide) (by decide)).2.2.1 block (by decide) hb
        ⟨v, hv, by omega⟩

/-! ### Block creation -/

/-- C4 (failing input): under V2 `create` sends a block of 8 one-byte TOC variables as a
CREATE_BLOCK_V2 frame with the descriptors of the elements 0..6 and an APPEND_BLOCK_V2 frame
with the descriptors of the elements 6 and 7: the descriptor of element 6 is sent twice. For
the block of three TOC variables, three memory variables and one more TOC variable, the
frames carry the elements 0, 1, 2, the addresses 17 and 34 and the element 6, then the
element 6 again: the variable at address 51 is never sent. -/
theorem C4_create_repeats_descriptor :
    (match (Sample.engine (Sample.toc 8 tdUint8)).add_config (Sample.tocBlock 8 tdUint8) with
      | .ok r => (r.1, Sample.wire r.2.2)
      | .error _ => (false, []))
    = (true,
        [(5, 1, [6, 0, 0, 0, 0, 0, 1, 0, 0, 2, 0, 0, 3, 0, 0, 4, 0, 0, 5, 0, 0, 6, 0]),
         (5, 1, [7, 0, 0, 6, 0, 0, 7, 0])])
    ∧ (match (Sample.engine (Sample.toc 8 tdUint8)).add_config Sample.mixedBlock with
      | .ok r => (r.1, Sample.wire r.2.2)
      | .error _ => (false, []))
    = (true,
        [(5, 1, [6, 0, 0, 0, 0, 0, 1, 0, 0, 2, 0, 0, 17, 0, 0, 0, 0, 34, 0, 0, 0, 0, 6, 0]),
         (5, 1, [7, 0, 0, 6, 0])]) := by
  decide

set_option maxRecDepth 100000 in
/-- C7 (failing input): six `add_config` calls with blocks of 25 one-byte variables leave
five live blocks with 125 variables and a sixth block that `create` turned down but that
stays registered; one data packet for that block makes it live: six live blocks with 150
variables, over `MAX_VARIABLES`. -/
theorem C7_live_variables_exceed_limit :
    (match Sample.addBlocks (Sample.memBlock 25 tdUint8) 6 (Sample.engine LogToc.empty) with
      | .ok s =>
        (s.blockListSize, LogConfig.countLive s,
          match s._new_packet_cb (Sample.packet 5 2 [5, 0, 0, 0]) with
          | .ok s1 => LogConfig.countLive s1
          | .error _ => (0, 0))
      | .error _ => (0, (0, 0), (0, 0)))
    = (6, (5, 125), (6, 150)) := by
  decide

set_option maxRecDepth 100000 in
/-- C8 (failing input): with 15 live blocks of one variable each, an `add_config` of a block
of one variable returns true although `create` turns the block down: no frame is sent (the
15 frames on the link are those of the first 15 blocks) and the block is registered without
being pending. -/
theorem C8_sixteenth_block_turned_down :
    (match Sample.addBlocks (Sample.memBlock 1 tdUint8) 15 (Sample.engine LogToc.empty) with
      | .ok s =>
        (LogConfig.countLive s, (Sample.wire s).length,
          match s.add_config (Sample.memBlock 1 tdUint8) with
          | .ok r => some (r.1, r.2.1.pending, r.2.2.blockListSize, (Sample.wire r.2.2).length)
          | .error _ => none)
      | .error _ => ((0, 0), 0, none))
    = ((15, 15), 15, some (true, 0, 16, 15)) := by
  decide

/-- C9 (failing input): a variable with `fetch_as` unspecified named after the TOC element
of identifier 5 and type `float32_t` gets `fetch_as = 5` (`tdInt32`), the identifier of the
element, and not 7, the index of `float32_t` in `types`. -/
theorem C9_fetch_as_is_identifier :
    (match (Sample.engine (Sample.toc 8 tdFloat32)).add_config
        ((LogConfig.init ['b'] 100).add_variable (Sample.tocVariable 5 tdNone)) with
      | .ok r => (r.1, r.2.1.vars.map (fun v => v.fetch_as))
      | .error _ => (false, []))
    = (true, [5])
    ∧ ((Sample.toc 8 tdFloat32).get_element_by_name ['g', '.', 'v', '5']).map
        (fun e => (e.ident, e.ctype, LogTocElement.get_id_from_cstring e.ctype))
      = some (5, "float32_t".toList, 7) := by
  decide

/-! ### The settings handler -/

theorem LogConfig.startPacket_shape (id period : Nat) :
    (LogConfig.startPacket id period).port = LOGGING
    ∧ (LogConfig.startPacket id period).channel = CHAN_SETTINGS
    ∧ (LogConfig.startPacket id period).size > 0
    ∧ (LogConfig.startPacket id period).bytes
        = [CMD_START_LOGGING, id % 256, period % 256, period / 256 % 256] := by
  refine ⟨rfl, rfl, ?_, ?_⟩
  · simp [LogConfig.startPacket, Packet.setPayloadSize]
  · simp [LogConfig.startPacket, Packet.bytes, Packet.payloadSize, Packet.setPayloadSize,
      PackUtils.pack_uint8, PackUtils.pack_uint16, PackUtils.poke, PackUtils.peek,
      PackUtils.byteOf, List.range_succ, CMD_START_LOGGING]

/-- C10: on a settings reply for CREATE_BLOCK or CREATE_BLOCK_V2 with error 0 or EEXIST for a
registered block that is not yet added, exactly one packet is sent, a START_LOGGING packet on
port LOGGING, channel 1, with the id and the period of the block; the block becomes added and
is no longer pending; no other block changes. -/
theorem C10_create_reply_starts_block (s : cfLog) (pk : Packet) (pc : PortConnect)
    (block : LogConfig) (hsize : pk.size > 1) (hport : pk.port = LOGGING)
    (hchan : pk.channel = CHAN_SETTINGS)
    (hcmd : PackUtils.peek pk.payload 0 = CMD_CREATE_BLOCK
      ∨ PackUtils.peek pk.payload 0 = CMD_CREATE_BLOCK_V2)
    (herr : PackUtils.peek pk.payload 2 = 0 ∨ PackUtils.peek pk.payload 2 = EEXIST)
    (hid : PackUtils.peek pk.payload 1 < s.blockListSize)
    (hblock : s.blockList (PackUtils.peek pk.payload 1) = some block)
    (hadded : block.added = false)
    (hpc : s.portConnect = some pc) (hopen : pc.cfConnection = true) :
    ∃ s1 pc1 sent, s._new_packet_cb pk = .ok s1
      ∧ s1.portConnect = some pc1 ∧ pc1.wire = pc.wire ++ [sent]
      ∧ sent.port = LOGGING ∧ sent.channel = CHAN_SETTINGS
      ∧ sent.bytes = [CMD_START_LOGGING, PackUtils.peek pk.payload 1,
                      block.period % 256, block.period / 256 % 256]
      ∧ s1.blockList (PackUtils.peek pk.payload 1)
          = some { block with added := true, pending := 0 }
      ∧ ∀ j, j ≠ PackUtils.peek pk.payload 1 → s1.blockList j = s.blockList j := by
  obtain ⟨hp, hc, hs, hb⟩ :=
    LogConfig.startPacket_shape (PackUtils.peek pk.payload 1) block.period
  have hidmod : PackUtils.peek pk.payload 1 % 256 = PackUtils.peek pk.payload 1 := by
    simp [PackUtils.peek]
  have hsend : pc.send_packet (LogConfig.startPacket (PackUtils.peek pk.payload 1) block.period)
      = { pc with wire := pc.wire
            ++ [LogConfig.startPacket (PackUtils.peek pk.payload 1) block.period] } := by
    simp [PortConnect.send_packet, hopen, hs]
  have hcreate : s.onCreateReply (PackUtils.peek pk.payload 1) (PackUtils.peek pk.payload 2)
      = .ok (({ s with portConnect := some (pc.send_packet
              (LogConfig.startPacket (PackUtils.peek pk.payload 1) block.period)) } : cfLog).setBlock
            (PackUtils.peek pk.payload 1) { block with added := true, pending := 0 }) := by
    have he : (PackUtils.peek pk.payload 2 == 0 || PackUtils.peek pk.payload 2 == EEXIST)
        = true := by
      rcases herr with h | h <;> simp [h]
    simp [cfLog.onCreateReply, he, hblock, hadded, cfLog.withPort, hpc]
  have hrun : s._new_packet_cb pk
      = .ok (({ s with portConnect := some (pc.send_packet
              (LogConfig.startPacket (PackUtils.peek pk.payload 1) block.period)) } : cfLog).setBlock
            (PackUtils.peek pk.payload 1) { block with added := true, pending := 0 }) := by
    have h0 : pk.size > 0 := by omega
    simp only [cfLog._new_packet_cb, h0, if_true, hport, hchan, BEq.refl, cfLog.onSettings,
      hsize, hid, decide_True, Bool.true_and]
    rcases hcmd with h | h <;>
      simp [h, hcreate, CMD_CREATE_BLOCK, CMD_CREATE_BLOCK_V2, CMD_START_LOGGING,
        CMD_STOP_LOGGING, CMD_DELETE_BLOCK, CMD_RESET_LOGGING]
  refine ⟨_, _, _, hrun, rfl, ?_, hp, hc, ?_, ?_, ?_⟩
  · rw [hsend]
  · rw [hb, hidmod]
  · exact cfLog.setBlock_same _ _ _
  · intro j hj
    exact cfLog.setBlock_other _ _ _ _ hj

/-- Witness of C10: the reply `[CMD_CREATE_BLOCK_V2, 0, 0]` for block 0 of an engine whose
block of period 10 is registered and not added. -/
theorem C10_create_reply_starts_block_witness :
    ((Sample.packet 5 1 [6, 0, 0]).size > 1
      ∧ PackUtils.peek (Sample.packet 5 1 [6, 0, 0]).payload 1 < Sample.twoVariableEngine.blockListSize)
    ∧ ∃ s1, Sample.twoVariableEngine._new_packet_cb (Sample.packet 5 1 [6, 0, 0]) = .ok s1
        ∧ Sample.wire s1 = [(5, 1, [3, 0, 10, 0])]
        ∧ (s1.blockList 0).map (fun b => (b.added, b.pending)) = some (true, 0) := by
  refine ⟨⟨by decide, by decide⟩, ?_⟩
  obtain ⟨s1, pc1, sent, h1, h2, h3, h4, h5, h6, h7, -⟩ :=
    C10_create_reply_starts_block Sample.twoVariableEngine (Sample.packet 5 1 [6, 0, 0])
      Sample.link
      ((LogConfig.init ['b'] 100).add_memory (Sample.memVariable tdUint16)
        |>.add_memory (Sample.memVariable tdFloat32))
      (by decide) (by decide) (by decide) (Or.inr (by decide)) (Or.inl (by decide))
      (by decide) rfl rfl rfl rfl
  refine ⟨s1, h1, ?_, ?_⟩
  · simp only [Sample.wire, h2, h3]
    simp only [Sample.link, List.nil_append, List.map_cons, List.map_nil, h4, h5, h6]
    decide
  · have : s1.blockList 0 = some
        { ((LogConfig.init ['b'] 100).add_memory (Sample.memVariable tdUint16)
            |>.add_memory (Sample.memVariable tdFloat32)) with added := true, pending := 0 } := h7
    rw [this]
    rfl

/-! ### Adding a block -/

theorem list_set_length_append {α : Type} (pre : List α) (v x : α) (rest : List α) :
    (pre ++ v :: rest).set pre.length x = pre ++ x :: rest := by
  induction pre with
  | nil => rfl
  | cons a pre ih => simp [ih]

theorem cfLog.resolveLoop_spec (toc : LogToc) :
    ∀ (rest pre : List LogVariable) (config : LogConfig) (fuel : Nat),
      config.default_fetch_as = pre ++ rest → rest.length < fuel →
      (∀ v ∈ rest, ∀ e, toc.get_element_by_complete_name v.name = some e →
        e.ident % 256 ≠ tdNone) →
      cfLog.resolveLoop toc fuel pre.length config = .ok
        { config with
          default_fetch_as := pre ++ rest.map (cfLog.resolveVar toc)
          vars := config.vars ++ (rest.filter (cfLog.isKnown toc)).map (cfLog.resolveVar toc)
          valid := config.valid && rest.all (cfLog.isKnown toc) } := by
  intro rest
  induction rest with
  | nil =>
    intro pre config fuel hd hf _
    obtain ⟨fuel, rfl⟩ : ∃ n, fuel = n + 1 := ⟨fuel - 1, by simp at hf; omega⟩
    have hget : config.default_fetch_as.get? pre.length = none := by
      rw [hd]; simp
    simp only [cfLog.resolveLoop, hget]
    cases config
    simp at hd
    simp [hd]
  | cons v rest ih =>
    intro pre config fuel hd hf hterm
    obtain ⟨fuel, rfl⟩ : ∃ n, fuel = n + 1 := ⟨fuel - 1, by simp at hf; omega⟩
    have hget : config.default_fetch_as.get? pre.length = some v := by
      rw [hd, List.get?_eq_getElem?, List.getElem?_append_right (Nat.le_refl _)]
      simp
    have hlen : pre.length + 1 = (pre ++ [v]).length := by simp
    simp only [cfLog.resolveLoop, hget]
    cases hlook : toc.get_element_by_complete_name v.name with
    | none =>
      simp only
      rw [hlen, ih (pre ++ [v]) { config with valid := false } fuel (by simp [hd])
        (by simp at hf; omega) (fun w hw => hterm w (List.mem_cons_of_mem _ hw))]
      simp [cfLog.isKnown, cfLog.resolveVar, hlook]
    | some e =>
      have hne : e.ident % 256 ≠ tdNone := hterm v (List.mem_cons_self _ _) e hlook
      have hrv : { v with fetch_as := e.ident % 256 } = cfLog.resolveVar toc v := by
        simp [cfLog.resolveVar, hlook]
      have hfa : (cfLog.resolveVar toc v).fetch_as ≠ tdNone := by
        rw [← hrv]; exact hne
      have hlen1 : pre.length + 1 = (pre ++ [cfLog.resolveVar toc v]).length := by
        simp
      have hadd : ({ config with default_fetch_as :=
              config.default_fetch_as.set pre.length (cfLog.resolveVar toc v) }
            : LogConfig).add_variable (cfLog.resolveVar toc v)
          = { config with
              default_fetch_as := (pre ++ [cfLog.resolveVar toc v]) ++ rest
              vars := config.vars ++ [cfLog.resolveVar toc v] } := by
        simp [LogConfig.add_variable, hfa, hd, list_set_length_append]
      simp only [hrv]
      rw [hadd, hlen1, ih _ _ fuel rfl
        (by simp at hf; omega) (fun w hw => hterm w (List.mem_cons_of_mem _ hw))]
      simp [cfLog.isKnown, hlook]

theorem cfLog.checkVariables_foldl (toc : LogToc) :
    ∀ (vars : List LogVariable) (n : Nat) (valid : Bool),
      vars.foldl
        (fun acc var =>
          let configSize := acc.1 + LogTocElement.get_size_from_id var.fetch_as
          if var.is_toc_variable then
            match toc.get_element_by_complete_name (c_str var.name) with
            | some _ => (configSize, acc.2)
            | none => (configSize, false)
          else (configSize, acc.2))
        (n, valid)
      = (n + LogConfig.payloadOf vars, valid && vars.all (cfLog.isChecked toc)) := by
  intro vars
  induction vars with
  | nil => intro n valid; simp [LogConfig.payloadOf]
  | cons v rest ih =>
    intro n valid
    simp only [List.foldl_cons]
    cases htoc : v.is_toc_variable with
    | false =>
      simp only [Bool.false_eq_true, if_false]
      rw [ih]
      simp [LogConfig.payloadOf, LogVariable.wireSize, cfLog.isChecked, htoc, Nat.add_assoc]
    | true =>
      simp only [if_true]
      cases hlook : toc.get_element_by_complete_name (c_str v.name) with
      | none =>
        simp only
        rw [ih]
        simp [LogConfig.payloadOf, LogVariable.wireSize, cfLog.isChecked, htoc, hlook,
          Nat.add_assoc]
      | some e =>
        simp only
        rw [ih]
        simp [LogConfig.payloadOf, LogVariable.wireSize, cfLog.isChecked, htoc, hlook,
          Nat.add_assoc]

theorem cfLog.checkVariables_spec (toc : LogToc) (vars : List LogVariable) (valid : Bool) :
    cfLog.checkVariables toc vars valid
      = (LogConfig.payloadOf vars, valid && vars.all (cfLog.isChecked toc)) := by
  unfold cfLog.checkVariables
  rw [cfLog.checkVariables_foldl]
  simp

theorem LogConfig.setupElement_nta (useV2 : Bool) (toc : LogToc) (v : LogVariable) (i : Nat)
    (st : Bool × Packet × Nat) :
    (LogConfig.setupElement useV2 toc v i st).2.2 = st.2.2
      ∨ (LogConfig.setupElement useV2 toc v i st).2.2 = i := by
  simp only [LogConfig.setupElement]
  split_ifs <;> simp

theorem LogConfig.setupElement_fits (useV2 : Bool) (toc : LogToc) (v : LogVariable) (i : Nat)
    (st : Bool × Packet × Nat) (h : st.2.1.payloadSize ≤ 14) :
    (LogConfig.setupElement useV2 toc v i st).1 = st.1
      ∧ (LogConfig.setupElement useV2 toc v i st).2.2 = i
      ∧ (LogConfig.setupElement useV2 toc v i st).2.1.payloadSize ≤ st.2.1.payloadSize + 6 := by
  obtain ⟨res, pk, nta⟩ := st
  simp only [Packet.payloadSize] at h
  have h1 : (pk.size - 1) % 256 = pk.size - 1 := by omega
  simp only [LogConfig.setupElement, Packet.payloadSize, h1, LogConfig.MAX_LEN,
    PackUtils.pack_uint8, PackUtils.pack_uint16, PackUtils.pack_uint32, Packet.setPayloadSize]
  split_ifs <;> simp <;> omega

theorem LogConfig.setupLoop_nta (useV2 : Bool) (toc : LogToc) :
    ∀ (rest : List LogVariable) (i : Nat) (st : Bool × Packet × Nat),
      (LogConfig.setupLoop useV2 toc rest i st).2.2 = st.2.2
        ∨ (i ≤ (LogConfig.setupLoop useV2 toc rest i st).2.2
            ∧ (LogConfig.setupLoop useV2 toc rest i st).2.2 < i + rest.length) := by
  intro rest
  induction rest with
  | nil => intro i st; exact Or.inl rfl
  | cons v rest ih =>
    intro i st
    simp only [LogConfig.setupLoop, List.length_cons]
    rcases ih (i + 1) (LogConfig.setupElement useV2 toc v i st) with h | ⟨h1, h2⟩
    · rcases LogConfig.setupElement_nta useV2 toc v i st with h3 | h3
      · exact Or.inl (h.trans h3)
      · exact Or.inr ⟨by omega, by omega⟩
    · exact Or.inr ⟨by omega, by omega⟩

theorem LogConfig.frameHeader_payloadSize (cfg : LogConfig) (command : Nat) :
    (LogConfig.frameHeader cfg command).payloadSize = 2 := by
  simp [LogConfig.frameHeader, Packet.payloadSize, Packet.setPayloadSize, PackUtils.pack_uint8]

theorem LogConfig.setup_progress (cfg : LogConfig) (toc : LogToc) (command next_to_add : Nat)
    (h : (cfg._setup_log_elements toc (LogConfig.frameHeader cfg command) next_to_add).1
      = false) :
    next_to_add < (cfg._setup_log_elements toc (LogConfig.frameHeader cfg command)
        next_to_add).2.2
      ∧ (cfg._setup_log_elements toc (LogConfig.frameHeader cfg command) next_to_add).2.2
          < cfg.vars.length := by
  unfold LogConfig._setup_log_elements at h ⊢
  have hlen : (cfg.vars.drop next_to_add).length = cfg.vars.length - next_to_add :=
    List.length_drop _ _
  have hhead : (true, LogConfig.frameHeader cfg command, next_to_add).2.1.payloadSize ≤ 14 := by
    simp [LogConfig.frameHeader_payloadSize]
  have h2 : ∀ v0, _ := fun v0 => LogConfig.setupElement_fits cfg.useV2 toc v0 next_to_add
      (true, LogConfig.frameHeader cfg command, next_to_add) hhead
  generalize cfg.vars.drop next_to_add = l at h hlen ⊢
  rcases l with _ | ⟨v0, _ | ⟨v1, rest⟩⟩
  · simp [LogConfig.setupLoop] at h
  · simp only [LogConfig.setupLoop] at h
    rw [(h2 v0).1] at h
    simp at h
  · simp only [LogConfig.setupLoop] at h ⊢
    have h2' := (h2 v0).2.2
    simp only [LogConfig.frameHeader_payloadSize] at h2'
    have h3 := LogConfig.setupElement_fits cfg.useV2 toc v1 (next_to_add + 1)
      (LogConfig.setupElement cfg.useV2 toc v0 next_to_add
        (true, LogConfig.frameHeader cfg command, next_to_add)) (by omega)
    simp only [List.length_cons] at hlen
    rcases LogConfig.setupLoop_nta cfg.useV2 toc rest (next_to_add + 1 + 1)
      (LogConfig.setupElement cfg.useV2 toc v1 (next_to_add + 1)
        (LogConfig.setupElement cfg.useV2 toc v0 next_to_add
          (true, LogConfig.frameHeader cfg command, next_to_add))) with h4 | ⟨h4, h5⟩
    · rw [h4, h3.2.1]
      omega
    · omega

theorem LogConfig.createFrames_ok (cfg : LogConfig) (toc : LogToc) :
    ∀ (fuel command next_to_add : Nat), cfg.vars.length - next_to_add < fuel →
      ∃ frames, LogConfig.createFrames cfg toc fuel command next_to_add = .ok frames := by
  intro fuel
  induction fuel with
  | zero => intro _ _ h; omega
  | succ fuel ih =>
    intro command next_to_add h
    simp only [LogConfig.createFrames]
    cases hr : (cfg._setup_log_elements toc (LogConfig.frameHeader cfg command) next_to_add).1 with
    | true => exact ⟨_, rfl⟩
    | false =>
      obtain ⟨h1, h2⟩ := LogConfig.setup_progress cfg toc command next_to_add hr
      obtain ⟨frames, hf⟩ := ih cfg._cmd_append_block
        (cfg._setup_log_elements toc (LogConfig.frameHeader cfg command) next_to_add).2.2
        (by omega)
      simp only [Bool.false_eq_true, if_false, hf]
      exact ⟨_, rfl⟩

theorem LogConfig.create_ok (s : cfLog) (cfg : LogConfig) (pc : PortConnect)
    (hpc : s.portConnect = some pc) :
    ∃ r, LogConfig.create s cfg = .ok r ∧ r.2.2.blockList = s.blockList
      ∧ r.2.2.blockListSize = s.blockListSize ∧ r.2.2.portConnect.isSome
      ∧ r.2.1.vars = cfg.vars := by
  unfold LogConfig.create
  obtain ⟨name, vars, dfa, log, useV2, added, started, pending, valid, connected, period, pms,
    err, id⟩ := cfg
  by_cases h1 : log = true
  · subst h1
    by_cases h2 : (LogConfig.countLive s).1 + 1 < MAX_BLOCKS
    · by_cases h3 : (LogConfig.countLive s).2 + vars.length < MAX_VARIABLES
      · simp only [h2, h3, if_true, hpc]
        split
        · rename_i e he
          obtain ⟨frames, hf⟩ := LogConfig.createFrames_ok
            ⟨name, vars, dfa, true, useV2, added, started, pending + 1, valid, connected,
              period, pms, err, id⟩ s.toc (vars.length + 1)
            (LogConfig._cmd_create_block ⟨name, vars, dfa, true, useV2, added, started,
              pending + 1, valid, connected, period, pms, err, id⟩) 0 (by simp)
          rw [hf] at he
          cases he
        · exact ⟨_, rfl, rfl, rfl, rfl, rfl⟩
      · simp only [h2, h3, if_true, if_false]
        exact ⟨_, rfl, rfl, rfl, by simp [hpc], rfl⟩
    · simp only [h2, if_true, if_false]
      exact ⟨_, rfl, rfl, rfl, by simp [hpc], rfl⟩
  · simp only [h1, if_false]
    exact ⟨_, rfl, rfl, rfl, by simp [hpc], rfl⟩

theorem LogConfig.start_ok (s : cfLog) (cfg : LogConfig) (pc : PortConnect)
    (hpc : s.portConnect = some pc) :
    ∃ r, LogConfig.start s cfg = .ok r ∧ r.2.2.blockList = s.blockList
      ∧ r.2.2.blockListSize = s.blockListSize ∧ r.2.1.vars = cfg.vars := by
  unfold LogConfig.start
  by_cases h1 : cfg.log = true
  · by_cases h2 : cfg.added = true
    · simp only [h1, h2, if_true, hpc, Bool.not_true, Bool.false_eq_true, if_false]
      exact ⟨_, rfl, rfl, rfl, rfl⟩
    · obtain ⟨r, hr, h3, h4, -, h5⟩ := LogConfig.create_ok s cfg pc hpc
      simp only [Bool.not_eq_true] at h2
      simp only [h1, h2, if_true, hpc, Bool.not_false, hr]
      exact ⟨_, rfl, h3, h4, h5⟩
  · simp only [h1, if_false]
    exact ⟨_, rfl, rfl, rfl, rfl⟩

theorem LogConfig.start_ne_error (s : cfLog) (cfg : LogConfig) (pc : PortConnect) (e : Fault)
    (hpc : s.portConnect = some pc) : LogConfig.start s cfg ≠ .error e := by
  obtain ⟨r, hr, -⟩ := LogConfig.start_ok s cfg pc hpc
  rw [hr]
  intro h
  cases h

theorem LogConfig.start_props (s : cfLog) (cfg : LogConfig) (pc : PortConnect)
    (q : Bool × LogConfig × cfLog) (hq : LogConfig.start s cfg = .ok q)
    (hpc : s.portConnect = some pc) :
    q.2.2.blockList = s.blockList ∧ q.2.2.blockListSize = s.blockListSize
      ∧ q.2.1.vars = cfg.vars := by
  obtain ⟨r, hr, h⟩ := LogConfig.start_ok s cfg pc hpc
  rw [hr] at hq
  cases hq
  exact h

theorem cfLog.add_config_rejects (s : cfLog) (config : LogConfig) (pc : PortConnect)
    (hpc : s.portConnect = some pc)
    (hterm : ∀ v ∈ config.default_fetch_as, ∀ e,
      s.toc.get_element_by_complete_name v.name = some e → e.ident % 256 ≠ tdNone)
    (hrej : ¬ (cfLog.validAfter s.toc config = true
      ∧ LogConfig.payloadOf (cfLog.resolvedVars s.toc config) < LogConfig.MAX_LEN
      ∧ 0 < config.period ∧ config.period < 0xff)) :
    ∃ config1, s.add_config config = .ok (false, config1, s)
      ∧ config1.valid = cfLog.validAfter s.toc config := by
  have hres := cfLog.resolveLoop_spec s.toc config.default_fetch_as []
    { config with valid := true } (config.default_fetch_as.length + 1) rfl (by omega) hterm
  simp only [List.length_nil, List.nil_append, Bool.true_and] at hres
  simp only [cfLog.add_config, hpc, hres, cfLog.checkVariables_spec]
  have hcond : ((config.default_fetch_as.all (cfLog.isKnown s.toc)
        && (config.vars ++ (config.default_fetch_as.filter (cfLog.isKnown s.toc)).map
              (cfLog.resolveVar s.toc)).all (cfLog.isChecked s.toc))
      && decide (LogConfig.payloadOf (config.vars
            ++ (config.default_fetch_as.filter (cfLog.isKnown s.toc)).map
              (cfLog.resolveVar s.toc)) < LogConfig.MAX_LEN)
      && decide (config.period > 0) && decide (config.period < 0xff)) = false := by
    simp only [cfLog.validAfter, cfLog.resolvedVars] at hrej
    by_contra hc
    apply hrej
    simp only [Bool.not_eq_false, Bool.and_eq_true, decide_eq_true_eq] at hc
    simp only [Bool.and_eq_true]
    exact ⟨hc.1.1.1, hc.1.1.2, hc.1.2, hc.2⟩
  simp only [hcond, Bool.false_eq_true, if_false]
  exact ⟨_, rfl, rfl⟩

theorem cfLog.add_config_accepts (s : cfLog) (config : LogConfig) (pc : PortConnect)
    (hpc : s.portConnect = some pc) (hroom : s.blockListSize < MAX_BLOCKS)
    (hterm : ∀ v ∈ config.default_fetch_as, ∀ e,
      s.toc.get_element_by_complete_name v.name = some e → e.ident % 256 ≠ tdNone)
    (hacc : cfLog.validAfter s.toc config = true
      ∧ LogConfig.payloadOf (cfLog.resolvedVars s.toc config) < LogConfig.MAX_LEN
      ∧ 0 < config.period ∧ config.period < 0xff) :
    ∃ config1 s1, s.add_config config = .ok (true, config1, s1)
      ∧ s1.blockListSize = s.blockListSize + 1
      ∧ s1.blockList s.blockListSize = some config1
      ∧ config1.vars = cfLog.resolvedVars s.toc config := by
  have hres := cfLog.resolveLoop_spec s.toc config.default_fetch_as []
    { config with valid := true } (config.default_fetch_as.length + 1) rfl (by omega) hterm
  simp only [List.length_nil, List.nil_append, Bool.true_and] at hres
  simp only [cfLog.add_config, hpc, hres, cfLog.checkVariables_spec]
  have hcond : ((config.default_fetch_as.all (cfLog.isKnown s.toc)
        && (config.vars ++ (config.default_fetch_as.filter (cfLog.isKnown s.toc)).map
              (cfLog.resolveVar s.toc)).all (cfLog.isChecked s.toc))
      && decide (LogConfig.payloadOf (config.vars
            ++ (config.default_fetch_as.filter (cfLog.isKnown s.toc)).map
              (cfLog.resolveVar s.toc)) < LogConfig.MAX_LEN)
      && decide (config.period > 0) && decide (config.period < 0xff)) = true := by
    simp only [cfLog.validAfter, cfLog.resolvedVars, Bool.and_eq_true] at hacc
    simp only [Bool.and_eq_true, decide_eq_true_eq]
    exact ⟨⟨⟨hacc.1, hacc.2.1⟩, hacc.2.2.1⟩, hacc.2.2.2⟩
  simp only [hcond, if_true, hroom]
  split
  · rename_i e he
    exact absurd he (LogConfig.start_ne_error _ _ pc _ hpc)
  · rename_i q hq
    obtain ⟨h1, h2, h3⟩ := LogConfig.start_props _ _ pc _ hq hpc
    refine ⟨_, _, rfl, ?_, cfLog.setBlock_same _ _ _, ?_⟩
    · simp only [cfLog.setBlock, h2]
      simp only [MAX_BLOCKS] at hroom
      omega
    · simp only [h3, cfLog.resolvedVars]

theorem cfLog.resolveLoop_diverges (toc : LogToc) :
    ∀ (fuel i : Nat) (config : LogConfig),
      (∃ j v e, i ≤ j ∧ config.default_fetch_as.get? j = some v
        ∧ toc.get_element_by_complete_name v.name = some e ∧ e.ident % 256 = tdNone) →
      cfLog.resolveLoop toc fuel i config = .error .diverges := by
  intro fuel
  induction fuel with
  | zero => intro i config _; rfl
  | succ fuel ih =>
    intro i config ⟨j, v, e, hij, hj, hlook, hbad⟩
    have hjlt : j < config.default_fetch_as.length := by
      rw [List.get?_eq_getElem?] at hj
      exact (List.getElem?_eq_some_iff.mp hj).1
    obtain ⟨w, hw⟩ : ∃ w, config.default_fetch_as.get? i = some w := by
      rw [List.get?_eq_getElem?]
      exact ⟨_, List.getElem?_eq_getElem (by omega)⟩
    simp only [cfLog.resolveLoop, hw]
    cases hlw : toc.get_element_by_complete_name w.name with
    | none =>
      simp only
      apply ih
      have hne : j ≠ i := by
        rintro rfl
        rw [hw] at hj
        cases hj
        rw [hlw] at hlook
        cases hlook
      exact ⟨j, v, e, by omega, hj, hlook, hbad⟩
    | some e1 =>
      simp only
      apply ih
      by_cases hfa : e1.ident % 256 = tdNone
      · refine ⟨config.default_fetch_as.length, { w with fetch_as := e1.ident % 256 }, e1,
          by omega, ?_, hlw, hfa⟩
        simp [LogConfig.add_variable, hfa, List.get?_eq_getElem?,
          List.getElem?_append_right]
      · have hne : j ≠ i := by
          rintro rfl
          rw [hw] at hj
          cases hj
          rw [hlw] at hlook
          cases hlook
          exact hfa hbad
        refine ⟨j, v, e, by omega, ?_, hlook, hbad⟩
        simp only [LogConfig.add_variable, bne_iff_ne, ne_eq, hfa, not_false_eq_true, if_true]
        rw [List.get?_eq_getElem?, List.getElem?_set_ne (Ne.symm hne), ← List.get?_eq_getElem?]
        exact hj

theorem cfLog.add_config_diverges (s : cfLog) (config : LogConfig) (pc : PortConnect)
    (hpc : s.portConnect = some pc)
    (hbad : ∃ j v e, config.default_fetch_as.get? j = some v
      ∧ s.toc.get_element_by_complete_name v.name = some e ∧ e.ident % 256 = tdNone) :
    s.add_config config = .error .diverges := by
  obtain ⟨j, v, e, hj, hlook, hid⟩ := hbad
  have h := cfLog.resolveLoop_diverges s.toc (config.default_fetch_as.length + 1) 0
    { config with valid := true } ⟨j, v, e, Nat.zero_le _, hj, hlook, hid⟩
  simp only [cfLog.add_config, hpc, h]

theorem cfLog.isChecked_resolveVar (toc : LogToc) (v : LogVariable) :
    cfLog.isChecked toc (cfLog.resolveVar toc v) = cfLog.isChecked toc v := by
  unfold cfLog.resolveVar
  cases toc.get_element_by_complete_name v.name <;>
    simp [cfLog.isChecked, LogVariable.is_toc_variable]

theorem cfLog.filter_isKnown_of_all (toc : LogToc) (l : List LogVariable)
    (h : ∀ v ∈ l, cfLog.isKnown toc v = true) : l.filter (cfLog.isKnown toc) = l :=
  List.filter_eq_self.mpr h

theorem cfLog.nativeVar_eq_resolveVar (toc : LogToc) (v : LogVariable)
    (h : ∃ e, toc.get_element_by_complete_name v.name = some e
      ∧ e.ident % 256 = LogTocElement.get_id_from_cstring e.ctype) :
    cfLog.nativeVar toc v = cfLog.resolveVar toc v := by
  obtain ⟨e, he, hid⟩ := h
  simp only [cfLog.nativeVar, cfLog.resolveVar, he, hid]

/-- C5 (amended): for a connected engine with room for another block, and a block whose TOC
variables are all known and whose variables added without a fetch kind each name a TOC
element whose ctype is one of the eight kinds and whose identifier, modulo 256, is the index
of that ctype in `types` (so that `add_config` resolves the variable to its native type),
`add_config` returns, and returns true if and only if the data payload of the block, the sum
of the sizes of the fetch kinds of its variables with the native type for a variable added
without one, is at most 25 bytes and its period `p` satisfies `0 < p < 255`. -/
theorem C5_add_config_accepts_iff (s : cfLog) (config : LogConfig) (pc : PortConnect)
    (hpc : s.portConnect = some pc) (hroom : s.blockListSize < MAX_BLOCKS)
    (hdef : ∀ v ∈ config.default_fetch_as, ∃ e,
      s.toc.get_element_by_complete_name v.name = some e
        ∧ LogTocElement.get_id_from_cstring e.ctype < gTypesSize
        ∧ e.ident % 256 = LogTocElement.get_id_from_cstring e.ctype)
    (hchk : ∀ v ∈ config.vars ++ config.default_fetch_as, v.is_toc_variable = true →
      (s.toc.get_element_by_complete_name (c_str v.name)).isSome = true) :
    ∃ r, s.add_config config = .ok r
      ∧ (r.1 = true ↔
          (LogConfig.payloadOf
              (config.vars ++ config.default_fetch_as.map (cfLog.nativeVar s.toc)) ≤ 25
            ∧ 0 < config.period ∧ config.period < 255)) := by
  have hnat : config.default_fetch_as.map (cfLog.nativeVar s.toc)
      = config.default_fetch_as.map (cfLog.resolveVar s.toc) := by
    apply List.map_congr_left
    intro v hv
    obtain ⟨e, he, -, hid⟩ := hdef v hv
    exact cfLog.nativeVar_eq_resolveVar _ _ ⟨e, he, hid⟩
  rw [hnat]
  have hterm : ∀ v ∈ config.default_fetch_as, ∀ e,
      s.toc.get_element_by_complete_name v.name = some e → e.ident % 256 ≠ tdNone := by
    intro v hv e he
    obtain ⟨e', he', hlt, hid⟩ := hdef v hv
    rw [he] at he'
    cases he'
    rw [hid]
    simp only [gTypesSize, types, List.length_cons, List.length_nil] at hlt
    simp only [tdNone]
    omega
  have hknown : ∀ v ∈ config.default_fetch_as, cfLog.isKnown s.toc v = true := by
    intro v hv
    obtain ⟨e, he, -⟩ := hdef v hv
    simp [cfLog.isKnown, he]
  have hvars : cfLog.resolvedVars s.toc config
      = config.vars ++ config.default_fetch_as.map (cfLog.resolveVar s.toc) := by
    simp only [cfLog.resolvedVars, cfLog.filter_isKnown_of_all _ _ hknown]
  have hvalid : cfLog.validAfter s.toc config = true := by
    simp only [cfLog.validAfter, hvars, Bool.and_eq_true, List.all_eq_true]
    refine ⟨hknown, ?_⟩
    intro v hv
    rcases List.mem_append.mp hv with h | h
    · cases ht : v.is_toc_variable with
      | false => simp [cfLog.isChecked, ht]
      | true =>
        have := hchk v (List.mem_append.mpr (Or.inl h)) ht
        simp [cfLog.isChecked, this]
    · obtain ⟨w, hw, rfl⟩ := List.mem_map.mp h
      rw [cfLog.isChecked_resolveVar]
      cases ht : w.is_toc_variable with
      | false => simp [cfLog.isChecked, ht]
      | true =>
        have := hchk w (List.mem_append.mpr (Or.inr hw)) ht
        simp [cfLog.isChecked, this]
  by_cases hacc : LogConfig.payloadOf (cfLog.resolvedVars s.toc config) < LogConfig.MAX_LEN
      ∧ 0 < config.period ∧ config.period < 0xff
  · obtain ⟨config1, s1, h1, -⟩ :=
      cfLog.add_config_accepts s config pc hpc hroom hterm ⟨hvalid, hacc⟩
    refine ⟨_, h1, ?_⟩
    rw [hvars] at hacc
    simp only [LogConfig.MAX_LEN] at hacc
    simp only [true_iff]
    omega
  · obtain ⟨config1, h1, -⟩ :=
      cfLog.add_config_rejects s config pc hpc hterm (fun h => hacc h.2)
    refine ⟨_, h1, ?_⟩
    rw [hvars] at hacc
    simp only [LogConfig.MAX_LEN] at hacc
    simp only [Bool.false_eq_true, false_iff]
    omega

/-- C6 (amended): for a connected engine, if a variable added without a fetch kind has a name
that is not in the TOC, or a TOC variable added with a fetch kind has one, and no variable
added without a fetch kind is in the TOC under an identifier that is 255 modulo 256, then
`add_config` returns false, leaves the block invalid and leaves the engine as it was: no
packet is sent and `blockList` and `blockListSize` are unchanged. On an engine without a
connection `add_config` returns false and leaves the block and the engine as they were,
whatever the variables of the block. -/
theorem C6_unknown_variable_rejected (s : cfLog) (config : LogConfig) :
    (∀ pc, s.portConnect = some pc →
      (∀ v ∈ config.default_fetch_as, ∀ e,
        s.toc.get_element_by_complete_name v.name = some e → e.ident % 256 ≠ tdNone) →
      ((∃ v ∈ config.default_fetch_as, s.toc.get_element_by_complete_name v.name = none)
        ∨ (∃ v ∈ config.vars, v.is_toc_variable = true
            ∧ s.toc.get_element_by_complete_name (c_str v.name) = none)) →
      ∃ config1, s.add_config config = .ok (false, config1, s) ∧ config1.valid = false)
    ∧ (s.portConnect = none → s.add_config config = .ok (false, config, s)) := by
  constructor
  · intro pc hpc hterm hunknown
    have hvalid : cfLog.validAfter s.toc config = false := by
      rcases hunknown with ⟨v, hv, hnone⟩ | ⟨v, hv, htoc, hnone⟩
      · have : config.default_fetch_as.all (cfLog.isKnown s.toc) = false := by
          rw [List.all_eq_false]
          exact ⟨v, hv, by simp [cfLog.isKnown, hnone]⟩
        simp [cfLog.validAfter, this]
      · have : (cfLog.resolvedVars s.toc config).all (cfLog.isChecked s.toc) = false := by
          rw [List.all_eq_false]
          exact ⟨v, List.mem_append.mpr (Or.inl hv), by simp [cfLog.isChecked, htoc, hnone]⟩
        simp [cfLog.validAfter, this]
    obtain ⟨config1, h1, h2⟩ :=
      cfLog.add_config_rejects s config pc hpc hterm (fun h => by simp [hvalid] at h)
    exact ⟨config1, h1, h2.trans hvalid⟩
  · intro hnone
    simp only [cfLog.add_config, hnone]

/-- C5 (counterexample): on a connected engine with no block yet and the TOC elements
`g.v0 .. g.v7`, a block of six `float32_t` and one `uint16_t` TOC variables, all of them in
the TOC (payload 26 bytes, period 10), is turned down, and so is a block of six `float32_t`
TOC variables (payload 24 bytes) of period 255. -/
theorem C5_payload_26_or_period_255_rejected :
    ((Sample.engine (Sample.toc 8 tdFloat32)).portConnect.isSome = true
      ∧ (Sample.engine (Sample.toc 8 tdFloat32)).blockListSize = 0)
    ∧ (LogConfig.payloadOf
        ((Sample.tocBlock 6 tdFloat32).add_variable (Sample.tocVariable 6 tdUint16)).vars = 26
      ∧ ((Sample.tocBlock 6 tdFloat32).add_variable (Sample.tocVariable 6 tdUint16)).period = 10
      ∧ ((Sample.tocBlock 6 tdFloat32).add_variable (Sample.tocVariable 6 tdUint16)).vars.all
          (fun v => ((Sample.toc 8 tdFloat32).get_element_by_name v.name).isSome) = true
      ∧ (match (Sample.engine (Sample.toc 8 tdFloat32)).add_config
            ((Sample.tocBlock 6 tdFloat32).add_variable (Sample.tocVariable 6 tdUint16)) with
          | .ok r => some r.1
          | .error _ => none) = some false)
    ∧ (LogConfig.payloadOf (Sample.tocBlockEvery 2550 6 tdFloat32).vars = 24
      ∧ (Sample.tocBlockEvery 2550 6 tdFloat32).period = 255
      ∧ (Sample.tocBlockEvery 2550 6 tdFloat32).vars.all
          (fun v => ((Sample.toc 8 tdFloat32).get_element_by_name v.name).isSome) = true
      ∧ (match (Sample.engine (Sample.toc 8 tdFloat32)).add_config
            (Sample.tocBlockEvery 2550 6 tdFloat32) with
          | .ok r => some r.1
          | .error _ => none) = some false) := by
  decide

/-- Witness of C5: on a connected engine with no block yet and the `float32_t` elements
`g.v0 .. g.v7`, the block of `g.v0 .. g.v4` added as `float32_t` and `g.v7` added without a
fetch kind (six `float32_t`, 24 bytes) is accepted, and the block of `g.v0 .. g.v5` added as
`float32_t` and `g.v7` added without a fetch kind (seven, 28 bytes) is turned down. The
element `g.v7` has the identifier 7, the index of `float32_t`. -/
theorem C5_add_config_accepts_iff_witness :
    (LogConfig.payloadOf
        (((Sample.tocBlock 5 tdFloat32).add_variable (Sample.tocVariable 7 tdNone)).vars
          ++ ((Sample.tocBlock 5 tdFloat32).add_variable
              (Sample.tocVariable 7 tdNone)).default_fetch_as.map
            (cfLog.nativeVar (Sample.toc 8 tdFloat32))) = 24
      ∧ ∃ r, (Sample.engine (Sample.toc 8 tdFloat32)).add_config
          ((Sample.tocBlock 5 tdFloat32).add_variable (Sample.tocVariable 7 tdNone))
        = .ok r ∧ r.1 = true)
    ∧ (LogConfig.payloadOf
        (((Sample.tocBlock 6 tdFloat32).add_variable (Sample.tocVariable 7 tdNone)).vars
          ++ ((Sample.tocBlock 6 tdFloat32).add_variable
              (Sample.tocVariable 7 tdNone)).default_fetch_as.map
            (cfLog.nativeVar (Sample.toc 8 tdFloat32))) = 28
      ∧ ∃ r, (Sample.engine (Sample.toc 8 tdFloat32)).add_config
          ((Sample.tocBlock 6 tdFloat32).add_variable (Sample.tocVariable 7 tdNone))
        = .ok r ∧ r.1 = false) := by
  refine ⟨⟨by decide, ?_⟩, ⟨by decide, ?_⟩⟩
  · obtain ⟨r, hr, hiff⟩ :=
      C5_add_config_accepts_iff (Sample.engine (Sample.toc 8 tdFloat32))
        ((Sample.tocBlock 5 tdFloat32).add_variable (Sample.tocVariable 7 tdNone))
        Sample.link rfl (by decide)
        (by
          intro v hv
          rw [show ((Sample.tocBlock 5 tdFloat32).add_variable
              (Sample.tocVariable 7 tdNone)).default_fetch_as
                = [Sample.tocVariable 7 tdNone] from by decide] at hv
          rw [List.mem_singleton.mp hv]
          exact ⟨Sample.element 7 tdFloat32, by decide, by decide, by decide⟩)
        (by decide)
    exact ⟨r, hr, hiff.mpr (by decide)⟩
  · obtain ⟨r, hr, hiff⟩ :=
      C5_add_config_accepts_iff (Sample.engine (Sample.toc 8 tdFloat32))
        ((Sample.tocBlock 6 tdFloat32).add_variable (Sample.tocVariable 7 tdNone))
        Sample.link rfl (by decide)
        (by
          intro v hv
          rw [show ((Sample.tocBlock 6 tdFloat32).add_variable
              (Sample.tocVariable 7 tdNone)).default_fetch_as
                = [Sample.tocVariable 7 tdNone] from by decide] at hv
          rw [List.mem_singleton.mp hv]
          exact ⟨Sample.element 7 tdFloat32, by decide, by decide, by decide⟩)
        (by decide)
    refine ⟨r, hr, ?_⟩
    cases h : r.1 with
    | false => rfl
    | true => exact absurd (hiff.mp h) (by decide)

/-- C6 (counterexample): on an engine that has no connection, `add_config` of a block that
carries `valid = true` and whose only variable `g.v9` is not in the (empty) TOC returns false
and leaves `valid = true`. -/
theorem C6_disconnected_block_stays_valid :
    LogToc.empty.get_element_by_name (Sample.tocVariable 9 tdFloat32).name = none
    ∧ (match (cfLog.init (some [])).add_config
          { (LogConfig.init ['b'] 100).add_variable (Sample.tocVariable 9 tdFloat32) with
            valid := true } with
        | .ok r => some (r.1, r.2.1.valid)
        | .error _ => none) = some (false, true) := by
  decide

/-- Witness of C6: on a connected engine with the TOC elements `g.v0 .. g.v7`, a block with
the TOC variables `g.v8` without a fetch kind and `g.v9` with one is turned down; on an engine
without a connection the same block is turned down and comes back as it was given. -/
theorem C6_unknown_variable_rejected_witness :
    (∃ config1, (Sample.engine (Sample.toc 8 tdFloat32)).add_config
        (((LogConfig.init ['b'] 100).add_variable (Sample.tocVariable 8 tdNone)).add_variable
          (Sample.tocVariable 9 tdFloat32))
      = .ok (false, config1, Sample.engine (Sample.toc 8 tdFloat32))
      ∧ config1.valid = false)
    ∧ (cfLog.init (some [])).add_config
        (((LogConfig.init ['b'] 100).add_variable (Sample.tocVariable 8 tdNone)).add_variable
          (Sample.tocVariable 9 tdFloat32))
      = .ok (false,
          ((LogConfig.init ['b'] 100).add_variable (Sample.tocVariable 8 tdNone)).add_variable
            (Sample.tocVariable 9 tdFloat32),
          cfLog.init (some [])) :=
  ⟨(C6_unknown_variable_rejected (Sample.engine (Sample.toc 8 tdFloat32))
      (((LogConfig.init ['b'] 100).add_variable (Sample.tocVariable 8 tdNone)).add_variable
        (Sample.tocVariable 9 tdFloat32))).1
      Sample.link rfl
      (by
        intro v hv e he
        rw [show (((LogConfig.init ['b'] 100).add_variable
            (Sample.tocVariable 8 tdNone)).add_variable
            (Sample.tocVariable 9 tdFloat32)).default_fetch_as
              = [Sample.tocVariable 8 tdNone] from by decide] at hv
        rw [List.mem_singleton.mp hv,
          show (Sample.engine (Sample.toc 8 tdFloat32)).toc.get_element_by_complete_name
            (Sample.tocVariable 8 tdNone).name = none from by decide] at he
        cases he)
      (Or.inr ⟨Sample.tocVariable 9 tdFloat32, by decide, by decide, by decide⟩),
    (C6_unknown_variable_rejected (cfLog.init (some []))
      (((LogConfig.init ['b'] 100).add_variable (Sample.tocVariable 8 tdNone)).add_variable
        (Sample.tocVariable 9 tdFloat32))).2 rfl⟩

set_option maxRecDepth 100000 in
set_option maxHeartbeats 4000000 in
theorem cfLog.add_config_diverges_at_ident_255 :
    ((Sample.toc 256 tdFloat32).get_element_by_name (Sample.tocVariable 255 tdNone).name).map
        (fun e => e.ident) = some 255
    ∧ (match (Sample.engine (Sample.toc 256 tdFloat32)).add_config
          ((LogConfig.init ['b'] 100).add_variable (Sample.tocVariable 255 tdNone)) with
        | .ok _ => none
        | .error e => some e) = some Fault.diverges := by
  decide

set_option maxRecDepth 100000 in
theorem cfLog.add_config_sizes_by_identifier :
    ((Sample.unkindedBlock 8 7).default_fetch_as.map
        (fun v => ((Sample.toc 15 tdFloat32).get_element_by_name v.name).map
          (fun e => (e.ident, e.ctype)))
      = (List.range 7).map (fun i => some (8 + i, "float32_t".toList))
    ∧ LogConfig.payloadOf ((Sample.unkindedBlock 8 7).default_fetch_as.map
        (cfLog.nativeVar (Sample.toc 15 tdFloat32))) = 28)
    ∧ (match (Sample.engine (Sample.toc 15 tdFloat32)).add_config (Sample.unkindedBlock 8 7) with
        | .ok r => some (r.1, r.2.1.vars.map (fun v => v.fetch_as), LogConfig.payloadOf r.2.1.vars)
        | .error _ => none) = some (true, [8, 9, 10, 11, 12, 13, 14], 0) := by
  decide

/-! ### Error replies on the settings channel -/

/-- C11 (failing input): a block of one variable is added and is pending; the reply
`[CMD_CREATE_BLOCK_V2, 0, 12]` (error `ENOMEM`) leaves it as it was, with `err_no = 0` and
still pending. The reply `[CMD_START_LOGGING, 0, 12]` does record the error: `err_no = 12`
and the block is not started. The cells are unchanged by both. -/
theorem C11_create_error_reply_ignored :
    (match (Sample.engine LogToc.empty).add_config (Sample.memBlock 1 tdUint8) with
      | .ok r => (r.2.2.blockList 0).map (fun b => (b.err_no, b.added, b.started, b.pending))
      | .error _ => none) = some (0, false, false, 1)
    ∧ (match (Sample.engine LogToc.empty).add_config (Sample.memBlock 1 tdUint8) with
      | .ok r =>
        (match r.2.2._new_packet_cb (Sample.packet 5 1 [6, 0, 12]) with
          | .ok s1 =>
            (s1.blockList 0).map (fun b =>
              (b.err_no, b.added, b.started, b.pending, b.vars.map (fun v => v._value)))
          | .error _ => none)
      | .error _ => none) = some (0, false, false, 1, [0])
    ∧ (match (Sample.engine LogToc.empty).add_config (Sample.memBlock 1 tdUint8) with
      | .ok r =>
        (match r.2.2._new_packet_cb (Sample.packet 5 1 [3, 0, 12]) with
          | .ok s1 =>
            (s1.blockList 0).map (fun b =>
              (b.err_no, b.added, b.started, b.pending, b.vars.map (fun v => v._value)))
          | .error _ => none)
      | .error _ => none) = some (12, false, false, 1, [0]) :=
  ⟨by decide, by decide, by decide⟩

/-! ### The keys and identifiers of the table of contents -/


theorem c_str_of_isCString (s : Str) (h : isCString s = true) : c_str s = s := by
  unfold c_str
  rw [List.takeWhile_eq_self_iff]
  simpa [isCString] using h

theorem findIdx_cons_zero {α : Type} (p : α → Bool) (x : α) (xs : List α) :
    (x :: xs).findIdx? p = if p x then some 0 else (xs.findIdx? p).map (· + 1) := by
  rw [List.findIdx?_cons]
  split
  · rfl
  · rw [List.findIdx?_succ]

theorem LogToc.add_element_groups (e : LogTocElement) :
    ∀ (groups : List LogTocGroup) (crc : Nat) (complete : Bool),
      (LogToc.add_element { crc := crc, groups := groups, complete := complete } e)
        = { crc := crc, groups := LogToc.insertElement e groups, complete := complete } := by
  intro groups
  induction groups with
  | nil => intro crc complete; rfl
  | cons g gs ih =>
    intro crc complete
    have ih' := ih crc complete
    simp only [LogToc.add_element, LogToc.groupIndex, LogToc.nameIndex, findIdx_cons_zero]
      at ih' ⊢
    by_cases hg : (g.name == c_str e.group) = true
    · simp only [hg, if_true, List.get?_cons_zero, LogToc.insertElement]
      cases hq : g.elements.findIdx? (fun x => x.name == c_str e.name) with
      | none =>
        have : g.elements.any (fun x => x.name == c_str e.name) = false := by
          rw [List.findIdx?_eq_none_iff] at hq
          simpa using hq
        simp [this, List.modify]
      | some i =>
        have : g.elements.any (fun x => x.name == c_str e.name) = true := by
          have := @List.findIdx?_isSome _ g.elements (fun x => x.name == c_str e.name)
          rw [hq] at this
          simpa using this
        simp [this]
    · simp only [hg, Bool.false_eq_true, if_false, LogToc.insertElement]
      cases hi : gs.findIdx? (fun x => x.name == c_str e.group) with
      | none =>
        simp only [hi] at ih'
        simp only [Option.map_none']
        simpa using ih'
      | some i =>
        simp only [hi, Option.map_some', List.get?_cons_succ] at ih' ⊢
        cases hgi : gs.get? i with
        | none =>
          simp only [hgi] at ih' ⊢
          simpa using ih'
        | some gi =>
          simp only [hgi] at ih' ⊢
          cases hq : gi.elements.findIdx? (fun x => x.name == c_str e.name) with
          | none =>
            simp only [hq] at ih' ⊢
            simpa [List.modify] using ih'
          | some j =>
            simp only [hq] at ih' ⊢
            simpa using ih'

theorem LogToc.insertElement_mem (e : LogTocElement) :
    ∀ (gs : List LogTocGroup) (g : LogTocGroup), g ∈ LogToc.insertElement e gs →
      g ∈ gs
        ∨ (g.name = e.group ∧ g.elements = [e] ∧ ∀ h ∈ gs, h.name ≠ c_str e.group)
        ∨ (∃ h ∈ gs, h.name = c_str e.group ∧ g.name = h.name
            ∧ g.elements = h.elements ++ [e] ∧ ∀ x ∈ h.elements, x.name ≠ c_str e.name) := by
  intro gs
  induction gs with
  | nil =>
    intro g hg
    simp only [LogToc.insertElement, List.mem_singleton] at hg
    subst hg
    exact Or.inr (Or.inl ⟨rfl, rfl, by simp⟩)
  | cons h gs ih =>
    intro g hg
    simp only [LogToc.insertElement] at hg
    by_cases hn : (h.name == c_str e.group) = true
    · simp only [hn, if_true, List.mem_cons] at hg
      rcases hg with hg | hg
      · by_cases ha : h.elements.any (fun x => x.name == c_str e.name) = true
        · simp only [ha, if_true] at hg
          exact Or.inl (by simp [hg])
        · simp only [ha, Bool.false_eq_true, if_false] at hg
          refine Or.inr (Or.inr ⟨h, by simp, by simpa using hn, by simp [hg], by simp [hg], ?_⟩)
          intro x hx hxe
          apply ha
          rw [List.any_eq_true]
          exact ⟨x, hx, by simp [hxe]⟩
      · exact Or.inl (by simp [hg])
    · simp only [hn, Bool.false_eq_true, if_false, List.mem_cons] at hg
      rcases hg with hg | hg
      · exact Or.inl (by simp [hg])
      · rcases ih g hg with h1 | ⟨h1, h2, h3⟩ | ⟨k, hk, h1, h2, h3, h4⟩
        · exact Or.inl (by simp [h1])
        · refine Or.inr (Or.inl ⟨h1, h2, ?_⟩)
          intro k hk
          rcases List.mem_cons.mp hk with rfl | hk
          · simpa using hn
          · exact h3 k hk
        · exact Or.inr (Or.inr ⟨k, by simp [hk], h1, h2, h3, h4⟩)

theorem LogToc.insertElement_names (e : LogTocElement) :
    ∀ gs : List LogTocGroup,
      (LogToc.insertElement e gs).map (fun g => g.name)
        = if gs.any (fun g => g.name == c_str e.group) then gs.map (fun g => g.name)
          else gs.map (fun g => g.name) ++ [e.group] := by
  intro gs
  induction gs with
  | nil => rfl
  | cons h gs ih =>
    by_cases hn : (h.name == c_str e.group) = true
    · simp only [LogToc.insertElement, hn, if_true, List.map_cons, List.any_cons,
        Bool.true_or]
      split <;> rfl
    · simp only [LogToc.insertElement, hn, Bool.false_eq_true, if_false, List.map_cons,
        List.any_cons, Bool.false_or, ih]
      split <;> simp

theorem LogToc.wellKeyed_insertElement (e : LogTocElement) (gs : List LogTocGroup)
    (hg : isCString e.group = true) (hn : isCString e.name = true)
    (h : LogToc.WellKeyed gs) : LogToc.WellKeyed (LogToc.insertElement e gs) := by
  have cg := c_str_of_isCString _ hg
  have cn := c_str_of_isCString _ hn
  obtain ⟨h1, h2, h3⟩ := h
  refine ⟨?_, ?_, ?_⟩
  · rw [LogToc.insertElement_names]
    split
    · exact h1
    · rename_i hany
      rw [List.nodup_append]
      refine ⟨h1, by simp, ?_⟩
      intro a ha hb
      simp only [List.mem_singleton] at hb
      subst hb
      apply hany
      rw [List.any_eq_true]
      obtain ⟨g, hgm, hge⟩ := List.mem_map.mp ha
      exact ⟨g, hgm, by simp [hge, cg]⟩
  · intro g hgm
    rcases LogToc.insertElement_mem e gs g hgm with k | ⟨-, k, -⟩ | ⟨k, hk, -, -, k3, k4⟩
    · exact h2 g k
    · simp [k]
    · rw [k3, List.map_append, List.nodup_append]
      refine ⟨h2 k hk, by simp, ?_⟩
      intro a ha hb
      simp only [List.map_cons, List.map_nil, List.mem_singleton] at hb
      subst hb
      obtain ⟨x, hx, hxe⟩ := List.mem_map.mp ha
      exact k4 x hx (by rw [cn]; exact hxe)
  · intro g hgm x hx
    rcases LogToc.insertElement_mem e gs g hgm with k | ⟨k1, k2, -⟩ | ⟨k, hk, k1, k2, k3, -⟩
    · exact h3 g k x hx
    · rw [k2] at hx
      simp only [List.mem_singleton] at hx
      rw [hx, k1]
    · rw [k3] at hx
      rcases List.mem_append.mp hx with hx | hx
      · rw [k2]; exact h3 k hk x hx
      · simp only [List.mem_singleton] at hx
        rw [hx, k2, k1, cg]

theorem LogToc.cstrings_insertElement (e : LogTocElement) (gs : List LogTocGroup)
    (hg : isCString e.group = true) (hn : isCString e.name = true)
    (h : LogToc.AllCStrings gs) : LogToc.AllCStrings (LogToc.insertElement e gs) := by
  intro g hgm
  rcases LogToc.insertElement_mem e gs g hgm with k | ⟨k1, k2, -⟩ | ⟨k, hk, -, k2, k3, -⟩
  · exact h g k
  · rw [k1, k2]
    exact ⟨hg, by simpa using hn⟩
  · rw [k2, k3]
    refine ⟨(h k hk).1, ?_⟩
    intro x hx
    rcases List.mem_append.mp hx with hx | hx
    · exact (h k hk).2 x hx
    · simp only [List.mem_singleton] at hx
      rw [hx]; exact hn

theorem LogToc.wellKeyed_tail (g : LogTocGroup) (gs : List LogTocGroup)
    (h : LogToc.WellKeyed (g :: gs)) : LogToc.WellKeyed gs := by
  obtain ⟨h1, h2, h3⟩ := h
  refine ⟨?_, fun k hk => h2 k (by simp [hk]), fun k hk => h3 k (by simp [hk])⟩
  simp only [List.map_cons, List.nodup_cons] at h1
  exact h1.2

theorem LogToc.insertElement_present (e : LogTocElement) :
    ∀ gs : List LogTocGroup, LogToc.WellKeyed gs → LogToc.AllCStrings gs →
      LogToc.KeyPresent e gs → LogToc.insertElement e gs = gs := by
  intro gs
  induction gs with
  | nil =>
    intro _ _ hp
    obtain ⟨g, hg, -⟩ := hp
    simp at hg
  | cons h gs ih =>
    intro hw hc hp
    obtain ⟨g, hg, hgn, x, hx, hxn⟩ := hp
    have cg : c_str e.group = e.group := by
      apply c_str_of_isCString
      rw [← hgn]; exact (hc g hg).1
    have cn : c_str e.name = e.name := by
      apply c_str_of_isCString
      rw [← hxn]; exact (hc g hg).2 x hx
    simp only [LogToc.insertElement, cg, cn]
    by_cases hn : h.name = e.group
    · have hgh : g = h := by
        rcases List.mem_cons.mp hg with k | k
        · exact k
        · exfalso
          have h1 := hw.1
          simp only [List.map_cons, List.nodup_cons] at h1
          apply h1.1
          rw [hn, ← hgn]
          exact List.mem_map.mpr ⟨g, k, rfl⟩
      subst hgh
      have hany : g.elements.any (fun y => y.name == e.name) = true := by
        rw [List.any_eq_true]
        exact ⟨x, hx, by simp [hxn]⟩
      simp [hn, hany]
    · have hgs : g ∈ gs := by
        rcases List.mem_cons.mp hg with k | k
        · exfalso; apply hn; rw [← k]; exact hgn
        · exact k
      have hne : (h.name == e.group) = false := by simpa using hn
      simp only [hne, Bool.false_eq_true, if_false]
      rw [ih (LogToc.wellKeyed_tail h gs hw) (fun k hk => hc k (by simp [hk]))
        ⟨g, hgs, hgn, x, hx, hxn⟩]

theorem LogToc.insertElement_perm (e : LogTocElement)
    (hg : isCString e.group = true) (hn : isCString e.name = true) :
    ∀ gs : List LogTocGroup, ¬ LogToc.KeyPresent e gs →
      ((LogToc.insertElement e gs).flatMap (fun g => g.elements)).Perm
        (gs.flatMap (fun g => g.elements) ++ [e]) := by
  have cg := c_str_of_isCString _ hg
  have cn := c_str_of_isCString _ hn
  intro gs
  induction gs with
  | nil => intro _; simp [LogToc.insertElement]
  | cons h gs ih =>
    intro hp
    simp only [LogToc.insertElement, cg, cn]
    by_cases hh : h.name = e.group
    · have hany : h.elements.any (fun y => y.name == e.name) = false := by
        rw [Bool.eq_false_iff]
        intro ha
        rw [List.any_eq_true] at ha
        obtain ⟨x, hx, hxe⟩ := ha
        exact hp ⟨h, by simp, hh, x, hx, by simpa using hxe⟩
      simp only [hh, beq_self_eq_true, if_true, hany, Bool.false_eq_true, if_false,
        List.flatMap_cons, List.append_assoc]
      exact List.Perm.append_left _ List.perm_append_comm
    · have hne : (h.name == e.group) = false := by simpa using hh
      simp only [hne, Bool.false_eq_true, if_false, List.flatMap_cons, List.append_assoc]
      apply List.Perm.append_left
      apply ih
      rintro ⟨g, hgm, k⟩
      exact hp ⟨g, by simp [hgm], k⟩

theorem LogToc.addAll_append (es : List LogTocElement) (e : LogTocElement) :
    LogToc.addAll (es ++ [e]) = (LogToc.addAll es).add_element e := by
  simp [LogToc.addAll, List.foldl_append]

theorem LogToc.add_element_groups_eq (toc : LogToc) (e : LogTocElement) :
    (toc.add_element e).groups = LogToc.insertElement e toc.groups := by
  obtain ⟨crc, groups, complete⟩ := toc
  rw [LogToc.add_element_groups]

theorem LogToc.add_element_eq (toc : LogToc) (e : LogTocElement) :
    toc.add_element e = { toc with groups := LogToc.insertElement e toc.groups } := by
  obtain ⟨crc, groups, complete⟩ := toc
  rw [LogToc.add_element_groups]

theorem LogToc.addAll_invariant :
    ∀ es : List LogTocElement,
      (∀ e ∈ es, isCString e.group = true ∧ isCString e.name = true) →
        LogToc.WellKeyed (LogToc.addAll es).groups
          ∧ LogToc.AllCStrings (LogToc.addAll es).groups := by
  intro es
  induction es using List.reverseRecOn with
  | nil =>
    intro _
    refine ⟨⟨by simp [LogToc.addAll, LogToc.empty], ?_, ?_⟩, ?_⟩ <;>
      simp [LogToc.addAll, LogToc.empty, LogToc.AllCStrings]
  | append_singleton es e ih =>
    intro h
    have hi := ih (fun x hx => h x (by simp [hx]))
    have he := h e (by simp)
    rw [LogToc.addAll_append, LogToc.add_element_groups_eq]
    exact ⟨LogToc.wellKeyed_insertElement e _ he.1 he.2 hi.1,
      LogToc.cstrings_insertElement e _ he.1 he.2 hi.2⟩

theorem LogToc.addAll_perm :
    ∀ es : List LogTocElement,
      (∀ e ∈ es, isCString e.group = true ∧ isCString e.name = true) →
      (es.map (fun e => (e.group, e.name))).Nodup →
        (LogToc.addAll es).allElements.Perm es := by
  intro es
  induction es using List.reverseRecOn with
  | nil => intro _ _; simp [LogToc.addAll, LogToc.empty, LogToc.allElements]
  | append_singleton es e ih =>
    intro h hk
    have hes : ∀ x ∈ es, isCString x.group = true ∧ isCString x.name = true :=
      fun x hx => h x (by simp [hx])
    have he := h e (by simp)
    rw [List.map_append, List.nodup_append] at hk
    obtain ⟨hk1, -, hk3⟩ := hk
    have hi := ih hes hk1
    have hw := (LogToc.addAll_invariant es hes).1
    have hp : ¬ LogToc.KeyPresent e (LogToc.addAll es).groups := by
      rintro ⟨g, hg, hgn, x, hx, hxn⟩
      have hxa : x ∈ (LogToc.addAll es).allElements := by
        simp only [LogToc.allElements, List.mem_flatMap]
        exact ⟨g, hg, hx⟩
      have hxe : x ∈ es := hi.mem_iff.mp hxa
      have hxg : x.group = e.group := by rw [hw.2.2 g hg x hx, hgn]
      apply hk3 (a := (e.group, e.name))
      · exact List.mem_map.mpr ⟨x, hxe, by rw [hxg, hxn]⟩
      · simp
    rw [LogToc.addAll_append]
    simp only [LogToc.allElements, LogToc.add_element_groups_eq]
    exact (LogToc.insertElement_perm e he.1 he.2 _ hp).trans (List.Perm.append_right _ hi)

theorem indexOf_append_dot (g n : Str) (h : '.' ∉ g) :
    (g ++ '.' :: n).indexOf? '.' = some g.length := by
  induction g with
  | nil => simp [List.indexOf?, List.findIdx?_cons]
  | cons c g ih =>
    have hc : (c == '.') = false := by
      rw [beq_eq_false_iff_ne]
      intro hc
      exact h (by simp [hc])
    have ih2 := ih (fun k => h (by simp [k]))
    simp only [List.indexOf?] at ih2
    simp only [List.indexOf?, List.cons_append, findIdx_cons_zero, hc, Bool.false_eq_true,
      if_false, ih2, Option.map_some', List.length_cons]

theorem findIdx_some_get {α : Type} (p : α → Bool) :
    ∀ (l : List α) (i : Nat), l.findIdx? p = some i →
      ∃ a, l.get? i = some a ∧ l.find? p = some a := by
  intro l
  induction l with
  | nil => intro i h; simp at h
  | cons x xs ih =>
    intro i h
    rw [findIdx_cons_zero] at h
    by_cases hp : p x = true
    · simp only [hp, if_true, Option.some.injEq] at h
      subst h
      exact ⟨x, rfl, by simp [hp]⟩
    · simp only [hp, Bool.false_eq_true, if_false, Option.map_eq_some'] at h
      obtain ⟨j, hj, rfl⟩ := h
      obtain ⟨a, ha1, ha2⟩ := ih j hj
      exact ⟨a, by simpa using ha1, by simp [hp, ha2]⟩

theorem findIdx_none_find {α : Type} (p : α → Bool) (l : List α)
    (h : l.findIdx? p = none) : l.find? p = none := by
  rw [List.findIdx?_eq_none_iff] at h
  rw [List.find?_eq_none]
  intro x hx
  simp [h x hx]

theorem LogToc.get_element_by_name_eq_lookup (toc : LogToc) (g n : Str) (h : '.' ∉ g) :
    toc.get_element_by_name (g ++ '.' :: n) = LogToc.lookup toc.groups (c_str g) (c_str n) := by
  simp only [LogToc.get_element_by_name, indexOf_append_dot g n h, List.take_left,
    LogToc.lookup, LogToc.groupIndex, LogToc.nameIndex]
  have hd : List.drop (g.length + 1) (g ++ '.' :: n) = n := by
    rw [show g ++ '.' :: n = (g ++ ['.']) ++ n from by simp]
    rw [show g.length + 1 = (g ++ ['.']).length from by simp]
    exact List.drop_left _ _
  rw [hd]
  rcases hgi : toc.groups.findIdx? (fun k => k.name == c_str g) with _ | i
  · simp only [hgi, findIdx_none_find _ _ hgi]
  · obtain ⟨a, ha1, ha2⟩ := findIdx_some_get _ _ _ hgi
    simp only [hgi, ha1, ha2]
    rcases hei : a.elements.findIdx? (fun x => x.name == c_str n) with _ | j
    · simp only [hei, findIdx_none_find _ _ hei]
    · obtain ⟨b, hb1, hb2⟩ := findIdx_some_get _ _ _ hei
      simp only [hei, hb1, hb2]

theorem find_of_nodup_map {α β : Type} [BEq β] [LawfulBEq β] (f : α → β) :
    ∀ (l : List α) (a : α), (l.map f).Nodup → a ∈ l →
      l.find? (fun y => f y == f a) = some a := by
  intro l
  induction l with
  | nil => intro a _ h; simp at h
  | cons x xs ih =>
    intro a hn ha
    simp only [List.map_cons, List.nodup_cons] at hn
    rcases List.mem_cons.mp ha with rfl | hm
    · simp
    · have hne : (f x == f a) = false := by
        rw [beq_eq_false_iff_ne]
        intro he
        exact hn.1 (he ▸ List.mem_map.mpr ⟨a, hm, rfl⟩)
      rw [List.find?_cons, hne]
      exact ih a hn.2 hm

theorem LogToc.lookup_some_iff (gs : List LogTocGroup) (hw : LogToc.WellKeyed gs)
    (g n : Str) (x : LogTocElement) :
    LogToc.lookup gs g n = some x
      ↔ x ∈ gs.flatMap (fun k => k.elements) ∧ x.group = g ∧ x.name = n := by
  constructor
  · intro h
    simp only [LogToc.lookup] at h
    rcases hf : gs.find? (fun k => k.name == g) with _ | k
    · rw [hf] at h; cases h
    · rw [hf] at h
      simp only at h
      have hk := List.mem_of_find?_eq_some hf
      have hkn := List.find?_some hf
      have hx := List.mem_of_find?_eq_some h
      have hxn := List.find?_some h
      simp only [beq_iff_eq] at hkn hxn
      exact ⟨List.mem_flatMap.mpr ⟨k, hk, hx⟩, by rw [hw.2.2 k hk x hx, hkn], hxn⟩
  · rintro ⟨hx, hg, hn⟩
    obtain ⟨k, hk, hxk⟩ := List.mem_flatMap.mp hx
    have hkn : k.name = g := by rw [← hw.2.2 k hk x hxk, hg]
    have h1 := find_of_nodup_map (fun k : LogTocGroup => k.name) gs k hw.1 hk
    have h2 := find_of_nodup_map (fun y : LogTocElement => y.name) k.elements x (hw.2.1 k hk) hxk
    simp only [hkn, hn] at h1 h2
    simp only [LogToc.lookup, h1, h2]

theorem LogToc.get_element_by_id_fold (ident : Nat) :
    ∀ (gs : List LogTocGroup) (acc : Option LogTocElement),
      (∀ x, acc = some x → x.ident = ident) →
      let r := gs.foldl
        (fun acc g =>
          match g.elements.find? (fun e => e.ident == ident) with
          | some e => some e
          | none => acc)
        acc
      (∀ x, r = some x → x.ident = ident ∧ (acc = some x ∨ x ∈ gs.flatMap (fun g => g.elements)))
        ∧ (r = none ↔ acc = none ∧ ∀ x ∈ gs.flatMap (fun g => g.elements), x.ident ≠ ident) := by
  intro gs
  induction gs with
  | nil =>
    intro acc ha
    simp only [List.foldl_nil, List.flatMap_nil, List.not_mem_nil, or_false]
    exact ⟨fun x hx => ⟨ha x hx, hx⟩, by simp⟩
  | cons g gs ih =>
    intro acc ha
    simp only [List.foldl_cons, List.flatMap_cons, List.mem_append]
    rcases hf : g.elements.find? (fun e => e.ident == ident) with _ | e
    · have hnone := List.find?_eq_none.mp hf
      simp only [hf]
      obtain ⟨h1, h2⟩ := ih acc ha
      refine ⟨?_, ?_⟩
      · intro x hx
        obtain ⟨k1, k2⟩ := h1 x hx
        exact ⟨k1, k2.imp id Or.inr⟩
      · rw [h2]
        constructor
        · rintro ⟨k1, k2⟩
          refine ⟨k1, ?_⟩
          rintro x (hx | hx)
          · simpa using hnone x hx
          · exact k2 x hx
        · rintro ⟨k1, k2⟩
          exact ⟨k1, fun x hx => k2 x (Or.inr hx)⟩
    · have hem := List.mem_of_find?_eq_some hf
      have hei := List.find?_some hf
      simp only [beq_iff_eq] at hei
      simp only [hf]
      obtain ⟨h1, h2⟩ := ih (some e) (by intro x hx; cases hx; exact hei)
      refine ⟨?_, ?_⟩
      · intro x hx
        obtain ⟨k1, k2⟩ := h1 x hx
        refine ⟨k1, Or.inr ?_⟩
        rcases k2 with k2 | k2
        · cases k2; exact Or.inl hem
        · exact Or.inr k2
      · rw [h2]
        constructor
        · rintro ⟨k1, -⟩; cases k1
        · rintro ⟨-, k2⟩
          exact absurd hei (k2 e (Or.inl hem))

/-- C18 (counterexample): a group name that holds a NUL character is never found again by
`groupIndex`, which compares with the C string of the name, so adding the same element twice
stores two groups with the same name, and the second `add_element`, whose key is already
present, changes the TOC. -/
theorem C18_nul_group_name_stored_twice :
    (LogToc.addAll [Sample.nulGroupElement, Sample.nulGroupElement]).groups.map
        (fun g => g.name) = [['g', Char.ofNat 0], ['g', Char.ofNat 0]]
    ∧ LogToc.KeyPresent Sample.nulGroupElement (LogToc.addAll [Sample.nulGroupElement]).groups
    ∧ (LogToc.addAll [Sample.nulGroupElement]).add_element Sample.nulGroupElement
        ≠ LogToc.addAll [Sample.nulGroupElement] := by
  refine ⟨by decide, ?_, by decide⟩
  exact ⟨_, List.mem_singleton.mpr rfl, rfl, _, List.mem_singleton.mpr rfl, rfl⟩

/-- C18 (amended): starting from an empty LogToc, after any sequence of `add_element` calls
whose elements have group and element names without a NUL character, no two groups have the
same name and no group holds two elements with the same name, and an `add_element` whose
`(group, name)` key is already present leaves the TOC unchanged. -/
theorem C18_keys_unique (es : List LogTocElement)
    (h : ∀ e ∈ es, isCString e.group = true ∧ isCString e.name = true) :
    ((LogToc.addAll es).groups.map (fun g => g.name)).Nodup
      ∧ (∀ g ∈ (LogToc.addAll es).groups, (g.elements.map (fun x => x.name)).Nodup)
      ∧ ∀ e, LogToc.KeyPresent e (LogToc.addAll es).groups →
          (LogToc.addAll es).add_element e = LogToc.addAll es := by
  obtain ⟨hw, hc⟩ := LogToc.addAll_invariant es h
  refine ⟨hw.1, hw.2.1, ?_⟩
  intro e hp
  rw [LogToc.add_element_eq, LogToc.insertElement_present e _ hw hc hp]

/-- Witness of C18: four elements without NUL in their names, the last with the key of the
first; they are stored as the groups `g` (elements `a`, `b`) and `h` (element `a`). -/
theorem C18_keys_unique_witness :
    (∀ e ∈ Sample.keyedElements, isCString e.group = true ∧ isCString e.name = true)
      ∧ (LogToc.addAll Sample.keyedElements).groups
          = [ { name := ['g'],
                elements := [Sample.namedElement ['g'] ['a'] 0,
                  Sample.namedElement ['g'] ['b'] 1] },
              { name := ['h'], elements := [Sample.namedElement ['h'] ['a'] 2] } ]
      ∧ (((LogToc.addAll Sample.keyedElements).groups.map (fun g => g.name)).Nodup
        ∧ (∀ g ∈ (LogToc.addAll Sample.keyedElements).groups,
            (g.elements.map (fun x => x.name)).Nodup)
        ∧ ∀ e, LogToc.KeyPresent e (LogToc.addAll Sample.keyedElements).groups →
            (LogToc.addAll Sample.keyedElements).add_element e
              = LogToc.addAll Sample.keyedElements) :=
  ⟨by decide, by decide, C18_keys_unique Sample.keyedElements (by decide)⟩

/-- C19 (counterexample): `add_element` stores the identifier the element carries and
drops an element whose key is present, so the elements with identifiers 0, 1, 2 of which the
second repeats the key of the first leave two stored elements with the identifiers 0 and 2. -/
theorem C19_identifiers_not_dense :
    (LogToc.addAll [Sample.namedElement ['g'] ['a'] 0, Sample.namedElement ['g'] ['a'] 1,
        Sample.namedElement ['g'] ['b'] 2]).allElements.map (fun x => x.ident) = [0, 2]
    ∧ (LogToc.addAll [Sample.namedElement ['g'] ['a'] 7]).allElements.map (fun x => x.ident)
        = [7] :=
  ⟨by decide, by decide⟩

/-- C19 (amended): starting from an empty LogToc, after `add_element` for elements that carry
the identifiers 0, 1, ..., in this order, and have pairwise distinct `(group, name)` keys
without a NUL character, the identifiers of the stored elements are pairwise distinct and are
exactly 0, 1, ..., n-1 where n is the number of stored elements. -/
theorem C19_identifiers_dense (es : List LogTocElement)
    (hc : ∀ e ∈ es, isCString e.group = true ∧ isCString e.name = true)
    (hk : (es.map (fun e => (e.group, e.name))).Nodup)
    (hi : es.map (fun e => e.ident) = List.range es.length) :
    ((LogToc.addAll es).allElements.map (fun x => x.ident)).Nodup
      ∧ ((LogToc.addAll es).allElements.map (fun x => x.ident)).Perm
          (List.range (LogToc.addAll es).allElements.length) := by
  have hp := LogToc.addAll_perm es hc hk
  have hm := hp.map (fun x => x.ident)
  rw [hi] at hm
  rw [hp.length_eq]
  exact ⟨hm.nodup_iff.mpr (List.nodup_range _), hm⟩

/-- Witness of C19: three elements with distinct keys and the identifiers 0, 1, 2; they are
stored group after group, with the identifiers 0, 2, 1. -/
theorem C19_identifiers_dense_witness :
    (LogToc.addAll Sample.numberedElements).allElements.map (fun x => x.ident) = [0, 2, 1]
      ∧ (((LogToc.addAll Sample.numberedElements).allElements.map (fun x => x.ident)).Nodup
        ∧ ((LogToc.addAll Sample.numberedElements).allElements.map (fun x => x.ident)).Perm
            (List.range (LogToc.addAll Sample.numberedElements).allElements.length)) :=
  ⟨by decide, C19_identifiers_dense Sample.numberedElements (by decide) (by decide) (by decide)⟩

/-- C20 (counterexample): the names of the lookup are passed on as C strings, so the
lookup of group `g` and element name `n\0x` finds the element `g.n`, though the TOC holds
no element of that name, and `get_element_id` returns its identifier, not NO_IDENT. -/
theorem C20_lookup_cuts_name_at_nul :
    (LogToc.addAll [Sample.namedElement ['g'] ['n'] 0]).get_element_by_name
        (['g'] ++ '.' :: ['n', Char.ofNat 0, 'x']) = some (Sample.namedElement ['g'] ['n'] 0)
    ∧ (∀ x ∈ (LogToc.addAll [Sample.namedElement ['g'] ['n'] 0]).allElements,
        x.name ≠ ['n', Char.ofNat 0, 'x'])
    ∧ (LogToc.addAll [Sample.namedElement ['g'] ['n'] 0]).get_element_id
        (['g'] ++ '.' :: ['n', Char.ofNat 0, 'x']) = 0 :=
  ⟨by decide, by decide, by decide⟩

/-- C20 (amended): for every LogToc built by `add_element` from elements whose names hold no
NUL character, every group name `g` without a dot and element name `n`, both without a NUL
character, `get_element_by_name(g + "." + n)` yields an element exactly when that element is
stored with group `g` and name `n`; when no such element is stored `get_element_id` returns
NO_IDENT; and `get_element_by_id(i)` returns true exactly when some stored element has
identifier `i`, and then yields a stored element with identifier `i`. -/
theorem C20_lookup_by_name_and_id (es : List LogTocElement)
    (hc : ∀ e ∈ es, isCString e.group = true ∧ isCString e.name = true)
    (g n : Str) (hdot : '.' ∉ g) (hg : isCString g = true) (hn : isCString n = true) :
    (∀ x, (LogToc.addAll es).get_element_by_name (g ++ '.' :: n) = some x
        ↔ x ∈ (LogToc.addAll es).allElements ∧ x.group = g ∧ x.name = n)
      ∧ ((∀ x ∈ (LogToc.addAll es).allElements, ¬ (x.group = g ∧ x.name = n)) →
          (LogToc.addAll es).get_element_id (g ++ '.' :: n) = NO_IDENT)
      ∧ (∀ i, ((LogToc.addAll es).get_element_by_id i).isSome = true
          ↔ ∃ x ∈ (LogToc.addAll es).allElements, x.ident = i)
      ∧ (∀ i x, (LogToc.addAll es).get_element_by_id i = some x →
          x.ident = i ∧ x ∈ (LogToc.addAll es).allElements) := by
  obtain ⟨hw, -⟩ := LogToc.addAll_invariant es hc
  have hl : ∀ x, (LogToc.addAll es).get_element_by_name (g ++ '.' :: n) = some x
      ↔ x ∈ (LogToc.addAll es).allElements ∧ x.group = g ∧ x.name = n := by
    intro x
    rw [LogToc.get_element_by_name_eq_lookup _ g n hdot, c_str_of_isCString g hg,
      c_str_of_isCString n hn, LogToc.lookup_some_iff _ hw]
    rfl
  refine ⟨hl, ?_, ?_, ?_⟩
  · intro habs
    simp only [LogToc.get_element_id]
    rcases hr : (LogToc.addAll es).get_element_by_name (g ++ '.' :: n) with _ | x
    · rfl
    · exact absurd ((hl x).mp hr).2 (habs x ((hl x).mp hr).1)
  · intro i
    have h := (LogToc.get_element_by_id_fold i (LogToc.addAll es).groups none
      (by intro x hx; cases hx)).2
    simp only [true_and] at h
    rw [← Option.not_isSome_iff_eq_none] at h
    have h2 := not_iff_comm.mp h
    simp only [LogToc.get_element_by_id, LogToc.allElements]
    rw [← h2]
    push_neg
    constructor
    · rintro ⟨x, hx, hxi⟩; exact ⟨x, hx, hxi⟩
    · rintro ⟨x, hx, hxi⟩; exact ⟨x, hx, hxi⟩
  · intro i x hx
    have h := (LogToc.get_element_by_id_fold i (LogToc.addAll es).groups none
      (by intro x hx; cases hx)).1 x hx
    refine ⟨h.1, ?_⟩
    rcases h.2 with k | k
    · cases k
    · exact k

/-- Witness of C20: in the TOC of the four sample elements `g.b` is found, `h.b` is not and
`get_element_id` gives NO_IDENT for it, and identifier 2 is the one of `h.a`. -/
theorem C20_lookup_by_name_and_id_witness :
    (LogToc.addAll Sample.keyedElements).get_element_by_name (['g'] ++ '.' :: ['b'])
        = some (Sample.namedElement ['g'] ['b'] 1)
      ∧ (LogToc.addAll Sample.keyedElements).get_element_id (['h'] ++ '.' :: ['b']) = NO_IDENT
      ∧ (LogToc.addAll Sample.keyedElements).get_element_by_id 2
        = some (Sample.namedElement ['h'] ['a'] 2) :=
  ⟨((C20_lookup_by_name_and_id Sample.keyedElements (by decide) ['g'] ['b'] (by decide)
      (by decide) (by decide)).1 _).mpr (by decide),
    (C20_lookup_by_name_and_id Sample.keyedElements (by decide) ['h'] ['b'] (by decide)
      (by decide) (by decide)).2.1 (by decide),
    by decide⟩

/-! ### The parameter value cell -/

/-- C12 (failing input): `getUintValue` and `setValue(uint64_t)` switch on `ptUint8`, `ptInt16`, `ptInt32`
and `ptInt64`, so for the unsigned kinds of 16, 32 and 64 bits the value read is 0 and the
value written is 0: a `uint16_t` cell with the bytes `34 12` reads 0, not `0x1234`, and
writing 5 into a `uint32_t` or `uint64_t` cell and reading it back gives 0. The 8-bit
unsigned kind and the signed kinds convert as stated. -/
theorem C12_wide_unsigned_kinds_read_zero :
    (Sample.cellOf ptUint16 0x1234).getUintValue = 0
      ∧ (Sample.cellOf ptUint32 0x12345678).getUintValue = 0
      ∧ (Sample.cellOf ptUint64 0x1234567812345678).getUintValue = 0
      ∧ ((Sample.cellOf ptUint16 0).setValue_uint64 5)._value = 0
      ∧ ((Sample.cellOf ptUint32 0).setValue_uint64 5).getUintValue = 0
      ∧ ((Sample.cellOf ptUint64 0).setValue_uint64 5).getUintValue = 0
      ∧ (Sample.cellOf ptUint8 0x34).getUintValue = 0x34
      ∧ ((Sample.cellOf ptUint8 0).setValue_uint64 0x134).getUintValue = 0x34
      ∧ (Sample.cellOf ptInt16 0xfffe).getIntValue = -2
      ∧ (Sample.cellOf ptInt16 0x1234).getUintValue = 0x1234 := by
  decide

/-! ### Setting a parameter by identifier -/

/-- C13 (failing input): for a null slot `set_value` calls `values[ident]->setValue(value)` before it stores
the new cell in the slot, so the call dereferences a null pointer: on any engine whose only
slot is null, `set_value(0, ctype, value)` faults. For `NO_IDENT` and for an identifier
outside the vector the call returns false and changes nothing. -/
theorem C13_set_value_null_slot_faults (p : Param) (ctype : Nat) (value : DoubleArg) :
    Param.set_value { p with values := [none] } 0 ctype value = .error Fault.nullDeref
      ∧ p.set_value NO_IDENT ctype value = .ok (false, p)
      ∧ Param.set_value { p with values := [none] } 1 ctype value
          = .ok (false, { p with values := [none] }) := by
  refine ⟨?_, ?_, ?_⟩
  · simp [Param.set_value, Param.cell, Param.slotSetValue, NO_IDENT]
  · simp [Param.set_value]
  · simp [Param.set_value, NO_IDENT]

/-! ### Update-all -/

/-- C15 (failing input): with the TOC whose group `A` holds the identifiers 0 and 2 and whose group `B` holds
1, `request_update_of_all_params` queues the reads in the order 0, 2, 1. The worker sends
the read of 0, its reply arrives, the worker pops 0 and sends the read of 2; up to here no
signal was given. The reply for 2, which is `idCount - 1`, signals `paramResetComplete`
while the cell of identifier 1 is still in state (PENDING, READ) and waits in the queue. -/
theorem C15_reset_signalled_with_pending_cell :
    Sample.paramView (.ok (Sample.paramEngine Sample.interleavedToc).request_update_of_all_params)
        = some (some 0, [some 256, some 256, some 256], [0, 2, 1])
      ∧ Sample.paramView
          (Sample.run
            [Sample.ParamEvent.tick, Sample.ParamEvent.reply (Sample.packet 2 1 [0, 0, 0, 7]),
              Sample.ParamEvent.tick, Sample.ParamEvent.tick]
            (Sample.paramEngine Sample.interleavedToc).request_update_of_all_params)
        = some (some 0, [some 2, some 256, some 257], [2, 1])
      ∧ Sample.paramView
          (Sample.run
            [Sample.ParamEvent.tick, Sample.ParamEvent.reply (Sample.packet 2 1 [0, 0, 0, 7]),
              Sample.ParamEvent.tick, Sample.ParamEvent.tick,
              Sample.ParamEvent.reply (Sample.packet 2 1 [2, 0, 0, 9])]
            (Sample.paramEngine Sample.interleavedToc).request_update_of_all_params)
        = some (some 1, [some 2, some 256, some 2], [2, 1])
      ∧ Sample.paramWire
          (Sample.run
            [Sample.ParamEvent.tick, Sample.ParamEvent.reply (Sample.packet 2 1 [0, 0, 0, 7]),
              Sample.ParamEvent.tick, Sample.ParamEvent.tick,
              Sample.ParamEvent.reply (Sample.packet 2 1 [2, 0, 0, 9])]
            (Sample.paramEngine Sample.interleavedToc).request_update_of_all_params)
        = [(2, 1, [0, 0]), (2, 1, [2, 0])] :=
  ⟨by decide, by decide, by decide, by decide⟩

/-! ### Replies on the READ and WRITE channels -/

theorem Param.cell_setCell_same (p : Param) (i : Nat) (c : ParamValue)
    (h : i < p.values.length) : (p.setCell i c).cell i = some c := by
  simp [Param.cell, Param.setCell, List.getElem?_set, h]

theorem Param.values_setCell_other (p : Param) (i j : Nat) (c : ParamValue) (h : j ≠ i) :
    (p.setCell i c).values.get? j = p.values.get? j := by
  simp [Param.setCell, List.getElem?_set, Ne.symm h]

theorem Param.length_setCell (p : Param) (i : Nat) (c : ParamValue) :
    (p.setCell i c).values.length = p.values.length := by
  simp [Param.setCell]

theorem Param.cell_lt (p : Param) (i : Nat) (c : ParamValue) (h : p.cell i = some c) :
    i < p.values.length := by
  by_contra hge
  simp [Param.cell, List.getElem?_eq_none (Nat.le_of_not_lt hge)] at h

theorem ParamValue.set_returns (c : ParamValue) (data : PackUtils.Buffer) (h : c._csize ≤ 8) :
    ∃ d, c.set data = .ok d ∧ d._state = ParamValue.SET ||| ParamValue.REQUEST_NONE
      ∧ d._ctype = c._ctype ∧ d._csize = c._csize ∧ d._ident = c._ident := by
  simp only [ParamValue.set, h, if_true]
  exact ⟨_, rfl, rfl, rfl, rfl, rfl⟩

/-- C14: a reply on the READ or the WRITE channel, received by a connected engine whose cells
have a size of at most 8 bytes, is handled without fault; when a cell exists for the
identifier the reply carries (16 bits little-endian under V2, 8 bits under V1), that cell
gets the state (SET, NONE) and keeps its kind, size and identifier, a WRITE reply leaves its
packed value unchanged, and every other slot is unchanged; when no cell exists for the
identifier (it is out of range or its slot is null) nothing changes. -/
theorem C14_reply_sets_cell_state (p : Param) (pk : Packet) (pc : PortConnect)
    (hpc : p.portConnect = some pc)
    (hch : pk.channel = Param.READ_CHANNEL ∨ pk.channel = Param.WRITE_CHANNEL)
    (hsz : ∀ c, p.cell (p.replyId pk) = some c → c._csize ≤ 8) :
    p.replyId pk
        = (if p.useV2 then PackUtils.peek pk.payload 0 + 256 * PackUtils.peek pk.payload 1
            else PackUtils.peek pk.payload 0)
      ∧ ∃ q, p._param_updated pk = .ok q
        ∧ q.values.length = p.values.length
        ∧ (∀ j, j ≠ p.replyId pk → q.values.get? j = p.values.get? j)
        ∧ (∀ c, p.cell (p.replyId pk) = some c →
            ∃ d, q.cell (p.replyId pk) = some d
              ∧ d._state = ParamValue.SET ||| ParamValue.REQUEST_NONE
              ∧ d._ctype = c._ctype ∧ d._csize = c._csize ∧ d._ident = c._ident
              ∧ (pk.channel = Param.WRITE_CHANNEL → d._value = c._value))
        ∧ (p.cell (p.replyId pk) = none → q = p) := by
  refine ⟨?_, ?_⟩
  · unfold Param.replyId Param.readId PackUtils.unpack_uint16
    split <;> simp
  have hmisc : pk.channel ≠ Param.MISC_CHANNEL := by
    rcases hch with h | h <;> rw [h] <;> decide
  have hid : (Param.readId p.useV2 pk.payload 0).1 = p.replyId pk := rfl
  simp only [Param._param_updated, hmisc, if_false, false_and, hid]
  rcases hc : p.cell (p.replyId pk) with _ | c
  · refine ⟨p, ?_, rfl, fun _ _ => rfl, ?_, fun _ => rfl⟩
    · split <;> rfl
    · intro c h; cases h
  · have hlt := Param.cell_lt p _ c hc
    have hs := hsz c hc
    simp only [hlt, if_true]
    rcases hch with h | h
    · have hw : pk.channel ≠ Param.WRITE_CHANNEL := by rw [h]; decide
      obtain ⟨d, hd, d1, d2, d3, d4⟩ :=
        ParamValue.set_returns c (fun i => pk.payload ((Param.readId p.useV2 pk.payload 0).2 + 1 + i)) hs
      simp only [h, if_true, hd]
      have hcell : ∀ q : Param, q.values = (p.setCell (p.replyId pk) d).values →
          q.values.length = p.values.length
            ∧ (∀ j, j ≠ p.replyId pk → q.values.get? j = p.values.get? j)
            ∧ (∀ c2, some c = some c2 →
                ∃ d2, q.cell (p.replyId pk) = some d2
                  ∧ d2._state = ParamValue.SET ||| ParamValue.REQUEST_NONE
                  ∧ d2._ctype = c2._ctype ∧ d2._csize = c2._csize ∧ d2._ident = c2._ident
                  ∧ (Param.READ_CHANNEL = Param.WRITE_CHANNEL → d2._value = c2._value))
            ∧ (some c = none → q = p) := by
        intro q hq
        refine ⟨by rw [hq, Param.length_setCell], ?_, ?_, ?_⟩
        · intro j hj
          rw [hq]; exact Param.values_setCell_other p _ j _ hj
        · intro c2 hc2
          cases hc2
          refine ⟨d, ?_, d1, d2, d3, d4, fun k => absurd k (by decide)⟩
          have := Param.cell_setCell_same p _ d hlt
          simpa [Param.cell, hq] using this
        · intro k; cases k
      by_cases hu : p.updateState = Param.ALL_PARAMS_REQUESTED
      · by_cases hi : ((p.replyId pk : Nat) : Int) = p.idCount - 1
        · simp only [Param.setCell, hu, hi, hpc, if_true]
          refine ⟨_, rfl, ?_⟩
          apply hcell
          rfl
        · simp only [Param.setCell, hu, hi, if_true, if_false]
          refine ⟨_, rfl, ?_⟩
          apply hcell
          rfl
      · simp only [Param.setCell, hu, if_false]
        refine ⟨_, rfl, ?_⟩
        apply hcell
        rfl
    · have hr : pk.channel ≠ Param.READ_CHANNEL := by rw [h]; decide
      simp only [hr, if_false]
      refine ⟨_, rfl, Param.length_setCell _ _ _, ?_, ?_, ?_⟩
      · intro j hj
        exact Param.values_setCell_other p _ j _ hj
      · intro c2 hc2
        cases hc2
        exact ⟨_, Param.cell_setCell_same p _ _ hlt, rfl, rfl, rfl, rfl, fun _ => rfl⟩
      · intro k; cases k

/-- Witness of C14: the WRITE reply `[1, 0]` under V2 for an engine whose cells 0 and 1 are
in flight; cell 1 becomes (SET, NONE) with its packed value `0x1234`, slot 0 is unchanged. -/
theorem C14_reply_sets_cell_state_witness :
    Sample.paramView (Sample.inFlight._param_updated (Sample.packet 2 2 [1, 0]))
        = some (some 0, [some 257, some 2], [1, 0])
      ∧ ∃ q d, Sample.inFlight._param_updated (Sample.packet 2 2 [1, 0]) = .ok q
          ∧ q.values.get? 0 = Sample.inFlight.values.get? 0
          ∧ q.cell 1 = some d
          ∧ d._state = ParamValue.SET ||| ParamValue.REQUEST_NONE ∧ d._value = 0x1234 := by
  refine ⟨by decide, ?_⟩
  have hid : Sample.inFlight.replyId (Sample.packet 2 2 [1, 0]) = 1 := by decide
  have hcell : Sample.inFlight.cell 1 = some (Sample.cellIn ptUint16 0x1234 513) := by decide
  obtain ⟨-, q, h1, -, h3, h4, -⟩ :=
    C14_reply_sets_cell_state Sample.inFlight (Sample.packet 2 2 [1, 0]) Sample.link rfl
      (Or.inr rfl)
      (by
        intro c hc
        rw [hid, hcell] at hc
        cases hc
        decide)
  rw [hid] at h3 h4
  obtain ⟨d, hd1, hd2, -, -, -, hd3⟩ := h4 _ hcell
  exact ⟨q, d, h1, h3 0 (by decide), hd1, hd2, hd3 rfl⟩

/-! ### The worker of the parameter engine -/

theorem Param.extendedPacket_header (var_id : Nat) :
    (Param.extendedPacket var_id).port = PARAM
      ∧ (Param.extendedPacket var_id).channel = Param.MISC_CHANNEL :=
  ⟨rfl, rfl⟩

theorem PortConnect.send_packet_wire (pc : PortConnect) (pk : Packet) :
    ∃ sent, (pc.send_packet pk).wire = pc.wire ++ sent ∧ ∀ x ∈ sent, x = pk := by
  unfold PortConnect.send_packet
  by_cases h1 : pc.cfConnection = true
  · by_cases h2 : pk.size > 0
    · exact ⟨[pk], by simp [h1, h2], by simp⟩
    · exact ⟨[], by simp [h1, h2], by simp⟩
  · exact ⟨[], by simp [h1], by simp⟩

/-- C16: an iteration of the worker of a connected engine that starts with a non-empty
extended-type queue returns, leaves every slot of `values` (so every cell state) and the
update queue as they were, and every packet it sends is on the MISC channel of the PARAM
port, so none is sent on the READ or the WRITE channel. -/
theorem C16_extended_queue_first (useV2 : Bool) (p : Param) (pc : PortConnect)
    (hpc : p.portConnect = some pc) (hq : p.extendedTypeQueue ≠ []) :
    ∃ q qc, p.queueIteration useV2 = .ok q ∧ q.portConnect = some qc
      ∧ q.values = p.values ∧ q.updateQueue = p.updateQueue
      ∧ ∃ sent, qc.wire = pc.wire ++ sent
        ∧ ∀ pk ∈ sent, pk.port = PARAM ∧ pk.channel = Param.MISC_CHANNEL
          ∧ pk.channel ≠ Param.READ_CHANNEL ∧ pk.channel ≠ Param.WRITE_CHANNEL := by
  rcases hx : p.extendedTypeQueue with _ | ⟨front, rest⟩
  · exact absurd hx hq
  · simp only [Param.queueIteration, hx, Param.extendedStep]
    by_cases h1 : front % 65536 = p.extendedRequestIdent
    · by_cases h2 : p.extendedState = Param.EXTENDED_SET
      · by_cases h3 : rest.length = 0
        · simp only [h1, h2, h3, if_true]
          exact ⟨_, pc, rfl, hpc, rfl, rfl, [], by simp, by simp⟩
        · simp only [h1, h2, h3, if_true, if_false]
          exact ⟨_, pc, rfl, hpc, rfl, rfl, [], by simp, by simp⟩
      · simp only [h1, h2, if_true, if_false]
        exact ⟨_, pc, rfl, hpc, rfl, rfl, [], by simp, by simp⟩
    · by_cases h4 : p.extendedRequestIdent = NO_IDENT
      · have h5 : ¬ front % 65536 = NO_IDENT := by rw [← h4]; exact h1
        simp only [h4, h5, if_true, if_false, Param.send, hpc]
        obtain ⟨sent, hs1, hs2⟩ :=
          PortConnect.send_packet_wire pc (Param.extendedPacket (front % 65536))
        refine ⟨_, _, rfl, rfl, rfl, rfl, sent, hs1, ?_⟩
        intro pk hpk
        rw [hs2 pk hpk]
        have hch : (Param.extendedPacket (front % 65536)).channel = 3 := rfl
        refine ⟨rfl, rfl, ?_, ?_⟩ <;> rw [hch] <;> decide
      · simp only [h1, h4, if_false]
        exact ⟨_, pc, rfl, hpc, rfl, rfl, [], by simp, by simp⟩

/-- Witness of C16: an engine with identifier 1 in the extended-type queue and two waiting
cells; the iteration sends `[MISC_GET_EXTENDED_TYPE, 1, 0]` on channel 3 and leaves cells and
update queue as they were. -/
theorem C16_extended_queue_first_witness :
    Sample.paramView (Sample.waitingExtended.queueIteration true)
        = some (some 0, [some 256, some 512], [1, 0])
      ∧ Sample.paramWire (Sample.waitingExtended.queueIteration true) = [(2, 3, [2, 1, 0])]
      ∧ ∃ q qc, Sample.waitingExtended.queueIteration true = .ok q ∧ q.portConnect = some qc
          ∧ q.values = Sample.waitingExtended.values
          ∧ q.updateQueue = Sample.waitingExtended.updateQueue
          ∧ ∃ sent, qc.wire = Sample.link.wire ++ sent
            ∧ ∀ pk ∈ sent, pk.port = PARAM ∧ pk.channel = Param.MISC_CHANNEL
              ∧ pk.channel ≠ Param.READ_CHANNEL ∧ pk.channel ≠ Param.WRITE_CHANNEL :=
  ⟨by decide, by decide,
    C16_extended_queue_first true Sample.waitingExtended Sample.link rfl (by decide)⟩

theorem Param.readPacket_bytes (useV2 : Bool) (var_id : Nat) :
    (Param.readPacket useV2 var_id).bytes = Param.idBytes useV2 var_id := by
  cases useV2
  · simp [Param.readPacket, Param.packId, Param.idBytes, Packet.bytes, Packet.payloadSize,
      Packet.setPayloadSize, PackUtils.pack_uint8, PackUtils.peek, PackUtils.poke,
      List.range_succ]
  · simp [Param.readPacket, Param.packId, Param.idBytes, Packet.bytes, Packet.payloadSize,
      Packet.setPayloadSize, PackUtils.pack_uint16, PackUtils.peek, PackUtils.poke,
      PackUtils.byteOf, List.range_succ]

theorem Param.writeLoop_apply (v index : Nat) :
    ∀ (n : Nat) (buffer : PackUtils.Buffer) (j : Nat),
      Param.writeLoop v index n buffer j
        = if index ≤ j ∧ j < index + n then PackUtils.byteOf v (j - index) else buffer j := by
  intro n
  induction n with
  | zero =>
    intro buffer j
    have h0 : ¬ (index ≤ j ∧ j < index + 0) := by omega
    rw [if_neg h0]
    rfl
  | succ n ih =>
    intro buffer j
    simp only [Param.writeLoop, PackUtils.poke]
    by_cases h : j = index + n
    · subst h
      have h2 : PackUtils.byteOf v n % 256 = PackUtils.byteOf v n := by
        unfold PackUtils.byteOf; omega
      simp [h2]
    · rw [if_neg h, ih]
      by_cases h3 : index ≤ j ∧ j < index + n
      · have h4 : index ≤ j ∧ j < index + (n + 1) := by omega
        simp [h3, h4]
      · have h4 : ¬ (index ≤ j ∧ j < index + (n + 1)) := by omega
        simp [h3, h4]

theorem Param.writePacket_bytes (useV2 : Bool) (var_id csize v : Nat) :
    (Param.writePacket useV2 var_id csize v).bytes
      = Param.idBytes useV2 var_id ++ (List.range csize).map (PackUtils.byteOf v) := by
  have hb : ∀ k, PackUtils.byteOf v k % 256 = PackUtils.byteOf v k := by
    intro k; unfold PackUtils.byteOf; omega
  cases useV2
  · simp only [Param.writePacket, Param.packId, Param.idBytes, Packet.bytes,
      Packet.payloadSize, Packet.setPayloadSize, PackUtils.pack_uint8, Bool.false_eq_true,
      if_false, Nat.zero_add, Nat.add_sub_cancel]
    rw [List.range_add, List.map_append, List.map_map]
    congr 1
    · simp [PackUtils.peek, Param.writeLoop_apply, PackUtils.poke, List.range_succ]
    · apply List.map_congr_left
      intro k hk
      have hk2 := List.mem_range.mp hk
      simp [PackUtils.peek, Param.writeLoop_apply, hk2, hb]
  · simp only [Param.writePacket, Param.packId, Param.idBytes, Packet.bytes,
      Packet.payloadSize, Packet.setPayloadSize, PackUtils.pack_uint16, if_true,
      Nat.zero_add, Nat.add_sub_cancel]
    rw [List.range_add, List.map_append, List.map_map]
    congr 1
    · simp [PackUtils.peek, Param.writeLoop_apply, PackUtils.poke, PackUtils.byteOf,
        List.range_succ]
    · apply List.map_congr_left
      intro k hk
      have hk2 := List.mem_range.mp hk
      simp [PackUtils.peek, Param.writeLoop_apply, hk2, hb]

/-- C17: one iteration of the worker of a connected engine with an empty extended queue, an
update queue with head `h` and a cell `c`, of size at most 8 bytes, for `h` (as `uint16_t`).
If `c` is (PENDING, READ), one packet with the bytes of `h` (two under V2, one under V1) is
handed to `send_packet` on channel 1 of the PARAM port and the cell becomes (REQUESTED,
READ). If `c` is (PENDING, WRITE), one packet with the bytes of `h` and the first `_csize`
bytes of the packed value is handed to `send_packet` on channel 2 and the cell becomes
(REQUESTED, WRITE). In both cases the other slots and the queue are unchanged. If `c` is
(SET, NONE) the head is popped and nothing is sent. In any other state the engine is left as
it was. -/
theorem C17_update_head (useV2 : Bool) (p : Param) (pc : PortConnect) (h : Nat)
    (rest : List Nat) (c : ParamValue) (hpc : p.portConnect = some pc)
    (hq : p.extendedTypeQueue = []) (hu : p.updateQueue = h :: rest)
    (hc : p.cell (h % 65536) = some c) (hs : c._csize ≤ 8) :
    (c._state = ParamValue.PENDING ||| ParamValue.REQUEST_READ →
        ∃ q pk, p.queueIteration useV2 = .ok q
          ∧ q.portConnect = some (pc.send_packet pk)
          ∧ pk.port = PARAM ∧ pk.channel = Param.READ_CHANNEL
          ∧ pk.bytes = Param.idBytes useV2 (h % 65536)
          ∧ q.cell (h % 65536)
              = some { c with _state := ParamValue.REQUESTED ||| ParamValue.REQUEST_READ }
          ∧ (∀ j, j ≠ h % 65536 → q.values.get? j = p.values.get? j)
          ∧ q.updateQueue = p.updateQueue)
      ∧ (c._state = ParamValue.PENDING ||| ParamValue.REQUEST_WRITE →
        ∃ q pk, p.queueIteration useV2 = .ok q
          ∧ q.portConnect = some (pc.send_packet pk)
          ∧ pk.port = PARAM ∧ pk.channel = Param.WRITE_CHANNEL
          ∧ pk.bytes = Param.idBytes useV2 (h % 65536)
              ++ (List.range c._csize).map (PackUtils.byteOf c._value)
          ∧ q.cell (h % 65536)
              = some { c with _state := ParamValue.REQUESTED ||| ParamValue.REQUEST_WRITE }
          ∧ (∀ j, j ≠ h % 65536 → q.values.get? j = p.values.get? j)
          ∧ q.updateQueue = p.updateQueue)
      ∧ (c._state = ParamValue.SET ||| ParamValue.REQUEST_NONE →
        ∃ q, p.queueIteration useV2 = .ok q ∧ q.portConnect = some pc
          ∧ q.values = p.values ∧ q.updateQueue = rest)
      ∧ (c._state ≠ ParamValue.PENDING ||| ParamValue.REQUEST_READ →
          c._state ≠ ParamValue.PENDING ||| ParamValue.REQUEST_WRITE →
          c._state ≠ ParamValue.SET ||| ParamValue.REQUEST_NONE →
        p.queueIteration useV2 = .ok p) := by
  have hlt := Param.cell_lt p _ c hc
  have hrw : (ParamValue.PENDING ||| ParamValue.REQUEST_READ)
      ≠ (ParamValue.PENDING ||| ParamValue.REQUEST_WRITE) := by decide
  have hrs : (ParamValue.SET ||| ParamValue.REQUEST_NONE)
      ≠ (ParamValue.PENDING ||| ParamValue.REQUEST_READ) := by decide
  have hws : (ParamValue.SET ||| ParamValue.REQUEST_NONE)
      ≠ (ParamValue.PENDING ||| ParamValue.REQUEST_WRITE) := by decide
  have hcs : c._csize % 256 = c._csize := Nat.mod_eq_of_lt (by omega)
  have hstep : p.queueIteration useV2 = Param.updateStep useV2 p h rest := by
    simp only [Param.queueIteration, hq, hu]
  rw [hstep]
  simp only [Param.updateStep, hlt, if_true, hc, hcs, hs, Param.send, hpc]
  refine ⟨?_, ?_, ?_, ?_⟩
  · intro hst
    simp only [hst, if_true]
    refine ⟨_, Param.readPacket useV2 (h % 65536), rfl, rfl, ?_, ?_,
      Param.readPacket_bytes _ _, ?_, ?_, rfl⟩
    · cases useV2 <;> rfl
    · cases useV2 <;> rfl
    · have := Param.cell_setCell_same p (h % 65536)
        { c with _state := ParamValue.REQUESTED ||| ParamValue.REQUEST_READ } hlt
      simpa [Param.cell, Param.setCell, hst] using this
    · intro j hj
      simp [Param.setCell, List.getElem?_set, Ne.symm hj]
  · intro hst
    simp only [hst, hrw.symm, if_true, if_false]
    refine ⟨_, Param.writePacket useV2 (h % 65536) c._csize c._value, rfl, rfl, ?_, ?_,
      Param.writePacket_bytes _ _ _ _, ?_, ?_, rfl⟩
    · cases useV2 <;> rfl
    · cases useV2 <;> rfl
    · have := Param.cell_setCell_same p (h % 65536)
        { c with _state := ParamValue.REQUESTED ||| ParamValue.REQUEST_WRITE } hlt
      simpa [Param.cell, Param.setCell, hst] using this
    · intro j hj
      simp [Param.setCell, List.getElem?_set, Ne.symm hj]
  · intro hst
    simp only [hst, hrs, hws, if_true, if_false]
    exact ⟨_, rfl, rfl, rfl, rfl⟩
  · intro h1 h2 h3
    simp only [h1, h2, h3, if_false]

/-- Witness of C17: under V2, the head 1 of the update queue has a `uint16_t` cell in state
(PENDING, WRITE) with the packed value `0x1234`; the iteration sends `[1, 0, 0x34, 0x12]` on
channel 2 and the cell becomes (REQUESTED, WRITE). -/
theorem C17_update_head_witness :
    Sample.paramView (Sample.waiting.queueIteration true)
        = some (some 0, [some 256, some 513], [1, 0])
      ∧ Sample.paramWire (Sample.waiting.queueIteration true) = [(2, 2, [1, 0, 0x34, 0x12])]
      ∧ ∃ q pk, Sample.waiting.queueIteration true = .ok q
          ∧ q.portConnect = some (Sample.link.send_packet pk)
          ∧ pk.port = PARAM ∧ pk.channel = Param.WRITE_CHANNEL
          ∧ pk.bytes = Param.idBytes true (1 % 65536)
              ++ (List.range (Sample.cellIn ptUint16 0x1234 512)._csize).map
                  (PackUtils.byteOf (Sample.cellIn ptUint16 0x1234 512)._value)
          ∧ q.cell (1 % 65536)
              = some { Sample.cellIn ptUint16 0x1234 512 with
                        _state := ParamValue.REQUESTED ||| ParamValue.REQUEST_WRITE }
          ∧ (∀ j, j ≠ 1 % 65536 → q.values.get? j = Sample.waiting.values.get? j)
          ∧ q.updateQueue = Sample.waiting.updateQueue :=
  ⟨by decide, by decide,
    (C17_update_head true Sample.waiting Sample.link 1 [0] (Sample.cellIn ptUint16 0x1234 512)
      rfl rfl rfl (by decide) (by decide)).2.1 (by decide)⟩


/-! ### Bit operations as arithmetic -/

theorem or_disjoint (a b i : Nat) (ha : 2 ^ i ∣ a) (hb : b < 2 ^ i) : a ||| b = a + b := by
  obtain ⟨c, rfl⟩ := ha
  exact (Nat.mul_add_lt_is_or hb c).symm

theorem and_mask (x j k : Nat) :
    x &&& (2 ^ j * (2 ^ k - 1)) = 2 ^ j * (x / 2 ^ j % 2 ^ k) := by
  apply Nat.eq_of_testBit_eq
  intro i
  rw [Nat.testBit_land, Nat.testBit_mul_pow_two, Nat.testBit_mul_pow_two]
  by_cases hij : i < j
  · have : ¬ j ≤ i := by omega
    simp [this]
  · have hji : j ≤ i := Nat.le_of_not_lt hij
    simp only [hji, decide_True, Bool.true_and]
    rw [Nat.testBit_two_pow_sub_one, Nat.testBit_mod_two_pow, ← Nat.shiftRight_eq_div_pow,
      Nat.testBit_shiftRight]
    have hi : j + (i - j) = i := by omega
    rw [hi, Bool.and_comm]

theorem and_0x3ff (x : Nat) : x &&& 0x03ff = x % 1024 := by
  have := Nat.and_pow_two_sub_one_eq_mod x 10
  norm_num at this
  exact this

theorem and_0x7c00 (x : Nat) : x &&& 0x7c00 = 1024 * (x / 1024 % 32) := by
  have := and_mask x 10 5
  norm_num at this
  exact this

theorem and_0x8000 (x : Nat) : x &&& 0x8000 = 32768 * (x / 32768 % 2) := by
  have := and_mask x 15 1
  norm_num at this
  exact this

theorem and_0x400 (x : Nat) : x &&& 0x400 = 1024 * (x / 1024 % 2) := by
  have := and_mask x 10 1
  norm_num at this
  exact this

theorem and_0x7fffffff (x : Nat) : x &&& 0x7fffffff = x % 2147483648 := by
  have := Nat.and_pow_two_sub_one_eq_mod x 31
  norm_num at this
  exact this

theorem and_0x7fffff (x : Nat) : x &&& 0x7fffff = x % 8388608 := by
  have := Nat.and_pow_two_sub_one_eq_mod x 23
  norm_num at this
  exact this

/-! ### Conversion to and from float16 -/

theorem allBelow_spec (p : Nat → Bool) :
    ∀ n, allBelow p n = true → ∀ h, h < n → p h = true := by
  intro n
  induction n with
  | zero => intro _ h h1; omega
  | succ n ih =>
    intro hall h h1
    simp only [allBelow, Bool.and_eq_true] at hall
    by_cases hh : h = n
    · subst hh; exact hall.1
    · exact ih hall.2 h (by omega)

theorem PackUtils.unPackFloat16_infnan (s h : Nat) (hs : s < 2) (h1 : 31744 ≤ h)
    (h2 : h < 32768) :
    PackUtils.unPackFloat16 (32768 * s + h) = 2147483648 * s + (h + 0x38000) * 8192 := by
  have he : (32768 * s + h) / 1024 % 32 = 31 := by omega
  have hsg : (32768 * s + h) / 32768 % 2 = s := by omega
  have hm : (32768 * s + h) % 1024 = h % 1024 := by omega
  simp only [PackUtils.unPackFloat16, and_0x3ff, and_0x7c00, and_0x8000, he, hsg, hm]
  norm_num
  rw [or_disjoint 0x3fc00 (h % 1024) 10 (by norm_num) (by omega), Nat.shiftLeft_eq,
    Nat.shiftLeft_eq]
  rw [or_disjoint (32768 * s * 2 ^ 16) _ 31 ⟨s, by ring⟩ (by omega)]
  omega

theorem PackUtils.unPackFloat16_normal (s h : Nat) (hs : s < 2) (h1 : 1024 ≤ h)
    (h2 : h < 31744) :
    PackUtils.unPackFloat16 (32768 * s + h)
      = 2147483648 * s + (h + 0x1c000) * 8192
        + (if h % 1024 = 0 ∧ 2048 ≤ h then 0x3ff else 0) := by
  have hsg : (32768 * s + h) / 32768 % 2 = s := by omega
  have hm : (32768 * s + h) % 1024 = h % 1024 := by omega
  have hee : (32768 * s + h) / 1024 % 32 = h / 1024 % 32 := by omega
  have he1 : 1024 * (h / 1024 % 32) ≠ 31744 := by omega
  have he2 : 1024 * (h / 1024 % 32) ≠ 0 := by omega
  simp only [PackUtils.unPackFloat16, and_0x3ff, and_0x7c00, and_0x8000, hsg, hm, hee, he1,
    he2]
  norm_num
  have he0 : ¬ h / 1024 % 32 = 0 := by omega
  rw [if_neg he0]
  by_cases hmm : h % 1024 = 0 ∧ 2048 ≤ h
  · have hc : h % 1024 = 0 ∧ 115712 < 1024 * (h / 1024 % 32) + 114688 := ⟨hmm.1, by omega⟩
    rw [if_pos hc, if_pos hmm, Nat.shiftLeft_eq, Nat.shiftLeft_eq]
    rw [or_disjoint (32768 * s * 2 ^ 16) _ 31 ⟨s, by ring⟩ (by omega)]
    rw [or_disjoint _ 1023 13 ⟨2 ^ 18 * s + (1024 * (h / 1024 % 32) + 114688), by ring⟩
      (by norm_num)]
    omega
  · have hc : ¬ (h % 1024 = 0 ∧ 115712 < 1024 * (h / 1024 % 32) + 114688) := by
      intro hc; apply hmm; exact ⟨hc.1, by omega⟩
    rw [if_neg hc, if_neg hmm]
    rw [or_disjoint (1024 * (h / 1024 % 32) + 114688) (h % 1024) 10
      ⟨h / 1024 % 32 + 112, by ring⟩ (by omega), Nat.shiftLeft_eq, Nat.shiftLeft_eq]
    rw [or_disjoint (32768 * s * 2 ^ 16) _ 31 ⟨s, by ring⟩ (by omega)]
    omega

theorem PackUtils.packFloat16_sign (s a : Nat) (hs : s < 2) (ha : a < 2147483648) :
    ((2147483648 * s + a) >>> 16) &&& 0x8000 = 32768 * s
      ∧ (2147483648 * s + a) &&& 0x7fffffff = a
      ∧ (2147483648 * s + a) &&& 0x7fffff = a % 8388608 := by
  rw [and_0x8000, and_0x7fffffff, and_0x7fffff, Nat.shiftRight_eq_div_pow]
  omega

theorem PackUtils.int32OfBits_small (a : Nat) (ha : a < 2147483648) :
    PackUtils.int32OfBits a = (a : Int) := by
  unfold PackUtils.int32OfBits
  have h1 : a % 4294967296 = a := by omega
  rw [h1, if_pos ha]

theorem PackUtils.packFloat16_normal (s a : Nat) (hs : s < 2) (h1 : 0x387FF000 ≤ a)
    (h2 : a < 0x477FF000) :
    PackUtils.packFloat16 (2147483648 * s + a)
      = some (32768 * s + (a - 0x37FFF000) / 8192) := by
  obtain ⟨e1, e2, e3⟩ := PackUtils.packFloat16_sign s a hs (by omega)
  simp only [PackUtils.packFloat16, e1, e2, e3,
    PackUtils.int32OfBits_small (a + 0x1000) (by omega)]
  have c1 : ¬ ((a + 0x1000 : Nat) : Int) ≥ 0x47800000 := by omega
  have c2 : ((a + 0x1000 : Nat) : Int) ≥ 0x38800000 := by omega
  rw [if_neg c1, if_pos c2]
  have hv : (((a + 0x1000 : Nat) : Int) - 0x38000000).toNat = a - 0x37FFF000 := by omega
  rw [hv, Nat.shiftRight_eq_div_pow]
  rw [or_disjoint (32768 * s) _ 15 ⟨s, by ring⟩ (by omega)]

theorem PackUtils.packFloat16_tiny (s a : Nat) (hs : s < 2) (h2 : a < 0x32FFF000) :
    PackUtils.packFloat16 (2147483648 * s + a) = some (32768 * s) := by
  obtain ⟨e1, e2, e3⟩ := PackUtils.packFloat16_sign s a hs (by omega)
  simp only [PackUtils.packFloat16, e1, e2, e3,
    PackUtils.int32OfBits_small (a + 0x1000) (by omega)]
  have c1 : ¬ ((a + 0x1000 : Nat) : Int) ≥ 0x47800000 := by omega
  have c2 : ¬ ((a + 0x1000 : Nat) : Int) ≥ 0x38800000 := by omega
  have c3 : ((a + 0x1000 : Nat) : Int) < 0x33000000 := by omega
  rw [if_neg c1, if_neg c2, if_pos c3]

theorem PackUtils.packFloat16_undefined (s a : Nat) (hs : s < 2) (h1 : 0x32FFF000 ≤ a)
    (h2 : a < 0x33000000) :
    PackUtils.packFloat16 (2147483648 * s + a) = none := by
  obtain ⟨e1, e2, e3⟩ := PackUtils.packFloat16_sign s a hs (by omega)
  simp only [PackUtils.packFloat16, e1, e2, e3,
    PackUtils.int32OfBits_small (a + 0x1000) (by omega)]
  have c1 : ¬ ((a + 0x1000 : Nat) : Int) ≥ 0x47800000 := by omega
  have c2 : ¬ ((a + 0x1000 : Nat) : Int) ≥ 0x38800000 := by omega
  have c3 : ¬ ((a + 0x1000 : Nat) : Int) < 0x33000000 := by omega
  have c4 : a >>> 23 < 102 := by rw [Nat.shiftRight_eq_div_pow]; omega
  rw [if_neg c1, if_neg c2, if_neg c3, if_pos c4]

theorem PackUtils.packFloat16_subnormal (s a : Nat) (hs : s < 2) (h1 : 0x33000000 ≤ a)
    (h2 : a < 0x387FF000) :
    PackUtils.packFloat16 (2147483648 * s + a)
      = some (32768 * s
          + (a % 8388608 + 8388608 + 2 ^ (125 - a / 8388608)) / 2 ^ (126 - a / 8388608)) := by
  obtain ⟨e1, e2, e3⟩ := PackUtils.packFloat16_sign s a hs (by omega)
  simp only [PackUtils.packFloat16, e1, e2, e3,
    PackUtils.int32OfBits_small (a + 0x1000) (by omega)]
  have c1 : ¬ ((a + 0x1000 : Nat) : Int) ≥ 0x47800000 := by omega
  have c2 : ¬ ((a + 0x1000 : Nat) : Int) ≥ 0x38800000 := by omega
  have c3 : ¬ ((a + 0x1000 : Nat) : Int) < 0x33000000 := by omega
  have hsh : a >>> 23 = a / 8388608 := by rw [Nat.shiftRight_eq_div_pow]
  have c4 : ¬ a / 8388608 < 102 := by omega
  rw [if_neg c1, if_neg c2, if_neg c3, hsh, if_neg c4]
  rw [or_disjoint 0x800000 (a % 8388608) 23 (by norm_num) (by omega) |>.symm.trans
    (Nat.lor_comm _ _) |>.symm]
  have hsr : (0x800000 : Nat) >>> (a / 8388608 - 102) = 2 ^ (125 - a / 8388608) := by
    have hcases : a / 8388608 = 102 ∨ a / 8388608 = 103 ∨ a / 8388608 = 104
        ∨ a / 8388608 = 105 ∨ a / 8388608 = 106 ∨ a / 8388608 = 107 ∨ a / 8388608 = 108
        ∨ a / 8388608 = 109 ∨ a / 8388608 = 110 ∨ a / 8388608 = 111
        ∨ a / 8388608 = 112 := by omega
    rcases hcases with h | h | h | h | h | h | h | h | h | h | h <;> rw [h] <;> decide
  rw [hsr, Nat.shiftRight_eq_div_pow]
  have hlt : (8388608 + a % 8388608 + 2 ^ (125 - a / 8388608)) / 2 ^ (126 - a / 8388608)
      < 2 ^ 15 := by
    have hcases : a / 8388608 = 102 ∨ a / 8388608 = 103 ∨ a / 8388608 = 104
        ∨ a / 8388608 = 105 ∨ a / 8388608 = 106 ∨ a / 8388608 = 107 ∨ a / 8388608 = 108
        ∨ a / 8388608 = 109 ∨ a / 8388608 = 110 ∨ a / 8388608 = 111
        ∨ a / 8388608 = 112 := by omega
    rcases hcases with h | h | h | h | h | h | h | h | h | h | h <;> rw [h] <;>
      norm_num <;> omega
  rw [Nat.lor_comm, or_disjoint (32768 * s) _ 15 ⟨s, by ring⟩ hlt]
  rw [Nat.add_comm 8388608 (a % 8388608)]

theorem PackUtils.packFloat16_infnan (s a : Nat) (hs : s < 2) (h1 : 0x7F7FF000 ≤ a)
    (h2 : a < 0x7FFFF000) :
    PackUtils.packFloat16 (2147483648 * s + a)
      = some (32768 * s + 0x7c00 + a % 8388608 / 8192) := by
  obtain ⟨e1, e2, e3⟩ := PackUtils.packFloat16_sign s a hs (by omega)
  simp only [PackUtils.packFloat16, e1, e2, e3,
    PackUtils.int32OfBits_small (a + 0x1000) (by omega)]
  have c1 : ((a + 0x1000 : Nat) : Int) ≥ 0x47800000 := by omega
  have c2 : a ≥ 0x47800000 := by omega
  have c3 : ¬ ((a + 0x1000 : Nat) : Int) < 0x7f800000 := by omega
  rw [if_pos c1, if_pos c2, if_neg c3, Nat.shiftRight_eq_div_pow]
  rw [or_disjoint (32768 * s) 0x7c00 15 ⟨s, by ring⟩ (by norm_num)]
  rw [or_disjoint (32768 * s + 0x7c00) _ 10 ⟨32 * s + 31, by ring⟩ (by omega)]

theorem PackUtils.roundTrip16_small :
    allBelow
      (fun h =>
        decide (PackUtils.packFloat16 (PackUtils.unPackFloat16 h) = some h)
          && decide (PackUtils.packFloat16 (PackUtils.unPackFloat16 (32768 + h))
              = some (32768 + h)))
      1024 = true := by
  decide!

/-- C24: for every 16-bit half pattern `h` (normal, subnormal, zero, infinity and NaN, both
signs), `packFloat16` applied to the `float` that `unPackFloat16(h)` returns gives `h`. -/
theorem C24_half_round_trip :
    ∀ h, h < 65536 → PackUtils.packFloat16 (PackUtils.unPackFloat16 h) = some h := by
  intro h hh
  have hd : h = 32768 * (h / 32768) + h % 32768 := by omega
  have hs : h / 32768 < 2 := by omega
  by_cases hsmall : h % 32768 < 1024
  · have hb := allBelow_spec _ 1024 PackUtils.roundTrip16_small (h % 32768) hsmall
    simp only [Bool.and_eq_true, decide_eq_true_eq] at hb
    have hcase : h / 32768 = 0 ∨ h / 32768 = 1 := by omega
    rcases hcase with h0 | h1
    · have : h = h % 32768 := by omega
      rw [this]; exact hb.1
    · have : h = 32768 + h % 32768 := by omega
      rw [this]; exact hb.2
  · by_cases hn : h % 32768 < 31744
    · rw [hd, PackUtils.unPackFloat16_normal _ _ hs (by omega) hn]
      have hdelta : (if h % 32768 % 1024 = 0 ∧ 2048 ≤ h % 32768 then 0x3ff else 0) ≤ 1023 := by
        split <;> omega
      generalize (if h % 32768 % 1024 = 0 ∧ 2048 ≤ h % 32768 then 0x3ff else 0) = d
        at hdelta ⊢
      rw [Nat.add_assoc, PackUtils.packFloat16_normal _ _ hs (by omega) (by omega)]
      congr 2
      omega
    · rw [hd, PackUtils.unPackFloat16_infnan _ _ hs (by omega) (by omega)]
      rw [PackUtils.packFloat16_infnan _ _ hs (by omega) (by omega)]
      congr 1
      omega

/-- Witness of C24: the half `0x3C00` (1.0) is widened to `0x3F8003FF` and packed back to
`0x3C00`; the smallest subnormal `0x0001` is widened to `0x33800000`. -/
theorem C24_half_round_trip_witness :
    PackUtils.unPackFloat16 0x3C00 = 0x3F8003FF
      ∧ PackUtils.unPackFloat16 0x0001 = 0x33800000
      ∧ PackUtils.packFloat16 (PackUtils.unPackFloat16 0x3C00) = some 0x3C00 :=
  ⟨by decide, by decide, C24_half_round_trip 0x3C00 (by decide)⟩

theorem PackUtils.normalizeLoop_returns :
    ∀ mant, 0 < mant → mant < 1024 → (PackUtils.normalizeLoop 10 mant 0x1c400).isSome = true := by
  have hall : allBelow
      (fun m => m == 0 || (PackUtils.normalizeLoop 10 m 0x1c400).isSome) 1024 = true := by
    decide!
  intro mant h0 h1
  have h := allBelow_spec _ 1024 hall mant h1
  have hne : (mant == 0) = false := by
    rw [beq_eq_false_iff_ne]; omega
  simpa [hne] using h

/-- C25 (failing input): the NaN of pattern `0x7F800001`, whose mantissa has only a low bit
set, is packed to `0x7C00`, which is +infinity: the mantissa is shifted right by 13. The NaN
of pattern `0x7FFFFFFF` is packed to `0x0000`, which is +0, and `0xFFFFFFFF` to `0x8000`:
the sum `(fbits & 0x7fffffff) + 0x1000` is `0x80000FFF`, a negative `int`, so every
comparison with a bound fails until `val < 0x33000000`. A NaN with a high mantissa bit,
`0x7FC00000`, is kept (`0x7E00`), and the infinities give `0x7C00` and `0xFC00`. -/
theorem C25_nan_packed_as_infinity_or_zero :
    PackUtils.packFloat16 0x7F800001 = some 0x7C00
      ∧ PackUtils.packFloat16 0x7F801FFF = some 0x7C00
      ∧ PackUtils.packFloat16 0x7FFFFFFF = some 0x0000
      ∧ PackUtils.packFloat16 0x7FFFF000 = some 0x0000
      ∧ PackUtils.packFloat16 0xFFFFFFFF = some 0x8000
      ∧ PackUtils.packFloat16 0x7FC00000 = some 0x7E00
      ∧ PackUtils.packFloat16 0x7F800000 = some 0x7C00
      ∧ PackUtils.packFloat16 0xFF800000 = some 0xFC00 := by
  decide

/-- C26: for every `float` that is exactly a normal half, that is with sign `s`, biased
exponent `e` in 113..142 and a mantissa whose low 13 bits are zero and whose high 10 bits
are `m`, `packFloat16` returns the half `s << 15 | (e - 112) << 10 | m`; `packFloat16(1.0)`
is `0x3C00`, `packFloat16(-2.0)` is `0xC000`, `packFloat16(65504.0)` is `0x7BFF`, and
`unPackFloat16(0x7C00)` is the pattern `0x7F800000` of +infinity. -/
theorem C26_exact_halves_packed_exactly :
    (∀ s e m, s < 2 → 113 ≤ e → e ≤ 142 → m < 1024 →
        PackUtils.packFloat16 (2 ^ 31 * s + 2 ^ 23 * e + 2 ^ 13 * m)
          = some (2 ^ 15 * s + 2 ^ 10 * (e - 112) + m)
        ∧ 2 ^ 15 * s + 2 ^ 10 * (e - 112) + m
          = ((s <<< 15) ||| ((e - 112) <<< 10)) ||| ((2 ^ 13 * m) >>> 13))
      ∧ PackUtils.packFloat16 0x3F800000 = some 0x3C00
      ∧ PackUtils.packFloat16 0xC0000000 = some 0xC000
      ∧ PackUtils.packFloat16 0x477FE000 = some 0x7BFF
      ∧ PackUtils.unPackFloat16 0x7C00 = 0x7F800000 := by
  refine ⟨?_, by decide, by decide, by decide, by decide⟩
  intro s e m hs he1 he2 hm
  constructor
  · have h := PackUtils.packFloat16_normal s (2 ^ 23 * e + 2 ^ 13 * m) hs (by omega) (by omega)
    rw [Nat.add_assoc]
    norm_num at h ⊢
    rw [h]
    simp only [Option.some.injEq]
    omega
  · rw [Nat.shiftLeft_eq, Nat.shiftLeft_eq, Nat.shiftRight_eq_div_pow]
    have h1 : 2 ^ 13 * m / 2 ^ 13 = m := by omega
    rw [h1, or_disjoint (s * 2 ^ 15) _ 15 ⟨s, by ring⟩ (by omega)]
    rw [or_disjoint (s * 2 ^ 15 + (e - 112) * 2 ^ 10) m 10
      ⟨s * 32 + (e - 112), by ring⟩ (by omega)]
    ring

/-- Witness of C26: the pattern `0x40490000` (3.140625: sign 0, exponent 128, mantissa
`0x490000`) is packed to `0x4248`. -/
theorem C26_exact_halves_packed_exactly_witness :
    PackUtils.packFloat16 0x40490000 = some 0x4248
      ∧ PackUtils.packFloat16 (2 ^ 31 * 0 + 2 ^ 23 * 128 + 2 ^ 13 * 0x248)
          = some (2 ^ 15 * 0 + 2 ^ 10 * (128 - 112) + 0x248) :=
  ⟨by decide,
    ((C26_exact_halves_packed_exactly).1 0 128 0x248 (by decide) (by decide) (by decide)
      (by decide)).1⟩

/-! ### The accuracy of the conversion -/

theorem f32Scaled_sign (s a : Nat) :
    f32Scaled (2147483648 * s + a) = f32Scaled a := by
  have h1 : (2147483648 * s + a) / 2 ^ 23 % 256 = a / 2 ^ 23 % 256 := by omega
  have h2 : (2147483648 * s + a) % 2 ^ 23 = a % 2 ^ 23 := by omega
  simp only [f32Scaled, h1, h2]

theorem f32Scaled_normal (e m : Nat) (he1 : 1 ≤ e) (he2 : e < 256) (hm : m < 8388608) :
    f32Scaled (8388608 * e + m) = (8388608 + m) * 2 ^ (e - 1) := by
  have h1 : (8388608 * e + m) / 2 ^ 23 % 256 = e := by omega
  have h2 : (8388608 * e + m) % 2 ^ 23 = m := by omega
  have h3 : e ≠ 0 := by omega
  simp only [f32Scaled, h1, h2, h3, if_false]
  norm_num

theorem PackUtils.unPackFloat16_small :
    allBelow
      (fun n =>
        decide (PackUtils.unPackFloat16 n < 2147483648)
          && decide (f32Scaled (PackUtils.unPackFloat16 n) = n * 2 ^ 125)
          && decide (PackUtils.unPackFloat16 (32768 + n)
              = 2147483648 + PackUtils.unPackFloat16 n))
      1024 = true := by
  decide!

theorem f32Scaled_lt (a k : Nat) (hk : 1 ≤ k) (h : a / 2 ^ 23 % 256 ≤ k) :
    f32Scaled a < 2 ^ (k + 23) := by
  unfold f32Scaled
  have hm : a % 2 ^ 23 < 2 ^ 23 := Nat.mod_lt _ (by norm_num)
  split
  · calc a % 2 ^ 23 < 2 ^ 23 := hm
      _ ≤ 2 ^ (k + 23) := Nat.pow_le_pow_right (by norm_num) (by omega)
  · have h1 : 2 ^ (a / 2 ^ 23 % 256 - 1) ≤ 2 ^ (k - 1) :=
      Nat.pow_le_pow_right (by norm_num) (by omega)
    have h2 : 2 ^ 23 + a % 2 ^ 23 < 2 ^ 24 := by omega
    calc (2 ^ 23 + a % 2 ^ 23) * 2 ^ (a / 2 ^ 23 % 256 - 1)
        ≤ (2 ^ 23 + a % 2 ^ 23) * 2 ^ (k - 1) := Nat.mul_le_mul_left _ h1
      _ < 2 ^ 24 * 2 ^ (k - 1) := Nat.mul_lt_mul_of_pos_right h2 (by positivity)
      _ = 2 ^ (k + 23) := by
        rw [← pow_add]
        congr 1
        omega

theorem f32Scaled_close_normal (a d : Nat) (h1 : 0x387FF000 ≤ a) (h2 : a < 0x477FF000)
    (hd : d ≤ 1023) :
    1024 * (f32Scaled (((a - 0x37FFF000) / 8192 + 0x1c000) * 8192 + d) - f32Scaled a)
        ≤ f32Scaled a
      ∧ 1024 * (f32Scaled a - f32Scaled (((a - 0x37FFF000) / 8192 + 0x1c000) * 8192 + d))
        ≤ f32Scaled a := by
  generalize hb : ((a - 0x37FFF000) / 8192 + 0x1c000) * 8192 + d = b
  have he1 : 1 ≤ a / 8388608 := by omega
  have he2 : a / 8388608 < 255 := by omega
  have ha : a = 8388608 * (a / 8388608) + a % 8388608 := by omega
  have hsa := f32Scaled_normal (a / 8388608) (a % 8388608) he1 (by omega) (by omega)
  rw [← ha] at hsa
  rw [hsa]
  generalize hK : 2 ^ (a / 8388608 - 1) = K
  by_cases hcase : b < 8388608 * (a / 8388608 + 1)
  · have hbe : b = 8388608 * (a / 8388608) + b % 8388608 := by omega
    have hsb := f32Scaled_normal (a / 8388608) (b % 8388608) he1 (by omega) (by omega)
    rw [← hbe, hK] at hsb
    rw [hsb, ← Nat.sub_mul, ← Nat.sub_mul, ← Nat.mul_assoc, ← Nat.mul_assoc]
    constructor
    · apply Nat.mul_le_mul_right; omega
    · apply Nat.mul_le_mul_right; omega
  · have hbe : b = 8388608 * (a / 8388608 + 1) + b % 8388608 := by omega
    have hsb := f32Scaled_normal (a / 8388608 + 1) (b % 8388608) (by omega) (by omega)
      (by omega)
    have hK2 : 2 ^ (a / 8388608 + 1 - 1) = 2 * K := by
      rw [← hK, ← pow_succ']
      congr 1
      omega
    rw [← hbe, hK2] at hsb
    have hsb2 : f32Scaled b = (2 * (8388608 + b % 8388608)) * K := by rw [hsb]; ring
    rw [hsb2, ← Nat.sub_mul, ← Nat.sub_mul, ← Nat.mul_assoc, ← Nat.mul_assoc]
    constructor
    · apply Nat.mul_le_mul_right; omega
    · apply Nat.mul_le_mul_right; omega


/-! ### The setpoint packets of the commander -/

theorem Commander.setpointBuffer_bytes (t a b c d : Nat) :
    (Packet.ofBuffer (Commander.setpointBuffer t a b c d) 18).bytes
      = (t % 256) :: (le32 a ++ le32 b ++ le32 c ++ le32 d) := by
  have hb : ∀ v k, PackUtils.byteOf v k % 256 = PackUtils.byteOf v k := by
    intro v k; unfold PackUtils.byteOf; omega
  simp [Packet.bytes, Packet.ofBuffer, Packet.payloadSize, Commander.setpointBuffer,
    List.range_succ, PackUtils.peek, PackUtils.pack_float, PackUtils.pack_uint8,
    PackUtils.poke, le32, hb]

theorem Commander.sent_after (cmd : Commander) (pc : PortConnect) (t a b c d : Nat)
    (hpc : cmd.connection = some pc) (hc : pc.cfConnection = true) (pk : Packet)
    (hpk : pk = ((Packet.ofBuffer (Commander.setpointBuffer t a b c d) 18).setPort 7).setChannel 0
      ∨ pk = ((Packet.ofBuffer (Commander.setpointBuffer t a b c d) 18).setChannel 0).setPort 7) :
    Commander.sent { cmd with connection := some (pc.send_packet pk) }
      = cmd.sent ++ [(7, 0, (t % 256) :: (le32 a ++ le32 b ++ le32 c ++ le32 d))] := by
  have hbytes := Commander.setpointBuffer_bytes t a b c d
  have hsz : pk.size > 0 := by
    rcases hpk with h | h <;> rw [h] <;> simp [Packet.setPort, Packet.setChannel, Packet.ofBuffer]
  have hport : pk.port = 7 := by
    rcases hpk with h | h <;> rw [h] <;> simp [Packet.setPort, Packet.setChannel]
  have hchan : pk.channel = 0 := by
    rcases hpk with h | h <;> rw [h] <;> simp [Packet.setPort, Packet.setChannel]
  have hb : pk.bytes = (t % 256) :: (le32 a ++ le32 b ++ le32 c ++ le32 d) := by
    rw [← hbytes]
    rcases hpk with h | h <;> rw [h] <;>
      simp [Packet.bytes, Packet.payloadSize, Packet.setPort, Packet.setChannel, Packet.ofBuffer]
  simp [Commander.sent, hpc, PortConnect.send_packet, hc, hsz, hport, hchan, hb]

/-- C30: for all `float` arguments (as 32-bit patterns) and a commander whose connection and
link are non-null, each of `send_velocity_world_setpoint`, `send_zdistance_setpoint`,
`send_hover_setpoint` and `send_position_setpoint` adds exactly one packet to the link, of
port 7 and channel 0, with the 17-byte payload `[type] ++ le32(a) ++ le32(b) ++ le32(c) ++
le32(d)` in parameter order, with type 1, 2, 5 and 7; with a null connection, or a null
link, none of them sends a packet. -/
theorem C30_setpoint_packets (cmd : Commander) (a b c d : Nat) :
    (∀ pc, cmd.connection = some pc → pc.cfConnection = true →
      (cmd.send_velocity_world_setpoint a b c d).sent
          = cmd.sent ++ [(7, 0, 1 :: (le32 a ++ le32 b ++ le32 c ++ le32 d))]
        ∧ (cmd.send_zdistance_setpoint a b c d).sent
          = cmd.sent ++ [(7, 0, 2 :: (le32 a ++ le32 b ++ le32 c ++ le32 d))]
        ∧ (cmd.send_hover_setpoint a b c d).sent
          = cmd.sent ++ [(7, 0, 5 :: (le32 a ++ le32 b ++ le32 c ++ le32 d))]
        ∧ (cmd.send_position_setpoint a b c d).sent
          = cmd.sent ++ [(7, 0, 7 :: (le32 a ++ le32 b ++ le32 c ++ le32 d))])
      ∧ ((cmd.connection = none ∨ ∃ pc, cmd.connection = some pc ∧ pc.cfConnection = false) →
        (cmd.send_velocity_world_setpoint a b c d).sent = cmd.sent
          ∧ (cmd.send_zdistance_setpoint a b c d).sent = cmd.sent
          ∧ (cmd.send_hover_setpoint a b c d).sent = cmd.sent
          ∧ (cmd.send_position_setpoint a b c d).sent = cmd.sent) := by
  constructor
  · intro pc hpc hc
    refine ⟨?_, ?_, ?_, ?_⟩
    · simp only [Commander.send_velocity_world_setpoint, hpc]
      exact Commander.sent_after cmd pc 1 a b c d hpc hc _ (Or.inl rfl)
    · simp only [Commander.send_zdistance_setpoint, hpc]
      exact Commander.sent_after cmd pc 2 a b c d hpc hc _ (Or.inl rfl)
    · simp only [Commander.send_hover_setpoint, hpc]
      exact Commander.sent_after cmd pc 5 a b c d hpc hc _ (Or.inl rfl)
    · simp only [Commander.send_position_setpoint, hpc]
      exact Commander.sent_after cmd pc 7 a b c d hpc hc _ (Or.inr rfl)
  · rintro (hn | ⟨pc, hpc, hc⟩)
    · simp [Commander.send_velocity_world_setpoint, Commander.send_zdistance_setpoint,
        Commander.send_hover_setpoint, Commander.send_position_setpoint, hn]
    · simp [Commander.send_velocity_world_setpoint, Commander.send_zdistance_setpoint,
        Commander.send_hover_setpoint, Commander.send_position_setpoint, Commander.sent, hpc,
        PortConnect.send_packet, hc]

/-- C30, witness: on the open sample link, `send_position_setpoint(1.0, 2.0, 0.5, 0.0)` sends
the one packet of port 7 and channel 0 with the payload `07 | 1.0 | 2.0 | 0.5 | 0.0`. -/
theorem C30_setpoint_packets_witness :
    Sample.commander.connection = some Sample.link ∧ Sample.link.cfConnection = true
      ∧ (Sample.commander.send_position_setpoint 0x3F800000 0x40000000 0x3F000000 0).sent
        = [(7, 0, [7, 0, 0, 0x80, 0x3F, 0, 0, 0, 0x40, 0, 0, 0, 0x3F, 0, 0, 0, 0])] :=
  ⟨rfl, rfl,
    ((C30_setpoint_packets Sample.commander 0x3F800000 0x40000000 0x3F000000 0).1
      Sample.link rfl rfl).2.2.2.trans (by decide)⟩

theorem f32Scaled_close_subnormal (a n b : Nat) (h1 : 0x33000000 ≤ a) (h2 : a < 0x387FF000)
    (hn : n = (a % 8388608 + 8388608 + 2 ^ (125 - a / 8388608)) / 2 ^ (126 - a / 8388608))
    (hb : f32Scaled b = n * 2 ^ 125) :
    n ≤ 1024 ∧ 1024 * (f32Scaled b - f32Scaled a) ≤ 2 ^ 135
      ∧ 1024 * (f32Scaled a - f32Scaled b) ≤ 2 ^ 135 := by
  have he1 : 102 ≤ a / 8388608 := by omega
  have he2 : a / 8388608 ≤ 112 := by omega
  have hm : a % 8388608 < 8388608 := by omega
  have hm2 : a / 8388608 = 112 → a % 8388608 < 0x7FF000 := by omega
  have ha : a = 8388608 * (a / 8388608) + a % 8388608 := by omega
  have hsa := f32Scaled_normal (a / 8388608) (a % 8388608) (by omega) (by omega) hm
  rw [← ha] at hsa
  rw [hsa, hb]
  generalize a / 8388608 = e at *
  generalize a % 8388608 = m at *
  clear ha hsa hb h1 h2
  interval_cases e <;> norm_num at hn hm2 ⊢ <;> omega

theorem PackUtils.subnormal_half_le (a : Nat) (h1 : 0x33000000 ≤ a) (h2 : a < 0x387FF000) :
    (a % 8388608 + 8388608 + 2 ^ (125 - a / 8388608)) / 2 ^ (126 - a / 8388608) ≤ 1024 := by
  have he1 : 102 ≤ a / 8388608 := by omega
  have he2 : a / 8388608 ≤ 112 := by omega
  have hm : a % 8388608 < 8388608 := by omega
  have hm2 : a / 8388608 = 112 → a % 8388608 < 0x7FF000 := by omega
  generalize a / 8388608 = e at *
  generalize a % 8388608 = m at *
  clear h1 h2
  interval_cases e <;> norm_num at hm2 ⊢ <;> omega

theorem PackUtils.half_accuracy_core (s a : Nat) (hs : s < 2) (ha : a ≤ 0x43340000)
    (hx : a < 0x32FFF000 ∨ 0x33000000 ≤ a) :
    ∃ h b, PackUtils.packFloat16 (2147483648 * s + a) = some (32768 * s + h) ∧ h < 32768
      ∧ PackUtils.unPackFloat16 (32768 * s + h) = 2147483648 * s + b ∧ b < 2147483648
      ∧ 1024 * (f32Scaled b - f32Scaled a) ≤ max (f32Scaled a) (2 ^ 135)
      ∧ 1024 * (f32Scaled a - f32Scaled b) ≤ max (f32Scaled a) (2 ^ 135) := by
  have hsmall := allBelow_spec _ 1024 PackUtils.unPackFloat16_small
  simp only [Bool.and_eq_true, decide_eq_true_eq] at hsmall
  have hun : ∀ n, n < 1024 →
      PackUtils.unPackFloat16 (32768 * s + n) = 2147483648 * s + PackUtils.unPackFloat16 n := by
    intro n hn
    have hs2 : s = 0 ∨ s = 1 := by omega
    rcases hs2 with h | h
    · subst h; simp
    · subst h; exact (hsmall n hn).2
  by_cases c1 : a < 0x32FFF000
  · refine ⟨0, 0, PackUtils.packFloat16_tiny s a hs c1, by norm_num, ?_, by norm_num, ?_, ?_⟩
    · have := hun 0 (by norm_num)
      rw [this]
      rfl
    · have h0 : f32Scaled 0 = 0 := by decide
      rw [h0]
      simp
    · have h0 : f32Scaled 0 = 0 := by decide
      have hlt := f32Scaled_lt a 101 (by norm_num) (by omega)
      rw [h0]
      have : 1024 * (f32Scaled a - 0) ≤ 2 ^ 135 := by
        norm_num at hlt ⊢
        omega
      exact le_trans this (le_max_right _ _)
  · have c1b : 0x33000000 ≤ a := by omega
    by_cases c2 : a < 0x387FF000
    · generalize hn : (a % 8388608 + 8388608 + 2 ^ (125 - a / 8388608))
          / 2 ^ (126 - a / 8388608) = n
      have hp := PackUtils.packFloat16_subnormal s a hs c1b c2
      rw [hn] at hp
      by_cases hn2 : n < 1024
      · have hb := (hsmall n hn2).1.2
        obtain ⟨hn3, hc1, hc2⟩ := f32Scaled_close_subnormal a n (PackUtils.unPackFloat16 n)
          c1b c2 hn.symm hb
        exact ⟨n, PackUtils.unPackFloat16 n, hp, by omega, hun n hn2, (hsmall n hn2).1.1,
          le_trans hc1 (le_max_right _ _), le_trans hc2 (le_max_right _ _)⟩
      · have hb0 : f32Scaled 0x38800000 = 1024 * 2 ^ 125 := by decide
        have hn4 : n = 1024 := by
          have := PackUtils.subnormal_half_le a c1b c2
          omega
        subst hn4
        obtain ⟨hn3, hc1, hc2⟩ := f32Scaled_close_subnormal a 1024 0x38800000 c1b c2
          hn.symm hb0
        refine ⟨1024, 0x38800000, hp, by norm_num, ?_, by norm_num,
          le_trans hc1 (le_max_right _ _), le_trans hc2 (le_max_right _ _)⟩
        rw [PackUtils.unPackFloat16_normal s 1024 hs (by norm_num) (by norm_num)]
        norm_num
    · have c2b : 0x387FF000 ≤ a := by omega
      have hp := PackUtils.packFloat16_normal s a hs c2b (by omega)
      have hr1 : 1024 ≤ (a - 0x37FFF000) / 8192 := by omega
      have hr2 : (a - 0x37FFF000) / 8192 < 31744 := by omega
      have hu := PackUtils.unPackFloat16_normal s ((a - 0x37FFF000) / 8192) hs hr1 hr2
      generalize hd : (if (a - 0x37FFF000) / 8192 % 1024 = 0 ∧ 2048 ≤ (a - 0x37FFF000) / 8192
        then 0x3ff else 0) = d at hu
      have hd2 : d ≤ 1023 := by
        rw [← hd]
        split <;> norm_num
      obtain ⟨hc1, hc2⟩ := f32Scaled_close_normal a d c2b (by omega) hd2
      refine ⟨(a - 0x37FFF000) / 8192, ((a - 0x37FFF000) / 8192 + 0x1c000) * 8192 + d, hp,
        by omega, ?_, by omega, le_trans hc1 (le_max_left _ _), le_trans hc2 (le_max_left _ _)⟩
      rw [hu]
      omega

theorem f32Value_split (s a : Nat) (hs : s < 2) (ha : a < 2147483648) :
    f32Value (2147483648 * s + a)
      = (if s = 1 then -1 else 1) * ((f32Scaled a : ℚ) / 2 ^ 149) := by
  have h1 : (2147483648 * s + a) / 2 ^ 31 % 2 = s := by omega
  simp only [f32Value, h1, f32Scaled_sign]

theorem f32Value_abs (x : Nat) : |f32Value x| = (f32Scaled x : ℚ) / 2 ^ 149 := by
  unfold f32Value
  have hpos : (0 : ℚ) ≤ (f32Scaled x : ℚ) / 2 ^ 149 := by positivity
  split
  · rw [neg_one_mul, abs_neg, abs_of_nonneg hpos]
  · rw [one_mul, abs_of_nonneg hpos]

theorem f32Value_close (s a b : Nat) (hs : s < 2) (ha : a < 2147483648) (hb : b < 2147483648)
    (h1 : 1024 * (f32Scaled b - f32Scaled a) ≤ max (f32Scaled a) (2 ^ 135))
    (h2 : 1024 * (f32Scaled a - f32Scaled b) ≤ max (f32Scaled a) (2 ^ 135)) :
    |f32Value (2147483648 * s + b) - f32Value (2147483648 * s + a)|
      ≤ max (|f32Value (2147483648 * s + a)| / 2 ^ 10) (1 / 2 ^ 24) := by
  rw [f32Value_abs, f32Scaled_sign, f32Value_split s a hs ha, f32Value_split s b hs hb]
  generalize hM : max (f32Scaled a) (2 ^ 135) = M at h1 h2
  generalize f32Scaled a = A at *
  generalize f32Scaled b = B at *
  have k1 : 1024 * B ≤ 1024 * A + M := by omega
  have k2 : 1024 * A ≤ 1024 * B + M := by omega
  have q1 : (1024 : ℚ) * B ≤ 1024 * A + M := by exact_mod_cast k1
  have q2 : (1024 : ℚ) * A ≤ 1024 * B + M := by exact_mod_cast k2
  have hMq : (M : ℚ) / 2 ^ 159 ≤ max ((A : ℚ) / 2 ^ 149 / 2 ^ 10) (1 / 2 ^ 24) := by
    rcases le_total A (2 ^ 135) with h | h
    · have : M = 2 ^ 135 := by rw [← hM]; exact max_eq_right h
      rw [this]
      apply le_trans _ (le_max_right _ _)
      norm_num
    · have : M = A := by rw [← hM]; exact max_eq_left h
      rw [this]
      apply le_trans _ (le_max_left _ _)
      rw [div_div]
      norm_num
  refine le_trans ?_ hMq
  have hs2 : s = 0 ∨ s = 1 := by omega
  have hdiff : |(if s = 1 then (-1 : ℚ) else 1) * ((B : ℚ) / 2 ^ 149)
      - (if s = 1 then (-1 : ℚ) else 1) * ((A : ℚ) / 2 ^ 149)|
      = |(B : ℚ) - A| / 2 ^ 149 := by
    rcases hs2 with h | h
    · subst h
      simp only [zero_ne_one, if_false, one_mul]
      rw [← sub_div, abs_div]
      norm_num
    · subst h
      simp only [if_true, neg_one_mul]
      rw [neg_sub_neg, ← sub_div, abs_div, abs_sub_comm]
      norm_num
  rw [hdiff]
  have habs : |(B : ℚ) - A| ≤ M / 1024 := by
    rw [abs_le]
    constructor
    · linarith
    · linarith
  calc |(B : ℚ) - A| / 2 ^ 149 ≤ (M / 1024) / 2 ^ 149 := by
        apply div_le_div_of_nonneg_right habs (by positivity)
    _ = (M : ℚ) / 2 ^ 159 := by
        rw [div_div]
        norm_num

theorem f32Scaled_le_180 (a : Nat) (ha : a < 2147483648)
    (h : (f32Scaled a : ℚ) / 2 ^ 149 ≤ 180) : a ≤ 0x43340000 := by
  by_contra hc
  have hq : (f32Scaled a : ℚ) ≤ ((180 * 2 ^ 149 : Nat) : ℚ) := by
    rw [div_le_iff₀ (by positivity)] at h
    push_cast
    linarith
  have hn : f32Scaled a ≤ 180 * 2 ^ 149 := by exact_mod_cast hq
  have hdecomp : a = 8388608 * (a / 8388608) + a % 8388608 := by omega
  have hs := f32Scaled_normal (a / 8388608) (a % 8388608) (by omega) (by omega) (by omega)
  rw [← hdecomp] at hs
  rw [hs] at hn
  by_cases he : a / 8388608 = 134
  · rw [he] at hn
    norm_num at hn
    omega
  · have hp : 2 ^ 134 ≤ 2 ^ (a / 8388608 - 1) :=
      Nat.pow_le_pow_right (by norm_num) (by omega)
    have h3 : 8388608 * 2 ^ 134 ≤ (8388608 + a % 8388608) * 2 ^ (a / 8388608 - 1) :=
      Nat.mul_le_mul (by omega) hp
    norm_num at h3 hn
    omega

/-- C27: for a finite `float` pattern `x` with `|x| ≤ 180` whose magnitude pattern lies
outside `0x32FFF000 .. 0x32FFFFFF`, `packFloat16` returns a 16-bit pattern `h`, the value of
`unPackFloat16 h` differs from the value of `x` by at most `max (|x| * 2^-10) (2^-24)`, both
read as exact rationals, and it has the sign bit of `x`. For the finite patterns
`0x32FFF000 .. 0x32FFFFFF` of either sign, of magnitude just below `2^-25`, the rounded value
passes the test `val < 0x33000000` although the exponent is 101, and `packFloat16` shifts by
`101 - 102`, a negative count: it returns no defined result. -/
theorem C27_half_accuracy_outside_undefined_shift :
    (f32Finite 0x32FFF000 = true ∧ |f32Value 0x32FFF000| ≤ 180
        ∧ PackUtils.packFloat16 0x32FFF000 = none)
      ∧ (∀ x, x < 2 ^ 32 → 0x32FFF000 ≤ x % 2 ^ 31 → x % 2 ^ 31 < 0x33000000 →
        PackUtils.packFloat16 x = none)
      ∧ ∀ x, x < 2 ^ 32 → f32Finite x = true → |f32Value x| ≤ 180 →
        (x % 2 ^ 31 < 0x32FFF000 ∨ 0x33000000 ≤ x % 2 ^ 31) →
        ∃ h, PackUtils.packFloat16 x = some h ∧ h < 65536
          ∧ |f32Value (PackUtils.unPackFloat16 h) - f32Value x|
            ≤ max (|f32Value x| / 2 ^ 10) (1 / 2 ^ 24)
          ∧ PackUtils.unPackFloat16 h / 2 ^ 31 = x / 2 ^ 31 := by
  refine ⟨⟨by decide, ?_, by decide⟩, ?_, ?_⟩
  · rw [f32Value_abs]
    norm_num [f32Scaled]
  · intro x hx h1 h2
    have hdec : x = 2147483648 * (x / 2 ^ 31) + x % 2 ^ 31 := by omega
    rw [hdec]
    exact PackUtils.packFloat16_undefined (x / 2 ^ 31) (x % 2 ^ 31) (by omega) h1 h2
  · intro x hx _ h180 hout
    have hdec : x = 2147483648 * (x / 2 ^ 31) + x % 2 ^ 31 := by omega
    have hs : x / 2 ^ 31 < 2 := by omega
    have ha : x % 2 ^ 31 < 2147483648 := by omega
    generalize x / 2 ^ 31 = s at *
    generalize x % 2 ^ 31 = a at *
    subst hdec
    rw [f32Value_abs, f32Scaled_sign] at h180
    have ha2 := f32Scaled_le_180 a ha h180
    obtain ⟨h, b, hp, hh, hu, hb, hc1, hc2⟩ := PackUtils.half_accuracy_core s a hs ha2 hout
    refine ⟨32768 * s + h, hp, by omega, ?_, ?_⟩
    · rw [hu]
      exact f32Value_close s a b hs ha hb hc1 hc2
    · rw [hu]
      omega

/-- C27, witness: the pattern `0x3DCCCCCD` of `0.1f` is packed as `0x2E66`, whose value
differs from it by less than `0.1 * 2^-10`. -/
theorem C27_half_accuracy_outside_undefined_shift_witness :
    ∃ h, PackUtils.packFloat16 0x3DCCCCCD = some h ∧ h < 65536
      ∧ |f32Value (PackUtils.unPackFloat16 h) - f32Value 0x3DCCCCCD|
        ≤ max (|f32Value 0x3DCCCCCD| / 2 ^ 10) (1 / 2 ^ 24)
      ∧ PackUtils.unPackFloat16 h / 2 ^ 31 = 0x3DCCCCCD / 2 ^ 31 :=
  C27_half_accuracy_outside_undefined_shift.2.2 0x3DCCCCCD (by norm_num) (by decide)
    (by rw [f32Value_abs]; norm_num [f32Scaled]) (Or.inr (by norm_num))

/-! ### The download of the table of contents -/

theorem List.set_same_at_index {α : Type} (l : List α) (k : Nat) (a : α) (h : l.get? k = some a) :
    l.set k a = l := by
  induction l generalizing k with
  | nil => rfl
  | cons x xs ih =>
    cases k with
    | zero =>
      simp only [List.get?, Option.some.injEq] at h
      simp [h]
    | succ k =>
      simp only [List.get?] at h
      simp [ih k h]

theorem List.get_set_at_index {α : Type} (l : List α) (k : Nat) (a b : α)
    (h : l.get? k = some a) : (l.set k b).get? k = some b := by
  induction l generalizing k with
  | nil => simp at h
  | cons x xs ih =>
    cases k with
    | zero => simp
    | succ k =>
      simp only [List.get?] at h
      simpa using ih k h

theorem TocFetcher.unpack_ident (pk : Packet) :
    (PackUtils.unpack_uint16 (fun i => pk.payload (i + 1)) 0).1
      = TocFetcher.replyIdent true pk := by
  simp [PackUtils.unpack_uint16, TocFetcher.replyIdent, PackUtils.peek]

theorem TocFetcher.onTocElement_other (f : TocFetcher) (s : cfLog) (pk : Packet)
    (h : TocFetcher.replyIdent f._useV2 pk ≠ f.requested_index) :
    f.onTocElement s pk = .ok (f, s) := by
  unfold TocFetcher.onTocElement
  cases hv : f._useV2
  · rw [hv] at h
    simp only [TocFetcher.replyIdent, Bool.false_eq_true, if_false] at h
    simp [PackUtils.peek] at h ⊢
    intro h2
    exact absurd h2 h
  · rw [hv] at h
    rw [← TocFetcher.unpack_ident] at h
    simp [h]

theorem TocFetcher.onTocElement_next (f : TocFetcher) (s : cfLog) (pk : Packet)
    (pc : PortConnect) (hid : TocFetcher.replyIdent f._useV2 pk = f.requested_index)
    (hpc : s.portConnect = some pc) (hn : f.requested_index + 1 < f.nbr_of_items)
    (hn2 : f.nbr_of_items < 65536) :
    f.onTocElement s pk
      = .ok (({ f with requested_index := f.requested_index + 1 }.request_toc_element pc
            (f.requested_index + 1)).1,
          { s with
            toc := s.toc.add_element (TocFetcher.replyElement f._useV2 pk)
            portConnect := some
              ({ f with requested_index := f.requested_index + 1 }.request_toc_element pc
                (f.requested_index + 1)).2 }) := by
  have h1 : ¬ ((f.requested_index : Int) = (f.nbr_of_items : Int) - 1) := by omega
  have h2 : f.requested_index < (f.nbr_of_items + 4294967295) % 4294967296 := by omega
  have h3 : (f.requested_index + 1) % 4294967296 = f.requested_index + 1 := by omega
  unfold TocFetcher.onTocElement
  cases hv : f._useV2
  · rw [hv] at hid
    simp only [TocFetcher.replyIdent, Bool.false_eq_true, if_false] at hid
    have hid2 : PackUtils.peek (fun i => pk.payload (i + 1)) 0 = f.requested_index := by
      rw [← hid]; simp [PackUtils.peek]
    simp only [Bool.false_eq_true, if_false, hid2, beq_self_eq_true, if_true, beq_iff_eq, h1,
      h2, h3, hpc, TocFetcher.replyElement, TocFetcher.replyIdent, hid]
  · rw [hv] at hid
    have hid2 := (TocFetcher.unpack_ident pk).trans hid
    simp only [if_true, hid2, beq_self_eq_true, beq_iff_eq, h1, if_false,
      h2, h3, hpc, TocFetcher.replyElement, hid]

theorem TocFetcher.onTocElement_last (f : TocFetcher) (s : cfLog) (pk : Packet)
    (pc : PortConnect) (hid : TocFetcher.replyIdent f._useV2 pk = f.requested_index)
    (hpc : s.portConnect = some pc) (hn : f.requested_index + 1 = f.nbr_of_items) :
    f.onTocElement s pk
      = .ok (f,
          { s with
            toc := s.toc.add_element (TocFetcher.replyElement f._useV2 pk)
            tocCache := ((s.toc.add_element (TocFetcher.replyElement f._useV2 pk)).write
              s.tocCache f._crc).2
            resetComplete := true
            portConnect := some pc.logResetComplete }) := by
  have h1 : (f.requested_index : Int) = (f.nbr_of_items : Int) - 1 := by omega
  have h2 : ¬ f.requested_index < (f.nbr_of_items + 4294967295) % 4294967296 := by omega
  unfold TocFetcher.onTocElement
  cases hv : f._useV2
  · rw [hv] at hid
    simp only [TocFetcher.replyIdent, Bool.false_eq_true, if_false] at hid
    have hid2 : PackUtils.peek (fun i => pk.payload (i + 1)) 0 = f.requested_index := by
      rw [← hid]; simp [PackUtils.peek]
    simp only [Bool.false_eq_true, if_false, hid2, beq_self_eq_true, if_true, beq_iff_eq, h1,
      h2, hpc, TocFetcher.replyElement, TocFetcher.replyIdent, hid, cfLog.withPort]
  · rw [hv] at hid
    have hid2 := (TocFetcher.unpack_ident pk).trans hid
    simp only [if_true, hid2, beq_self_eq_true, beq_iff_eq, h1, if_false,
      h2, hpc, TocFetcher.replyElement, hid, cfLog.withPort]

theorem TocFetcher.request_toc_element_fetcher (f : TocFetcher) (pc : PortConnect)
    (id : Nat) :
    (f.request_toc_element pc id).1.state = f.state
      ∧ (f.request_toc_element pc id).1._useV2 = f._useV2
      ∧ (f.request_toc_element pc id).1.port = f.port
      ∧ (f.request_toc_element pc id).1.nbr_of_items = f.nbr_of_items
      ∧ (f.request_toc_element pc id).1._crc = f._crc
      ∧ (f.request_toc_element pc id).1.requested_index = f.requested_index := by
  unfold TocFetcher.request_toc_element
  cases f._useV2 <;> simp

theorem TocFetcher.request_toc_element_link (f : TocFetcher) (pc : PortConnect)
    (id : Nat) (hc : pc.cfConnection = true) (hid : id < 65536) :
    (f.request_toc_element pc id).2.cfConnection = true
      ∧ (f.request_toc_element pc id).2.logResets = pc.logResets
      ∧ (f.request_toc_element pc id).2.wire.map (fun pk => (pk.port, pk.channel, pk.bytes))
        = pc.wire.map (fun pk => (pk.port, pk.channel, pk.bytes))
          ++ [(f.port % 16, 0, TocFetcher.requestBytes f._useV2 id)] := by
  unfold TocFetcher.request_toc_element
  have hb : ∀ v k, PackUtils.byteOf v k % 256 = PackUtils.byteOf v k := by
    intro v k; unfold PackUtils.byteOf; omega
  cases f._useV2
  · simp [PortConnect.send_packet, hc, TocFetcher.requestPacket, Packet.setPort,
      Packet.setChannel, Packet.ofBuffer, Packet.bytes, Packet.payloadSize,
      PackUtils.pack_uint8, PackUtils.poke, PackUtils.peek, TOC_CHANNEL, CMD_TOC_ELEMENT,
      TocFetcher.requestBytes, List.range_succ]
    omega
  · simp [PortConnect.send_packet, hc, TocFetcher.requestPacket, Packet.setPort,
      Packet.setChannel, Packet.ofBuffer, Packet.bytes, Packet.payloadSize,
      PackUtils.pack_uint8, PackUtils.pack_uint16, PackUtils.poke, PackUtils.peek,
      PackUtils.byteOf, TOC_CHANNEL, CMD_TOC_ITEM_V2, TocFetcher.requestBytes,
      List.range_succ]
    omega

theorem TocFetcher.new_packet_cb_element (s : cfLog) (k : Nat) (f : TocFetcher)
    (pk : Packet) (hk : s.tocfetcherCallbacks.get? k = some f) (hch : pk.channel = 0)
    (hst : f.state = TocFetcher.GET_TOC_ELEMENT) :
    TocFetcher._new_packet_cb s k pk
      = match f.onTocElement s pk with
        | .ok r => .ok { r.2 with tocfetcherCallbacks := r.2.tocfetcherCallbacks.set k r.1 }
        | .error e => .error e := by
  have hst1 : (f.state == TocFetcher.GET_TOC_INFO) = false := by
    rw [hst]; decide
  have hst2 : (f.state == TocFetcher.GET_TOC_ELEMENT) = true := by
    rw [hst]; decide
  unfold TocFetcher._new_packet_cb
  simp only [hk, hch, beq_self_eq_true, if_true, hst1, Bool.false_eq_true, if_false, hst2]

theorem TocFetcher.download_step (s : cfLog) (k : Nat) (useV2 : Bool) (port n crc j : Nat)
    (hD : TocFetcher.Downloading s k useV2 port n crc j) (hj : j < n) (pk : Packet) :
    (pk.channel ≠ 0 ∨ TocFetcher.replyIdent useV2 pk ≠ j →
        TocFetcher._new_packet_cb s k pk = .ok s)
      ∧ (pk.channel = 0 → TocFetcher.replyIdent useV2 pk = j → j + 1 < n →
        ∃ s1, TocFetcher._new_packet_cb s k pk = .ok s1
          ∧ TocFetcher.Downloading s1 k useV2 port n crc (j + 1)
          ∧ s1.sent = s.sent ++ [(port % 16, 0, TocFetcher.requestBytes useV2 (j + 1))]
          ∧ s1.toc = s.toc.add_element (TocFetcher.replyElement useV2 pk)
          ∧ s1.tocCache = s.tocCache ∧ s1.resetComplete = s.resetComplete
          ∧ s1.notified = s.notified)
      ∧ (pk.channel = 0 → TocFetcher.replyIdent useV2 pk = j → j + 1 = n →
        ∃ s1, TocFetcher._new_packet_cb s k pk = .ok s1
          ∧ TocFetcher.Downloading s1 k useV2 port n crc j
          ∧ s1.sent = s.sent
          ∧ s1.toc = s.toc.add_element (TocFetcher.replyElement useV2 pk)
          ∧ s1.tocCache = (s1.toc.write s.tocCache crc).2 ∧ s1.resetComplete = true
          ∧ s1.notified = s.notified + 1) := by
  obtain ⟨f, pc, hk, hst, hv, hport, hn, hcrc, hreq, hpc, hc, hn16⟩ := hD
  have hst1 : (f.state == TocFetcher.GET_TOC_INFO) = false := by
    rw [hst]; decide
  have hst2 : (f.state == TocFetcher.GET_TOC_ELEMENT) = true := by
    rw [hst]; decide
  subst hv hport hn hcrc hreq
  refine ⟨?_, ?_, ?_⟩
  · intro h
    unfold TocFetcher._new_packet_cb
    simp only [hk]
    by_cases hch : pk.channel = 0
    · have hne : TocFetcher.replyIdent f._useV2 pk ≠ f.requested_index := by
        rcases h with h | h
        · exact absurd hch h
        · exact h
      simp only [hch, beq_self_eq_true, if_true, hst1, Bool.false_eq_true, if_false, hst2,
        TocFetcher.onTocElement_other f s pk hne, List.set_same_at_index _ _ _ hk]
    · have : (pk.channel == 0) = false := by simpa using hch
      simp only [this, Bool.false_eq_true, if_false]
  · intro hch hid hlt
    have hstep := TocFetcher.onTocElement_next f s pk pc hid hpc hlt hn16
    have hf := TocFetcher.request_toc_element_fetcher
      { f with requested_index := f.requested_index + 1 } pc (f.requested_index + 1)
    have hl := TocFetcher.request_toc_element_link
      { f with requested_index := f.requested_index + 1 } pc (f.requested_index + 1) hc
      (by omega)
    rw [TocFetcher.new_packet_cb_element s k f pk hk hch hst, hstep]
    refine ⟨_, rfl, ?_, ?_, ?_, ?_, ?_, ?_⟩
    · exact ⟨_, _, List.get_set_at_index _ _ _ _ hk, hf.1.trans hst, hf.2.1, hf.2.2.1,
        hf.2.2.2.1, hf.2.2.2.2.1, hf.2.2.2.2.2, rfl, hl.1, hn16⟩
    · simp only [cfLog.sent, hpc]
      exact hl.2.2
    · rfl
    · rfl
    · rfl
    · simp only [cfLog.notified, hpc]
      exact hl.2.1
  · intro hch hid hlast
    have hstep := TocFetcher.onTocElement_last f s pk pc hid hpc hlast
    rw [TocFetcher.new_packet_cb_element s k f pk hk hch hst, hstep]
    refine ⟨_, rfl, ?_, ?_, ?_, ?_, ?_, ?_⟩
    · exact ⟨f, _, by simp only [List.set_same_at_index _ _ _ hk, hk], hst, rfl, rfl, rfl, rfl, rfl,
        rfl, hc, hn16⟩
    · simp [cfLog.sent, hpc, PortConnect.logResetComplete]
    · rfl
    · rfl
    · rfl
    · simp [cfLog.notified, hpc, PortConnect.logResetComplete]

theorem TocFetcher.download_run (k : Nat) (useV2 : Bool) (port n crc : Nat) :
    ∀ (pks : List Packet) (s : cfLog) (j : Nat),
      TocFetcher.Downloading s k useV2 port n crc j → j < n →
      ∃ s1 j1, TocFetcher.deliver k s pks = .ok s1 ∧ j ≤ j1 ∧ j1 < n
        ∧ TocFetcher.Downloading s1 k useV2 port n crc j1
        ∧ s1.sent = s.sent ++ (List.range (j1 - j)).map
            (fun i => (port % 16, 0, TocFetcher.requestBytes useV2 (j + 1 + i))) := by
  intro pks
  induction pks with
  | nil =>
    intro s j hD hj
    exact ⟨s, j, rfl, le_refl _, hj, hD, by simp⟩
  | cons pk pks ih =>
    intro s j hD hj
    obtain ⟨hother, hnext, hlast⟩ := TocFetcher.download_step s k useV2 port n crc j hD hj pk
    by_cases hacc : pk.channel = 0 ∧ TocFetcher.replyIdent useV2 pk = j
    · by_cases hlt : j + 1 < n
      · obtain ⟨s1, hcb, hD1, hsent, -⟩ := hnext hacc.1 hacc.2 hlt
        obtain ⟨s2, j2, hrun, hj1, hj2, hD2, hsent2⟩ := ih s1 (j + 1) hD1 hlt
        refine ⟨s2, j2, ?_, by omega, hj2, hD2, ?_⟩
        · simp only [TocFetcher.deliver, hcb, hrun]
        · rw [hsent2, hsent, List.append_assoc]
          congr 1
          have hlen : j2 - j = (j2 - (j + 1)) + 1 := by omega
          rw [hlen, List.range_succ_eq_map]
          simp only [List.map_cons, List.map_map, List.singleton_append, Nat.add_zero]
          congr 1
          apply List.map_congr_left
          intro i _
          simp only [Function.comp, Nat.succ_eq_add_one]
          congr 3
          omega
      · obtain ⟨s1, hcb, hD1, hsent, -⟩ := hlast hacc.1 hacc.2 (by omega)
        obtain ⟨s2, j2, hrun, hj1, hj2, hD2, hsent2⟩ := ih s1 j hD1 hj
        refine ⟨s2, j2, ?_, hj1, hj2, hD2, ?_⟩
        · simp only [TocFetcher.deliver, hcb, hrun]
        · rw [hsent2, hsent]
    · have hcb := hother (by
        by_cases hch : pk.channel = 0
        · exact Or.inr (fun h => hacc ⟨hch, h⟩)
        · exact Or.inl hch)
      obtain ⟨s2, j2, hrun, hj1, hj2, hD2, hsent2⟩ := ih s j hD hj
      refine ⟨s2, j2, ?_, hj1, hj2, hD2, hsent2⟩
      simp only [TocFetcher.deliver, hcb, hrun]

theorem TocFetcher.readInfo_fields (f : TocFetcher) (pk : Packet) :
    (f.readInfo pk).state = f.state ∧ (f.readInfo pk)._useV2 = f._useV2
      ∧ (f.readInfo pk).port = f.port ∧ (f.readInfo pk).nbr_of_items < 65536 := by
  unfold TocFetcher.readInfo
  cases f._useV2
  · simp only [Bool.false_eq_true, if_false, PackUtils.unpack_uint8, PackUtils.peek]
    refine ⟨trivial, trivial, trivial, ?_⟩
    omega
  · simp only [if_true, PackUtils.unpack_uint16, PackUtils.peek]
    refine ⟨trivial, trivial, trivial, ?_⟩
    omega

theorem LogTocGroup.readPropertyVector_append :
    ∀ (fuel : Nat) (input : Str) (vect r : List LogTocGroup),
      LogTocGroup.readPropertyVector fuel input vect = .ok r → ∃ l, r = vect ++ l := by
  intro fuel
  induction fuel with
  | zero =>
    intro input vect r h
    simp [LogTocGroup.readPropertyVector] at h
  | succ fuel ih =>
    intro input vect r h
    unfold LogTocGroup.readPropertyVector at h
    by_cases he : reflectIO.eof input = true
    · simp only [he, if_true, Except.ok.injEq] at h
      exact ⟨[], by simp [h]⟩
    · simp only [he, Bool.false_eq_true, if_false] at h
      cases hr : LogTocGroup.readContentTags
          ((reflectJson.readStructBody input).1.length + 1)
          (reflectJson.readStructBody input).1 LogTocGroup.default with
      | error f => simp [hr] at h
      | ok elem =>
        simp only [hr] at h
        by_cases hl : (reflectJson.readStructBody input).2.length < input.length
        · simp only [hl, if_true] at h
          obtain ⟨l, hl2⟩ := ih _ _ _ h
          exact ⟨elem :: l, by simp [hl2]⟩
        · simp [hl] at h

theorem LogToc.readContentTag_groups (input rest : Str) (toc toc1 : LogToc)
    (h : LogToc.readContentTag input toc = .ok (rest, toc1)) :
    toc1.crc = toc.crc ∧ toc1.complete = toc.complete ∧ ∃ l, toc1.groups = toc.groups ++ l := by
  unfold LogToc.readContentTag at h
  by_cases ht : (reflectJson.readTag input).1 = true
  · simp only [ht, if_true] at h
    by_cases hg : (reflectJson.readTag input).2.1 = "groups".toList
    · simp only [hg, if_true] at h
      cases hr : LogTocGroup.readPropertyVector
          ((reflectJson.readArrayBody (reflectJson.readTag input).2.2).1.length + 1)
          (reflectJson.readArrayBody (reflectJson.readTag input).2.2).1 toc.groups with
      | error f => simp [hr] at h
      | ok groups =>
        simp only [hr, Except.ok.injEq, Prod.mk.injEq] at h
        obtain ⟨l, hl⟩ := LogTocGroup.readPropertyVector_append _ _ _ _ hr
        rw [← h.2]
        exact ⟨rfl, rfl, l, hl⟩
    · simp only [hg, if_false, Except.ok.injEq, Prod.mk.injEq] at h
      rw [← h.2]
      exact ⟨rfl, rfl, [], by simp⟩
  · simp only [ht, Bool.false_eq_true, if_false, Except.ok.injEq, Prod.mk.injEq] at h
    rw [← h.2]
    exact ⟨rfl, rfl, [], by simp⟩

theorem LogToc.readContentTags_groups :
    ∀ (fuel : Nat) (input : Str) (toc toc1 : LogToc),
      LogToc.readContentTags fuel input toc = .ok toc1 →
      toc1.crc = toc.crc ∧ toc1.complete = toc.complete
        ∧ ∃ l, toc1.groups = toc.groups ++ l := by
  intro fuel
  induction fuel with
  | zero =>
    intro input toc toc1 h
    simp [LogToc.readContentTags] at h
  | succ fuel ih =>
    intro input toc toc1 h
    unfold LogToc.readContentTags at h
    by_cases he : reflectIO.eof input = true
    · simp only [he, if_true, Except.ok.injEq] at h
      rw [← h]
      exact ⟨rfl, rfl, [], by simp⟩
    · simp only [he, Bool.false_eq_true, if_false] at h
      cases hr : LogToc.readContentTag input toc with
      | error f => simp [hr] at h
      | ok r =>
        simp only [hr] at h
        by_cases hl : r.1.length < input.length
        · simp only [hl, if_true] at h
          obtain ⟨h1, h2, l, h3⟩ := ih _ _ _ h
          obtain ⟨k1, k2, m, k3⟩ := LogToc.readContentTag_groups input r.1 toc r.2 hr
          exact ⟨h1.trans k1, h2.trans k2, m ++ l, by rw [h3, k3, List.append_assoc]⟩
        · simp [hl] at h

theorem LogToc.read_false (toc toc1 : LogToc) (cache : Option (List (Nat × Str)))
    (crc : Nat) (h : toc.read cache crc = .ok (false, toc1)) : toc1 = toc := by
  unfold LogToc.read at h
  cases cache with
  | none =>
    simp only [Except.ok.injEq, Prod.mk.injEq, true_and] at h
    exact h.symm
  | some files =>
    simp only at h
    cases hl : files.lookup crc with
    | none =>
      simp only [hl, Except.ok.injEq, Prod.mk.injEq, true_and] at h
      exact h.symm
    | some text =>
      simp only [hl] at h
      cases hr : toc.readText text with
      | error f => simp [hr] at h
      | ok toc2 =>
        simp only [hr, Except.ok.injEq, Prod.mk.injEq, gt_iff_lt, decide_eq_false_iff_not,
          not_lt, Nat.le_zero, List.length_eq_zero] at h
        obtain ⟨h1, h2, l, h3⟩ := LogToc.readContentTags_groups _ _ _ _ hr
        obtain ⟨hnil, heq⟩ := h
        subst heq
        rw [hnil] at h3
        have h4 : toc.groups = [] := by
          cases hg : toc.groups with
          | nil => rfl
          | cons a b => rw [hg] at h3; simp at h3
        cases toc
        cases toc2
        simp only at h1 h2 hnil h4
        subst h1 h2 hnil h4
        rfl

theorem TocFetcher.new_packet_cb_info (s : cfLog) (k : Nat) (f : TocFetcher)
    (pk : Packet) (hk : s.tocfetcherCallbacks.get? k = some f) (hch : pk.channel = 0)
    (hst : f.state = TocFetcher.GET_TOC_INFO) :
    TocFetcher._new_packet_cb s k pk
      = match f.onTocInfo s pk with
        | .ok r => .ok { r.2 with tocfetcherCallbacks := r.2.tocfetcherCallbacks.set k r.1 }
        | .error e => .error e := by
  have hst1 : (f.state == TocFetcher.GET_TOC_INFO) = true := by
    rw [hst]; decide
  unfold TocFetcher._new_packet_cb
  simp only [hk, hch, beq_self_eq_true, if_true, hst1]

theorem TocFetcher.info_found (s : cfLog) (k : Nat) (f : TocFetcher) (pc : PortConnect)
    (pk : Packet) (hk : s.tocfetcherCallbacks.get? k = some f)
    (hst : f.state = TocFetcher.GET_TOC_INFO) (hpc : s.portConnect = some pc)
    (hch : pk.channel = 0) :
    (s.toc.crc = (f.readInfo pk)._crc →
        ∃ s1, TocFetcher._new_packet_cb s k pk = .ok s1 ∧ s1.sent = s.sent
          ∧ s1.resetComplete = true ∧ s1.notified = s.notified + 1 ∧ s1.toc = s.toc)
      ∧ (s.toc.crc ≠ (f.readInfo pk)._crc →
        LogToc.tocExists s.tocCache (f.readInfo pk)._crc = true →
        ∀ toc1, s.toc.read s.tocCache (f.readInfo pk)._crc = .ok (true, toc1) →
        ∃ s1, TocFetcher._new_packet_cb s k pk = .ok s1 ∧ s1.sent = s.sent
          ∧ s1.resetComplete = true ∧ s1.notified = s.notified + 1
          ∧ s1.toc = toc1) := by
  rw [TocFetcher.new_packet_cb_info s k f pk hk hch hst]
  constructor
  · intro hcrc
    have hl : (f.readInfo pk).lookupToc s
        = .ok (true, { s with resetComplete := true,
                              portConnect := some pc.logResetComplete }) := by
      unfold TocFetcher.lookupToc
      simp only [hcrc, beq_self_eq_true, if_true, cfLog.withPort, hpc]
    simp only [TocFetcher.onTocInfo, hl, if_true]
    refine ⟨_, rfl, ?_, rfl, ?_, rfl⟩
    · simp [cfLog.sent, hpc, PortConnect.logResetComplete]
    · simp [cfLog.notified, hpc, PortConnect.logResetComplete]
  · intro hcrc hex toc1 hread
    have hne : (s.toc.crc == (f.readInfo pk)._crc) = false := by simpa using hcrc
    have hl : (f.readInfo pk).lookupToc s
        = .ok (true, { s with toc := toc1,
                              resetComplete := true,
                              portConnect := some pc.logResetComplete }) := by
      unfold TocFetcher.lookupToc
      simp only [hne, Bool.false_eq_true, if_false, hex, if_true, hread, cfLog.withPort, hpc]
    simp only [TocFetcher.onTocInfo, hl, if_true]
    refine ⟨_, rfl, ?_, rfl, ?_, rfl⟩
    · simp [cfLog.sent, hpc, PortConnect.logResetComplete]
    · simp [cfLog.notified, hpc, PortConnect.logResetComplete]

theorem TocFetcher.info_fallback (s : cfLog) (k : Nat) (f : TocFetcher) (pc : PortConnect)
    (pk : Packet) (hk : s.tocfetcherCallbacks.get? k = some f)
    (hst : f.state = TocFetcher.GET_TOC_INFO) (hpc : s.portConnect = some pc)
    (hc : pc.cfConnection = true) (hch : pk.channel = 0)
    (hcrc : s.toc.crc ≠ (f.readInfo pk)._crc)
    (hcache : LogToc.tocExists s.tocCache (f.readInfo pk)._crc = false
      ∨ ∃ toc1, s.toc.read s.tocCache (f.readInfo pk)._crc = .ok (false, toc1))
    (hn : 1 ≤ (f.readInfo pk).nbr_of_items) :
    ∃ s1, TocFetcher._new_packet_cb s k pk = .ok s1
      ∧ TocFetcher.Downloading s1 k f._useV2 f.port (f.readInfo pk).nbr_of_items
          (f.readInfo pk)._crc 0
      ∧ s1.sent = s.sent ++ [(f.port % 16, 0, TocFetcher.requestBytes f._useV2 0)]
      ∧ s1.toc = s.toc ∧ s1.tocCache = s.tocCache ∧ s1.notified = s.notified := by
  rw [TocFetcher.new_packet_cb_info s k f pk hk hch hst]
  have hne : (s.toc.crc == (f.readInfo pk)._crc) = false := by simpa using hcrc
  obtain ⟨hf1, hf2, hf3, hf4⟩ := TocFetcher.readInfo_fields f pk
  have hl : ∃ r, (f.readInfo pk).lookupToc s = .ok (false, { s with resetComplete := r }) := by
    unfold TocFetcher.lookupToc
    by_cases hex : LogToc.tocExists s.tocCache (f.readInfo pk)._crc = true
    · have hread : ∃ toc1, s.toc.read s.tocCache (f.readInfo pk)._crc = .ok (false, toc1) := by
        rcases hcache with h | h
        · rw [h] at hex; exact absurd hex (by decide)
        · exact h
      obtain ⟨toc1, hread⟩ := hread
      have htoc := LogToc.read_false s.toc toc1 s.tocCache _ hread
      subst htoc
      refine ⟨false, ?_⟩
      simp only [hne, Bool.false_eq_true, if_false, hex, if_true, hread]
    · refine ⟨s.resetComplete, ?_⟩
      simp only [hne, Bool.false_eq_true, if_false, hex]
  obtain ⟨r, hl⟩ := hl
  have hpos : (f.readInfo pk).nbr_of_items > 0 := hn
  generalize hg : f.readInfo pk = g at *
  have hq1 := TocFetcher.request_toc_element_fetcher
    { g with state := TocFetcher.GET_TOC_ELEMENT, requested_index := 0 } pc 0
  have hq2 := TocFetcher.request_toc_element_link
    { g with state := TocFetcher.GET_TOC_ELEMENT, requested_index := 0 } pc 0 hc (by norm_num)
  simp only [TocFetcher.onTocInfo, hg, hl, Bool.false_eq_true, if_false, hpos, if_true, hpc]
  refine ⟨_, rfl, ?_, ?_, rfl, rfl, ?_⟩
  · exact ⟨_, _, List.get_set_at_index _ _ _ _ hk, hq1.1, hq1.2.1.trans hf2, hq1.2.2.1.trans hf3,
      hq1.2.2.2.1, hq1.2.2.2.2.1, hq1.2.2.2.2.2, rfl, hq2.1, hf4⟩
  · simp only [cfLog.sent, hpc]
    rw [hq2.2.2]
    simp only [hf2, hf3]
  · simp only [cfLog.notified, hpc]
    exact hq2.2.1

/-- C21: a fetcher waiting for the TOC info reply, on an engine with an open link, receives
an info reply reporting `n ≥ 1` items and a CRC that differs from the CRC of the TOC in memory
and has no cache file, or one that leaves the TOC without a group. Then the request for the
element 0 is sent and the fetcher is downloading; while it is downloading with the element
`j` outstanding, a packet of another channel or a reply with another identifier changes
nothing, an accepted reply for `j < n - 1` adds the element and sends the request for
`j + 1`, and the accepted reply for `n - 1` adds the element, writes the text of the TOC to
the cache file of the CRC, sets `resetComplete` and notifies the owner without sending a request; and
whatever packets are delivered afterwards, the requests sent are those for `0, 1, ..., j1`
in this order, each once, for some `j1 < n`. -/
theorem C21_elements_requested_in_order (s : cfLog) (k : Nat) (f : TocFetcher)
    (pc : PortConnect) (info : Packet) (hk : s.tocfetcherCallbacks.get? k = some f)
    (hst : f.state = TocFetcher.GET_TOC_INFO) (hpc : s.portConnect = some pc)
    (hc : pc.cfConnection = true) (hch : info.channel = 0)
    (hcrc : s.toc.crc ≠ (f.readInfo info)._crc)
    (hcache : LogToc.tocExists s.tocCache (f.readInfo info)._crc = false
      ∨ ∃ toc1, s.toc.read s.tocCache (f.readInfo info)._crc = .ok (false, toc1))
    (hn : 1 ≤ (f.readInfo info).nbr_of_items) :
    ∃ s0, TocFetcher._new_packet_cb s k info = .ok s0
      ∧ s0.sent = s.sent ++ [(f.port % 16, 0, TocFetcher.requestBytes f._useV2 0)]
      ∧ s0.toc = s.toc ∧ s0.tocCache = s.tocCache ∧ s0.notified = s.notified
      ∧ TocFetcher.Downloading s0 k f._useV2 f.port (f.readInfo info).nbr_of_items
          (f.readInfo info)._crc 0
      ∧ (∀ s1 j, TocFetcher.Downloading s1 k f._useV2 f.port (f.readInfo info).nbr_of_items
            (f.readInfo info)._crc j → j < (f.readInfo info).nbr_of_items → ∀ pk,
          (pk.channel ≠ 0 ∨ TocFetcher.replyIdent f._useV2 pk ≠ j →
              TocFetcher._new_packet_cb s1 k pk = .ok s1)
            ∧ (pk.channel = 0 → TocFetcher.replyIdent f._useV2 pk = j →
              j + 1 < (f.readInfo info).nbr_of_items →
              ∃ s2, TocFetcher._new_packet_cb s1 k pk = .ok s2
                ∧ TocFetcher.Downloading s2 k f._useV2 f.port (f.readInfo info).nbr_of_items
                    (f.readInfo info)._crc (j + 1)
                ∧ s2.sent = s1.sent
                    ++ [(f.port % 16, 0, TocFetcher.requestBytes f._useV2 (j + 1))]
                ∧ s2.toc = s1.toc.add_element (TocFetcher.replyElement f._useV2 pk)
                ∧ s2.tocCache = s1.tocCache ∧ s2.resetComplete = s1.resetComplete
                ∧ s2.notified = s1.notified)
            ∧ (pk.channel = 0 → TocFetcher.replyIdent f._useV2 pk = j →
              j + 1 = (f.readInfo info).nbr_of_items →
              ∃ s2, TocFetcher._new_packet_cb s1 k pk = .ok s2
                ∧ TocFetcher.Downloading s2 k f._useV2 f.port (f.readInfo info).nbr_of_items
                    (f.readInfo info)._crc j
                ∧ s2.sent = s1.sent
                ∧ s2.toc = s1.toc.add_element (TocFetcher.replyElement f._useV2 pk)
                ∧ s2.tocCache = (s2.toc.write s1.tocCache (f.readInfo info)._crc).2
                ∧ (∀ files, s1.tocCache = some files →
                  s2.tocCache = some (((f.readInfo info)._crc, s2.toc.writeText) :: files))
                ∧ s2.resetComplete = true ∧ s2.notified = s1.notified + 1))
      ∧ ∀ pks, ∃ s1 j1, TocFetcher.deliver k s0 pks = .ok s1
          ∧ j1 < (f.readInfo info).nbr_of_items
          ∧ s1.sent = s.sent ++ (List.range (j1 + 1)).map
              (fun i => (f.port % 16, 0, TocFetcher.requestBytes f._useV2 i)) := by
  obtain ⟨s0, hcb, hD, hsent, htoc, hcache0, hnot⟩ :=
    TocFetcher.info_fallback s k f pc info hk hst hpc hc hch hcrc hcache hn
  refine ⟨s0, hcb, hsent, htoc, hcache0, hnot, hD, ?_, ?_⟩
  · intro s1 j hD1 hj pk
    obtain ⟨h1, h2, h3⟩ := TocFetcher.download_step s1 k _ _ _ _ j hD1 hj pk
    refine ⟨h1, h2, ?_⟩
    intro hch1 hid hlast
    obtain ⟨s2, e1, e2, e3, e4, e5, e6, e7⟩ := h3 hch1 hid hlast
    refine ⟨s2, e1, e2, e3, e4, e5, ?_, e6, e7⟩
    intro files hfiles
    rw [e5, hfiles]
    rfl
  · intro pks
    obtain ⟨s1, j1, hrun, -, hj1, -, hsent1⟩ :=
      TocFetcher.download_run k _ _ _ _ pks s0 0 hD (by omega)
    refine ⟨s1, j1, hrun, hj1, ?_⟩
    rw [hsent1, hsent, List.append_assoc]
    congr 1
    rw [List.range_succ_eq_map]
    simp only [Nat.sub_zero, List.map_cons, List.map_map, List.singleton_append]
    congr 1
    apply List.map_congr_left
    intro i _
    simp only [Function.comp, Nat.succ_eq_add_one]
    congr 3
    omega

/-- C21, witness: the started fetcher of the sample engine receives the V2 info reply
`n = 3, crc = 0xDEADBEEF` with an empty cache directory; the request `[2, 0, 0]` for the
element 0 follows the info request. -/
theorem C21_elements_requested_in_order_witness :
    ∃ s0, TocFetcher._new_packet_cb (Sample.awaitingInfo []) 0 (Sample.infoReply 3 0xDEADBEEF)
        = .ok s0
      ∧ s0.sent = [(5, 0, [3]), (5, 0, [2, 0, 0])] :=
  (C21_elements_requested_in_order (Sample.awaitingInfo []) 0
    Sample.awaitingFetcher (Sample.awaitingLink []) (Sample.infoReply 3 0xDEADBEEF)
    rfl rfl rfl rfl rfl (by decide) (Or.inl rfl) (by decide)).imp
    (fun _ h => ⟨h.1, h.2.1.trans (by decide)⟩)

/-- C22: a fetcher waiting for the TOC info reply, on an engine with an open link, receives
an info reply. When the reported CRC differs from the CRC of the TOC in memory, the cache
file of the CRC exists and the TOC has a group after it is read, no packet is sent,
`resetComplete` is set and the owner is notified once; the same happens, without reading
the cache, when the reported CRC is the CRC of the TOC in memory. When the reported CRC
differs from the CRC of the TOC in memory, the cache file is absent or leaves the TOC without
a group, and at least one item is reported, the request for the element 0 is sent and the
owner is not notified. -/
theorem C22_cache_hit_or_first_request (s : cfLog) (k : Nat) (f : TocFetcher)
    (pc : PortConnect) (info : Packet) (hk : s.tocfetcherCallbacks.get? k = some f)
    (hst : f.state = TocFetcher.GET_TOC_INFO) (hpc : s.portConnect = some pc)
    (hc : pc.cfConnection = true) (hch : info.channel = 0) :
    (s.toc.crc ≠ (f.readInfo info)._crc →
        LogToc.tocExists s.tocCache (f.readInfo info)._crc = true →
        ∀ toc1, s.toc.read s.tocCache (f.readInfo info)._crc = .ok (true, toc1) →
        ∃ s1, TocFetcher._new_packet_cb s k info = .ok s1 ∧ s1.sent = s.sent
          ∧ s1.resetComplete = true ∧ s1.notified = s.notified + 1 ∧ s1.toc = toc1)
      ∧ (s.toc.crc = (f.readInfo info)._crc →
        ∃ s1, TocFetcher._new_packet_cb s k info = .ok s1 ∧ s1.sent = s.sent
          ∧ s1.resetComplete = true ∧ s1.notified = s.notified + 1 ∧ s1.toc = s.toc)
      ∧ (s.toc.crc ≠ (f.readInfo info)._crc →
        (LogToc.tocExists s.tocCache (f.readInfo info)._crc = false
          ∨ ∃ toc1, s.toc.read s.tocCache (f.readInfo info)._crc = .ok (false, toc1)) →
        1 ≤ (f.readInfo info).nbr_of_items →
        ∃ s1, TocFetcher._new_packet_cb s k info = .ok s1
          ∧ s1.sent = s.sent ++ [(f.port % 16, 0, TocFetcher.requestBytes f._useV2 0)]
          ∧ s1.notified = s.notified ∧ s1.toc = s.toc) := by
  obtain ⟨hmem, hfile⟩ := TocFetcher.info_found s k f pc info hk hst hpc hch
  refine ⟨hfile, hmem, ?_⟩
  intro hcrc hcache hn
  obtain ⟨s1, h1, -, h3, h4, -, h6⟩ :=
    TocFetcher.info_fallback s k f pc info hk hst hpc hc hch hcrc hcache hn
  exact ⟨s1, h1, h3, h6, h4⟩

/-- C22, witness: with the cache file of `0xDEADBEEF` written from two elements, the info reply
`nbr = 120, crc = 0xDEADBEEF` sends nothing after the info request, sets `resetComplete` and
notifies the owner once. -/
theorem C22_cache_hit_or_first_request_witness :
    ∃ s1, TocFetcher._new_packet_cb
          (Sample.awaitingInfo [(0xDEADBEEF, (Sample.toc 2 7).writeText)]) 0
          (Sample.infoReply 120 0xDEADBEEF) = .ok s1
      ∧ s1.sent = [(5, 0, [3])] ∧ s1.resetComplete = true ∧ s1.notified = 1 :=
  ((C22_cache_hit_or_first_request
      (Sample.awaitingInfo [(0xDEADBEEF, (Sample.toc 2 7).writeText)]) 0 Sample.awaitingFetcher
      (Sample.awaitingLink [(0xDEADBEEF, (Sample.toc 2 7).writeText)])
      (Sample.infoReply 120 0xDEADBEEF) rfl rfl rfl rfl rfl).1
    (by decide) (by decide) (Sample.toc 2 7) (by decide!)).imp
    (fun _ h => ⟨h.1, h.2.1.trans (by decide), h.2.2.1, h.2.2.2.1.trans (by decide)⟩)

/-- C22, counterexample: the cache directory is empty, so no cache file exists for any CRC.
The info reply `nbr = 120, crc = 0` reports the CRC of the empty TOC in memory: no element is
requested, `resetComplete` is set and the owner is notified, with a TOC that has no element.
The info reply `nbr = 0, crc = 0xDEADBEEF` is followed by no request either. -/
theorem C22_no_first_request_without_cache :
    LogToc.tocExists (Sample.awaitingInfo []).tocCache 0 = false
      ∧ LogToc.tocExists (Sample.awaitingInfo []).tocCache 0xDEADBEEF = false
      ∧ Sample.fetchView
          (TocFetcher._new_packet_cb (Sample.awaitingInfo []) 0 (Sample.infoReply 120 0))
        = some ([(5, 0, [3])], true, 1, [], [])
      ∧ Sample.fetchView
          (TocFetcher._new_packet_cb (Sample.awaitingInfo []) 0 (Sample.infoReply 0 0xDEADBEEF))
        = some ([(5, 0, [3])], false, 0, [], []) := by
  refine ⟨by decide, by decide, rfl, rfl⟩

/-! ### The text of a cache file -/

/-- C23: the text written for the TOC of three `float` variables of one group, and the one
written for a TOC of two groups, are read back into an empty TOC as the TOC written. The
text written for the TOC of one element whose name is `a`, a quotation mark and `b` is read
back as a TOC whose element has the name `a` and no group name: the writer puts the name
between quotation marks as it is, and the reader ends the value at the first quotation mark
and takes what follows for a tag. The text written for the TOC of one element whose name is
`a`, a closing brace and `b` is read without end: the reader counts the brace of the name as
the end of the element and the loop over the elements then repeats a turn that reads
nothing. -/
theorem C23_text_not_read_back_with_quote_or_brace :
    LogToc.empty.readText (Sample.toc 3 7).writeText = .ok (Sample.toc 3 7)
      ∧ LogToc.empty.readText Sample.twoGroupToc.writeText = .ok Sample.twoGroupToc
      ∧ Sample.quoteToc.groups
        = [{ name := ['g'],
             elements := [{ name := ['a', reflectIO.quote, 'b'], group := ['g'],
                            ctype := "uint8_t".toList, pytype := "<B".toList, ident := 0,
                            access := 0 }] }]
      ∧ LogToc.empty.readText Sample.quoteToc.writeText
        = .ok { crc := 0, complete := false,
                groups := [{ name := ['g'],
                             elements := [{ name := ['a'], group := [],
                                            ctype := "uint8_t".toList,
                                            pytype := "<B".toList, ident := 0,
                                            access := 0 }] }] }
      ∧ LogToc.empty.readText Sample.quoteToc.writeText ≠ .ok Sample.quoteToc
      ∧ LogToc.empty.readText Sample.braceToc.writeText = .error .diverges := by
  refine ⟨by decide!, by decide!, by decide, by decide!, by decide!, by decide!⟩

/-! ### The `float` arithmetic -/

theorem bitLength_spec :
    ∀ (fuel n : Nat), n < 2 ^ fuel →
      n < 2 ^ bitLength fuel n ∧ (n ≠ 0 → 2 ^ (bitLength fuel n - 1) ≤ n) := by
  intro fuel
  induction fuel with
  | zero =>
    intro n hn
    have : n = 0 := by simpa using hn
    subst this
    simp [bitLength]
  | succ fuel ih =>
    intro n hn
    unfold bitLength
    by_cases h0 : n = 0
    · subst h0
      simp
    · rw [if_neg h0]
      have hhalf : n / 2 < 2 ^ fuel := by
        rw [pow_succ] at hn
        omega
      obtain ⟨h1, h2⟩ := ih (n / 2) hhalf
      constructor
      · rw [pow_succ]
        omega
      · intro _
        simp only [Nat.add_sub_cancel]
        by_cases hh : n / 2 = 0
        · have hb : bitLength fuel (n / 2) = 0 := by
            rw [hh]
            cases fuel <;> simp [bitLength]
          rw [hb]
          simp only [pow_zero]
          omega
        · have h3 := h2 hh
          have h4 : bitLength fuel (n / 2) = bitLength fuel (n / 2) - 1 + 1 := by
            have : bitLength fuel (n / 2) ≠ 0 := by
              intro hb
              rw [hb] at h1
              simp at h1
              exact hh h1
            omega
          rw [h4, pow_succ]
          omega

theorem log2Floor_zero : log2Floor 0 = 0 := by decide

theorem log2Floor_self_le (n : Nat) (h : n ≠ 0) : 2 ^ log2Floor n ≤ n :=
  (bitLength_spec n n (Nat.lt_two_pow n)).2 h

theorem lt_log2Floor_self (n : Nat) : n < 2 ^ (log2Floor n + 1) := by
  have h := (bitLength_spec n n (Nat.lt_two_pow n)).1
  unfold log2Floor
  by_cases hb : bitLength n n = 0
  · rw [hb] at h ⊢
    have h0 : n = 0 := by simpa using h
    rw [h0]
    norm_num
  · have : bitLength n n - 1 + 1 = bitLength n n := by omega
    rw [this]
    exact h

theorem roundMag_le_aux (A num den qB K w qb : Nat) (hden : 0 < den)
    (hK : K < 2 ^ 24) (hK2 : 2 ^ 23 ≤ K ∨ qB = 0) (h : num * A ≤ den * K * 2 ^ qB)
    (hw : num * (A * 2 ^ 23) / den = w) (hqb : log2Floor w - 46 = qb) :
    qb * 2 ^ 23
        + (if 2 * (num * A % (den * 2 ^ qb)) > den * 2 ^ qb
              ∨ (2 * (num * A % (den * 2 ^ qb)) = den * 2 ^ qb
                ∧ num * A / (den * 2 ^ qb) % 2 = 1)
            then num * A / (den * 2 ^ qb) + 1 else num * A / (den * 2 ^ qb))
      ≤ qB * 2 ^ 23 + K := by
  have hw2 : num * (A * 2 ^ 23) < (w + 1) * den := by
    apply Nat.lt_mul_of_div_lt _ hden
    rw [hw]
    exact Nat.lt_succ_self w
  have hw1 : w * den ≤ num * (A * 2 ^ 23) := by
    rw [← hw]
    exact Nat.div_mul_le_self _ _
  have hw3 : w + 1 ≤ 2 ^ (qb + 47) := by
    have h1 : w < 2 ^ (log2Floor w + 1) := lt_log2Floor_self w
    have h2 : 2 ^ (log2Floor w + 1) ≤ 2 ^ (qb + 47) :=
      Nat.pow_le_pow_right (by norm_num) (by omega)
    omega
  have hpow : ∀ a : Nat, 2 ^ (a + 47) = 2 ^ 24 * 2 ^ a * 2 ^ 23 := by
    intro a
    rw [pow_add]
    norm_num
    ring
  generalize hX : num * A = X at *
  have hXa : num * (A * 2 ^ 23) = X * 2 ^ 23 := by rw [← hX]; ring
  rw [hXa] at hw1 hw2
  generalize hD : den * 2 ^ qb = D at *
  have hD0 : 0 < D := by rw [← hD]; positivity
  -- the quotient is below `2^24`
  have hF1 : X < 2 ^ 24 * D := by
    have h1 : X * 2 ^ 23 < 2 ^ (qb + 47) * den :=
      lt_of_lt_of_le hw2 (Nat.mul_le_mul_right _ hw3)
    rw [hpow] at h1
    have h2 : 2 ^ 24 * 2 ^ qb * 2 ^ 23 * den = 2 ^ 24 * D * 2 ^ 23 := by rw [← hD]; ring
    rw [h2] at h1
    exact Nat.lt_of_mul_lt_mul_right h1
  -- the unit is not above the one of the bound
  have hF2 : qb ≤ qB := by
    by_cases hw0 : w = 0
    · subst hw0
      rw [log2Floor_zero] at hqb
      omega
    · by_contra hcon
      have hlog : qB + 47 ≤ log2Floor w := by omega
      have h1 : 2 ^ (qB + 47) ≤ w :=
        le_trans (Nat.pow_le_pow_right (by norm_num) hlog) (log2Floor_self_le w hw0)
      have h2 : 2 ^ (qB + 47) * den ≤ X * 2 ^ 23 :=
        le_trans (Nat.mul_le_mul_right _ h1) hw1
      have h3 : X * 2 ^ 23 < 2 ^ (qB + 47) * den := by
        calc X * 2 ^ 23 ≤ den * K * 2 ^ qB * 2 ^ 23 := Nat.mul_le_mul_right _ h
          _ = K * (den * 2 ^ qB * 2 ^ 23) := by ring
          _ < 2 ^ 24 * (den * 2 ^ qB * 2 ^ 23) :=
            Nat.mul_lt_mul_of_pos_right hK (by positivity)
          _ = 2 ^ (qB + 47) * den := by rw [hpow]; ring
      omega
  have hm24 : X / D < 2 ^ 24 := Nat.div_lt_of_lt_mul (by rw [Nat.mul_comm]; exact hF1)
  by_cases hq : qb = qB
  · subst hq
    have hle : X ≤ K * D := by
      calc X ≤ den * K * 2 ^ qb := h
        _ = K * D := by rw [← hD]; ring
    have hmK : X / D ≤ K := Nat.div_le_of_le_mul (by rw [Nat.mul_comm]; exact hle)
    apply Nat.add_le_add_left
    by_cases hmeq : X / D = K
    · have hr : X % D = 0 := by
        have hdm := Nat.div_add_mod X D
        rw [hmeq] at hdm
        have : D * K = K * D := Nat.mul_comm _ _
        omega
      rw [hr, hmeq]
      have hc : ¬ (2 * 0 > D ∨ (2 * 0 = D ∧ K % 2 = 1)) := by omega
      rw [if_neg hc]
    · split <;> omega
  · have hlt : qb < qB := by omega
    have hKge : 2 ^ 23 ≤ K := by
      rcases hK2 with h1 | h1
      · exact h1
      · omega
    have hstep : qb * 2 ^ 23 + 2 ^ 24 ≤ qB * 2 ^ 23 + 2 ^ 23 := by
      have : (qb + 1) * 2 ^ 23 ≤ qB * 2 ^ 23 := Nat.mul_le_mul_right _ hlt
      omega
    have hm1 : (if 2 * (X % D) > D ∨ (2 * (X % D) = D ∧ X / D % 2 = 1)
        then X / D + 1 else X / D) ≤ 2 ^ 24 := by
      split <;> omega
    omega

theorem f32RoundMag_le (num den qB K : Nat) (hden : 0 < den) (hK : K < 2 ^ 24)
    (hK2 : 2 ^ 23 ≤ K ∨ qB = 0) (h : num * 2 ^ 149 ≤ den * K * 2 ^ qB) :
    f32RoundMag num den ≤ qB * 2 ^ 23 + K := by
  unfold f32RoundMag
  refine le_trans (min_le_left _ _) ?_
  have h172 : (2 : Nat) ^ 172 = 2 ^ 149 * 2 ^ 23 := by rw [← pow_add]
  rw [h172]
  exact roundMag_le_aux (2 ^ 149) num den qB K _ _ hden hK hK2 h rfl rfl

theorem f32_finite_facts (a : Nat) (ha : a < 0x7F800000) :
    f32IsNaN a = false ∧ f32IsInf a = false ∧ f32Sign a = 0 := by
  have h1 : a % 2 ^ 31 = a := Nat.mod_eq_of_lt (by omega)
  refine ⟨?_, ?_, ?_⟩
  · simp only [f32IsNaN, h1, decide_eq_false_iff_not]
    omega
  · simp only [f32IsInf, h1, beq_eq_false_iff_ne]
    omega
  · simp only [f32Sign]
    omega

theorem f32Units_mono (a b : Nat) (hab : a ≤ b) (hb : b < 0x7F800000) :
    f32Units a ≤ f32Units b := by
  unfold f32Units
  have ha1 : a / 2 ^ 23 % 256 = a / 2 ^ 23 := by omega
  have hb1 : b / 2 ^ 23 % 256 = b / 2 ^ 23 := by omega
  rw [ha1, hb1]
  have hE : a / 2 ^ 23 ≤ b / 2 ^ 23 := Nat.div_le_div_right hab
  by_cases ha0 : a / 2 ^ 23 = 0
  · rw [if_pos ha0]
    by_cases hb0 : b / 2 ^ 23 = 0
    · rw [if_pos hb0]
      omega
    · rw [if_neg hb0]
      have h1 : 1 ≤ 2 ^ (b / 2 ^ 23 - 1) := Nat.one_le_two_pow
      calc a % 2 ^ 23 ≤ (2 ^ 23 + b % 2 ^ 23) * 1 := by omega
        _ ≤ (2 ^ 23 + b % 2 ^ 23) * 2 ^ (b / 2 ^ 23 - 1) := Nat.mul_le_mul_left _ h1
  · have hb0 : ¬ b / 2 ^ 23 = 0 := by omega
    rw [if_neg ha0, if_neg hb0]
    by_cases hEq : a / 2 ^ 23 = b / 2 ^ 23
    · rw [hEq]
      apply Nat.mul_le_mul_right
      omega
    · have hlt : a / 2 ^ 23 - 1 + 1 ≤ b / 2 ^ 23 - 1 := by omega
      have hp : 2 ^ (a / 2 ^ 23 - 1 + 1) ≤ 2 ^ (b / 2 ^ 23 - 1) :=
        Nat.pow_le_pow_right (by norm_num) hlt
      calc (2 ^ 23 + a % 2 ^ 23) * 2 ^ (a / 2 ^ 23 - 1)
          ≤ (2 ^ 23 * 2) * 2 ^ (a / 2 ^ 23 - 1) := Nat.mul_le_mul_right _ (by omega)
        _ = 2 ^ 23 * 2 ^ (a / 2 ^ 23 - 1 + 1) := by rw [pow_succ]; ring
        _ ≤ 2 ^ 23 * 2 ^ (b / 2 ^ 23 - 1) := Nat.mul_le_mul_left _ hp
        _ ≤ (2 ^ 23 + b % 2 ^ 23) * 2 ^ (b / 2 ^ 23 - 1) :=
          Nat.mul_le_mul_right _ (by omega)

theorem f32Div_finite (a b : Nat) (ha : a < 0x7F800000) (hb : b < 0x7F800000)
    (hb0 : f32Units b ≠ 0) : f32Div a b = f32RoundMag (f32Units a) (f32Units b) := by
  obtain ⟨a1, a2, a3⟩ := f32_finite_facts a ha
  obtain ⟨b1, b2, b3⟩ := f32_finite_facts b hb
  simp [f32Div, a1, a2, a3, b1, b2, b3, hb0]

theorem f32Mul_finite (a b : Nat) (ha : a < 0x7F800000) (hb : b < 0x7F800000) :
    f32Mul a b = f32RoundMag (f32Units a * f32Units b) (2 ^ 298) := by
  obtain ⟨a1, a2, a3⟩ := f32_finite_facts a ha
  obtain ⟨b1, b2, b3⟩ := f32_finite_facts b hb
  simp only [f32Mul, a1, a2, a3, b1, b2, b3, Bool.or_self, Bool.false_eq_true, if_false,
    Nat.add_zero, Nat.zero_mod, Nat.mul_zero, Nat.zero_add]

theorem f32Add_finite (a b : Nat) (ha : a < 0x7F800000) (hb : b < 0x7F800000)
    (hb0 : 0 < f32Units b) :
    f32Add a b = f32RoundMag (f32Units a + f32Units b) (2 ^ 149) := by
  obtain ⟨a1, a2, a3⟩ := f32_finite_facts a ha
  obtain ⟨b1, b2, b3⟩ := f32_finite_facts b hb
  have hs : f32Signed a + f32Signed b = ((f32Units a + f32Units b : Nat) : Int) := by
    simp [f32Signed, a3, b3]
  have hv0 : ¬ ((f32Units a + f32Units b : Nat) : Int) = 0 := by omega
  have hv1 : ¬ ((f32Units a + f32Units b : Nat) : Int) < 0 := by omega
  simp only [f32Add, a1, a2, b1, b2, Bool.or_self, Bool.false_eq_true, if_false, hs, hv0, hv1,
    Int.natAbs_ofNat]

theorem f32ToUnsigned_finite (a : Nat) (ha : a < 0x7F800000)
    (h : f32Units a / 2 ^ 149 < 2 ^ 32) :
    f32ToUnsigned a = some (f32Units a / 2 ^ 149) := by
  obtain ⟨a1, a2, a3⟩ := f32_finite_facts a ha
  simp only [f32ToUnsigned, a1, a2, a3, Bool.or_self, Bool.false_eq_true, if_false]
  by_cases h0 : f32Units a / 2 ^ 149 = 0
  · rw [if_pos h0, h0]
  · rw [if_neg h0, if_neg (by decide), if_pos h]

/-! ### The fields of a compressed quaternion -/

theorem PackUtils.quatMag_le (x : Nat) (hx : fabsf x ≤ PackUtils.SMALL_MAX) :
    ∃ m, PackUtils.quatMag x = some m ∧ m ≤ 511 := by
  have hS : PackUtils.SMALL_MAX = 0x3F3504F3 := rfl
  rw [hS] at hx
  unfold PackUtils.quatMag
  rw [hS]
  generalize fabsf x = a at hx ⊢
  -- the quotient is at most 1
  have hUS : f32Units 0x3F3504F3 = 11863283 * 2 ^ 125 := by decide!
  have hUa : f32Units a ≤ 11863283 * 2 ^ 125 := by
    rw [← hUS]; exact f32Units_mono a _ hx (by norm_num)
  have ht : f32Div a 0x3F3504F3 ≤ 0x3F800000 := by
    rw [f32Div_finite a _ (by omega) (by norm_num) (by rw [hUS]; positivity)]
    have := f32RoundMag_le (f32Units a) (f32Units 0x3F3504F3) 126 (2 ^ 23)
      (by rw [hUS]; positivity) (by norm_num) (Or.inl (le_refl _))
      (by
        rw [hUS]
        have h1 : 11863283 * 2 ^ 125 * 2 ^ 23 * 2 ^ 126 = 11863283 * 2 ^ 125 * 2 ^ 149 := by
          norm_num
        rw [h1]
        exact Nat.mul_le_mul_right _ hUa)
    omega
  generalize f32Div a 0x3F3504F3 = t at ht
  -- the product is at most 511
  have hc : f32OfUnsigned 511 = 0x43FF8000 := by decide!
  have hUc : f32Units 0x43FF8000 = 511 * 2 ^ 149 := by decide!
  have hU1 : f32Units 0x3F800000 = 2 ^ 149 := by decide!
  have hUt : f32Units t ≤ 2 ^ 149 := by
    rw [← hU1]; exact f32Units_mono t _ ht (by norm_num)
  have hp : f32Mul 0x43FF8000 t ≤ 0x43FF8000 := by
    rw [f32Mul_finite _ t (by norm_num) (by omega), hUc]
    have := f32RoundMag_le (511 * 2 ^ 149 * f32Units t) (2 ^ 298) 134 0xFF8000
      (by positivity) (by norm_num) (Or.inl (by norm_num))
      (by
        have h1 : 2 ^ 298 * 0xFF8000 * 2 ^ 134 = 511 * 2 ^ 149 * 2 ^ 149 * 2 ^ 149 := by
          norm_num
        rw [h1]
        exact Nat.mul_le_mul_right _ (Nat.mul_le_mul_left _ hUt))
    omega
  rw [hc]
  generalize f32Mul 0x43FF8000 t = p at hp
  -- the sum is at most 511.5
  have hUh : f32Units 0x3F000000 = 2 ^ 148 := by decide!
  have hUp : f32Units p ≤ 511 * 2 ^ 149 := by
    rw [← hUc]; exact f32Units_mono p _ hp (by norm_num)
  have hs : f32Add p 0x3F000000 ≤ 0x43FFC000 := by
    rw [f32Add_finite p _ (by omega) (by norm_num) (by rw [hUh]; positivity), hUh]
    have := f32RoundMag_le (f32Units p + 2 ^ 148) (2 ^ 149) 134 0xFFC000
      (by positivity) (by norm_num) (Or.inl (by norm_num))
      (by
        have h1 : 2 ^ 149 * 0xFFC000 * 2 ^ 134 = (511 * 2 ^ 149 + 2 ^ 148) * 2 ^ 149 := by
          norm_num
        rw [h1]
        exact Nat.mul_le_mul_right _ (Nat.add_le_add_right hUp _))
    omega
  generalize f32Add p 0x3F000000 = s at hs
  -- the value cut to an integer is at most 511
  have hUs : f32Units s ≤ 1023 * 2 ^ 148 := by
    have h1 : f32Units 0x43FFC000 = 1023 * 2 ^ 148 := by decide!
    rw [← h1]; exact f32Units_mono s _ hs (by norm_num)
  have hm : f32Units s / 2 ^ 149 ≤ 511 := by
    have h1 : f32Units s / 2 ^ 149 ≤ 1023 * 2 ^ 148 / 2 ^ 149 := Nat.div_le_div_right hUs
    have h2 : 1023 * 2 ^ 148 / 2 ^ 149 = 511 := by norm_num
    omega
  exact ⟨_, f32ToUnsigned_finite s (by omega) (by omega), hm⟩

theorem f32Lt_fabsf (a b : Nat) (ha : f32IsNaN a = false) (hb : f32IsNaN b = false) :
    f32Lt (fabsf a) (fabsf b) = decide (fabsf a < fabsf b) := by
  have h1 : ∀ x, f32IsNaN (fabsf x) = f32IsNaN x := by
    intro x
    simp only [f32IsNaN, fabsf, Nat.mod_mod]
  have h2 : ∀ x, f32Sign (fabsf x) = 0 := by
    intro x
    simp only [f32Sign, fabsf]
    omega
  have h3 : ∀ x, fabsf x % 2 ^ 31 = fabsf x := by
    intro x
    simp only [fabsf, Nat.mod_mod]
  simp only [f32Lt, h1, ha, hb, h2, h3, Bool.not_false, Bool.true_and, Nat.zero_ne_one,
    if_false, Nat.cast_lt]

theorem PackUtils.largestLoop_eq (q : Nat → Nat) (L : Nat) (hL : L < 4)
    (hnan : ∀ i, i < 4 → f32IsNaN (q i) = false)
    (hmax : ∀ i, i < 4 → fabsf (q i) ≤ fabsf (q L))
    (hfirst : ∀ i, i < L → fabsf (q i) < fabsf (q L)) :
    PackUtils.largestLoop q 3 1 0 = L := by
  have e : ∀ i j, i < 4 → j < 4 →
      f32Lt (fabsf (q i)) (fabsf (q j)) = decide (fabsf (q i) < fabsf (q j)) :=
    fun i j hi hj => f32Lt_fabsf _ _ (hnan i hi) (hnan j hj)
  have m0 := hmax 0 (by norm_num)
  have m1 := hmax 1 (by norm_num)
  have m2 := hmax 2 (by norm_num)
  have m3 := hmax 3 (by norm_num)
  simp only [PackUtils.largestLoop]
  rw [e 0 1 (by norm_num) (by norm_num)]
  by_cases c1 : fabsf (q 0) < fabsf (q 1)
  · simp only [c1, decide_True, if_true, Nat.reduceAdd]
    rw [e 1 2 (by norm_num) (by norm_num)]
    by_cases c2 : fabsf (q 1) < fabsf (q 2)
    · simp only [c2, decide_True, if_true]
      rw [e 2 3 (by norm_num) (by norm_num)]
      by_cases c3 : fabsf (q 2) < fabsf (q 3)
      · simp only [c3, decide_True, if_true]
        interval_cases L
        · omega
        · omega
        · omega
        · rfl
      · simp only [c3, decide_False, Bool.false_eq_true, if_false]
        interval_cases L
        · omega
        · omega
        · rfl
        · have := hfirst 2 (by norm_num); omega
    · simp only [c2, decide_False, Bool.false_eq_true, if_false]
      rw [e 1 3 (by norm_num) (by norm_num)]
      by_cases c3 : fabsf (q 1) < fabsf (q 3)
      · simp only [c3, decide_True, if_true]
        interval_cases L
        · omega
        · omega
        · have := hfirst 1 (by norm_num); omega
        · rfl
      · simp only [c3, decide_False, Bool.false_eq_true, if_false]
        interval_cases L
        · omega
        · rfl
        · have := hfirst 1 (by norm_num); omega
        · have := hfirst 1 (by norm_num); omega
  · simp only [c1, decide_False, Bool.false_eq_true, if_false, Nat.reduceAdd]
    rw [e 0 2 (by norm_num) (by norm_num)]
    by_cases c2 : fabsf (q 0) < fabsf (q 2)
    · simp only [c2, decide_True, if_true]
      rw [e 2 3 (by norm_num) (by norm_num)]
      by_cases c3 : fabsf (q 2) < fabsf (q 3)
      · simp only [c3, decide_True, if_true]
        interval_cases L
        · omega
        · have := hfirst 0 (by norm_num); omega
        · omega
        · rfl
      · simp only [c3, decide_False, Bool.false_eq_true, if_false]
        interval_cases L
        · omega
        · have := hfirst 0 (by norm_num); omega
        · rfl
        · have := hfirst 2 (by norm_num); omega
    · simp only [c2, decide_False, Bool.false_eq_true, if_false]
      rw [e 0 3 (by norm_num) (by norm_num)]
      by_cases c3 : fabsf (q 0) < fabsf (q 3)
      · simp only [c3, decide_True, if_true]
        interval_cases L
        · omega
        · have := hfirst 0 (by norm_num); omega
        · have := hfirst 0 (by norm_num); omega
        · rfl
      · simp only [c3, decide_False, Bool.false_eq_true, if_false]
        interval_cases L
        · rfl
        · have := hfirst 0 (by norm_num); omega
        · have := hfirst 0 (by norm_num); omega
        · have := hfirst 0 (by norm_num); omega

theorem PackUtils.compress_step (comp negbit mag : Nat) (hc : comp < 2 ^ 22)
    (hn : negbit ≤ 1) (hm : mag ≤ 511) :
    (((comp <<< 10) % 4294967296) ||| (negbit <<< 9)) ||| mag
      = comp * 1024 + negbit * 512 + mag := by
  have h1 : (comp <<< 10) % 4294967296 = comp * 1024 := by
    rw [Nat.shiftLeft_eq]
    omega
  have h2 : negbit <<< 9 = negbit * 512 := by rw [Nat.shiftLeft_eq]
  rw [h1, h2]
  rw [or_disjoint (comp * 1024) (negbit * 512) 10 ⟨comp, by ring⟩ (by omega)]
  rw [or_disjoint (comp * 1024 + negbit * 512) mag 9
    ⟨comp * 2 + negbit, by ring⟩ (by norm_num; omega)]

theorem PackUtils.quatField_spec (q : Nat → Nat) (L i : Nat)
    (hs : fabsf (q i) ≤ PackUtils.SMALL_MAX) :
    ∃ m, PackUtils.quatMag (q i) = some m ∧ m ≤ 511
      ∧ PackUtils.quatField q L i
        = 512 * (PackUtils.quatNegative (q i) ^^^ PackUtils.quatNegative (q L)) + m
      ∧ PackUtils.quatNegative (q i) ^^^ PackUtils.quatNegative (q L) ≤ 1 := by
  obtain ⟨m, hm, hle⟩ := PackUtils.quatMag_le (q i) hs
  refine ⟨m, hm, hle, ?_, ?_⟩
  · simp only [PackUtils.quatField, hm, Option.getD_some]
  · unfold PackUtils.quatNegative
    split <;> split <;> decide!

theorem PackUtils.compressLoop_step (q : Nat → Nat) (L negate n i comp m : Nat)
    (hi : i ≠ L) (hm : PackUtils.quatMag (q i) = some m) :
    PackUtils.compressLoop q L negate (n + 1) i comp
      = PackUtils.compressLoop q L negate n (i + 1)
          ((((comp <<< 10) % 4294967296) ||| ((PackUtils.quatNegative (q i) ^^^ negate) <<< 9))
            ||| m) := by
  conv_lhs => rw [PackUtils.compressLoop]
  rw [if_pos hi, hm]
  rfl

theorem PackUtils.compressLoop_skip (q : Nat → Nat) (L negate n comp : Nat) :
    PackUtils.compressLoop q L negate (n + 1) L comp
      = PackUtils.compressLoop q L negate n (L + 1) comp := by
  conv_lhs => rw [PackUtils.compressLoop]
  rw [if_neg (by simp)]

theorem PackUtils.compressLoop_zero (q : Nat → Nat) (L negate i comp : Nat) :
    PackUtils.compressLoop q L negate 0 i comp = some comp :=
  rfl

theorem PackUtils.quatcompress_fields (q : Nat → Nat) (L : Nat) (hL : L < 4)
    (hnan : f32IsNaN (q L) = false)
    (hmax : ∀ i, i < 4 → fabsf (q i) ≤ fabsf (q L))
    (hfirst : ∀ i, i < L → fabsf (q i) < fabsf (q L))
    (hsmall : ∀ i, i < 4 → i ≠ L → fabsf (q i) ≤ PackUtils.SMALL_MAX) :
    PackUtils.quatcompress q
      = some (((L * 1024 + PackUtils.quatField q L (if 0 < L then 0 else 1)) * 1024
            + PackUtils.quatField q L (if 1 < L then 1 else 2)) * 1024
          + PackUtils.quatField q L (if 2 < L then 2 else 3)) := by
  have hnanAll : ∀ i, i < 4 → f32IsNaN (q i) = false := by
    intro i hi
    by_cases hiL : i = L
    · rw [hiL]; exact hnan
    · have h1 := hsmall i hi hiL
      have hS : PackUtils.SMALL_MAX = 0x3F3504F3 := rfl
      rw [hS] at h1
      simp only [fabsf] at h1
      simp only [f32IsNaN, decide_eq_false_iff_not]
      omega
  have hlarge := PackUtils.largestLoop_eq q L hL hnanAll hmax hfirst
  unfold PackUtils.quatcompress
  simp only [hlarge]
  have hneg : (if f32Lt (q L) 0 then 1 else 0) = PackUtils.quatNegative (q L) := rfl
  rw [hneg]
  interval_cases L
  · obtain ⟨m1, e1, b1, f1, n1⟩ :=
      PackUtils.quatField_spec q 0 1 (hsmall 1 (by norm_num) (by norm_num))
    obtain ⟨m2, e2, b2, f2, n2⟩ :=
      PackUtils.quatField_spec q 0 2 (hsmall 2 (by norm_num) (by norm_num))
    obtain ⟨m3, e3, b3, f3, n3⟩ :=
      PackUtils.quatField_spec q 0 3 (hsmall 3 (by norm_num) (by norm_num))
    have k1 : (if 0 < 0 then 0 else 1) = 1 := by norm_num
    have k2 : (if 1 < 0 then 1 else 2) = 2 := by norm_num
    have k3 : (if 2 < 0 then 2 else 3) = 3 := by norm_num
    rw [k1, k2, k3, f1, f2, f3,
      PackUtils.compressLoop_skip,
      PackUtils.compressLoop_step q 0 _ _ 1 _ m1 (by norm_num) e1,
      PackUtils.compressLoop_step q 0 _ _ 2 _ m2 (by norm_num) e2,
      PackUtils.compressLoop_step q 0 _ _ 3 _ m3 (by norm_num) e3]
    rw [PackUtils.compressLoop_zero]
    rw [PackUtils.compress_step 0 _ m1 (by norm_num) n1 b1,
      PackUtils.compress_step _ _ m2 (by omega) n2 b2,
      PackUtils.compress_step _ _ m3 (by omega) n3 b3]
    simp only [Option.some.injEq]
    ring
  · obtain ⟨m1, e1, b1, f1, n1⟩ :=
      PackUtils.quatField_spec q 1 0 (hsmall 0 (by norm_num) (by norm_num))
    obtain ⟨m2, e2, b2, f2, n2⟩ :=
      PackUtils.quatField_spec q 1 2 (hsmall 2 (by norm_num) (by norm_num))
    obtain ⟨m3, e3, b3, f3, n3⟩ :=
      PackUtils.quatField_spec q 1 3 (hsmall 3 (by norm_num) (by norm_num))
    have k1 : (if 0 < 1 then 0 else 1) = 0 := by norm_num
    have k2 : (if 1 < 1 then 1 else 2) = 2 := by norm_num
    have k3 : (if 2 < 1 then 2 else 3) = 3 := by norm_num
    rw [k1, k2, k3, f1, f2, f3,
      PackUtils.compressLoop_step q 1 _ _ 0 _ m1 (by norm_num) e1,
      PackUtils.compressLoop_skip,
      PackUtils.compressLoop_step q 1 _ _ 2 _ m2 (by norm_num) e2,
      PackUtils.compressLoop_step q 1 _ _ 3 _ m3 (by norm_num) e3]
    rw [PackUtils.compressLoop_zero]
    rw [PackUtils.compress_step 1 _ m1 (by norm_num) n1 b1,
      PackUtils.compress_step _ _ m2 (by omega) n2 b2,
      PackUtils.compress_step _ _ m3 (by omega) n3 b3]
    simp only [Option.some.injEq]
    ring
  · obtain ⟨m1, e1, b1, f1, n1⟩ :=
      PackUtils.quatField_spec q 2 0 (hsmall 0 (by norm_num) (by norm_num))
    obtain ⟨m2, e2, b2, f2, n2⟩ :=
      PackUtils.quatField_spec q 2 1 (hsmall 1 (by norm_num) (by norm_num))
    obtain ⟨m3, e3, b3, f3, n3⟩ :=
      PackUtils.quatField_spec q 2 3 (hsmall 3 (by norm_num) (by norm_num))
    have k1 : (if 0 < 2 then 0 else 1) = 0 := by norm_num
    have k2 : (if 1 < 2 then 1 else 2) = 1 := by norm_num
    have k3 : (if 2 < 2 then 2 else 3) = 3 := by norm_num
    rw [k1, k2, k3, f1, f2, f3,
      PackUtils.compressLoop_step q 2 _ _ 0 _ m1 (by norm_num) e1,
      PackUtils.compressLoop_step q 2 _ _ 1 _ m2 (by norm_num) e2,
      PackUtils.compressLoop_skip,
      PackUtils.compressLoop_step q 2 _ _ 3 _ m3 (by norm_num) e3]
    rw [PackUtils.compressLoop_zero]
    rw [PackUtils.compress_step 2 _ m1 (by norm_num) n1 b1,
      PackUtils.compress_step _ _ m2 (by omega) n2 b2,
      PackUtils.compress_step _ _ m3 (by omega) n3 b3]
    simp only [Option.some.injEq]
    ring
  · obtain ⟨m1, e1, b1, f1, n1⟩ :=
      PackUtils.quatField_spec q 3 0 (hsmall 0 (by norm_num) (by norm_num))
    obtain ⟨m2, e2, b2, f2, n2⟩ :=
      PackUtils.quatField_spec q 3 1 (hsmall 1 (by norm_num) (by norm_num))
    obtain ⟨m3, e3, b3, f3, n3⟩ :=
      PackUtils.quatField_spec q 3 2 (hsmall 2 (by norm_num) (by norm_num))
    have k1 : (if 0 < 3 then 0 else 1) = 0 := by norm_num
    have k2 : (if 1 < 3 then 1 else 2) = 1 := by norm_num
    have k3 : (if 2 < 3 then 2 else 3) = 2 := by norm_num
    rw [k1, k2, k3, f1, f2, f3,
      PackUtils.compressLoop_step q 3 _ _ 0 _ m1 (by norm_num) e1,
      PackUtils.compressLoop_step q 3 _ _ 1 _ m2 (by norm_num) e2,
      PackUtils.compressLoop_step q 3 _ _ 2 _ m3 (by norm_num) e3,
      PackUtils.compressLoop_skip]
    rw [PackUtils.compressLoop_zero]
    rw [PackUtils.compress_step 3 _ m1 (by norm_num) n1 b1,
      PackUtils.compress_step _ _ m2 (by omega) n2 b2,
      PackUtils.compress_step _ _ m3 (by omega) n3 b3]
    simp only [Option.some.injEq]
    ring

/-- C28: `quatcompress([0,0,0,1]) = 0xC0000000` and `quatdecompress(0xC0000000) = [0,0,0,1]`.
For every quaternion `q` whose component `L` is not a NaN and has the largest magnitude, `L`
being the lowest such index, and whose three other components have a magnitude of at most
`SMALL_MAX`, `quatcompress(q)` is a 32-bit value whose top 2 bits are `L` and whose low 30
bits are three 10-bit fields, one for each other component in increasing index order; the
field of the component `i` holds the bit `q[i] < 0`, flipped when `q[L] < 0`, above the
9-bit magnitude `(unsigned)(511 * (fabsf(q[i]) / SMALL_MAX) + 0.5f)`. The magnitudes of
`float`s that are not NaNs are compared through their patterns without the sign bit. -/
theorem C28_fields_of_compressed_quaternion :
    (PackUtils.quatcompress (quatOf [0, 0, 0, 0x3F800000]) = some 0xC0000000
        ∧ (List.range 4).map (PackUtils.quatdecompress 0xC0000000 (quatOf []))
          = [0, 0, 0, 0x3F800000])
      ∧ ∀ (q : Nat → Nat) (L : Nat), L < 4 → f32IsNaN (q L) = false →
        (∀ i, i < 4 → fabsf (q i) ≤ fabsf (q L)) →
        (∀ i, i < L → fabsf (q i) < fabsf (q L)) →
        (∀ i, i < 4 → i ≠ L → fabsf (q i) ≤ PackUtils.SMALL_MAX) →
        ∃ c, PackUtils.quatcompress q = some c ∧ c < 2 ^ 32 ∧ c / 2 ^ 30 = L
          ∧ c / 2 ^ 20 % 1024 = PackUtils.quatField q L (if 0 < L then 0 else 1)
          ∧ c / 2 ^ 10 % 1024 = PackUtils.quatField q L (if 1 < L then 1 else 2)
          ∧ c % 1024 = PackUtils.quatField q L (if 2 < L then 2 else 3)
          ∧ ∀ i, i < 4 → i ≠ L →
            ∃ m, PackUtils.quatMag (q i) = some m ∧ m ≤ 511
              ∧ PackUtils.quatField q L i / 512
                = PackUtils.quatNegative (q i) ^^^ PackUtils.quatNegative (q L)
              ∧ PackUtils.quatField q L i % 512 = m := by
  refine ⟨⟨by decide!, by decide!⟩, ?_⟩
  intro q L hL hnan hmax hfirst hsmall
  have hc := PackUtils.quatcompress_fields q L hL hnan hmax hfirst hsmall
  have hfield : ∀ i, i < 4 → i ≠ L →
      ∃ m, PackUtils.quatMag (q i) = some m ∧ m ≤ 511
        ∧ PackUtils.quatField q L i / 512
          = PackUtils.quatNegative (q i) ^^^ PackUtils.quatNegative (q L)
        ∧ PackUtils.quatField q L i % 512 = m := by
    intro i hi hiL
    obtain ⟨m, e, b, f, n⟩ := PackUtils.quatField_spec q L i (hsmall i hi hiL)
    refine ⟨m, e, b, ?_, ?_⟩
    · rw [f]; omega
    · rw [f]; omega
  have hlt : ∀ i, i < 4 → i ≠ L → PackUtils.quatField q L i < 1024 := by
    intro i hi hiL
    obtain ⟨m, e, b, f, n⟩ := PackUtils.quatField_spec q L i (hsmall i hi hiL)
    rw [f]; omega
  have h0 := hlt (if 0 < L then 0 else 1) (by split <;> omega) (by split <;> omega)
  have h1 := hlt (if 1 < L then 1 else 2) (by split <;> omega) (by split <;> omega)
  have h2 := hlt (if 2 < L then 2 else 3) (by split <;> omega) (by split <;> omega)
  refine ⟨_, hc, ?_, ?_, ?_, ?_, ?_, hfield⟩
  · omega
  · omega
  · omega
  · omega
  · omega

/-- C28, witness: for the quaternion `(0.5, -0.5, 0.5, -0.50000006)` the last component is
dropped; the compressed value has 3 in its top 2 bits and the three fields are those of the
components 0, 1 and 2. -/
theorem C28_fields_of_compressed_quaternion_witness :
    ∃ c, PackUtils.quatcompress Sample.halves = some c ∧ c < 2 ^ 32 ∧ c / 2 ^ 30 = 3
      ∧ c / 2 ^ 20 % 1024 = PackUtils.quatField Sample.halves 3 0
      ∧ c / 2 ^ 10 % 1024 = PackUtils.quatField Sample.halves 3 1
      ∧ c % 1024 = PackUtils.quatField Sample.halves 3 2 :=
  (C28_fields_of_compressed_quaternion.2 Sample.halves 3 (by decide) (by decide)
    (by decide) (by decide) (by decide)).imp
    (fun _ h => ⟨h.1, h.2.1, h.2.2.1, h.2.2.2.1, h.2.2.2.2.1, h.2.2.2.2.2.1⟩)

/-- C28, counterexample: for the quaternion `(1, 1, 0, 0)` the component 0 is dropped and
the magnitude of the component 1 is 723, which does not fit in 9 bits: bit 9 of its field,
the place of the sign bit, is set although no component is negative. For the quaternion
`(3, 4, 0, 0)` the component 1 has the largest magnitude and the top 2 bits of the
compressed value are 3. -/
theorem C28_magnitude_overflows_its_field :
    PackUtils.quatcompress (quatOf [0x3F800000, 0x3F800000, 0, 0]) = some 0x2D300000
      ∧ 0x2D300000 / 2 ^ 30 = 0
      ∧ PackUtils.quatMag 0x3F800000 = some 723
      ∧ 0x2D300000 / 2 ^ 20 % 1024 = 723
      ∧ 0x2D300000 / 2 ^ 20 % 1024 / 512 = 1
      ∧ PackUtils.quatNegative 0x3F800000 ^^^ PackUtils.quatNegative 0x3F800000 = 0
      ∧ PackUtils.quatcompress (quatOf [0x40400000, 0x40800000, 0, 0]) = some 0xC7800000
      ∧ fabsf 0x40400000 < fabsf 0x40800000
      ∧ 0xC7800000 / 2 ^ 30 = 3 := by
  refine ⟨by decide!, by decide, by decide!, by decide, by decide, by decide!, by decide!,
    by decide, by decide⟩

/-! ### The exactness of the widening -/

theorem PackUtils.unPackFloat16_scaled (s h : Nat) (hs : s < 2) (hh : h < 31744) :
    f32Scaled (PackUtils.unPackFloat16 (32768 * s + h))
        = halfScaled (32768 * s + h) * 2 ^ 125
          + (if h % 1024 = 0 ∧ 2048 ≤ h then 1023 * 2 ^ (h / 1024 + 111) else 0)
      ∧ PackUtils.unPackFloat16 (32768 * s + h) / 2 ^ 31 = s := by
  have hsc : halfScaled (32768 * s + h) = halfScaled h := by
    have h1 : (32768 * s + h) / 2 ^ 10 % 32 = h / 2 ^ 10 % 32 := by omega
    have h2 : (32768 * s + h) % 2 ^ 10 = h % 2 ^ 10 := by omega
    simp only [halfScaled, h1, h2]
  rw [hsc]
  by_cases hsmall : h < 1024
  · have hb := allBelow_spec _ 1024 PackUtils.unPackFloat16_small h hsmall
    simp only [Bool.and_eq_true, decide_eq_true_eq] at hb
    obtain ⟨⟨hb1, hb2⟩, hb3⟩ := hb
    have hhs : halfScaled h = h := by
      have h1 : h / 2 ^ 10 % 32 = 0 := by omega
      have h2 : h % 2 ^ 10 = h := by omega
      simp only [halfScaled, h1, h2, if_true]
    have hno : ¬ (h % 1024 = 0 ∧ 2048 ≤ h) := by omega
    rw [hhs, if_neg hno, Nat.add_zero]
    have hcase : s = 0 ∨ s = 1 := by omega
    rcases hcase with h0 | h1
    · subst h0
      simp only [Nat.mul_zero, Nat.zero_add, Nat.add_zero]
      exact ⟨hb2, by omega⟩
    · subst h1
      simp only [Nat.mul_one]
      rw [hb3]
      constructor
      · have := f32Scaled_sign 1 (PackUtils.unPackFloat16 h)
        simp only [Nat.mul_one] at this
        exact this.trans hb2
      · omega
  · rw [PackUtils.unPackFloat16_normal s h hs (by omega) hh]
    constructor
    · rw [Nat.add_assoc, f32Scaled_sign]
      have hk : ∃ k, h / 1024 = k + 1 := ⟨h / 1024 - 1, by omega⟩
      obtain ⟨k, hk⟩ := hk
      have hk30 : k < 30 := by omega
      have hhs : halfScaled h = (1024 + h % 1024) * 2 ^ k := by
        have h1 : h / 2 ^ 10 % 32 = k + 1 := by omega
        have h2 : h % 2 ^ 10 = h % 1024 := by norm_num
        simp only [halfScaled, h1, h2]
        norm_num
      rw [hhs, hk]
      generalize hd : (if h % 1024 = 0 ∧ 2048 ≤ h then (0x3ff : Nat) else 0) = d
      have hd2 : (if h % 1024 = 0 ∧ 2048 ≤ h then 1023 * 2 ^ (k + 1 + 111) else 0)
          = d * 2 ^ (k + 1 + 111) := by
        rw [← hd]; split <;> simp
      have hdle : d ≤ 1023 := by rw [← hd]; split <;> omega
      rw [hd2]
      have he : (h + 0x1c000) * 8192 + d = 8388608 * (k + 113) + (h % 1024 * 8192 + d) := by
        omega
      rw [he, f32Scaled_normal (k + 113) _ (by omega) (by omega) (by omega)]
      have hp : k + 113 - 1 = k + 112 := by omega
      have hp2 : k + 1 + 111 = k + 112 := by omega
      rw [hp, hp2, pow_add]
      generalize (2 : Nat) ^ k = P
      ring
    · have : (if h % 1024 = 0 ∧ 2048 ≤ h then (0x3ff : Nat) else 0) ≤ 1023 := by
        split <;> omega
      omega

/-- C40 (amended): `unPackFloat16` widens the two infinities to the infinities, and for every
half pattern `h` that is neither an infinity nor a NaN the `float` returned has the sign bit
of `h` and a magnitude that, in units of `2^-149`, is the magnitude of `h` exactly, except
for a normal half with a zero mantissa and an exponent field of 2 or more: there the branch
marked smooth transition sets the low 10 bits of the `float` mantissa and the magnitude is
that of `h` plus `1023` units of the last place of the `float`. So `0x3C00` (1.0) is widened
to `0x3F8003FF` and `0x4000` (2.0) to `0x400003FF`. -/
theorem C40_widening_exact_off_powers_of_two :
    PackUtils.unPackFloat16 0x7C00 = 0x7F800000
      ∧ PackUtils.unPackFloat16 0xFC00 = 0xFF800000
      ∧ PackUtils.unPackFloat16 0x3C00 = 0x3F8003FF
      ∧ PackUtils.unPackFloat16 0x4000 = 0x400003FF
      ∧ ∀ h, h < 65536 → h % 32768 < 31744 →
        f32Scaled (PackUtils.unPackFloat16 h)
            = halfScaled h * 2 ^ 125
              + (if h % 1024 = 0 ∧ 2048 ≤ h % 32768 then 1023 * 2 ^ (h % 32768 / 1024 + 111)
                else 0)
          ∧ PackUtils.unPackFloat16 h / 2 ^ 31 = h / 32768 := by
  refine ⟨by decide, by decide, by decide, by decide, ?_⟩
  intro h hh hfin
  have hd : h = 32768 * (h / 32768) + h % 32768 := by omega
  have hm : h % 1024 = h % 32768 % 1024 := by omega
  have := PackUtils.unPackFloat16_scaled (h / 32768) (h % 32768) (by omega) hfin
  rw [← hd] at this
  rw [hm]
  exact this

/-- C40 (counterexample): the half `0x3C00` (1.0) is widened to the pattern `0x3F8003FF`
and the half `0x4000` (2.0) to `0x400003FF`, not to `0x3F800000` and `0x40000000`; the
magnitude of `0x3F8003FF` is not that of the half `0x3C00`, which is the magnitude of
`0x3F800000`. -/
theorem C40_one_and_two_widened_inexactly :
    PackUtils.unPackFloat16 0x3C00 ≠ 0x3F800000
      ∧ PackUtils.unPackFloat16 0x4000 ≠ 0x40000000
      ∧ f32Scaled (PackUtils.unPackFloat16 0x3C00) ≠ halfScaled 0x3C00 * 2 ^ 125
      ∧ f32Scaled 0x3F800000 = halfScaled 0x3C00 * 2 ^ 125
      ∧ f32Scaled (PackUtils.unPackFloat16 0x4000) ≠ halfScaled 0x4000 * 2 ^ 125
      ∧ f32Scaled 0x40000000 = halfScaled 0x4000 * 2 ^ 125 := by
  decide

/-- C40, witness: the half `0x3555` (about a third) is widened exactly, the half `0x0400`
(the least normal, `2^-14`) too, and the half `0xC400` (-4.0) with an excess of
`1023 * 2^128` units and its sign. -/
theorem C40_widening_exact_off_powers_of_two_witness :
    f32Scaled (PackUtils.unPackFloat16 0x3555) = halfScaled 0x3555 * 2 ^ 125 + 0
      ∧ f32Scaled (PackUtils.unPackFloat16 0x0400) = halfScaled 0x0400 * 2 ^ 125 + 0
      ∧ (f32Scaled (PackUtils.unPackFloat16 0xC400)
            = halfScaled 0xC400 * 2 ^ 125 + 1023 * 2 ^ 128
          ∧ PackUtils.unPackFloat16 0xC400 / 2 ^ 31 = 1) :=
  ⟨((C40_widening_exact_off_powers_of_two).2.2.2.2 0x3555 (by decide) (by decide)).1,
    ((C40_widening_exact_off_powers_of_two).2.2.2.2 0x0400 (by decide) (by decide)).1,
    (C40_widening_exact_off_powers_of_two).2.2.2.2 0xC400 (by decide) (by decide)⟩

/-! ### The bit fields of `quatcompress` and `quatdecompress` -/

theorem PackUtils.fieldsLoop_succ (L n comp : Nat) (f : Nat → Nat × Nat) (hn : n ≠ L) :
    PackUtils.fieldsLoop L (n + 1) comp f
      = PackUtils.fieldsLoop L n (comp >>> 10)
          (fun j => if j = n then ((comp >>> 9) &&& 0x1, comp &&& 511) else f j) := by
  rw [PackUtils.fieldsLoop, if_pos hn]

theorem PackUtils.fieldsLoop_skip (L comp : Nat) (f : Nat → Nat × Nat) :
    PackUtils.fieldsLoop L (L + 1) comp f = PackUtils.fieldsLoop L L comp f := by
  rw [PackUtils.fieldsLoop, if_neg (by simp)]

theorem PackUtils.decompressLoop_succ (L n : Nat) (st : PackUtils.QuatState) (hn : n ≠ L) :
    PackUtils.decompressLoop L (n + 1) st
      = PackUtils.decompressLoop L n
          { comp := st.comp >>> 10
            q := fun j =>
              if j = n then PackUtils.fieldValue ((st.comp >>> 9) &&& 0x1, st.comp &&& 511)
              else st.q j
            sum_squares :=
              f32Add st.sum_squares
                (f32Mul (PackUtils.fieldValue ((st.comp >>> 9) &&& 0x1, st.comp &&& 511))
                  (PackUtils.fieldValue ((st.comp >>> 9) &&& 0x1, st.comp &&& 511))) } := by
  rw [PackUtils.decompressLoop, if_pos hn]
  rfl

theorem PackUtils.decompressLoop_skip (L : Nat) (st : PackUtils.QuatState) :
    PackUtils.decompressLoop L (L + 1) st = PackUtils.decompressLoop L L st := by
  rw [PackUtils.decompressLoop, if_neg (by simp)]

theorem PackUtils.fieldsLoop_above (L : Nat) :
    ∀ n comp f j, n ≤ j → PackUtils.fieldsLoop L n comp f j = f j := by
  intro n
  induction n with
  | zero => intro comp f j _; rfl
  | succ n ih =>
    intro comp f j hj
    by_cases hn : n ≠ L
    · rw [PackUtils.fieldsLoop_succ L n comp f hn, ih _ _ j (by omega)]
      exact if_neg (by omega)
    · have hnL : n = L := not_not.mp hn
      subst hnL
      rw [PackUtils.fieldsLoop_skip]
      exact ih _ _ j (by omega)

theorem PackUtils.decompressLoop_q (L : Nat) :
    ∀ n (st : PackUtils.QuatState) f j,
      (PackUtils.decompressLoop L n st).q j
        = if j < n ∧ j ≠ L then PackUtils.fieldValue (PackUtils.fieldsLoop L n st.comp f j)
          else st.q j := by
  intro n
  induction n with
  | zero =>
    intro st f j
    rw [if_neg (by omega)]
    rfl
  | succ n ih =>
    intro st f j
    by_cases hn : n ≠ L
    · rw [PackUtils.decompressLoop_succ L n st hn, PackUtils.fieldsLoop_succ L n st.comp f hn,
        ih _ (fun j => if j = n then ((st.comp >>> 9) &&& 0x1, st.comp &&& 511) else f j) j]
      by_cases hjn : j = n
      · subst hjn
        rw [if_neg (by omega), if_pos ⟨by omega, hn⟩,
          PackUtils.fieldsLoop_above L j _ _ j (le_refl _)]
        simp only [if_true]
      · by_cases hj : j < n ∧ j ≠ L
        · rw [if_pos hj, if_pos ⟨by omega, hj.2⟩]
        · rw [if_neg hj, if_neg (by omega)]
          exact if_neg hjn
    · have hnL : n = L := not_not.mp hn
      subst hnL
      rw [PackUtils.decompressLoop_skip, PackUtils.fieldsLoop_skip, ih st f j]
      by_cases hj : j < n ∧ j ≠ n
      · rw [if_pos hj, if_pos ⟨by omega, hj.2⟩]
      · rw [if_neg hj, if_neg (by omega)]

theorem PackUtils.assembleLoop_of_compressLoop (q : Nat → Nat) (negbit mag : Nat → Nat)
    (L negate : Nat)
    (h : ∀ i, i < 4 → i ≠ L →
      PackUtils.quatMag (q i) = some (mag i)
        ∧ PackUtils.quatNegative (q i) ^^^ negate = negbit i) :
    ∀ n i comp, i + n = 4 →
      PackUtils.compressLoop q L negate n i comp
        = some (PackUtils.assembleLoop negbit mag L n i comp) := by
  intro n
  induction n with
  | zero => intro i comp _; rfl
  | succ n ih =>
    intro i comp hin
    by_cases hi : i ≠ L
    · obtain ⟨hm, hn⟩ := h i (by omega) hi
      rw [PackUtils.compressLoop_step q L negate n i comp (mag i) hi hm, hn,
        PackUtils.assembleLoop, if_pos hi]
      exact ih _ _ (by omega)
    · have hiL : i = L := not_not.mp hi
      subst hiL
      rw [PackUtils.compressLoop_skip, PackUtils.assembleLoop, if_neg hi]
      exact ih _ _ (by omega)

theorem PackUtils.assembleLoop_step (negbit mag : Nat → Nat) (L n i comp : Nat) (hi : i ≠ L)
    (hc : comp < 2 ^ 22) (hn : negbit i ≤ 1) (hm : mag i < 512) :
    PackUtils.assembleLoop negbit mag L (n + 1) i comp
      = PackUtils.assembleLoop negbit mag L n (i + 1)
          (comp * 1024 + negbit i * 512 + mag i) := by
  rw [PackUtils.assembleLoop, if_pos hi, PackUtils.compress_step comp _ _ hc hn (by omega)]

theorem PackUtils.assembleLoop_skip (negbit mag : Nat → Nat) (L n comp : Nat) :
    PackUtils.assembleLoop negbit mag L (n + 1) L comp
      = PackUtils.assembleLoop negbit mag L n (L + 1) comp := by
  rw [PackUtils.assembleLoop, if_neg (by simp)]

theorem PackUtils.assemble_eq (negbit mag : Nat → Nat) (L : Nat) (hL : L < 4)
    (hn : ∀ i, negbit i ≤ 1) (hm : ∀ i, mag i < 512) :
    PackUtils.assemble negbit mag L
      = ((L * 1024 + (negbit (if 0 < L then 0 else 1) * 512 + mag (if 0 < L then 0 else 1)))
            * 1024
          + (negbit (if 1 < L then 1 else 2) * 512 + mag (if 1 < L then 1 else 2))) * 1024
        + (negbit (if 2 < L then 2 else 3) * 512 + mag (if 2 < L then 2 else 3)) := by
  have n0 := hn 0
  have n1 := hn 1
  have n2 := hn 2
  have n3 := hn 3
  have m0 := hm 0
  have m1 := hm 1
  have m2 := hm 2
  have m3 := hm 3
  have e : PackUtils.assemble negbit mag L = PackUtils.assembleLoop negbit mag L 4 0 L := rfl
  rw [e]
  interval_cases L
  · rw [PackUtils.assembleLoop_skip negbit mag 0 3 0,
      PackUtils.assembleLoop_step negbit mag 0 2 1 _ (by decide) (by norm_num) n1 m1,
      PackUtils.assembleLoop_step negbit mag 0 1 2 _ (by decide) (by omega) n2 m2,
      PackUtils.assembleLoop_step negbit mag 0 0 3 _ (by decide) (by omega) n3 m3]
    simp only [PackUtils.assembleLoop]
    norm_num
    ring
  · rw [PackUtils.assembleLoop_step negbit mag 1 3 0 _ (by decide) (by norm_num) n0 m0,
      PackUtils.assembleLoop_skip negbit mag 1 2 _,
      PackUtils.assembleLoop_step negbit mag 1 1 2 _ (by decide) (by omega) n2 m2,
      PackUtils.assembleLoop_step negbit mag 1 0 3 _ (by decide) (by omega) n3 m3]
    simp only [PackUtils.assembleLoop]
    norm_num
    ring
  · rw [PackUtils.assembleLoop_step negbit mag 2 3 0 _ (by decide) (by norm_num) n0 m0,
      PackUtils.assembleLoop_step negbit mag 2 2 1 _ (by decide) (by omega) n1 m1,
      PackUtils.assembleLoop_skip negbit mag 2 1 _,
      PackUtils.assembleLoop_step negbit mag 2 0 3 _ (by decide) (by omega) n3 m3]
    simp only [PackUtils.assembleLoop]
    norm_num
    ring
  · rw [PackUtils.assembleLoop_step negbit mag 3 3 0 _ (by decide) (by norm_num) n0 m0,
      PackUtils.assembleLoop_step negbit mag 3 2 1 _ (by decide) (by omega) n1 m1,
      PackUtils.assembleLoop_step negbit mag 3 1 2 _ (by decide) (by omega) n2 m2,
      PackUtils.assembleLoop_skip negbit mag 3 0 _]
    simp only [PackUtils.assembleLoop]
    norm_num
    ring

theorem and_511 (x : Nat) : x &&& 511 = x % 512 := by
  have := Nat.and_pow_two_sub_one_eq_mod x 9
  norm_num at this
  exact this

theorem and_0x1 (x : Nat) : x &&& 0x1 = x % 2 :=
  Nat.and_one_is_mod x

theorem PackUtils.fields_assembled (L a b c : Nat) (hL : L < 4) (ha : a < 1024)
    (hb : b < 1024) (hc : c < 1024) :
    (((L * 1024 + a) * 1024 + b) * 1024 + c) >>> 30 = L
      ∧ PackUtils.fields (((L * 1024 + a) * 1024 + b) * 1024 + c) (if 0 < L then 0 else 1)
          = (a / 512, a % 512)
      ∧ PackUtils.fields (((L * 1024 + a) * 1024 + b) * 1024 + c) (if 1 < L then 1 else 2)
          = (b / 512, b % 512)
      ∧ PackUtils.fields (((L * 1024 + a) * 1024 + b) * 1024 + c) (if 2 < L then 2 else 3)
          = (c / 512, c % 512) := by
  have h30 : (((L * 1024 + a) * 1024 + b) * 1024 + c) >>> 30 = L := by
    rw [Nat.shiftRight_eq_div_pow]
    omega
  refine ⟨h30, ?_⟩
  unfold PackUtils.fields
  rw [h30]
  generalize hx : ((L * 1024 + a) * 1024 + b) * 1024 + c = x
  have x1 : x % 512 = c % 512 := by omega
  have x2 : x / 2 ^ 9 % 2 = c / 512 := by omega
  have x3 : x / 2 ^ 10 % 512 = b % 512 := by omega
  have x4 : x / 2 ^ 10 / 2 ^ 9 % 2 = b / 512 := by omega
  have x5 : x / 2 ^ 10 / 2 ^ 10 % 512 = a % 512 := by omega
  have x6 : x / 2 ^ 10 / 2 ^ 10 / 2 ^ 9 % 2 = a / 512 := by omega
  interval_cases L
  · rw [PackUtils.fieldsLoop_succ 0 3 _ _ (by decide), PackUtils.fieldsLoop_succ 0 2 _ _ (by decide),
      PackUtils.fieldsLoop_succ 0 1 _ _ (by decide), PackUtils.fieldsLoop_skip]
    simp only [PackUtils.fieldsLoop, and_511, and_0x1, Nat.shiftRight_eq_div_pow, x1, x2, x3,
      x4, x5, x6]
    norm_num
  · rw [PackUtils.fieldsLoop_succ 1 3 _ _ (by decide), PackUtils.fieldsLoop_succ 1 2 _ _ (by decide),
      PackUtils.fieldsLoop_skip, PackUtils.fieldsLoop_succ 1 0 _ _ (by decide)]
    simp only [PackUtils.fieldsLoop, and_511, and_0x1, Nat.shiftRight_eq_div_pow, x1, x2, x3,
      x4, x5, x6]
    norm_num
  · rw [PackUtils.fieldsLoop_succ 2 3 _ _ (by decide), PackUtils.fieldsLoop_skip,
      PackUtils.fieldsLoop_succ 2 1 _ _ (by decide), PackUtils.fieldsLoop_succ 2 0 _ _ (by decide)]
    simp only [PackUtils.fieldsLoop, and_511, and_0x1, Nat.shiftRight_eq_div_pow, x1, x2, x3,
      x4, x5, x6]
    norm_num
  · rw [PackUtils.fieldsLoop_skip, PackUtils.fieldsLoop_succ 3 2 _ _ (by decide),
      PackUtils.fieldsLoop_succ 3 1 _ _ (by decide), PackUtils.fieldsLoop_succ 3 0 _ _ (by decide)]
    simp only [PackUtils.fieldsLoop, and_511, and_0x1, Nat.shiftRight_eq_div_pow, x1, x2, x3,
      x4, x5, x6]
    norm_num

/-- C39: for every largest index `L` in 0..3 and every choice of a sign bit `negbit i` and
a magnitude `mag i < 512` for the other indices, the word that the loop of `quatcompress`
assembles from them (`L` first, then the fields in increasing index order) is a 32-bit word
from which `quatdecompress` reads the largest index `L` and, in the turn of every index `j`
other than `L`, the pair `negbit j`, `mag j`, so that `q[j]` is set to the value of that
field. The word is the one `quatcompress` returns for every quaternion whose largest
component is `L` and whose other components have these sign bits and magnitudes. -/
theorem C39_decompress_reads_the_fields_of_compress :
    ∀ (L : Nat) (negbit mag : Nat → Nat), L < 4 → (∀ i, negbit i ≤ 1) → (∀ i, mag i < 512) →
      PackUtils.assemble negbit mag L < 2 ^ 32
        ∧ PackUtils.assemble negbit mag L >>> 30 = L
        ∧ (∀ j, j < 4 → j ≠ L →
            PackUtils.fields (PackUtils.assemble negbit mag L) j = (negbit j, mag j)
              ∧ ∀ q, PackUtils.quatdecompress (PackUtils.assemble negbit mag L) q j
                  = PackUtils.fieldValue (negbit j, mag j))
        ∧ ∀ q, PackUtils.largestLoop q 3 1 0 = L →
            (∀ i, i < 4 → i ≠ L → PackUtils.quatMag (q i) = some (mag i)
              ∧ PackUtils.quatNegative (q i) ^^^ PackUtils.quatNegative (q L) = negbit i) →
            PackUtils.quatcompress q = some (PackUtils.assemble negbit mag L) := by
  intro L negbit mag hL hn hm
  have hfield : ∀ i, negbit i * 512 + mag i < 1024 := by
    intro i
    have := hn i
    have := hm i
    omega
  have hdiv : ∀ i, ((negbit i * 512 + mag i) / 512, (negbit i * 512 + mag i) % 512)
      = (negbit i, mag i) := by
    intro i
    have := hn i
    have := hm i
    have h1 : (negbit i * 512 + mag i) / 512 = negbit i := by omega
    have h2 : (negbit i * 512 + mag i) % 512 = mag i := by omega
    rw [h1, h2]
  have heq := PackUtils.assemble_eq negbit mag L hL hn hm
  obtain ⟨h30, f0, f1, f2⟩ := PackUtils.fields_assembled L _ _ _ hL
    (hfield (if 0 < L then 0 else 1)) (hfield (if 1 < L then 1 else 2))
    (hfield (if 2 < L then 2 else 3))
  rw [← heq] at h30 f0 f1 f2
  rw [hdiv] at f0 f1 f2
  have hfields : ∀ j, j < 4 → j ≠ L →
      PackUtils.fields (PackUtils.assemble negbit mag L) j = (negbit j, mag j) := by
    intro j hj hjL
    interval_cases L <;> interval_cases j <;> first
      | exact absurd rfl hjL
      | exact f0
      | exact f1
      | exact f2
  refine ⟨?_, h30, ?_, ?_⟩
  · rw [heq]
    have := hfield (if 0 < L then 0 else 1)
    have := hfield (if 1 < L then 1 else 2)
    have := hfield (if 2 < L then 2 else 3)
    omega
  · intro j hj hjL
    refine ⟨hfields j hj hjL, ?_⟩
    intro q
    unfold PackUtils.quatdecompress
    rw [h30, if_neg hjL, PackUtils.decompressLoop_q L 4 _ (fun _ => (0, 0)) j,
      if_pos ⟨hj, hjL⟩]
    have := hfields j hj hjL
    unfold PackUtils.fields at this
    rw [h30] at this
    rw [this]
  · intro q hlargest hq
    unfold PackUtils.quatcompress
    simp only
    rw [hlargest]
    exact PackUtils.assembleLoop_of_compressLoop q negbit mag L _ hq 4 0 L rfl

/-- C39, witness: with the largest index 3, the sign bits `1, 0, 1` and the magnitudes
`7, 107, 207` of the components 0, 1 and 2, the word assembled is `0xE071AECF`; its top two
bits are 3 and the field read for the component 1 is the pair `0, 107`. -/
theorem C39_decompress_reads_the_fields_of_compress_witness :
    PackUtils.assemble (fun i => (i + 1) % 2) (fun i => (100 * i + 7) % 512) 3 = 0xE071AECF
      ∧ PackUtils.assemble (fun i => (i + 1) % 2) (fun i => (100 * i + 7) % 512) 3 >>> 30 = 3
      ∧ PackUtils.fields
          (PackUtils.assemble (fun i => (i + 1) % 2) (fun i => (100 * i + 7) % 512) 3) 1
        = (0, 107) :=
  ⟨by decide,
    (C39_decompress_reads_the_fields_of_compress 3 (fun i => (i + 1) % 2)
      (fun i => (100 * i + 7) % 512) (by decide) (fun i => by show (i + 1) % 2 ≤ 1; omega)
      (fun i => by show (100 * i + 7) % 512 < 512; omega)).2.1,
    ((C39_decompress_reads_the_fields_of_compress 3 (fun i => (i + 1) % 2)
      (fun i => (100 * i + 7) % 512) (by decide) (fun i => by show (i + 1) % 2 ≤ 1; omega)
      (fun i => by show (100 * i + 7) % 512 < 512; omega)).2.2.1 1 (by decide) (by decide)).1⟩

/-! ### The dispatch of TOC replies under protocol V1 -/

theorem cfLog.onToc_none_expected (pk : Packet) (command : Nat) :
    ∀ n k (s : cfLog), (∀ f, f ∈ s.tocfetcherCallbacks → f.expectedReply ≠ command) →
      cfLog.onToc pk command n k s = .ok s := by
  intro n
  induction n with
  | zero => intro k s _; rfl
  | succ n ih =>
    intro k s h
    rw [cfLog.onToc]
    cases hk : s.tocfetcherCallbacks.get? k with
    | none => rfl
    | some tfetch =>
      have hmem : tfetch ∈ s.tocfetcherCallbacks := List.get?_mem hk
      have hne : (tfetch.expectedReply == command) = false := by
        rw [beq_eq_false_iff_ne]
        exact h tfetch hmem
      simp only [hne, Bool.false_eq_true, if_false]
      exact ih (k + 1) s h

/-- C35 (failing input): under protocol V1 `request_toc_element` sends `[TOC_ELEMENT, id]`
and sets `expectedReply` to `CMD_TOC_INFO` (1). So on an engine whose fetchers are all in
that state, every packet of the port `LOGGING` and the channel 0 whose command byte is
`TOC_ELEMENT` (0) leaves the engine as it is when it goes through `cfLog::_new_packet_cb`:
the fetcher is not called, the element is not stored and no request follows. For the sample
engine of protocol version 3 the info reply `n = 3` is followed by the request `[0, 0]`; the
reply for the element 0 then changes nothing when dispatched, although the fetcher handed
the same packet directly stores `g.v0` and requests the element 1. -/
theorem C35_v1_element_reply_not_dispatched :
    (∀ (f : TocFetcher) (pc : PortConnect) (elemDex : Nat), f._useV2 = false →
        (f.request_toc_element pc elemDex).1.expectedReply = CMD_TOC_INFO)
      ∧ (∀ (s : cfLog) (pk : Packet),
        (∀ f, f ∈ s.tocfetcherCallbacks → f.expectedReply = CMD_TOC_INFO) →
        pk.port = LOGGING → pk.channel = TOC_CHANNEL →
        PackUtils.peek pk.payload 0 = CMD_TOC_ELEMENT →
        s._new_packet_cb pk = .ok s)
      ∧ Sample.fetchView (.ok Sample.awaitingElementV1)
          = some ([(5, 0, [1]), (5, 0, [0, 0])], false, 0, [], [])
      ∧ Sample.awaitingElementV1.tocfetcherCallbacks.map
            (fun f => (f._useV2, f.state, f.requested_index, f.nbr_of_items, f.expectedReply))
          = [(false, TocFetcher.GET_TOC_ELEMENT, 0, 3, CMD_TOC_INFO)]
      ∧ Sample.awaitingElementV1._new_packet_cb (Sample.elementReplyV1 0)
          = .ok Sample.awaitingElementV1
      ∧ Sample.fetchView
            (TocFetcher._new_packet_cb Sample.awaitingElementV1 0 (Sample.elementReplyV1 0))
          = some ([(5, 0, [1]), (5, 0, [0, 0]), (5, 0, [0, 1])], false, 0,
              [(['g'], ['v', '0'], 0)], []) := by
  have hgen : ∀ (s : cfLog) (pk : Packet),
      (∀ f, f ∈ s.tocfetcherCallbacks → f.expectedReply = CMD_TOC_INFO) →
      pk.port = LOGGING → pk.channel = TOC_CHANNEL →
      PackUtils.peek pk.payload 0 = CMD_TOC_ELEMENT →
      s._new_packet_cb pk = .ok s := ?_
  refine ⟨?_, hgen, rfl, rfl, ?_, rfl⟩
  · intro f pc elemDex hv
    simp only [TocFetcher.request_toc_element, hv, Bool.false_eq_true, if_false]
  · apply hgen Sample.awaitingElementV1 (Sample.elementReplyV1 0) _ rfl rfl rfl
    have hall : Sample.awaitingElementV1.tocfetcherCallbacks.all
        (fun f => f.expectedReply == CMD_TOC_INFO) = true := rfl
    intro f hf
    exact beq_iff_eq.mp (List.all_eq_true.mp hall f hf)
  · intro s pk hall hport hch hcmd
    unfold cfLog._new_packet_cb
    split
    · have h1 : (pk.port == LOGGING) = true := by rw [hport]; decide
      have h2 : (pk.channel == CHAN_SETTINGS) = false := by rw [hch]; decide
      have h3 : (pk.channel == CHAN_LOGDATA) = false := by rw [hch]; decide
      have h4 : (pk.channel == TOC_CHANNEL) = true := by rw [hch]; decide
      simp only [h1, h2, h3, h4, if_true, Bool.false_eq_true, if_false]
      apply cfLog.onToc_none_expected
      intro f hf
      rw [hall f hf, hcmd]
      decide
    · rfl

/-- C35, witness: the fetcher of the sample engine of protocol version 3 expects the command
`CMD_TOC_INFO` after its request for the element 0, and the engine ignores the reply for the
element 0. -/
theorem C35_v1_element_reply_not_dispatched_witness :
    ((TocFetcher.init Sample.awaitingInfoV1 LOGGING).request_toc_element Sample.linkV1
          0).1.expectedReply = CMD_TOC_INFO
      ∧ Sample.awaitingElementV1._new_packet_cb (Sample.elementReplyV1 0)
          = .ok Sample.awaitingElementV1 :=
  ⟨C35_v1_element_reply_not_dispatched.1 (TocFetcher.init Sample.awaitingInfoV1 LOGGING)
      Sample.linkV1 0 rfl,
    C35_v1_element_reply_not_dispatched.2.2.2.2.1⟩

/-! ### The CRC of the TOC in memory -/

theorem LogToc.add_element_crc (toc : LogToc) (e : LogTocElement) :
    (toc.add_element e).crc = toc.crc := by
  unfold LogToc.add_element
  split
  · split <;> rfl
  · rfl

theorem LogToc.readContentTag_crc (input : Str) (toc : LogToc) (r : Str × LogToc)
    (h : LogToc.readContentTag input toc = .ok r) : r.2.crc = toc.crc := by
  unfold LogToc.readContentTag at h
  simp only at h
  split at h
  · split at h
    · split at h
      · exact absurd h (by simp)
      · injection h with h
        rw [← h]
    · injection h with h
      rw [← h]
  · injection h with h
    rw [← h]

theorem LogToc.readContentTags_crc :
    ∀ fuel (input : Str) (toc toc1 : LogToc),
      LogToc.readContentTags fuel input toc = .ok toc1 → toc1.crc = toc.crc := by
  intro fuel
  induction fuel with
  | zero =>
    intro input toc toc1 h
    exact absurd h (by simp [LogToc.readContentTags])
  | succ fuel ih =>
    intro input toc toc1 h
    rw [LogToc.readContentTags] at h
    split at h
    · injection h with h
      rw [← h]
    · split at h
      · exact absurd h (by simp)
      · rename_i r hr
        split at h
        · rw [ih _ _ _ h]
          exact LogToc.readContentTag_crc input toc r hr
        · exact absurd h (by simp)

theorem LogToc.read_crc (toc : LogToc) (cache : Option (List (Nat × Str))) (crc : Nat)
    (r : Bool × LogToc) (h : toc.read cache crc = .ok r) : r.2.crc = toc.crc := by
  unfold LogToc.read at h
  split at h
  · split at h
    · split at h
      · exact absurd h (by simp)
      · rename_i toc1 h1
        injection h with h
        rw [← h]
        exact LogToc.readContentTags_crc _ _ _ _ h1
    · injection h with h
      rw [← h]
  · injection h with h
    rw [← h]

theorem cfLog.withPort_toc (s s1 : cfLog) (g : PortConnect → PortConnect)
    (h : s.withPort g = .ok s1) : s1.toc = s.toc := by
  unfold cfLog.withPort at h
  split at h
  · exact absurd h (by simp)
  · injection h with h
    rw [← h]

theorem TocFetcher.lookupToc_crc (f : TocFetcher) (s : cfLog) (r : Bool × cfLog)
    (h : f.lookupToc s = .ok r) : r.2.toc.crc = s.toc.crc := by
  unfold TocFetcher.lookupToc at h
  split at h
  · split at h
    · rename_i s1 h1
      injection h with h
      rw [← h]
      simp only
      rw [cfLog.withPort_toc _ _ _ h1]
    · exact absurd h (by simp)
  · split at h
    · split at h
      · exact absurd h (by simp)
      · rename_i r1 h1
        have hc := LogToc.read_crc _ _ _ _ h1
        simp only at h
        split at h
        · split at h
          · rename_i s2 h2
            injection h with h
            rw [← h]
            simp only
            rw [cfLog.withPort_toc _ _ _ h2]
            exact hc
          · exact absurd h (by simp)
        · injection h with h
          rw [← h]
          exact hc
    · injection h with h
      rw [← h]

theorem TocFetcher.onTocInfo_crc (f : TocFetcher) (s : cfLog) (pk : Packet)
    (r : TocFetcher × cfLog) (h : f.onTocInfo s pk = .ok r) : r.2.toc.crc = s.toc.crc := by
  unfold TocFetcher.onTocInfo at h
  simp only at h
  split at h
  · exact absurd h (by simp)
  · rename_i r1 h1
    have hc := TocFetcher.lookupToc_crc _ _ _ h1
    split at h
    · injection h with h
      rw [← h]
      exact hc
    · split at h
      · split at h
        · exact absurd h (by simp)
        · injection h with h
          rw [← h]
          exact hc
      · injection h with h
        rw [← h]
        exact hc

theorem TocFetcher.onTocElement_crc (f : TocFetcher) (s : cfLog) (pk : Packet)
    (r : TocFetcher × cfLog) (h : f.onTocElement s pk = .ok r) : r.2.toc.crc = s.toc.crc := by
  unfold TocFetcher.onTocElement at h
  by_cases hv : f._useV2 = true
  · simp only [hv, if_true] at h
    split at h
    · split at h
      · exact absurd h (by simp)
      · rename_i s2 h2
        have hc : s2.toc.crc = s.toc.crc := by
          split at h2
          · rw [cfLog.withPort_toc _ _ _ h2]
            exact LogToc.add_element_crc _ _
          · rw [← Except.ok.inj h2]
            exact LogToc.add_element_crc _ _
        split at h
        · split at h
          · exact absurd h (by simp)
          · injection h with h
            rw [← h]
            exact hc
        · injection h with h
          rw [← h]
          exact hc
    · injection h with h
      rw [← h]
  · simp only [hv, Bool.false_eq_true, if_false] at h
    split at h
    · split at h
      · exact absurd h (by simp)
      · rename_i s2 h2
        have hc : s2.toc.crc = s.toc.crc := by
          split at h2
          · rw [cfLog.withPort_toc _ _ _ h2]
            exact LogToc.add_element_crc _ _
          · rw [← Except.ok.inj h2]
            exact LogToc.add_element_crc _ _
        split at h
        · split at h
          · exact absurd h (by simp)
          · injection h with h
            rw [← h]
            exact hc
        · injection h with h
          rw [← h]
          exact hc
    · injection h with h
      rw [← h]

theorem TocFetcher.new_packet_cb_crc (s s1 : cfLog) (k : Nat) (pk : Packet)
    (h : TocFetcher._new_packet_cb s k pk = .ok s1) : s1.toc.crc = s.toc.crc := by
  unfold TocFetcher._new_packet_cb at h
  split at h
  · exact absurd h (by simp)
  · split at h
    · split at h
      · split at h
        · rename_i r hr
          injection h with h
          rw [← h]
          exact TocFetcher.onTocInfo_crc _ _ _ _ hr
        · exact absurd h (by simp)
      · split at h
        · split at h
          · rename_i r hr
            injection h with h
            rw [← h]
            exact TocFetcher.onTocElement_crc _ _ _ _ hr
          · exact absurd h (by simp)
        · injection h with h
          rw [← h]
    · injection h with h
      rw [← h]

theorem TocFetcher.deliver_crc (k : Nat) :
    ∀ (pks : List Packet) (s s1 : cfLog),
      TocFetcher.deliver k s pks = .ok s1 → s1.toc.crc = s.toc.crc := by
  intro pks
  induction pks with
  | nil =>
    intro s s1 h
    rw [← Except.ok.inj h]
  | cons pk pks ih =>
    intro s s1 h
    rw [TocFetcher.deliver] at h
    split at h
    · exact absurd h (by simp)
    · rename_i s2 h2
      rw [ih s2 s1 h, TocFetcher.new_packet_cb_crc s s2 k pk h2]

set_option maxRecDepth 100000 in
/-- C37 (failing input): no call of the fetcher changes the `crc` field of the TOC in
memory, whatever packets it is handed, so the field keeps the 0 of the constructor. The
sample engine completes the download of a TOC of one element reported with the CRC
`0xDEADBEEF`: the cache file is written and the owner notified, and the `crc` field is 0.
A fetcher started afterwards that receives the info reply with the same CRC does not find
it in memory: it reads the cache file, which adds the element `g.v0` to the TOC a second
time, or, when the cache directory cannot be used, requests the element 0 again. The same
holds when the first fetcher completes by loading the cache file. -/
theorem C37_crc_of_toc_never_set :
    (∀ (k : Nat) (pks : List Packet) (s s1 : cfLog),
        TocFetcher.deliver k s pks = .ok s1 → s1.toc.crc = s.toc.crc)
      ∧ Sample.fetchView (.ok Sample.downloaded)
          = some ([(5, 0, [3]), (5, 0, [2, 0, 0])], true, 1, [(['g'], ['v', '0'], 0)],
              [0xDEADBEEF])
      ∧ Sample.downloaded.toc.crc = 0
      ∧ Sample.fetchView
            (TocFetcher._new_packet_cb (Sample.restarted Sample.downloaded) 1
              (Sample.infoReply 1 0xDEADBEEF))
          = some ([(5, 0, [3]), (5, 0, [2, 0, 0]), (5, 0, [3])], true, 2,
              [(['g'], ['v', '0'], 0), (['g'], ['v', '0'], 0)], [0xDEADBEEF])
      ∧ Sample.fetchView
            (TocFetcher._new_packet_cb
              (Sample.restarted { Sample.downloaded with tocCache := none }) 1
              (Sample.infoReply 1 0xDEADBEEF))
          = some ([(5, 0, [3]), (5, 0, [2, 0, 0]), (5, 0, [3]), (5, 0, [2, 0, 0])], true, 1,
              [(['g'], ['v', '0'], 0)], [])
      ∧ (TocFetcher._new_packet_cb
            (Sample.awaitingInfo [(0xDEADBEEF, (Sample.toc 1 7).writeText)]) 0
            (Sample.infoReply 1 0xDEADBEEF)).toOption.map
          (fun s => (s.resetComplete, s.toc.crc, s.toc.allElements.length))
          = some (true, 0, 1) := by
  refine ⟨fun k pks s s1 h => TocFetcher.deliver_crc k pks s s1 h, rfl, rfl, rfl, rfl, rfl⟩

/-- C37, witness: the `crc` field of the sample engine after the complete download is the
one of the engine before the info reply. -/
theorem C37_crc_of_toc_never_set_witness :
    Sample.downloaded.toc.crc = (Sample.awaitingInfo []).toc.crc :=
  C37_crc_of_toc_never_set.1 0 [Sample.infoReply 1 0xDEADBEEF, Sample.elementReply 0]
    (Sample.awaitingInfo []) Sample.downloaded rfl

/-! ### The fetch kinds of an accepted block -/

set_option maxRecDepth 100000 in
/-- C38 (failing input): `LogVariable::set` reads `types[fetch_as]` outside the table
exactly when `fetch_as` is 8 or more. A block whose only variable is a default-constructed
`LogVariable` (fetch kind `tdNone`) added with `add_memory` is accepted by `add_config` with
`fetch_as = 255`, and so is a block with a variable of unspecified kind named after the TOC
element of identifier 9, with `fetch_as = 9`: the data packet for the block then reads
`types[255]` or `types[9]`. A variable added with the kind `tdFloat32` keeps the kind 7 and
the data packet is unpacked. -/
theorem C38_accepted_block_with_kind_outside_table :
    (∀ (var : LogVariable) (buffer : PackUtils.Buffer) (time : Nat),
        var.set buffer time = .error .outOfBounds ↔ 8 ≤ var.fetch_as)
      ∧ Sample.kindsAndData
          ((Sample.engine LogToc.empty).add_config
            ((LogConfig.init ['b'] 100).add_memory LogVariable.default))
        = some (true, [(255, LogVariable.MEM_TYPE)], some .outOfBounds)
      ∧ Sample.kindsAndData
          ((Sample.engine (Sample.toc 10 tdUint8)).add_config
            ((LogConfig.init ['b'] 100).add_variable (Sample.tocVariable 9 tdNone)))
        = some (true, [(9, LogVariable.TOC_TYPE)], some .outOfBounds)
      ∧ Sample.kindsAndData
          ((Sample.engine (Sample.toc 10 tdUint8)).add_config
            ((LogConfig.init ['b'] 100).add_variable (Sample.tocVariable 9 tdFloat32)))
        = some (true, [(7, LogVariable.TOC_TYPE)], none) := by
  refine ⟨?_, by decide, by decide, by decide⟩
  intro var buffer time
  unfold LogVariable.set
  constructor
  · intro h
    by_contra hlt
    have hlt8 : var.fetch_as < 8 := by omega
    have hsome : ∃ t, types.get? var.fetch_as = some t := by
      have : var.fetch_as < types.length := by simpa [types] using hlt8
      exact ⟨_, List.get?_eq_get this⟩
    obtain ⟨t, ht⟩ := hsome
    rw [ht] at h
    exact absurd h (by simp)
  · intro h
    have : types.get? var.fetch_as = none := by
      apply List.get?_eq_none.mpr
      simpa [types] using h
    rw [this]

/-! ### The value fetched as an integer -/

theorem LogVariable.fetchInt_toc (v : LogVariable) (cell : Nat) (ht : v._type = 0) :
    (v.withCell cell).fetchInt = some (((cell % 256 : Nat) : Int), cell / 2 ^ 32 % 2 ^ 32) := by
  simp [LogVariable.fetchInt, LogVariable.withCell, ht, tdUint8, PackUtils.peek,
    PackUtils.byteOf]

theorem LogVariable.fetchInt_mem (v : LogVariable) (cell : Nat) (ht : v._type = 1) :
    (v.withCell cell).fetchInt
      = some (((cell % 65536 : Nat) : Int), cell / 2 ^ 32 % 2 ^ 32) := by
  simp [LogVariable.fetchInt, LogVariable.withCell, ht, tdUint8, tdUint16, PackUtils.peek,
    PackUtils.byteOf, PackUtils.unpack_uint16]
  omega

/-- C34 (failing input): `fetchInt` switches on the member `_type`, which tells a TOC
variable (0) from a memory variable (1), not on `fetch_as`. So after `set` on the bytes of a
value with the time `t`, a TOC variable of any of the eight fetch kinds returns the first
byte, unsigned, and a memory variable returns the first two bytes of the cell as an
unsigned 16-bit value, both with the time `t`. For the `int16_t` cell holding `0xFE 0xFF`
(-2) the result is 254 for a TOC variable and 65534 for a memory variable; for the
`uint32_t` cell holding 70000 it is 112 and 4464. -/
theorem C34_fetchInt_switches_on_type :
    (∀ (v : LogVariable) (buffer : PackUtils.Buffer) (t : Nat), v.fetch_as < 8 →
        ∃ v1 n, v.set buffer t = .ok (v1, n)
          ∧ (v._type = LogVariable.TOC_TYPE →
            v1.fetchInt = some (((PackUtils.peek buffer 0 : Nat) : Int), t % 2 ^ 32))
          ∧ (v._type = LogVariable.MEM_TYPE →
            v1.fetchInt
              = some (((leValue (PackUtils.peek buffer) 0 (min v.wireSize 2) : Nat) : Int),
                  t % 2 ^ 32)))
      ∧ (Sample.cellFrom (Sample.tocVariable 0 tdInt16) [0xFE, 0xFF] 5).fetchInt
          = some (254, 5)
      ∧ PackUtils.int16OfBits (0xFE + 256 * 0xFF) = -2
      ∧ (Sample.cellFrom (Sample.tocVariable 0 tdUint32) [0x70, 0x11, 0x01, 0x00] 5).fetchInt
          = some (112, 5)
      ∧ 0x70 + 256 * 0x11 + 65536 * 0x01 = 70000
      ∧ (Sample.cellFrom { Sample.memVariable tdInt16 with _type := LogVariable.MEM_TYPE }
            [0xFE, 0xFF] 5).fetchInt = some (65534, 5)
      ∧ (Sample.cellFrom { Sample.memVariable tdUint32 with _type := LogVariable.MEM_TYPE }
            [0x70, 0x11, 0x01, 0x00] 5).fetchInt = some (4464, 5)
      ∧ (Sample.cellFrom (Sample.tocVariable 0 tdUint8) [200] 5).fetchInt
          = some (200, 5) := by
  refine ⟨?_, by decide, by decide, by decide, by decide, by decide, by decide, by decide⟩
  intro v buffer t h
  refine ⟨_, _, LogVariable.set_ok v buffer t h, ?_, ?_⟩
  · intro ht
    have := LogVariable.fetchInt_toc v
      (leValue (PackUtils.peek buffer) 0 v.wireSize + 4294967296 * (t % 4294967296)) ht
    rw [LogVariable.withCell] at this
    rw [this]
    obtain ⟨name, address, fetch_as, ty, ctype, value⟩ := v
    simp only at h
    have hb : PackUtils.peek buffer 0 < 256 := Nat.mod_lt _ (by norm_num)
    have hb1 : PackUtils.peek buffer 1 < 256 := Nat.mod_lt _ (by norm_num)
    have hb2 : PackUtils.peek buffer 2 < 256 := Nat.mod_lt _ (by norm_num)
    have hb3 : PackUtils.peek buffer 3 < 256 := Nat.mod_lt _ (by norm_num)
    interval_cases fetch_as <;>
      simp [LogVariable.wireSize, LogTocElement.get_size_from_id, types, gTypesSize, leValue]
        <;> omega
  · intro ht
    have := LogVariable.fetchInt_mem v
      (leValue (PackUtils.peek buffer) 0 v.wireSize + 4294967296 * (t % 4294967296)) ht
    rw [LogVariable.withCell] at this
    rw [this]
    obtain ⟨name, address, fetch_as, ty, ctype, value⟩ := v
    simp only at h
    have hb : PackUtils.peek buffer 0 < 256 := Nat.mod_lt _ (by norm_num)
    have hb1 : PackUtils.peek buffer 1 < 256 := Nat.mod_lt _ (by norm_num)
    have hb2 : PackUtils.peek buffer 2 < 256 := Nat.mod_lt _ (by norm_num)
    have hb3 : PackUtils.peek buffer 3 < 256 := Nat.mod_lt _ (by norm_num)
    interval_cases fetch_as <;>
      simp [LogVariable.wireSize, LogTocElement.get_size_from_id, types, gTypesSize, leValue]
        <;> omega

/-- C34, witness: a TOC variable of kind `int32_t` set from the bytes of -2 with the time 7
returns 254 and 7. -/
theorem C34_fetchInt_switches_on_type_witness :
    ∃ v1 n, (Sample.tocVariable 0 tdInt32).set (fun _ => 0xFE) 7 = .ok (v1, n)
      ∧ v1.fetchInt = some (254, 7) := by
  obtain ⟨v1, n, h1, h2, -⟩ :=
    C34_fetchInt_switches_on_type.1 (Sample.tocVariable 0 tdInt32) (fun _ => 0xFE) 7
      (by decide)
  exact ⟨v1, n, h1, h2 rfl⟩

/-! ### The packet accounting of the dispatcher -/

theorem PortConnect.Accounting.passes_before (before : List Bool) :
    ∀ (a : PortConnect.Accounting), a.packetCount + before.count true < 2 ^ 31 →
      a.passes before = some { a with packetCount := a.packetCount + before.count true } := by
  induction before with
  | nil => intro a _; rfl
  | cons r rs ih =>
    intro a h
    cases r with
    | false =>
      simp only [List.count_cons, Bool.false_eq_true, beq_iff_eq, if_false, Nat.add_zero] at h ⊢
      have hp : a.pass false false = some a := rfl
      rw [PortConnect.Accounting.passes, hp, Option.some_bind]
      exact ih a h
    | true =>
      simp only [List.count_cons, beq_self_eq_true, if_true] at h ⊢
      have hlt : a.packetCount + 1 < 2 ^ 31 := by omega
      have hp : a.pass true false = some { a with packetCount := a.packetCount + 1 } := by
        simp only [PortConnect.Accounting.pass, if_true, hlt, Option.some_bind,
          Bool.false_eq_true, if_false]
      rw [PortConnect.Accounting.passes, hp, Option.some_bind,
        ih { a with packetCount := a.packetCount + 1 } (by simp only; omega)]
      simp only [Option.some.injEq, PortConnect.Accounting.mk.injEq, and_true]
      omega

theorem PortConnect.Accounting.tick_spec (a : PortConnect.Accounting) (p : PortConnect.Tick)
    (h0 : a.packetCount = 0) (hp : PortConnect.seen p < 2 ^ 31)
    (hn : a.noPacketCount + 1 < 2 ^ 31) :
    a.tick p = some
      { packetCount := 0
        noPacketCount := if PortConnect.seen p < 2 then a.noPacketCount + 1 else 0
        timedOut := decide
          ((if PortConnect.seen p < 2 then a.noPacketCount + 1 else 0) ≥ 3) } := by
  obtain ⟨before, last⟩ := p
  have hseen : PortConnect.seen (before, last)
      = before.count true + (if last = true then 1 else 0) := by
    simp only [PortConnect.seen, List.count_append, List.count_cons, List.count_nil,
      Nat.zero_add]
    cases last <;> simp
  rw [hseen] at hp ⊢
  unfold PortConnect.Accounting.tick
  rw [PortConnect.Accounting.passes_before before a (by rw [h0]; omega)]
  simp only [Option.some_bind, h0, Nat.zero_add]
  have hn1 : a.noPacketCount + 1 < 2147483648 := by norm_num at hn; omega
  cases last with
  | false =>
    simp only [Bool.false_eq_true, if_false, Nat.add_zero] at hp ⊢
    by_cases hc : before.count true < 2
    · simp [PortConnect.Accounting.pass, hc, hn1, PortConnect.packetTimoutSec]
    · simp [PortConnect.Accounting.pass, hc, PortConnect.packetTimoutSec]
  | true =>
    simp only [if_true] at hp ⊢
    have h1 : before.count true + 1 < 2147483648 := by norm_num at hp; omega
    by_cases hc : before.count true + 1 < 2
    · simp [PortConnect.Accounting.pass, hc, hn1, h1, PortConnect.packetTimoutSec]
    · simp [PortConnect.Accounting.pass, hc, h1, PortConnect.packetTimoutSec]

theorem PortConnect.Accounting.run_spec :
    ∀ (ps : List PortConnect.Tick) (a : PortConnect.Accounting), a.packetCount = 0 →
      a.timedOut = decide (a.noPacketCount ≥ 3) →
      a.noPacketCount + ps.length < 2 ^ 31 → (∀ p ∈ ps, PortConnect.seen p < 2 ^ 31) →
      ∃ a1, a.run ps = some a1 ∧ a1.packetCount = 0
        ∧ a1.noPacketCount = PortConnect.lowTicks a.noPacketCount ps
        ∧ a1.timedOut = decide (a1.noPacketCount ≥ 3) := by
  intro ps
  induction ps with
  | nil =>
    intro a h0 ht _ _
    exact ⟨a, rfl, h0, rfl, ht⟩
  | cons p ps ih =>
    intro a h0 ht hlen hseen
    simp only [List.length_cons] at hlen
    have htick := PortConnect.Accounting.tick_spec a p h0
      (hseen p (List.mem_cons_self _ _)) (by omega)
    have hle : (if PortConnect.seen p < 2 then a.noPacketCount + 1 else 0)
        ≤ a.noPacketCount + 1 := by
      split <;> omega
    obtain ⟨a1, h1, h2, h3, h4⟩ := ih
      { packetCount := 0
        noPacketCount := if PortConnect.seen p < 2 then a.noPacketCount + 1 else 0
        timedOut := decide
          ((if PortConnect.seen p < 2 then a.noPacketCount + 1 else 0) ≥ 3) }
      rfl rfl (by simp only; omega)
      (fun q hq => hseen q (List.mem_cons_of_mem _ hq))
    refine ⟨a1, ?_, h2, ?_, h4⟩
    · rw [PortConnect.Accounting.run, htick, Option.some_bind]
      exact h1
    · rw [h3]
      rfl

theorem PortConnect.lowTicks_snoc (n : Nat) (ps : List PortConnect.Tick)
    (p : PortConnect.Tick) :
    PortConnect.lowTicks n (ps ++ [p])
      = if PortConnect.seen p < 2 then PortConnect.lowTicks n ps + 1 else 0 := by
  simp only [PortConnect.lowTicks, List.foldl_append, List.foldl_cons, List.foldl_nil]

theorem PortConnect.lowTicks_three (r : List PortConnect.Tick) :
    3 ≤ PortConnect.lowTicks 0 r.reverse
      ↔ 3 ≤ r.length ∧ ∀ q ∈ r.take 3, PortConnect.seen q < 2 := by
  match r with
  | [] => simp [PortConnect.lowTicks]
  | [p1] =>
    simp only [List.reverse_cons, List.reverse_nil, List.nil_append, List.length_singleton]
    have := PortConnect.lowTicks_snoc 0 [] p1
    simp only [List.nil_append] at this
    rw [this]
    have h0 : PortConnect.lowTicks 0 [] = 0 := rfl
    rw [h0]
    constructor
    · intro h; split at h <;> omega
    · intro h; omega
  | [p1, p2] =>
    simp only [List.reverse_cons, List.reverse_nil, List.nil_append, List.length_cons,
      List.length_nil]
    rw [PortConnect.lowTicks_snoc]
    have := PortConnect.lowTicks_snoc 0 [] p2
    simp only [List.nil_append] at this
    rw [this]
    have h0 : PortConnect.lowTicks 0 [] = 0 := rfl
    rw [h0]
    constructor
    · intro h; split at h <;> (try split at h) <;> omega
    · intro h; omega
  | p1 :: p2 :: p3 :: r1 =>
    simp only [List.reverse_cons, List.length_cons, List.take_succ_cons, List.take_zero,
      List.mem_cons, List.mem_nil_iff, or_false, forall_eq_or_imp, forall_eq]
    rw [PortConnect.lowTicks_snoc, PortConnect.lowTicks_snoc, PortConnect.lowTicks_snoc]
    constructor
    · intro h
      refine ⟨by omega, ?_, ?_, ?_⟩
      · by_contra hc; rw [if_neg hc] at h; omega
      · by_contra hc
        rw [if_neg hc] at h
        split at h <;> omega
      · by_contra hc
        rw [if_neg hc] at h
        split at h <;> (try split at h) <;> omega
    · rintro ⟨-, h1, h2, h3⟩
      rw [if_pos h1, if_pos h2, if_pos h3]
      omega

/-- C33: for every sequence of ticks of the dispatcher, fewer than `2^31` of them with
fewer than `2^31` packets each (the range of the `int32_t` counters), the accounting returns
and after the last tick `noPacketCount` is the number of ticks at the end of the sequence
that saw fewer than 2 packets each, and `timedOut` is true if and only if there were at
least three ticks and the last three saw fewer than 2 packets each; after a tick that saw 2
packets or more `noPacketCount` is 0 and `timedOut` is false. -/
theorem C33_timed_out_iff_three_low_ticks :
    ∀ (ticks : List PortConnect.Tick), ticks.length < 2 ^ 31 →
      (∀ p ∈ ticks, PortConnect.seen p < 2 ^ 31) →
      ∃ a, PortConnect.Accounting.start.run ticks = some a
        ∧ a.noPacketCount = PortConnect.lowTicks 0 ticks
        ∧ (a.timedOut = true
          ↔ 3 ≤ ticks.length ∧ ∀ q ∈ ticks.reverse.take 3, PortConnect.seen q < 2)
        ∧ ∀ ps p, ticks = ps ++ [p] → 2 ≤ PortConnect.seen p →
            a.noPacketCount = 0 ∧ a.timedOut = false := by
  intro ticks hlen hseen
  obtain ⟨a, h1, -, h3, h4⟩ := PortConnect.Accounting.run_spec ticks
    PortConnect.Accounting.start rfl rfl (by simpa [PortConnect.Accounting.start] using hlen)
    hseen
  have h3a : a.noPacketCount = PortConnect.lowTicks 0 ticks := h3
  refine ⟨a, h1, h3a, ?_, ?_⟩
  · rw [h4, decide_eq_true_eq, h3a]
    have := PortConnect.lowTicks_three ticks.reverse
    rw [List.reverse_reverse, List.length_reverse] at this
    exact this
  · intro ps p hps hp
    have hz : a.noPacketCount = 0 := by
      rw [h3a, hps, PortConnect.lowTicks_snoc, if_neg (by omega)]
    refine ⟨hz, ?_⟩
    rw [h4, hz]
    rfl

/-- C33, witness: three ticks that saw 1, 0 and 1 packets raise `timedOut`; a fourth tick
that saw 2 packets clears it. -/
theorem C33_timed_out_iff_three_low_ticks_witness :
    (∃ a, PortConnect.Accounting.start.run [([true, false], false), ([], false), ([], true)]
          = some a
        ∧ a.timedOut = true)
      ∧ ∃ a, PortConnect.Accounting.start.run
            [([true, false], false), ([], false), ([], true), ([true], true)] = some a
        ∧ a.noPacketCount = 0 ∧ a.timedOut = false :=
  ⟨(C33_timed_out_iff_three_low_ticks [([true, false], false), ([], false), ([], true)]
      (by decide) (by decide)).imp
      (fun _ h => ⟨h.1, h.2.2.1.mpr (by decide)⟩),
    (C33_timed_out_iff_three_low_ticks
      [([true, false], false), ([], false), ([], true), ([true], true)]
      (by decide) (by decide)).imp
      (fun _ h => ⟨h.1,
        h.2.2.2 [([true, false], false), ([], false), ([], true)] ([true], true) rfl
          (by decide)⟩)⟩

/-! ### The packets of the high level commander -/

theorem HighLevelCommander.define_trajectory_sent (hlc : HighLevelCommander)
    (pc : PortConnect) (trajectory_id offset n_pieces type : Nat)
    (hpc : hlc.connection = some pc) (hc : pc.cfConnection = true) :
    (hlc.define_trajectory trajectory_id offset n_pieces type).sent
      = hlc.sent ++ [(8, 3, [6, trajectory_id % 256, 1, type % 256, offset % 256,
          n_pieces % 256])] := by
  have ho : offset % 4294967296 % 256 = offset % 256 := by omega
  simp [HighLevelCommander.define_trajectory, HighLevelCommander._send_packet,
    HighLevelCommander.sent, hpc, hc, PortConnect.send_packet, Packet.setPort, Packet.ofBuffer,
    PackUtils.pack_uint8, PackUtils.poke, PackUtils.peek, Packet.bytes, Packet.payloadSize,
    List.range_succ, crtpPortCommanderHL, HighLevelCommander.hlcDefineTrajectory,
    HighLevelCommander.gTrajectoryLocationMem, ho]

/-- C32 (failing input): `define_trajectory` converts `offset` to `uint8_t` before it packs
it, so the payload of the packet sent is the six bytes `[6, trajectory_id, 1, type, offset
mod 256, n_pieces]`: only the low byte of the offset is carried, in one byte. The calls with
the offsets 0 and 256, and in general two calls whose offsets are equal modulo 256, send the
same packet. -/
theorem C32_define_trajectory_keeps_low_byte_of_offset :
    (∀ (hlc : HighLevelCommander) (pc : PortConnect) (trajectory_id offset n_pieces type : Nat),
        hlc.connection = some pc → pc.cfConnection = true →
        (hlc.define_trajectory trajectory_id offset n_pieces type).sent
          = hlc.sent ++ [(8, 3, [6, trajectory_id % 256, 1, type % 256, offset % 256,
              n_pieces % 256])])
      ∧ (Sample.highLevel.define_trajectory 1 0 5 0).sent = [(8, 3, [6, 1, 1, 0, 0, 5])]
      ∧ (Sample.highLevel.define_trajectory 1 256 5 0).sent = [(8, 3, [6, 1, 1, 0, 0, 5])]
      ∧ (Sample.highLevel.define_trajectory 1 0x12345678 5 0).sent
          = [(8, 3, [6, 1, 1, 0, 0x78, 5])] := by
  refine ⟨?_, by decide, by decide, by decide⟩
  intro hlc pc trajectory_id offset n_pieces type hpc hc
  exact HighLevelCommander.define_trajectory_sent hlc pc trajectory_id offset n_pieces type
    hpc hc

/-- C32, witness: the payload sent for the offset `0x12345678`. -/
theorem C32_define_trajectory_keeps_low_byte_of_offset_witness :
    (Sample.highLevel.define_trajectory 1 0x12345678 5 0).sent
      = Sample.highLevel.sent ++ [(8, 3, [6, 1 % 256, 1, 0 % 256, 0x12345678 % 256, 5 % 256])] :=
  C32_define_trajectory_keeps_low_byte_of_offset.1 Sample.highLevel Sample.link 1 0x12345678 5 0
    rfl rfl

/-! ### The slots of the block list -/

theorem cfLog.BlocksOk_of_same (s s1 : cfLog) (h : cfLog.SameBlocks s s1)
    (hs : cfLog.BlocksOk s) : cfLog.BlocksOk s1 := by
  obtain ⟨h1, h2⟩ := h
  unfold cfLog.BlocksOk
  rw [h1, h2]
  exact hs

theorem cfLog.BlocksOk_setBlock (s : cfLog) (id : Nat) (block : LogConfig)
    (hs : cfLog.BlocksOk s) (hid : block.id = id) : cfLog.BlocksOk (s.setBlock id block) := by
  refine ⟨hs.1, ?_⟩
  intro i hi
  by_cases hii : i = id
  · subst hii
    exact ⟨block, by simp [cfLog.setBlock], hid⟩
  · obtain ⟨b, hb1, hb2⟩ := hs.2 i hi
    exact ⟨b, by simp [cfLog.setBlock, hii, hb1], hb2⟩

theorem cfLog.BlocksOk_clearBlockList (s : cfLog) : cfLog.BlocksOk s.clearBlockList := by
  refine ⟨Nat.zero_le _, ?_⟩
  intro i hi
  exact absurd hi (Nat.not_lt_zero _)

theorem cfLog.BlocksOk_stop (s : cfLog) : cfLog.BlocksOk s.stop := by
  have h := cfLog.BlocksOk_clearBlockList s
  unfold cfLog.stop cfLog._send_stop
  simp only
  split <;> split <;> exact h

theorem LogConfig.create_frame (s : cfLog) (cfg : LogConfig) (r : Bool × LogConfig × cfLog)
    (h : LogConfig.create s cfg = .ok r) :
    r.2.1.id = cfg.id ∧ cfLog.SameBlocks s r.2.2 := by
  unfold LogConfig.create at h
  simp only at h
  repeat' split at h
  all_goals first
    | (rw [← Except.ok.inj h]; exact ⟨rfl, rfl, rfl⟩)
    | cases h

theorem LogConfig.start_frame (s : cfLog) (cfg : LogConfig) (q : Bool × LogConfig × cfLog)
    (h : LogConfig.start s cfg = .ok q) :
    q.2.1.id = cfg.id ∧ cfLog.SameBlocks s q.2.2 := by
  unfold LogConfig.start at h
  split at h
  · split at h
    · split at h
      · split at h
        · rename_i r hr
          rw [← Except.ok.inj h]
          exact LogConfig.create_frame s cfg r hr
        · exact absurd h (by simp)
      · rw [← Except.ok.inj h]
        exact ⟨rfl, rfl, rfl⟩
    · rw [← Except.ok.inj h]
      exact ⟨rfl, rfl, rfl⟩
  · rw [← Except.ok.inj h]
    exact ⟨rfl, rfl, rfl⟩

theorem cfLog.resolveLoop_id (toc : LogToc) :
    ∀ (fuel i : Nat) (config config1 : LogConfig),
      cfLog.resolveLoop toc fuel i config = .ok config1 → config1.id = config.id := by
  intro fuel
  induction fuel with
  | zero =>
    intro i config config1 h
    exact absurd h (by simp [cfLog.resolveLoop])
  | succ fuel ih =>
    intro i config config1 h
    rw [cfLog.resolveLoop] at h
    split at h
    · rw [← Except.ok.inj h]
    · split at h
      · rw [ih _ _ _ h]
        simp only [LogConfig.add_variable]
        split <;> rfl
      · rw [ih _ _ _ h]

theorem cfLog.BlocksOk_push (s : cfLog) (block : LogConfig) (hs : cfLog.BlocksOk s)
    (hroom : s.blockListSize < 16) (hid : block.id = s.blockListSize) :
    cfLog.BlocksOk
      { s.setBlock s.blockListSize block with blockListSize := (s.blockListSize + 1) % 256 } := by
  refine ⟨?_, ?_⟩
  · show (s.blockListSize + 1) % 256 ≤ 16
    omega
  · intro i hi
    have hi1 : i < (s.blockListSize + 1) % 256 := hi
    show ∃ b, (s.setBlock s.blockListSize block).blockList i = some b ∧ b.id = i
    by_cases hii : i = s.blockListSize
    · subst hii
      exact ⟨block, by simp [cfLog.setBlock], hid⟩
    · obtain ⟨b, hb3, hb4⟩ := hs.2 i (by omega)
      exact ⟨b, by simp [cfLog.setBlock, hii, hb3], hb4⟩

theorem cfLog.add_config_blocksOk (s : cfLog) (config : LogConfig)
    (r : Bool × LogConfig × cfLog) (hs : cfLog.BlocksOk s)
    (h : s.add_config config = .ok r) : cfLog.BlocksOk r.2.2 := by
  unfold cfLog.add_config at h
  split at h
  · rw [← Except.ok.inj h]
    exact hs
  · split at h
    · exact absurd h (by simp)
    · simp only at h
      split at h
      · split at h
        · rename_i hroom
          split at h
          · exact absurd h (by simp)
          · rename_i q hq
            rw [← Except.ok.inj h]
            obtain ⟨hid, hsame⟩ := LogConfig.start_frame _ _ q hq
            have hlt : s.blockListSize < 16 := hroom
            apply cfLog.BlocksOk_setBlock
            · exact cfLog.BlocksOk_of_same _ _ hsame
                (cfLog.BlocksOk_push s _ hs hlt (by simp only; omega))
            · simp only [hid]
              omega
        · exact absurd h (by simp)
      · rw [← Except.ok.inj h]
        exact hs

theorem cfLog.withPort_same (s s1 : cfLog) (g : PortConnect → PortConnect)
    (h : s.withPort g = .ok s1) : cfLog.SameBlocks s s1 := by
  unfold cfLog.withPort at h
  split at h
  · exact absurd h (by simp)
  · rw [← Except.ok.inj h]
    exact ⟨rfl, rfl⟩

theorem TocFetcher.lookupToc_same (f : TocFetcher) (s : cfLog) (r : Bool × cfLog)
    (h : f.lookupToc s = .ok r) : cfLog.SameBlocks s r.2 := by
  unfold TocFetcher.lookupToc at h
  split at h
  · split at h
    · rename_i s1 h1
      rw [← Except.ok.inj h]
      have := cfLog.withPort_same _ _ _ h1
      exact ⟨this.1, this.2⟩
    · exact absurd h (by simp)
  · split at h
    · split at h
      · exact absurd h (by simp)
      · simp only at h
        split at h
        · split at h
          · rename_i s2 h2
            rw [← Except.ok.inj h]
            have := cfLog.withPort_same _ _ _ h2
            exact ⟨this.1, this.2⟩
          · exact absurd h (by simp)
        · rw [← Except.ok.inj h]
          exact ⟨rfl, rfl⟩
    · rw [← Except.ok.inj h]
      exact ⟨rfl, rfl⟩

theorem TocFetcher.onTocInfo_same (f : TocFetcher) (s : cfLog) (pk : Packet)
    (r : TocFetcher × cfLog) (h : f.onTocInfo s pk = .ok r) : cfLog.SameBlocks s r.2 := by
  unfold TocFetcher.onTocInfo at h
  simp only at h
  split at h
  · exact absurd h (by simp)
  · rename_i r1 h1
    have hc := TocFetcher.lookupToc_same _ _ _ h1
    split at h
    · rw [← Except.ok.inj h]
      exact hc
    · split at h
      · split at h
        · exact absurd h (by simp)
        · rw [← Except.ok.inj h]
          exact ⟨hc.1, hc.2⟩
      · rw [← Except.ok.inj h]
        exact hc

theorem TocFetcher.onTocElement_same (f : TocFetcher) (s : cfLog) (pk : Packet)
    (r : TocFetcher × cfLog) (h : f.onTocElement s pk = .ok r) : cfLog.SameBlocks s r.2 := by
  unfold TocFetcher.onTocElement at h
  by_cases hv : f._useV2 = true
  · simp only [hv, if_true] at h
    split at h
    · split at h
      · exact absurd h (by simp)
      · rename_i s2 h2
        have hc : cfLog.SameBlocks s s2 := by
          split at h2
          · have := cfLog.withPort_same _ _ _ h2
            exact ⟨this.1, this.2⟩
          · rw [← Except.ok.inj h2]
            exact ⟨rfl, rfl⟩
        split at h
        · split at h
          · exact absurd h (by simp)
          · rw [← Except.ok.inj h]
            exact ⟨hc.1, hc.2⟩
        · rw [← Except.ok.inj h]
          exact hc
    · rw [← Except.ok.inj h]
      exact ⟨rfl, rfl⟩
  · simp only [hv, Bool.false_eq_true, if_false] at h
    split at h
    · split at h
      · exact absurd h (by simp)
      · rename_i s2 h2
        have hc : cfLog.SameBlocks s s2 := by
          split at h2
          · have := cfLog.withPort_same _ _ _ h2
            exact ⟨this.1, this.2⟩
          · rw [← Except.ok.inj h2]
            exact ⟨rfl, rfl⟩
        split at h
        · split at h
          · exact absurd h (by simp)
          · rw [← Except.ok.inj h]
            exact ⟨hc.1, hc.2⟩
        · rw [← Except.ok.inj h]
          exact hc
    · rw [← Except.ok.inj h]
      exact ⟨rfl, rfl⟩

theorem TocFetcher.new_packet_cb_same (s s1 : cfLog) (k : Nat) (pk : Packet)
    (h : TocFetcher._new_packet_cb s k pk = .ok s1) : cfLog.SameBlocks s s1 := by
  unfold TocFetcher._new_packet_cb at h
  split at h
  · exact absurd h (by simp)
  · split at h
    · split at h
      · split at h
        · rename_i r hr
          rw [← Except.ok.inj h]
          have := TocFetcher.onTocInfo_same _ _ _ _ hr
          exact ⟨this.1, this.2⟩
        · exact absurd h (by simp)
      · split at h
        · split at h
          · rename_i r hr
            rw [← Except.ok.inj h]
            have := TocFetcher.onTocElement_same _ _ _ _ hr
            exact ⟨this.1, this.2⟩
          · exact absurd h (by simp)
        · rw [← Except.ok.inj h]
          exact ⟨rfl, rfl⟩
    · rw [← Except.ok.inj h]
      exact ⟨rfl, rfl⟩

theorem cfLog.onToc_same (pk : Packet) (command : Nat) :
    ∀ (n k : Nat) (s s1 : cfLog), cfLog.onToc pk command n k s = .ok s1 →
      cfLog.SameBlocks s s1 := by
  intro n
  induction n with
  | zero =>
    intro k s s1 h
    rw [← Except.ok.inj h]
    exact ⟨rfl, rfl⟩
  | succ n ih =>
    intro k s s1 h
    rw [cfLog.onToc] at h
    split at h
    · rw [← Except.ok.inj h]
      exact ⟨rfl, rfl⟩
    · split at h
      · split at h
        · exact absurd h (by simp)
        · rename_i s2 h2
          have h3 := TocFetcher.new_packet_cb_same _ _ _ _ h2
          have h4 := ih _ _ _ h
          exact ⟨h4.1.trans h3.1, h4.2.trans h3.2⟩
      · exact ih _ _ _ h

theorem TocFetcher.start_same (f : TocFetcher) (s s1 : cfLog) (h : f.start s = .ok s1) :
    cfLog.SameBlocks s s1 := by
  unfold TocFetcher.start at h
  simp only at h
  split at h
  · exact absurd h (by simp)
  · rw [← Except.ok.inj h]
    exact ⟨rfl, rfl⟩

theorem cfLog.modifyBlock_blocksOk (s s1 : cfLog) (id : Nat) (g : LogConfig → LogConfig)
    (hs : cfLog.BlocksOk s) (hid : id < s.blockListSize) (hg : ∀ b, (g b).id = b.id)
    (h : s.modifyBlock id g = .ok s1) : cfLog.BlocksOk s1 := by
  unfold cfLog.modifyBlock at h
  split at h
  · exact absurd h (by simp)
  · rename_i block hb
    rw [← Except.ok.inj h]
    obtain ⟨b, hb1, hb2⟩ := hs.2 id hid
    rw [hb] at hb1
    apply cfLog.BlocksOk_setBlock s id _ hs
    rw [hg, Option.some.inj hb1, hb2]

theorem cfLog.onCreateReply_blocksOk (s s1 : cfLog) (id errorStatus : Nat)
    (hs : cfLog.BlocksOk s) (hid : id < s.blockListSize)
    (h : s.onCreateReply id errorStatus = .ok s1) :
    cfLog.BlocksOk s1 ∧ s1.blockListSize = s.blockListSize := by
  unfold cfLog.onCreateReply at h
  obtain ⟨b, hb1, hb2⟩ := hs.2 id hid
  split at h
  · rw [hb1] at h
    simp only at h
    split at h
    · split at h
      · exact absurd h (by simp)
      · rename_i s2 h2
        rw [← Except.ok.inj h]
        have hsame := cfLog.withPort_same _ _ _ h2
        exact ⟨cfLog.BlocksOk_setBlock _ _ _ (cfLog.BlocksOk_of_same _ _ hsame hs) hb2,
          hsame.2⟩
    · rw [← Except.ok.inj h]
      exact ⟨cfLog.BlocksOk_setBlock _ _ _ hs hb2, rfl⟩
  · rw [← Except.ok.inj h]
    exact ⟨hs, rfl⟩

theorem cfLog.onSettings_blocksOk (s s1 : cfLog) (pk : Packet) (hs : cfLog.BlocksOk s)
    (h : s.onSettings pk = .ok s1) : cfLog.BlocksOk s1 := by
  unfold cfLog.onSettings at h
  simp only at h
  split at h
  · split at h
    · exact absurd h (by simp)
    · rename_i s2 h2
      have hs2 : cfLog.BlocksOk s2 ∧ s2.blockListSize = s.blockListSize := by
        split at h2
        · rename_i hex
          simp only [Bool.and_eq_true, decide_eq_true_eq] at hex
          exact cfLog.onCreateReply_blocksOk _ _ _ _ hs hex.1 h2
        · rw [← Except.ok.inj h2]
          exact ⟨hs, rfl⟩
      by_cases hex : s.blockListSize > PackUtils.peek pk.payload 1
      · simp only [hex, decide_True, Bool.and_true] at h
        repeat' split at h
        all_goals first
          | (refine cfLog.modifyBlock_blocksOk _ _ _ _ hs2.1 ?_ ?_ h
             · rw [hs2.2]; exact hex
             · intro b; rfl)
          | (rw [← Except.ok.inj h]; exact hs2.1)
          | (rw [← Except.ok.inj h]; exact cfLog.BlocksOk_clearBlockList _)
          | exact cfLog.BlocksOk_of_same _ _ (TocFetcher.start_same _ _ _ h)
              (cfLog.BlocksOk_clearBlockList _)
      · simp only [hex, decide_False, Bool.and_false, Bool.false_eq_true, if_false] at h
        repeat' split at h
        all_goals first
          | (rw [← Except.ok.inj h]; exact hs2.1)
          | (rw [← Except.ok.inj h]; exact cfLog.BlocksOk_clearBlockList _)
          | exact cfLog.BlocksOk_of_same _ _ (TocFetcher.start_same _ _ _ h)
              (cfLog.BlocksOk_clearBlockList _)
  · rw [← Except.ok.inj h]
    exact hs

theorem LogConfig.unpack_log_data_id (cfg cfg1 : LogConfig) (logData : PackUtils.Buffer)
    (timestamp : Nat) (h : cfg.unpack_log_data logData timestamp = .ok cfg1) :
    cfg1.id = cfg.id := by
  unfold LogConfig.unpack_log_data at h
  split at h
  · rw [← Except.ok.inj h]
  · exact absurd h (by simp)

theorem cfLog.onLogData_blocksOk (s s1 : cfLog) (pk : Packet) (hs : cfLog.BlocksOk s)
    (h : s.onLogData pk = .ok s1) : cfLog.BlocksOk s1 := by
  unfold cfLog.onLogData at h
  simp only at h
  split at h
  · rename_i hid
    obtain ⟨b, hb1, hb2⟩ := hs.2 _ hid
    rw [hb1] at h
    simp only at h
    split at h
    · exact absurd h (by simp)
    · rename_i block2 h2
      rw [← Except.ok.inj h]
      apply cfLog.BlocksOk_setBlock _ _ _ hs
      rw [LogConfig.unpack_log_data_id _ _ _ _ h2]
      exact hb2
  · rw [← Except.ok.inj h]
    exact hs

theorem cfLog.new_packet_cb_blocksOk (s s1 : cfLog) (pk : Packet) (hs : cfLog.BlocksOk s)
    (h : s._new_packet_cb pk = .ok s1) : cfLog.BlocksOk s1 := by
  unfold cfLog._new_packet_cb at h
  simp only at h
  repeat' split at h
  all_goals first
    | exact cfLog.onSettings_blocksOk _ _ _ hs h
    | exact cfLog.onLogData_blocksOk _ _ _ hs h
    | exact cfLog.BlocksOk_of_same _ _ (cfLog.onToc_same _ _ _ _ _ _ h) hs
    | (rw [← Except.ok.inj h]; exact hs)

theorem cfLog.call_blocksOk (s s1 : cfLog) (c : cfLog.Call) (hs : cfLog.BlocksOk s)
    (h : s.call c = .ok s1) : cfLog.BlocksOk s1 := by
  cases c with
  | setConnection portConnect =>
    rw [← Except.ok.inj h]
    refine cfLog.BlocksOk_of_same s _ ?_ hs
    unfold cfLog.setConnection
    simp only
    split
    · split <;> exact ⟨rfl, rfl⟩
    · exact ⟨rfl, rfl⟩
  | add_config config =>
    simp only [cfLog.call] at h
    split at h
    · rename_i r hr
      rw [← Except.ok.inj h]
      exact cfLog.add_config_blocksOk s config r hs hr
    · exact absurd h (by simp)
  | stop =>
    rw [← Except.ok.inj h]
    exact cfLog.BlocksOk_stop s
  | clearBlockList =>
    rw [← Except.ok.inj h]
    exact cfLog.BlocksOk_clearBlockList s
  | packet pk => exact cfLog.new_packet_cb_blocksOk s s1 pk hs h

theorem cfLog.callAll_blocksOk :
    ∀ (calls : List cfLog.Call) (s s1 : cfLog), cfLog.BlocksOk s →
      cfLog.callAll s calls = .ok s1 → cfLog.BlocksOk s1 := by
  intro calls
  induction calls with
  | nil =>
    intro s s1 hs h
    rw [← Except.ok.inj h]
    exact hs
  | cons c calls ih =>
    intro s s1 hs h
    rw [cfLog.callAll] at h
    split at h
    · rename_i s2 h2
      exact ih s2 s1 (cfLog.call_blocksOk s s2 c hs h2) h
    · exact absurd h (by simp)

set_option maxRecDepth 100000 in
/-- C36 (failing input): `add_config` stores the block at `blockList[blockListSize]` and
increments `blockListSize` without a test against `MAX_BLOCKS`. After sixteen accepted
blocks `blockListSize` is 16 and the slots 0 to 15 hold the blocks 0 to 15; the seventeenth
`add_config` of a block that passes the checks stores at `blockList[16]`, outside the array
of 16 slots. Short of that store the claim holds: in every state that a fresh engine reaches
by `setConnection`, `add_config`, `stop`, `clearBlockList` and inbound packets, as long as
the calls return, `blockListSize` is at most 16 and each slot below `blockListSize` holds a
block whose id is the index of the slot. -/
theorem C36_seventeenth_block_stored_outside_blockList :
    (∀ (cache : Option (List (Nat × Str))) (calls : List cfLog.Call) (s : cfLog),
        cfLog.callAll (cfLog.init cache) calls = .ok s →
        s.blockListSize ≤ MAX_BLOCKS
          ∧ ∀ i, i < s.blockListSize → ∃ block, s.blockList i = some block ∧ block.id = i)
      ∧ (match Sample.addBlocks (Sample.memBlock 1 tdUint8) 16 (Sample.engine LogToc.empty) with
        | .ok s =>
          some (s.blockListSize,
            (List.range 16).map (fun i => (s.blockList i).map (fun block => block.id)),
            match s.add_config (Sample.memBlock 1 tdUint8) with
            | .ok _ => none
            | .error e => some e)
        | .error _ => none)
        = some (16, (List.range 16).map some, some Fault.outOfBounds) := by
  refine ⟨?_, by decide⟩
  intro cache calls s h
  exact cfLog.callAll_blocksOk calls (cfLog.init cache) s
    ⟨Nat.zero_le _, fun i hi => absurd hi (Nat.not_lt_zero _)⟩ h

set_option maxRecDepth 100000 in
/-- C36, witness: after `setConnection` on the open link, the `add_config` of a block of one
variable and the data packet `[0, 0, 0, 0, 7]`, the engine has one block, whose id is 0. -/
theorem C36_seventeenth_block_stored_outside_blockList_witness :
    ∃ s, cfLog.callAll (cfLog.init (some []))
        [.setConnection (some Sample.link), .add_config (Sample.memBlock 1 tdUint8),
          .packet (Sample.packet LOGGING CHAN_LOGDATA [0, 0, 0, 0, 7])] = .ok s
      ∧ s.blockListSize ≤ MAX_BLOCKS
      ∧ ∀ i, i < s.blockListSize → ∃ block, s.blockList i = some block ∧ block.id = i := by
  have hsome : (cfLog.callAll (cfLog.init (some []))
      [.setConnection (some Sample.link), .add_config (Sample.memBlock 1 tdUint8),
        .packet (Sample.packet LOGGING CHAN_LOGDATA [0, 0, 0, 0, 7])]).toOption.isSome
      = true := by decide
  cases h : cfLog.callAll (cfLog.init (some []))
      [.setConnection (some Sample.link), .add_config (Sample.memBlock 1 tdUint8),
        .packet (Sample.packet LOGGING CHAN_LOGDATA [0, 0, 0, 0, 7])] with
  | ok s => exact ⟨s, rfl, C36_seventeenth_block_stored_outside_blockList.1 (some []) _ s h⟩
  | error e =>
    rw [h] at hsome
    exact absurd hsome (by simp [Except.toOption])

/-! ### The sizes of the packets sent -/

theorem PortConnect.payloadSizes_send (pc : PortConnect) (pk : Packet)
    (hc : pc.cfConnection = true) (hs : 0 < pk.size) :
    PortConnect.payloadSizes (some (pc.send_packet pk))
      = PortConnect.payloadSizes (some pc) ++ [pk.payloadSize] := by
  simp [PortConnect.payloadSizes, PortConnect.send_packet, hc, hs]

theorem Commander.payloadSizes_setpoints (cmd : Commander) (pc : PortConnect)
    (hpc : cmd.connection = some pc) (hc : pc.cfConnection = true) (a b c d : Nat) :
    (cmd.send_setpoint a b c d).toOption.map (fun cmd1 => PortConnect.payloadSizes cmd1.connection)
        = some (PortConnect.payloadSizes cmd.connection ++ [14])
      ∧ PortConnect.payloadSizes (cmd.send_notify_setpoint_stop a).connection
          = PortConnect.payloadSizes cmd.connection ++ [5]
      ∧ PortConnect.payloadSizes cmd.send_stop_setpoint.connection
          = PortConnect.payloadSizes cmd.connection ++ [1]
      ∧ PortConnect.payloadSizes (cmd.send_velocity_world_setpoint a b c d).connection
          = PortConnect.payloadSizes cmd.connection ++ [17]
      ∧ PortConnect.payloadSizes (cmd.send_zdistance_setpoint a b c d).connection
          = PortConnect.payloadSizes cmd.connection ++ [17]
      ∧ PortConnect.payloadSizes (cmd.send_hover_setpoint a b c d).connection
          = PortConnect.payloadSizes cmd.connection ++ [17]
      ∧ PortConnect.payloadSizes (cmd.send_position_setpoint a b c d).connection
          = PortConnect.payloadSizes cmd.connection ++ [17] := by
  refine ⟨?_, ?_, ?_, ?_, ?_, ?_, ?_⟩ <;>
    simp [Commander.send_setpoint, Except.toOption, Commander.send_notify_setpoint_stop,
      Commander.send_stop_setpoint,
      Commander.send_velocity_world_setpoint, Commander.send_zdistance_setpoint,
      Commander.send_hover_setpoint, Commander.send_position_setpoint, hpc, hc,
      PortConnect.payloadSizes, PortConnect.send_packet, Packet.setPort, Packet.setChannel,
      Packet.ofBuffer, Packet.payloadSize, PackUtils.pack_uint8, PackUtils.pack_float,
      PackUtils.pack_uint16, PackUtils.pack_uint32]

theorem Commander.fullStatePacket_size (x y z vx vy vz ax ay az : Int) (quat : Nat)
    (rr pr yr : Int) :
    (Commander.fullStatePacket x y z vx vy vz ax ay az quat rr pr yr).size = 30 := by
  rfl

theorem Commander.payloadSizes_full_state (cmd cmd1 : Commander) (pc : PortConnect)
    (hpc : cmd.connection = some pc) (hc : pc.cfConnection = true)
    (pos vel acc orientation : Nat → Nat) (rollrate pitchrate yawrate : Nat)
    (h : cmd.send_full_state_setpoint pos vel acc orientation rollrate pitchrate yawrate
      = some cmd1) :
    PortConnect.payloadSizes cmd1.connection
      = PortConnect.payloadSizes cmd.connection ++ [29] := by
  unfold Commander.send_full_state_setpoint at h
  rw [hpc] at h
  obtain ⟨x, -, h⟩ := Option.bind_eq_some.mp h
  obtain ⟨y, -, h⟩ := Option.bind_eq_some.mp h
  obtain ⟨z, -, h⟩ := Option.bind_eq_some.mp h
  obtain ⟨vx, -, h⟩ := Option.bind_eq_some.mp h
  obtain ⟨vy, -, h⟩ := Option.bind_eq_some.mp h
  obtain ⟨vz, -, h⟩ := Option.bind_eq_some.mp h
  obtain ⟨ax, -, h⟩ := Option.bind_eq_some.mp h
  obtain ⟨ay, -, h⟩ := Option.bind_eq_some.mp h
  obtain ⟨az, -, h⟩ := Option.bind_eq_some.mp h
  obtain ⟨rr, -, h⟩ := Option.bind_eq_some.mp h
  obtain ⟨pr, -, h⟩ := Option.bind_eq_some.mp h
  obtain ⟨yr, -, h⟩ := Option.bind_eq_some.mp h
  obtain ⟨quat, -, h⟩ := Option.bind_eq_some.mp h
  rw [← Option.some.inj h]
  have hsz := Commander.fullStatePacket_size x y z vx vy vz ax ay az quat rr pr yr
  show PortConnect.payloadSizes (some (pc.send_packet _)) = _
  rw [hpc, PortConnect.payloadSizes_send pc _ hc (by rw [hsz]; norm_num), Packet.payloadSize,
    hsz]

theorem HighLevelCommander.payloadSizes_calls (hlc : HighLevelCommander) (pc : PortConnect)
    (hpc : hlc.connection = some pc) (hc : pc.cfConnection = true) (a b c d e : Nat)
    (p q : Bool) :
    PortConnect.payloadSizes (hlc.takeoff a b c).connection
        = PortConnect.payloadSizes hlc.connection ++ [15]
      ∧ PortConnect.payloadSizes (hlc.land a b c).connection
          = PortConnect.payloadSizes hlc.connection ++ [15]
      ∧ PortConnect.payloadSizes (hlc.stop a).connection
          = PortConnect.payloadSizes hlc.connection ++ [2]
      ∧ PortConnect.payloadSizes (hlc.go_to a b c d e p a).connection
          = PortConnect.payloadSizes hlc.connection ++ [23]
      ∧ PortConnect.payloadSizes (hlc.start_trajectory a b p q c).connection
          = PortConnect.payloadSizes hlc.connection ++ [9]
      ∧ PortConnect.payloadSizes (hlc.define_trajectory a b c d).connection
          = PortConnect.payloadSizes hlc.connection ++ [6] := by
  refine ⟨?_, ?_, ?_, ?_, ?_, ?_⟩ <;>
    simp [HighLevelCommander.takeoff, HighLevelCommander.land, HighLevelCommander.stop,
      HighLevelCommander.go_to, HighLevelCommander.start_trajectory,
      HighLevelCommander.define_trajectory, HighLevelCommander._send_packet, hpc, hc,
      PortConnect.payloadSizes, PortConnect.send_packet, Packet.setPort, Packet.setChannel,
      Packet.ofBuffer, Packet.payloadSize, PackUtils.pack_uint8, PackUtils.pack_float,
      PackUtils.pack_bool]

theorem PlatformService.payloadSizes_requests (ps : PlatformService) (pc : PortConnect)
    (hpc : ps.portConnect = some pc) (hc : pc.cfConnection = true) (doArm : Bool) :
    PortConnect.payloadSizes ps._request_version.portConnect
        = PortConnect.payloadSizes ps.portConnect ++ [1]
      ∧ PortConnect.payloadSizes (ps.send_arming_request doArm).portConnect
          = PortConnect.payloadSizes ps.portConnect ++ [2]
      ∧ PlatformService.recoveryCommand.payloadSize = 1
      ∧ ps.send_crash_recovery_request = none
      ∧ ∀ pk ps1, ps._new_packet_cb pk = .ok ps1 →
          PortConnect.payloadSizes ps1.portConnect = PortConnect.payloadSizes ps.portConnect
            ∨ PortConnect.payloadSizes ps1.portConnect
              = PortConnect.payloadSizes ps.portConnect ++ [1] := by
  refine ⟨?_, ?_, ?_, ?_, ?_⟩
  · simp [PlatformService._request_version, hpc, hc, PortConnect.payloadSizes,
      PortConnect.send_packet, Packet.setPort, Packet.setChannel, Packet.ofBuffer,
      Packet.payloadSize, PackUtils.pack_uint8]
  · simp [PlatformService.send_arming_request, hpc, hc, PortConnect.payloadSizes,
      PortConnect.send_packet, Packet.setPort, Packet.setChannel, Packet.ofBuffer,
      Packet.payloadSize, PackUtils.pack_uint8, PackUtils.pack_bool]
  · simp [PlatformService.recoveryCommand, Packet.setPort, Packet.setChannel, Packet.ofBuffer,
      Packet.payloadSize, PackUtils.pack_uint8]
  · simp only [PlatformService.send_crash_recovery_request, hpc]
  · intro pk ps1 h
    unfold PlatformService._new_packet_cb at h
    simp only [hpc] at h
    repeat' split at h
    all_goals first
      | (rw [← Except.ok.inj h]; exact Or.inl rfl)
      | (rw [← Except.ok.inj h]
         right
         simp [hpc, hc, PortConnect.payloadSizes, PortConnect.send_packet, Packet.setPort,
           Packet.setChannel, Packet.ofBuffer, Packet.payloadSize, PackUtils.pack_uint8]
         done)
      | (rw [← Except.ok.inj h]
         left
         simp only [hpc])

theorem LogConfig.setupElement_le (useV2 : Bool) (toc : LogToc) (v : LogVariable) (i : Nat)
    (st : Bool × Packet × Nat) (h : st.2.1.payloadSize ≤ 25) :
    (LogConfig.setupElement useV2 toc v i st).2.1.payloadSize ≤ 25 := by
  obtain ⟨res, pk, nta⟩ := st
  simp only [Packet.payloadSize] at h
  have h1 : (pk.size - 1) % 256 = pk.size - 1 := by omega
  simp only [LogConfig.setupElement, Packet.payloadSize, h1, LogConfig.MAX_LEN,
    PackUtils.pack_uint8, PackUtils.pack_uint16, PackUtils.pack_uint32, Packet.setPayloadSize]
  split_ifs <;> simp <;> omega

theorem LogConfig.setupLoop_le (useV2 : Bool) (toc : LogToc) :
    ∀ (rest : List LogVariable) (i : Nat) (st : Bool × Packet × Nat),
      st.2.1.payloadSize ≤ 25 →
      (LogConfig.setupLoop useV2 toc rest i st).2.1.payloadSize ≤ 25 := by
  intro rest
  induction rest with
  | nil => intro i st h; exact h
  | cons v rest ih =>
    intro i st h
    simp only [LogConfig.setupLoop]
    exact ih _ _ (LogConfig.setupElement_le useV2 toc v i st h)

theorem LogConfig.createFrames_le (cfg : LogConfig) (toc : LogToc) :
    ∀ (fuel command next_to_add : Nat) (frames : List Packet),
      LogConfig.createFrames cfg toc fuel command next_to_add = .ok frames →
      ∀ pk ∈ frames, pk.payloadSize ≤ 25 := by
  intro fuel
  induction fuel with
  | zero =>
    intro command next_to_add frames h
    exact absurd h (by simp [LogConfig.createFrames])
  | succ fuel ih =>
    intro command next_to_add frames h
    have hfirst : (cfg._setup_log_elements toc (LogConfig.frameHeader cfg command)
        next_to_add).2.1.payloadSize ≤ 25 := by
      unfold LogConfig._setup_log_elements
      apply LogConfig.setupLoop_le
      simp [LogConfig.frameHeader_payloadSize]
    rw [LogConfig.createFrames] at h
    split at h
    · rw [← Except.ok.inj h]
      intro pk hpk
      rw [List.mem_singleton] at hpk
      rw [hpk]
      exact hfirst
    · split at h
      · rename_i frames1 h1
        rw [← Except.ok.inj h]
        intro pk hpk
        rcases List.mem_cons.mp hpk with hp | hp
        · rw [hp]
          exact hfirst
        · exact ih _ _ _ h1 pk hp
      · exact absurd h (by simp)

theorem LogConfig.frame_sizes (cfg : LogConfig) (command id period : Nat) :
    (LogConfig.startPacket id period).payloadSize = 4
      ∧ (LogConfig.commandPacket cfg command).payloadSize = 2
      ∧ (cfLog.bytePacket command).payloadSize = 1 := by
  refine ⟨?_, ?_, ?_⟩ <;>
    simp [LogConfig.startPacket, LogConfig.commandPacket, cfLog.bytePacket, Packet.payloadSize,
      Packet.setPayloadSize, PackUtils.pack_uint8, PackUtils.pack_uint16]

theorem TocFetcher.requests_size (f : TocFetcher) (s s1 : cfLog) (pc : PortConnect)
    (hc : pc.cfConnection = true) (elemDex : Nat) :
    (s.portConnect = some pc → f.start s = .ok s1 →
        PortConnect.payloadSizes s1.portConnect = PortConnect.payloadSizes s.portConnect ++ [1])
      ∧ PortConnect.payloadSizes (some (f.request_toc_element pc elemDex).2)
          = PortConnect.payloadSizes (some pc) ++ [if f._useV2 then 3 else 2] := by
  constructor
  · intro hpc h
    simp only [TocFetcher.start, hpc] at h
    rw [← Except.ok.inj h, hpc]
    simp [PortConnect.payloadSizes, PortConnect.send_packet, hc, TocFetcher.requestPacket,
      Packet.setPort, Packet.setChannel, Packet.ofBuffer, Packet.payloadSize,
      PackUtils.pack_uint8]
  · cases hv : f._useV2 <;>
      simp [TocFetcher.request_toc_element, hv, PortConnect.payloadSizes,
        PortConnect.send_packet, hc, TocFetcher.requestPacket, Packet.setPort,
        Packet.setChannel, Packet.ofBuffer, Packet.payloadSize, PackUtils.pack_uint8,
        PackUtils.pack_uint16]

theorem Param.request_sizes (useV2 : Bool) (protocolVersion port elemDex var_id csize
    dataClump : Nat) :
    (ParamTocFetcher.infoRequest protocolVersion port).payloadSize = 1
      ∧ (ParamTocFetcher.elementRequest useV2 port elemDex).payloadSize
          = (if useV2 then 3 else 2)
      ∧ (Param.extendedPacket var_id).payloadSize = 3
      ∧ (Param.readPacket useV2 var_id).payloadSize = (if useV2 then 2 else 1)
      ∧ (Param.writePacket useV2 var_id csize dataClump).payloadSize
          = (if useV2 then 2 else 1) + csize := by
  refine ⟨?_, ?_, ?_, ?_, ?_⟩ <;> cases useV2 <;>
    simp [ParamTocFetcher.infoRequest, ParamTocFetcher.elementRequest, Param.extendedPacket,
      Param.readPacket, Param.writePacket, Param.packId, Packet.setPort, Packet.setChannel,
      Packet.ofBuffer, Packet.payloadSize, Packet.setPayloadSize, PackUtils.pack_uint8,
      PackUtils.pack_uint16]

/-- C31 (failing input): `send_crash_recovery_request` on a connected service hands
`send_packet` the reference returned by `recoveryCommand`, to a local packet that no longer
exists, and `send_full_state_setpoint` with `pos[0] = 100.0f` converts `100000.0f` to
`int16_t`: neither call has a defined packet. Every other packer sends one packet whose
payload has a fixed size, whatever the arguments: 14, 5, 1 and 17 bytes for the setpoints of
the commander and 29 bytes for the full state setpoint whenever its conversions are defined;
15, 15, 2, 23, 9 and 6 bytes for the high level commander; 1 and 2 bytes for the platform
requests; at most 25 bytes for each create or append frame of a log block, 4 bytes for the
start frame, 2 for the stop and delete frames; 1, 2 or 3 bytes for the requests of the TOC
fetchers; 3 bytes for the extended type request, 1 or 2 for a read request and at most 10
for a write request of a value of at most 8 bytes. -/
theorem C31_payload_sizes_of_the_packers :
    (∀ (cmd : Commander) (pc : PortConnect) (a b c d : Nat),
        cmd.connection = some pc → pc.cfConnection = true →
        (cmd.send_setpoint a b c d).toOption.map
            (fun cmd1 => PortConnect.payloadSizes cmd1.connection)
          = some (PortConnect.payloadSizes cmd.connection ++ [14])
        ∧ PortConnect.payloadSizes (cmd.send_notify_setpoint_stop a).connection
          = PortConnect.payloadSizes cmd.connection ++ [5]
        ∧ PortConnect.payloadSizes cmd.send_stop_setpoint.connection
          = PortConnect.payloadSizes cmd.connection ++ [1]
        ∧ PortConnect.payloadSizes (cmd.send_velocity_world_setpoint a b c d).connection
          = PortConnect.payloadSizes cmd.connection ++ [17]
        ∧ PortConnect.payloadSizes (cmd.send_zdistance_setpoint a b c d).connection
          = PortConnect.payloadSizes cmd.connection ++ [17]
        ∧ PortConnect.payloadSizes (cmd.send_hover_setpoint a b c d).connection
          = PortConnect.payloadSizes cmd.connection ++ [17]
        ∧ PortConnect.payloadSizes (cmd.send_position_setpoint a b c d).connection
          = PortConnect.payloadSizes cmd.connection ++ [17])
      ∧ (∀ (cmd cmd1 : Commander) (pc : PortConnect) (pos vel acc orientation : Nat → Nat)
          (rollrate pitchrate yawrate : Nat),
        cmd.connection = some pc → pc.cfConnection = true →
        cmd.send_full_state_setpoint pos vel acc orientation rollrate pitchrate yawrate
          = some cmd1 →
        PortConnect.payloadSizes cmd1.connection
          = PortConnect.payloadSizes cmd.connection ++ [29])
      ∧ (Sample.commander.send_full_state_setpoint
            (quatOf [0x3F800000, 0x40000000, 0x3F000000]) (quatOf []) (quatOf [])
            (quatOf [0, 0, 0, 0x3F800000]) 0 0 0).map
          (fun cmd1 => PortConnect.payloadSizes cmd1.connection) = some [29]
      ∧ (Sample.commander.send_full_state_setpoint (quatOf [0x42C80000, 0, 0]) (quatOf [])
          (quatOf []) (quatOf [0, 0, 0, 0x3F800000]) 0 0 0).isSome = false
      ∧ (∀ (hlc : HighLevelCommander) (pc : PortConnect) (a b c d e : Nat) (p q : Bool),
        hlc.connection = some pc → pc.cfConnection = true →
        PortConnect.payloadSizes (hlc.takeoff a b c).connection
          = PortConnect.payloadSizes hlc.connection ++ [15]
        ∧ PortConnect.payloadSizes (hlc.land a b c).connection
          = PortConnect.payloadSizes hlc.connection ++ [15]
        ∧ PortConnect.payloadSizes (hlc.stop a).connection
          = PortConnect.payloadSizes hlc.connection ++ [2]
        ∧ PortConnect.payloadSizes (hlc.go_to a b c d e p a).connection
          = PortConnect.payloadSizes hlc.connection ++ [23]
        ∧ PortConnect.payloadSizes (hlc.start_trajectory a b p q c).connection
          = PortConnect.payloadSizes hlc.connection ++ [9]
        ∧ PortConnect.payloadSizes (hlc.define_trajectory a b c d).connection
          = PortConnect.payloadSizes hlc.connection ++ [6])
      ∧ (∀ (ps : PlatformService) (pc : PortConnect) (doArm : Bool),
        ps.portConnect = some pc → pc.cfConnection = true →
        PortConnect.payloadSizes ps._request_version.portConnect
          = PortConnect.payloadSizes ps.portConnect ++ [1]
        ∧ PortConnect.payloadSizes (ps.send_arming_request doArm).portConnect
          = PortConnect.payloadSizes ps.portConnect ++ [2]
        ∧ PlatformService.recoveryCommand.payloadSize = 1
        ∧ ps.send_crash_recovery_request = none
        ∧ ∀ pk ps1, ps._new_packet_cb pk = .ok ps1 →
          PortConnect.payloadSizes ps1.portConnect = PortConnect.payloadSizes ps.portConnect
            ∨ PortConnect.payloadSizes ps1.portConnect
              = PortConnect.payloadSizes ps.portConnect ++ [1])
      ∧ (∀ (cfg : LogConfig) (toc : LogToc) (fuel command next_to_add : Nat)
          (frames : List Packet),
        LogConfig.createFrames cfg toc fuel command next_to_add = .ok frames →
        ∀ pk ∈ frames, pk.payloadSize ≤ 25)
      ∧ (∀ (cfg : LogConfig) (command id period : Nat),
        (LogConfig.startPacket id period).payloadSize = 4
          ∧ (LogConfig.commandPacket cfg command).payloadSize = 2
          ∧ (cfLog.bytePacket command).payloadSize = 1)
      ∧ (∀ (f : TocFetcher) (s s1 : cfLog) (pc : PortConnect) (elemDex : Nat),
        pc.cfConnection = true →
        (s.portConnect = some pc → f.start s = .ok s1 →
            PortConnect.payloadSizes s1.portConnect
              = PortConnect.payloadSizes s.portConnect ++ [1])
          ∧ PortConnect.payloadSizes (some (f.request_toc_element pc elemDex).2)
            = PortConnect.payloadSizes (some pc) ++ [if f._useV2 then 3 else 2])
      ∧ ∀ (useV2 : Bool) (protocolVersion port elemDex var_id csize dataClump : Nat),
        (ParamTocFetcher.infoRequest protocolVersion port).payloadSize = 1
          ∧ (ParamTocFetcher.elementRequest useV2 port elemDex).payloadSize
            = (if useV2 then 3 else 2)
          ∧ (Param.extendedPacket var_id).payloadSize = 3
          ∧ (Param.readPacket useV2 var_id).payloadSize = (if useV2 then 2 else 1)
          ∧ (csize ≤ 8 → (Param.writePacket useV2 var_id csize dataClump).payloadSize ≤ 10) := by
  refine ⟨?_, ?_, by decide!, by decide!, ?_, ?_, ?_, ?_, ?_, ?_⟩
  · intro cmd pc a b c d hpc hc
    exact Commander.payloadSizes_setpoints cmd pc hpc hc a b c d
  · intro cmd cmd1 pc pos vel acc orientation rollrate pitchrate yawrate hpc hc h
    exact Commander.payloadSizes_full_state cmd cmd1 pc hpc hc pos vel acc orientation rollrate
      pitchrate yawrate h
  · intro hlc pc a b c d e p q hpc hc
    exact HighLevelCommander.payloadSizes_calls hlc pc hpc hc a b c d e p q
  · intro ps pc doArm hpc hc
    exact PlatformService.payloadSizes_requests ps pc hpc hc doArm
  · exact LogConfig.createFrames_le
  · exact LogConfig.frame_sizes
  · intro f s s1 pc elemDex hc
    exact TocFetcher.requests_size f s s1 pc hc elemDex
  · intro useV2 protocolVersion port elemDex var_id csize dataClump
    obtain ⟨h1, h2, h3, h4, h5⟩ :=
      Param.request_sizes useV2 protocolVersion port elemDex var_id csize dataClump
    refine ⟨h1, h2, h3, h4, ?_⟩
    intro hcs
    rw [h5]
    split <;> omega

/-- C31, witness: on the open sample link the hover setpoint adds a packet of 17 bytes and
the full state setpoint for the position `(1, 2, 0.5)` and the identity orientation one of
29 bytes. -/
theorem C31_payload_sizes_of_the_packers_witness :
    PortConnect.payloadSizes (Sample.commander.send_hover_setpoint 0 0 0 0x3F000000).connection
        = PortConnect.payloadSizes Sample.commander.connection ++ [17]
      ∧ ∃ cmd1, Sample.commander.send_full_state_setpoint
            (quatOf [0x3F800000, 0x40000000, 0x3F000000]) (quatOf []) (quatOf [])
            (quatOf [0, 0, 0, 0x3F800000]) 0 0 0 = some cmd1
          ∧ PortConnect.payloadSizes cmd1.connection
            = PortConnect.payloadSizes Sample.commander.connection ++ [29] := by
  have hsome : (Sample.commander.send_full_state_setpoint
      (quatOf [0x3F800000, 0x40000000, 0x3F000000]) (quatOf []) (quatOf [])
      (quatOf [0, 0, 0, 0x3F800000]) 0 0 0).isSome = true := by decide!
  refine ⟨(C31_payload_sizes_of_the_packers.1 Sample.commander Sample.link 0 0 0 0x3F000000 rfl
    rfl).2.2.2.2.2.1, ?_⟩
  cases h : Sample.commander.send_full_state_setpoint
      (quatOf [0x3F800000, 0x40000000, 0x3F000000]) (quatOf []) (quatOf [])
      (quatOf [0, 0, 0, 0x3F800000]) 0 0 0 with
  | some cmd1 =>
    exact ⟨cmd1, rfl, C31_payload_sizes_of_the_packers.2.1 Sample.commander cmd1 Sample.link _ _
      _ _ 0 0 0 rfl rfl h⟩
  | none =>
    rw [h] at hsome
    exact absurd hsome (by simp)
